import Mathlib

/-!
# Scorum betting service: a shallow embedding

The definitions below follow `libraries/protocol/include/scorum/protocol/asset.hpp`
and `libraries/chain/betting/betting_service.cpp`.  A service call is a function
from the database state to an `Outcome`: either a returned value together with
the new state, or a thrown exception together with the state as it was at the
point of the throw (so that "nothing was mutated before the failure" is a
statement one can prove, not something true by construction).
-/

namespace scorum

/-! ## Exceptions and the state-passing monad -/

/-- The failures the embedded code can raise. -/
inductive fc_exception where
  /-- `FC_ASSERT(symbol == o.symbol)` inside the asset operators. -/
  | symbol_mismatch
  /-- `FC_ASSERT(better_acc.balance >= stake, "Insufficient funds")`. -/
  | insufficient_funds
  /-- `FC_ASSERT(..., "Cannot cancel game which has associated bets")`. -/
  | game_has_bets
  /-- A `get_by` / `get_account` lookup of an object that does not exist. -/
  | object_not_found
  /-- A `create` that violates a unique index of the store. -/
  | uniqueness_violated
  deriving DecidableEq, Repr

/-- Result of running a service call: the value and the new state, or the
exception and the state reached when it was thrown. -/
inductive Outcome (σ α : Type) where
  | ok : α → σ → Outcome σ α
  | thrown : fc_exception → σ → Outcome σ α
  deriving DecidableEq, Repr

/-- The state in which a call ended, whether it returned or threw. -/
def Outcome.state {σ α : Type} : Outcome σ α → σ
  | .ok _ s => s
  | .thrown _ s => s

/-- Whether the call returned normally. -/
def Outcome.succeeded {σ α : Type} : Outcome σ α → Bool
  | .ok _ _ => true
  | .thrown _ _ => false

/-- A stateful, possibly throwing computation. -/
def Op (σ α : Type) : Type := σ → Outcome σ α

/-- Sequencing: an exception stops the computation and keeps the state of the throw. -/
def Op.bind {σ α β : Type} (x : Op σ α) (f : α → Op σ β) : Op σ β :=
  fun s =>
    match x s with
    | .ok a s1 => f a s1
    | .thrown e s1 => .thrown e s1

instance {σ : Type} : Monad (Op σ) where
  pure a := fun s => .ok a s
  bind := Op.bind

/-- Read the whole state. -/
def Op.get {σ : Type} : Op σ σ := fun s => .ok s s

/-- Replace the state. -/
def Op.modify {σ : Type} (f : σ → σ) : Op σ Unit := fun s => .ok () (f s)

/-- Throw an exception. -/
def Op.throw {σ α : Type} (e : fc_exception) : Op σ α := fun s => .thrown e s

/-- Run a pure fallible computation inside `Op`. -/
def Op.lift {σ α : Type} : Except fc_exception α → Op σ α
  | .ok a => fun s => .ok a s
  | .error e => fun s => .thrown e s

/-- The macro `FC_ASSERT(cond, msg)`: throw unless the condition holds. -/
def FC_ASSERT {σ : Type} (cond : Bool) (e : fc_exception) : Op σ Unit :=
  fun s => if cond then .ok () s else .thrown e s

/-! ## protocol/asset.hpp -/

abbrev asset_symbol_type := Nat

/-- Modelled from the spec: `share_type` is `fc::safe<int64_t>`, whose definition
is not part of the sources at hand; following the data model ("all bet math is
performed in exact integer arithmetic") amounts are mathematical integers. -/
abbrev share_type := Int

structure asset where
  amount : share_type
  symbol : asset_symbol_type
  deriving DecidableEq, Repr

namespace asset

/-- The friend `operator==`: `std::tie(a.symbol, a.amount) == std::tie(b.symbol, b.amount)`. -/
def eq (a b : asset) : Bool :=
  decide (a.symbol = b.symbol) && decide (a.amount = b.amount)

/-- The friend `operator<`: asserts equal symbols, then compares
`std::tie(a.amount, a.symbol) < std::tie(b.amount, b.symbol)` lexicographically. -/
def lt (a b : asset) : Except fc_exception Bool :=
  if a.symbol = b.symbol then
    .ok (decide (a.amount < b.amount)
          || (!decide (b.amount < a.amount) && decide (a.symbol < b.symbol)))
  else .error .symbol_mismatch

/-- The friend `operator<=`: `(a == b) || (a < b)`, with the short circuit of `||`. -/
def le (a b : asset) : Except fc_exception Bool :=
  if eq a b then .ok true else lt a b

/-- The friend `operator!=`: `!(a == b)`. -/
def ne (a b : asset) : Bool := !eq a b

/-- The friend `operator>`: `!(a <= b)`. -/
def gt (a b : asset) : Except fc_exception Bool :=
  (le a b).map (fun r => !r)

/-- The friend `operator>=`: `!(a < b)`. -/
def ge (a b : asset) : Except fc_exception Bool :=
  (lt a b).map (fun r => !r)

/-- The member `operator+=(const asset&)`: asserts equal symbols, then adds the amounts. -/
def add_assign (a o : asset) : Except fc_exception asset :=
  if a.symbol = o.symbol then .ok { a with amount := a.amount + o.amount }
  else .error .symbol_mismatch

/-- The member `operator-=(const asset&)`: asserts equal symbols, then subtracts the amounts. -/
def sub_assign (a o : asset) : Except fc_exception asset :=
  if a.symbol = o.symbol then .ok { a with amount := a.amount - o.amount }
  else .error .symbol_mismatch

/-- The unary `operator-`. -/
def neg (a : asset) : asset := { amount := -a.amount, symbol := a.symbol }

/-- The friend `operator+(const asset&, const asset&)`: copy, then `+=`. -/
def add (a b : asset) : Except fc_exception asset := add_assign a b

/-- The friend `operator-(const asset&, const asset&)`: copy, then `-=`. -/
def sub (a b : asset) : Except fc_exception asset := sub_assign a b

end asset

/-! ## Schema objects

The declarations of the schema (`bet_objects.hpp`, `game_object.hpp`, ...) are not
among the sources; the records below carry the fields that the service reads and
writes.  The wincase and market variants are type parameters `W` and `M`: the
service only uses the order on them and the function `create_market`. -/

abbrev uuid_type := Nat
abbrev account_name_type := String
abbrev time_point_sec := Nat
abbrev game_id_type := Nat
abbrev pending_bet_id_type := Nat
abbrev matched_bet_id_type := Nat

inductive pending_bet_kind where
  | live
  | non_live
  deriving DecidableEq, Repr

inductive bet_kind where
  | pending
  | matched
  deriving DecidableEq, Repr

inductive game_status where
  | created
  | started
  | finished
  | resolved
  | expired
  deriving DecidableEq, Repr

structure odds where
  numerator : Nat
  denominator : Nat
  deriving DecidableEq, Repr

/-- The record `bet_data`, with its fields in the order the tests initialise them. -/
structure bet_data (W : Type) where
  uuid : uuid_type
  created : time_point_sec
  better : account_name_type
  wincase : W
  stake : asset
  bet_odds : odds
  kind : pending_bet_kind
  deriving DecidableEq, Repr

/-- Modelled from the spec: `PendingBet (game_id, market, data)` with its primary id. -/
structure pending_bet_object (W M : Type) where
  id : pending_bet_id_type
  game : game_id_type
  market : M
  data : bet_data W
  deriving DecidableEq, Repr

/-- Modelled from the spec: the declaration of `matched_bet_object` is absent.  The
data model gives it a game, a market and two legs; section 4.1 gives the matched
collection an ordered `(game_id, created)` index, so the record carries the
`created` key of that index as a field of its own. -/
structure matched_bet_object (W M : Type) where
  id : matched_bet_id_type
  game : game_id_type
  market : M
  created : time_point_sec
  bet1_data : bet_data W
  bet2_data : bet_data W
  deriving DecidableEq, Repr

/-- Modelled from the spec: the fields of `Game` that the betting service reads. -/
structure game_object where
  id : game_id_type
  uuid : uuid_type
  deriving DecidableEq, Repr

/-- Modelled from the spec: an account as the account adapter sees it, a name and a balance. -/
structure account_object where
  name : account_name_type
  balance : asset
  deriving DecidableEq, Repr

/-- Modelled from the spec: `BettingStats`, the two running totals. -/
structure betting_stats where
  pending_bets_volume : asset
  matched_bets_volume : asset
  deriving DecidableEq, Repr

/-- Modelled from the spec: the head-block time and the betting statistics of the global
dynamic properties. -/
structure dynamic_global_property_object where
  time : time_point_sec
  betting_stats : betting_stats
  deriving DecidableEq, Repr

/-- Modelled from the spec: `BettingProperty`, the singleton holding the moderator. -/
structure betting_property_object where
  moderator : account_name_type
  deriving DecidableEq, Repr

/-- The virtual operations pushed to the emitter. -/
inductive virtual_operation where
  | bet_cancelled_operation (game_uuid : uuid_type) (better : account_name_type)
      (bet_uuid : uuid_type) (stake : asset) (kind : bet_kind)
  | bet_restored_operation (game_uuid : uuid_type) (better : account_name_type)
      (bet_uuid : uuid_type) (stake : asset)
  | game_status_changed (game_uuid : uuid_type) (old_status new_status : game_status)
  deriving DecidableEq, Repr

/-- A store index: its rows in insertion order and the id the next `create` hands out. -/
structure db_index (α : Type) where
  objects : List α
  next_id : Nat
  deriving DecidableEq, Repr

/-- Everything the betting service reads or writes. -/
structure database (W M : Type) where
  accounts : List account_object
  betting_property : betting_property_object
  matched_bets : db_index (matched_bet_object W M)
  pending_bets : db_index (pending_bet_object W M)
  games : List game_object
  dprop : dynamic_global_property_object
  uuid_hist : List uuid_type
  virt_ops : List virtual_operation
  deriving DecidableEq, Repr

section accessors

variable {W M : Type}

/-! ## Store accessors

Modelled from the spec (section 4.1): `create`, `update`, `remove`, `remove_all`,
lookups by primary id and ordered ranges over the secondary indices.  Rows with
equal keys keep their insertion order. -/

/-- Modelled from the spec: `account_service_i::get_account`; throws when the account is missing. -/
def account_service.get_account (name : account_name_type) :
    Op (database W M) account_object := fun s =>
  match s.accounts.find? (fun a => decide (a.name = name)) with
  | some a => .ok a s
  | none => .thrown .object_not_found s

/-- Write a new balance into the account called `name`. -/
def account_service.set_balance (name : account_name_type) (b : asset)
    (s : database W M) : database W M :=
  { s with
    accounts :=
      s.accounts.map (fun a => if a.name = name then { a with balance := b } else a) }

/-- Modelled from the spec: `account_service_i::increase_balance(name, amount)`,
the credit primitive of the account adapter: `balance += amount`. -/
def account_service.increase_balance (name : account_name_type) (amount : asset) :
    Op (database W M) Unit := do
  let acc ← account_service.get_account name
  let b ← Op.lift (acc.balance.add_assign amount)
  Op.modify (account_service.set_balance name b)

/-- Modelled from the spec: `account_service_i::decrease_balance(account, amount)`,
the debit primitive of the account adapter: `balance -= amount`. -/
def account_service.decrease_balance (account : account_object) (amount : asset) :
    Op (database W M) Unit := do
  let acc ← account_service.get_account account.name
  let b ← Op.lift (acc.balance.sub_assign amount)
  Op.modify (account_service.set_balance account.name b)

/-- Modelled from the spec: `create` on the UUID history, whose index on `uuid` is
unique ("a persisted set of all bet UUIDs ever accepted, used to reject replays"). -/
def uuid_hist_dba.create (uuid : uuid_type) : Op (database W M) Unit := fun s =>
  if uuid ∈ s.uuid_hist then .thrown .uniqueness_violated s
  else .ok () { s with uuid_hist := s.uuid_hist ++ [uuid] }

/-- Modelled from the spec: the accessor `create` on the pending store (section 4.1); the
row gets the next id and is appended.
No unique secondary index of the pending store is modelled; only the UUID history rejects
a repeated uuid. -/
def pending_bet_dba.create (o : pending_bet_object W M) :
    Op (database W M) (pending_bet_object W M) := fun s =>
  let row := { o with id := s.pending_bets.next_id }
  .ok row { s with pending_bets :=
    { objects := s.pending_bets.objects ++ [row], next_id := s.pending_bets.next_id + 1 } }

/-- Modelled from the spec: the accessor `remove` on the pending store; the row with the
id of `bet` goes. -/
def pending_bet_dba.remove (bet : pending_bet_object W M) : Op (database W M) Unit :=
  Op.modify (fun s => { s with pending_bets :=
    { s.pending_bets with objects := s.pending_bets.objects.filter (fun o => decide (o.id ≠ bet.id)) } })

/-- Modelled from the spec: the accessor `update` on the pending store, with the modifier
`o.data.stake += stake` of `restore_pending_bet`. -/
def pending_bet_dba.update_add_stake (bet : pending_bet_object W M) (stake : asset) :
    Op (database W M) Unit := do
  let st ← Op.lift (bet.data.stake.add_assign stake)
  Op.modify (fun s => { s with pending_bets :=
    { s.pending_bets with
      objects :=
        s.pending_bets.objects.map (fun o =>
          if o.id = bet.id then { o with data := { o.data with stake := st } } else o) } })

/-- Modelled from the spec: the accessor `get_by<by_id>` on the pending store; throws when
no row has the id. -/
def pending_bet_dba.get_by_id (id : pending_bet_id_type) :
    Op (database W M) (pending_bet_object W M) := fun s =>
  match s.pending_bets.objects.find? (fun o => decide (o.id = id)) with
  | some o => .ok o s
  | none => .thrown .object_not_found s

/-- Modelled from the spec: the accessor `remove` on the matched store. -/
def matched_bet_dba.remove (bet : matched_bet_object W M) : Op (database W M) Unit :=
  Op.modify (fun s => { s with matched_bets :=
    { s.matched_bets with objects := s.matched_bets.objects.filter (fun o => decide (o.id ≠ bet.id)) } })

/-- Modelled from the spec: the accessor `remove_all` on the matched store; every row of
the range goes. -/
def matched_bet_dba.remove_all (bets : List (matched_bet_object W M)) : Op (database W M) Unit :=
  Op.modify (fun s => { s with matched_bets :=
    { s.matched_bets with objects :=
        s.matched_bets.objects.filter (fun o => decide (o.id ∉ bets.map (fun b => b.id))) } })

/-- Modelled from the spec: the accessor `get_by<by_id>` on the game store; throws when the
game is missing. -/
def game_dba.get_by_id (id : game_id_type) : Op (database W M) game_object := fun s =>
  match s.games.find? (fun g => decide (g.id = id)) with
  | some g => .ok g s
  | none => .thrown .object_not_found s

/-- Modelled from the spec: the accessor `get_by<by_uuid>` on the game store; throws when
the game is missing. -/
def game_dba.get_by_uuid (uuid : uuid_type) : Op (database W M) game_object := fun s =>
  match s.games.find? (fun g => decide (g.uuid = uuid)) with
  | some g => .ok g s
  | none => .thrown .object_not_found s

/-- Modelled from the spec: the accessor `remove` on the game store. -/
def game_dba.remove (game : game_object) : Op (database W M) Unit :=
  Op.modify (fun s => { s with games := s.games.filter (fun g => decide (g.id ≠ game.id)) })

/-- Modelled from the spec: `push_virtual_operation` of the emitter; the operation is
appended to the trail, which keeps the order of production. -/
def virt_op_emitter.push_virtual_operation (op : virtual_operation) : Op (database W M) Unit :=
  Op.modify (fun s => { s with virt_ops := s.virt_ops ++ [op] })

/-- Modelled from the spec: the range `get_range_by<by_game_id_market>(game_id)` of the
matched store, ordered by market. -/
def matched_bet_dba.get_range_by_game_id_market [LinearOrder M] (game_id : game_id_type)
    (s : database W M) : List (matched_bet_object W M) :=
  (s.matched_bets.objects.filter (fun o => decide (o.game = game_id))).insertionSort
    (fun a b => a.market ≤ b.market)

/-- Modelled from the spec: the range `get_range_by<by_game_id_market>(game_id)` of the
pending store, ordered by market. -/
def pending_bet_dba.get_range_by_game_id_market [LinearOrder M] (game_id : game_id_type)
    (s : database W M) : List (pending_bet_object W M) :=
  (s.pending_bets.objects.filter (fun o => decide (o.game = game_id))).insertionSort
    (fun a b => a.market ≤ b.market)

/-- Modelled from the spec: the range
`get_range_by<by_game_id_created>(lower <= _x, _x <= upper)` of the matched store with `lower = (game_id, created_after)` and `upper = game_id`: the rows of the
game whose `created` key is at least `created_after`, in key order. -/
def matched_bet_dba.get_range_by_game_id_created (game_id : game_id_type)
    (created_after : time_point_sec) (s : database W M) : List (matched_bet_object W M) :=
  (s.matched_bets.objects.filter
      (fun o => decide (o.game = game_id) && decide (created_after ≤ o.created))).insertionSort
    (fun a b => a.created ≤ b.created)

/-- Modelled from the spec: the same range of the pending store, whose `created` key is
`data.created`. -/
def pending_bet_dba.get_range_by_game_id_created (game_id : game_id_type)
    (created_after : time_point_sec) (s : database W M) : List (pending_bet_object W M) :=
  (s.pending_bets.objects.filter
      (fun o => decide (o.game = game_id) && decide (created_after ≤ o.data.created))).insertionSort
    (fun a b => a.data.created ≤ b.data.created)

/-- Modelled from the spec: the range
`get_range_by<by_game_id_better>(make_tuple(game_id, better))` of the pending store. -/
def pending_bet_dba.get_range_by_game_id_better (game_id : game_id_type)
    (better : account_name_type) (s : database W M) : List (pending_bet_object W M) :=
  s.pending_bets.objects.filter (fun o => decide (o.game = game_id) && decide (o.data.better = better))

/-- Modelled from the spec: the range
`get_range_by<by_game_id_kind>(make_tuple(game_id, kind))` of the pending store. -/
def pending_bet_dba.get_range_by_game_id_kind (game_id : game_id_type)
    (kind : pending_bet_kind) (s : database W M) : List (pending_bet_object W M) :=
  s.pending_bets.objects.filter (fun o => decide (o.game = game_id) && decide (o.data.kind = kind))

/-- The algorithm `boost::set_intersection(range, markets, back_inserter(out), less)`, which
is `std::set_intersection`: both inputs are walked in order; a bet whose market is below
the current market is skipped, a market below the market of the current bet is skipped, and
when neither is below the other the bet is copied and BOTH inputs advance.  The skipping of
markets is written as `dropWhile`, so that the recursion is on the bets. -/
def set_intersection [LinearOrder M] {α : Type} (market : α → M) : List α → List M → List α
  | [], _ => []
  | x :: xs, ms =>
    match ms.dropWhile (fun m => decide (m < market x)) with
    | [] => []
    | m :: rest =>
      if market x < m then set_intersection market xs (m :: rest)
      else x :: set_intersection market xs rest

/-- Modelled from the spec: `utils::foreach_mut`, which walks a range whose elements the
callback may remove ("snapshot the range before mutating"). -/
def foreach_mut {α : Type} (f : α → Op (database W M) Unit) : List α → Op (database W M) Unit
  | [] => pure ()
  | x :: xs => do
    f x
    foreach_mut f xs

end accessors

/-! ## betting_service.cpp -/

namespace betting_service

section service

variable {W M : Type}

/-- The method `is_betting_moderator`. -/
def is_betting_moderator (account_name : account_name_type) : Op (database W M) Bool := do
  let s ← Op.get
  pure (decide (s.betting_property.moderator = account_name))

/-- The method `create_pending_bet`; `create_market` is the function of that name,
whose definition is with the absent wincase variants. -/
def create_pending_bet (create_market : W → M) (better : account_name_type) (stake : asset)
    (odds : odds) (wincase : W) (game : game_id_type) (bet_uuid : uuid_type)
    (kind : pending_bet_kind) : Op (database W M) (pending_bet_object W M) := do
  let better_acc ← account_service.get_account better
  let enough ← Op.lift (better_acc.balance.ge stake)
  FC_ASSERT enough .insufficient_funds
  uuid_hist_dba.create bet_uuid
  let s ← Op.get
  let bet ← pending_bet_dba.create
    { id := 0
      game := game
      market := create_market wincase
      data :=
        { uuid := bet_uuid
          stake := stake
          bet_odds := odds
          created := s.dprop.time
          better := better
          kind := kind
          wincase := wincase } }
  let s1 ← Op.get
  let volume ← Op.lift (s1.dprop.betting_stats.pending_bets_volume.add_assign stake)
  Op.modify (fun s2 => { s2 with
    dprop := { s2.dprop with
      betting_stats := { s2.dprop.betting_stats with pending_bets_volume := volume } } })
  account_service.decrease_balance better_acc stake
  pure bet

/-- The method `cancel_game`.  Both ranges are taken from the matched accessor, as in the source. -/
def cancel_game [LinearOrder M] (game_id : game_id_type) : Op (database W M) Unit := do
  let s ← Op.get
  let matched_bets := matched_bet_dba.get_range_by_game_id_market game_id s
  FC_ASSERT matched_bets.isEmpty .game_has_bets
  let s1 ← Op.get
  let pending_bets := matched_bet_dba.get_range_by_game_id_market game_id s1
  FC_ASSERT pending_bets.isEmpty .game_has_bets
  let game ← game_dba.get_by_id game_id
  game_dba.remove game

/-- The helper `push_matched_bet_cancelled_op`. -/
def push_matched_bet_cancelled_op (bet : bet_data W) (game_uuid : uuid_type) :
    Op (database W M) Unit :=
  virt_op_emitter.push_virtual_operation
    (.bet_cancelled_operation game_uuid bet.better bet.uuid bet.stake .matched)

/-- The helper `push_pending_bet_cancelled_op`. -/
def push_pending_bet_cancelled_op (bet : bet_data W) (game_uuid : uuid_type) :
    Op (database W M) Unit :=
  virt_op_emitter.push_virtual_operation
    (.bet_cancelled_operation game_uuid bet.better bet.uuid bet.stake .pending)

/-- The method `cancel_pending_bet(const pending_bet_object&, uuid_type)`. -/
def cancel_pending_bet (bet : pending_bet_object W M) (game_uuid : uuid_type) :
    Op (database W M) Unit := do
  account_service.increase_balance bet.data.better bet.data.stake
  push_pending_bet_cancelled_op bet.data game_uuid
  let s ← Op.get
  let volume ← Op.lift (s.dprop.betting_stats.pending_bets_volume.sub_assign bet.data.stake)
  Op.modify (fun s1 => { s1 with
    dprop := { s1.dprop with
      betting_stats := { s1.dprop.betting_stats with pending_bets_volume := volume } } })
  pending_bet_dba.remove bet

/-- The method `cancel_pending_bet(pending_bet_id_type)`. -/
def cancel_pending_bet_by_id (id : pending_bet_id_type) : Op (database W M) Unit := do
  let pending_bet ← pending_bet_dba.get_by_id id
  let game ← game_dba.get_by_id pending_bet.game
  cancel_pending_bet pending_bet game.uuid

/-- The method `cancel_pending_bets(utils::bidir_range<const pending_bet_object>, uuid_type)`. -/
def cancel_pending_bets_range (bets : List (pending_bet_object W M)) (game_uuid : uuid_type) :
    Op (database W M) Unit :=
  foreach_mut (fun bet => cancel_pending_bet bet game_uuid) bets

/-- The method `return_bet`. -/
def return_bet (bet : bet_data W) (game_uuid : uuid_type) : Op (database W M) Unit := do
  account_service.increase_balance bet.better bet.stake
  push_matched_bet_cancelled_op bet game_uuid
  let s ← Op.get
  let volume ← Op.lift (s.dprop.betting_stats.matched_bets_volume.sub_assign bet.stake)
  Op.modify (fun s1 => { s1 with
    dprop := { s1.dprop with
      betting_stats := { s1.dprop.betting_stats with matched_bets_volume := volume } } })

/-- The predicate of the `find_if` in `restore_pending_bet`. -/
def restore_matches [LinearOrder W] (bet : bet_data W) (o : pending_bet_object W M) : Bool :=
  decide (o.data.created = bet.created)
    && decide (o.data.bet_odds = bet.bet_odds)
    && decide (o.data.kind = bet.kind)
    && !decide (o.data.wincase < bet.wincase)
    && !decide (bet.wincase < o.data.wincase)

/-- The method `restore_pending_bet`. -/
def restore_pending_bet [LinearOrder W] (create_market : W → M) (bet : bet_data W)
    (game_uuid : uuid_type) : Op (database W M) Unit := do
  let game ← game_dba.get_by_uuid game_uuid
  let s ← Op.get
  let bets := pending_bet_dba.get_range_by_game_id_better game.id bet.better s
  match bets.find? (restore_matches bet) with
  | some found => pending_bet_dba.update_add_stake found bet.stake
  | none =>
    let _ ← pending_bet_dba.create { id := 0, game := game.id, market := create_market bet.wincase, data := bet }
    pure ()
  let s1 ← Op.get
  let pending_volume ← Op.lift (s1.dprop.betting_stats.pending_bets_volume.add_assign bet.stake)
  Op.modify (fun s2 => { s2 with
    dprop := { s2.dprop with
      betting_stats := { s2.dprop.betting_stats with pending_bets_volume := pending_volume } } })
  let matched_volume ← Op.lift (s1.dprop.betting_stats.matched_bets_volume.sub_assign bet.stake)
  Op.modify (fun s2 => { s2 with
    dprop := { s2.dprop with
      betting_stats := { s2.dprop.betting_stats with matched_bets_volume := matched_volume } } })
  virt_op_emitter.push_virtual_operation
    (.bet_restored_operation game_uuid bet.better bet.uuid bet.stake)

/-- The method `cancel_matched_bet`. -/
def cancel_matched_bet (bet : matched_bet_object W M) (game_uuid : uuid_type) :
    Op (database W M) Unit := do
  return_bet bet.bet1_data game_uuid
  return_bet bet.bet2_data game_uuid
  matched_bet_dba.remove bet

/-- The method `cancel_matched_bets(utils::bidir_range<const matched_bet_object>, uuid_type)`. -/
def cancel_matched_bets_range (bets : List (matched_bet_object W M)) (game_uuid : uuid_type) :
    Op (database W M) Unit :=
  foreach_mut (fun bet => cancel_matched_bet bet game_uuid) bets

/-- One leg in the loop of `cancel_bets(game_id, created_after)`: the source writes this
`if (leg.created >= created_after) return_bet(...) else restore_pending_bet(...)` twice in
the loop body, first for `bet1_data`, then for `bet2_data`. -/
def cancel_bets_leg [LinearOrder W] (create_market : W → M) (created_after : time_point_sec)
    (game_uuid : uuid_type) (leg : bet_data W) : Op (database W M) Unit :=
  if leg.created ≥ created_after then return_bet leg game_uuid
  else restore_pending_bet create_market leg game_uuid

/-- The method `cancel_bets(game_id_type, fc::time_point_sec)`. -/
def cancel_bets_created_after [LinearOrder W] (create_market : W → M) (game_id : game_id_type)
    (created_after : time_point_sec) : Op (database W M) Unit := do
  let s ← Op.get
  let matched_bets := matched_bet_dba.get_range_by_game_id_created game_id created_after s
  let pending_bets := pending_bet_dba.get_range_by_game_id_created game_id created_after s
  let game ← game_dba.get_by_id game_id
  cancel_pending_bets_range pending_bets game.uuid
  foreach_mut (fun matched_bet => do
      cancel_bets_leg create_market created_after game.uuid matched_bet.bet1_data
      cancel_bets_leg create_market created_after game.uuid matched_bet.bet2_data)
    matched_bets
  matched_bet_dba.remove_all matched_bets

/-- The method `cancel_pending_bets(game_id_type)`. -/
def cancel_pending_bets [LinearOrder M] (game_id : game_id_type) : Op (database W M) Unit := do
  let s ← Op.get
  let pending_bets := pending_bet_dba.get_range_by_game_id_market game_id s
  let game ← game_dba.get_by_id game_id
  cancel_pending_bets_range pending_bets game.uuid

/-- The method `cancel_pending_bets(game_id_type, pending_bet_kind)`. -/
def cancel_pending_bets_kind (game_id : game_id_type) (kind : pending_bet_kind) :
    Op (database W M) Unit := do
  let s ← Op.get
  let pending_bets := pending_bet_dba.get_range_by_game_id_kind game_id kind s
  let game ← game_dba.get_by_id game_id
  cancel_pending_bets_range pending_bets game.uuid

/-- The method `cancel_matched_bets(game_id_type)`. -/
def cancel_matched_bets [LinearOrder M] (game_id : game_id_type) : Op (database W M) Unit := do
  let s ← Op.get
  let matched_bets := matched_bet_dba.get_range_by_game_id_market game_id s
  let game ← game_dba.get_by_id game_id
  cancel_matched_bets_range matched_bets game.uuid

/-- The method `cancel_bets(game_id_type)`. -/
def cancel_bets [LinearOrder M] (game_id : game_id_type) : Op (database W M) Unit := do
  cancel_pending_bets game_id
  cancel_matched_bets game_id

/-- The method `cancel_bets(game_id_type, const fc::flat_set<market_type>&)`; the flat set
is the list of its markets in increasing order. -/
def cancel_bets_markets [LinearOrder M] (game_id : game_id_type) (cancelled_markets : List M) :
    Op (database W M) Unit := do
  let game ← game_dba.get_by_id game_id
  let s ← Op.get
  let pending_bets := pending_bet_dba.get_range_by_game_id_market game_id s
  let filtered_pending_bets :=
    set_intersection (fun b : pending_bet_object W M => b.market) pending_bets cancelled_markets
  cancel_pending_bets_range filtered_pending_bets game.uuid
  let s1 ← Op.get
  let matched_bets := matched_bet_dba.get_range_by_game_id_market game_id s1
  let filtered_matched_bets :=
    set_intersection (fun b : matched_bet_object W M => b.market) matched_bets cancelled_markets
  cancel_matched_bets_range filtered_matched_bets game.uuid

end service

end betting_service

/-- The public operations of the betting service, with their arguments. -/
inductive service_call (W M : Type) where
  | create_pending_bet (better : account_name_type) (stake : asset) (odds : odds) (wincase : W)
      (game : game_id_type) (bet_uuid : uuid_type) (kind : pending_bet_kind)
  | cancel_pending_bet (bet : pending_bet_object W M) (game_uuid : uuid_type)
  | cancel_pending_bet_by_id (id : pending_bet_id_type)
  | cancel_pending_bets (game_id : game_id_type)
  | cancel_pending_bets_kind (game_id : game_id_type) (kind : pending_bet_kind)
  | cancel_pending_bets_range (bets : List (pending_bet_object W M)) (game_uuid : uuid_type)
  | cancel_matched_bet (bet : matched_bet_object W M) (game_uuid : uuid_type)
  | cancel_matched_bets (game_id : game_id_type)
  | cancel_matched_bets_range (bets : List (matched_bet_object W M)) (game_uuid : uuid_type)
  | cancel_bets (game_id : game_id_type)
  | cancel_bets_created_after (game_id : game_id_type) (created_after : time_point_sec)
  | cancel_bets_markets (game_id : game_id_type) (cancelled_markets : List M)
  | cancel_game (game_id : game_id_type)
  | is_betting_moderator (account_name : account_name_type)

/-- Run a public operation of the service; a returned value is dropped. -/
def service_call.run {W M : Type} [LinearOrder W] [LinearOrder M] (create_market : W → M) :
    service_call W M → Op (database W M) Unit
  | .create_pending_bet better stake odds wincase game bet_uuid kind => do
    let _ ← betting_service.create_pending_bet create_market better stake odds wincase game
      bet_uuid kind
    pure ()
  | .cancel_pending_bet bet game_uuid => betting_service.cancel_pending_bet bet game_uuid
  | .cancel_pending_bet_by_id id => betting_service.cancel_pending_bet_by_id id
  | .cancel_pending_bets game_id => betting_service.cancel_pending_bets game_id
  | .cancel_pending_bets_kind game_id kind => betting_service.cancel_pending_bets_kind game_id kind
  | .cancel_pending_bets_range bets game_uuid =>
    betting_service.cancel_pending_bets_range bets game_uuid
  | .cancel_matched_bet bet game_uuid => betting_service.cancel_matched_bet bet game_uuid
  | .cancel_matched_bets game_id => betting_service.cancel_matched_bets game_id
  | .cancel_matched_bets_range bets game_uuid =>
    betting_service.cancel_matched_bets_range bets game_uuid
  | .cancel_bets game_id => betting_service.cancel_bets game_id
  | .cancel_bets_created_after game_id created_after =>
    betting_service.cancel_bets_created_after create_market game_id created_after
  | .cancel_bets_markets game_id cancelled_markets =>
    betting_service.cancel_bets_markets game_id cancelled_markets
  | .cancel_game game_id => betting_service.cancel_game game_id
  | .is_betting_moderator account_name => do
    let _ ← betting_service.is_betting_moderator account_name
    pure ()


/-! ## database/block_tasks/process_bets_auto_resolving.cpp -/

namespace process_bets_auto_resolving

/-- The method `on_apply`, from the point where `games` is known.  The list `games` is the
result of `game_svc.get_games_to_auto_resolve(dprops_svc.head_block_time())`, a query of
the game service, which is not among the sources; the body of the range-based `for` is
run for each game of the list in turn. -/
def on_apply {W M : Type} [LinearOrder M] : List game_object → Op (database W M) Unit
  | [] => pure ()
  | game :: games => do
    let game_uuid := game.uuid
    betting_service.cancel_bets game.id
    betting_service.cancel_game game.id
    virt_op_emitter.push_virtual_operation
      (.game_status_changed game_uuid .started .expired)
    on_apply games

end process_bets_auto_resolving

/-! ## protocol/scorum_operations.cpp -/

namespace protocol

/-- The assertions of the two `validate` methods, by the check that failed. -/
inductive validation_error where
  /-- The helper `validate_account_name` rejected the name. -/
  | invalid_account_name
  /-- The helper `validate_wincase` rejected the wincase. -/
  | invalid_wincase
  /-- The assertion with the message "Stake must be SCR". -/
  | stake_must_be_scr
  /-- The assertion that the stake is at least `SCORUM_MIN_BET_STAKE`. -/
  | stake_below_minimum
  /-- The assertion with the message "odds numerator must be greater then zero". -/
  | numerator_not_positive
  /-- The assertion with the message "odds denominator must be greater then zero". -/
  | denominator_not_positive
  /-- The assertion with the message "odds must be greater then one". -/
  | odds_not_above_one
  /-- The two assertions with the message "Invalid odds value". -/
  | invalid_odds_value
  /-- The assertion with the message "List of bets is empty.". -/
  | list_of_bets_is_empty
  /-- The assertion with the message "You provided duplicates in bets list.". -/
  | duplicates_in_bets_list
  /-- An assertion inside an asset operator. -/
  | asset_assert (e : fc_exception)
  /-- The exception `boost::bad_rational` of a zero denominator. -/
  | bad_rational
  /-- The helper `validate_json_metadata` rejected the metadata. -/
  | invalid_json_metadata
  /-- The assertion with the message "You provided duplicates in market list.". -/
  | duplicates_in_market_list
  /-- The assertion with the message "You provided duplicates in wincases list.". -/
  | duplicates_in_wincases_list
  /-- The helper `validate_game` rejected the game. -/
  | invalid_game
  /-- The helper `validate_markets` rejected the markets. -/
  | invalid_markets
  /-- The helper `validate_wincases` rejected the wincases. -/
  | invalid_wincases
  deriving DecidableEq, Repr

/-- The pair of integers that `odds::base()` and `odds::inverted()` return, and that an
operation carries as its odds. -/
structure odds_fraction where
  numerator : Int
  denominator : Int
  deriving DecidableEq, Repr

/-- Modelled from the spec: what `validate` takes from `config.hpp` and from the helpers
`validate_account_name` and `validate_wincase`, none of which is among the sources: the
two asset symbols, `SCORUM_MIN_BET_STAKE`, the fractions `SCORUM_MIN_ODDS.base()` and
`SCORUM_MIN_ODDS.inverted()`, and which names and wincases the helpers accept. -/
structure config (W : Type) where
  SCORUM_SYMBOL : asset_symbol_type
  SP_SYMBOL : asset_symbol_type
  SCORUM_MIN_BET_STAKE : asset
  min_odds_base : odds_fraction
  min_odds_inverted : odds_fraction
  is_valid_account_name : account_name_type → Bool
  is_valid_wincase : W → Bool

/-- Equality of two results of a fallible computation is decidable. -/
instance except_decidable_eq {ε α : Type} [DecidableEq ε] [DecidableEq α] :
    DecidableEq (Except ε α)
  | .ok a, .ok b =>
    if h : a = b then isTrue (congrArg Except.ok h)
    else isFalse (fun e => h (Except.ok.inj e))
  | .error a, .error b =>
    if h : a = b then isTrue (congrArg Except.error h)
    else isFalse (fun e => h (Except.error.inj e))
  | .ok _, .error _ => isFalse (fun e => Except.noConfusion e)
  | .error _, .ok _ => isFalse (fun e => Except.noConfusion e)

/-- The macro `FC_ASSERT` in a `validate` method. -/
def FC_ASSERT (cond : Bool) (e : validation_error) : Except validation_error Unit :=
  if cond then .ok () else .error e

/-- The helper `is_asset_type`. -/
def is_asset_type (a : asset) (symbol : asset_symbol_type) : Bool :=
  decide (a.symbol = symbol)

/-- The algorithm `std::adjacent_find`: the rest of the range from the first element that
equals its successor on; the empty list is `end()`. -/
def adjacent_find {α : Type} [DecidableEq α] : List α → List α
  | [] => []
  | [_] => []
  | x :: y :: rest => if x = y then x :: y :: rest else adjacent_find (y :: rest)

/-- The template `is_unique`: a copy of the input is sorted and searched for two equal
neighbours.  `std::sort` is an unspecified sorting algorithm; on a linear order every
sorting algorithm returns the same list, here the one of insertion sort. -/
def is_unique {α : Type} [LinearOrder α] (input : List α) : Bool :=
  let data := input.insertionSort (fun a b => a ≤ b)
  (adjacent_find data).isEmpty

/-- The helper `validate_account_name`, which asserts that the name is valid. -/
def validate_account_name {W : Type} (cfg : config W) (name : account_name_type) :
    Except validation_error Unit :=
  FC_ASSERT (cfg.is_valid_account_name name) .invalid_account_name

/-- The helper `validate_wincase`, which asserts that the wincase is valid. -/
def validate_wincase {W : Type} (cfg : config W) (wincase : W) :
    Except validation_error Unit :=
  FC_ASSERT (cfg.is_valid_wincase wincase) .invalid_wincase

/-- The constructor `boost::rational<odds_value_type>(n, d)`: the exact fraction, or
`bad_rational` for a zero denominator. -/
def rational (n d : Int) : Except validation_error ℚ :=
  if d = 0 then .error .bad_rational else .ok ((n : ℚ) / (d : ℚ))

/-- The comparison `a >= b` of two assets inside a `validate` method. -/
def asset_ge (a b : asset) : Except validation_error Bool :=
  match a.ge b with
  | .ok r => .ok r
  | .error e => .error (.asset_assert e)

/-- Modelled from the spec: the fields of `post_bet` that `validate` reads and the uuid of
the bet. -/
structure post_bet_operation (W : Type) where
  uuid : uuid_type
  better : account_name_type
  wincase : W
  odds : odds_fraction
  stake : asset

/-- The method `post_bet_operation::validate`. -/
def post_bet_operation.validate {W : Type} (cfg : config W) (op : post_bet_operation W) :
    Except validation_error Unit := do
  validate_account_name cfg op.better
  validate_wincase cfg op.wincase
  FC_ASSERT (is_asset_type op.stake cfg.SCORUM_SYMBOL) .stake_must_be_scr
  let enough ← asset_ge op.stake cfg.SCORUM_MIN_BET_STAKE
  FC_ASSERT enough .stake_below_minimum
  FC_ASSERT (decide (op.odds.numerator > 0)) .numerator_not_positive
  FC_ASSERT (decide (op.odds.denominator > 0)) .denominator_not_positive
  FC_ASSERT (decide (op.odds.numerator > op.odds.denominator)) .odds_not_above_one
  let min := cfg.min_odds_base
  let max := cfg.min_odds_inverted
  let bet_odds ← rational op.odds.numerator op.odds.denominator
  let min_odds ← rational min.numerator min.denominator
  let max_odds ← rational max.numerator max.denominator
  FC_ASSERT (decide (bet_odds ≤ max_odds)) .invalid_odds_value
  FC_ASSERT (decide (bet_odds ≥ min_odds)) .invalid_odds_value

/-- Modelled from the spec: the fields of `cancel_pending_bets`. -/
structure cancel_pending_bets_operation where
  bet_uuids : List uuid_type
  better : account_name_type
  deriving DecidableEq, Repr

/-- The method `cancel_pending_bets_operation::validate`. -/
def cancel_pending_bets_operation.validate {W : Type} (cfg : config W)
    (op : cancel_pending_bets_operation) : Except validation_error Unit := do
  FC_ASSERT (decide (op.bet_uuids.length > 0)) .list_of_bets_is_empty
  FC_ASSERT (is_unique op.bet_uuids) .duplicates_in_bets_list
  validate_account_name cfg op.better

/-- Modelled from the spec: the helpers that the `validate` methods of the game operations
call and whose definitions are not among the sources (`validate_json_metadata`,
`validate_game`, `validate_markets`, `validate_wincases`): which arguments they accept.
The type `G` is the type of the field `game`. -/
structure game_validators (G W M : Type) where
  is_valid_json_metadata : String → Bool
  is_valid_game : G → List M → Bool
  is_valid_markets : List M → Bool
  is_valid_wincases : List W → Bool

/-- The range constructor of `fc::flat_set`, a sorted vector of unique keys: the distinct
elements of the range in increasing order. -/
def flat_set_of {α : Type} [LinearOrder α] (l : List α) : List α :=
  l.dedup.insertionSort (fun a b => a ≤ b)

/-- Modelled from the spec: the fields of `create_game` that `validate` reads. -/
structure create_game_operation (G M : Type) where
  moderator : account_name_type
  json_metadata : String
  game : G
  markets : List M

/-- The method `create_game_operation::validate`. -/
def create_game_operation.validate {G W M : Type} [LinearOrder M] (cfg : config W)
    (gv : game_validators G W M) (op : create_game_operation G M) :
    Except validation_error Unit := do
  validate_account_name cfg op.moderator
  FC_ASSERT (gv.is_valid_json_metadata op.json_metadata) .invalid_json_metadata
  let set_of_markets := flat_set_of op.markets
  FC_ASSERT (decide (set_of_markets.length = op.markets.length)) .duplicates_in_market_list
  FC_ASSERT (gv.is_valid_game op.game set_of_markets) .invalid_game
  FC_ASSERT (gv.is_valid_markets set_of_markets) .invalid_markets

/-- Modelled from the spec: the fields of `post_game_results` that `validate` reads. -/
structure post_game_results_operation (W : Type) where
  moderator : account_name_type
  wincases : List W

/-- The method `post_game_results_operation::validate`. -/
def post_game_results_operation.validate {G W M : Type} [LinearOrder W] (cfg : config W)
    (gv : game_validators G W M) (op : post_game_results_operation W) :
    Except validation_error Unit := do
  validate_account_name cfg op.moderator
  let set_of_wincases := flat_set_of op.wincases
  FC_ASSERT (decide (set_of_wincases.length = op.wincases.length)) .duplicates_in_wincases_list
  FC_ASSERT (gv.is_valid_wincases set_of_wincases) .invalid_wincases

end protocol

/-! ## chain/genesis/initializators/initializators.hpp -/

namespace genesis

/-- The class `single_time_apply_guard`: its one data member, which starts as `false`. -/
structure single_time_apply_guard where
  _applied : Bool := false
  deriving DecidableEq, Repr

/-- The method `is_allowed`; the context argument is not looked at. -/
def single_time_apply_guard.is_allowed {C : Type} (_ctx : C) :
    Op single_time_apply_guard Bool :=
  fun g => .ok (!g._applied) g

/-- The method `apply`; the context argument is not looked at. -/
def single_time_apply_guard.apply {C : Type} (_ctx : C) : Op single_time_apply_guard Unit :=
  fun g => .ok () { g with _applied := true }

end genesis

/-! ## Observations and pure state transformers used to state the effects -/

section effects

variable {W M : Type}

/-- The balance of the account called `name` in a list of accounts, if there is one. -/
def balance_of (l : List account_object) (name : account_name_type) : Option asset :=
  (l.find? (fun a => decide (a.name = name))).map (fun a => a.balance)

/-- The balance of the account called `name`, if there is one. -/
def database.balance (s : database W M) (name : account_name_type) : Option asset :=
  balance_of s.accounts name

/-- Add `amount` to the balance called `name`, keeping its symbol. -/
def credit_accounts (name : account_name_type) (amount : share_type)
    (l : List account_object) : List account_object :=
  match l.find? (fun a => decide (a.name = name)) with
  | some acc =>
    l.map (fun a =>
      if a.name = name then
        { a with balance := { amount := acc.balance.amount + amount, symbol := acc.balance.symbol } }
      else a)
  | none => l

/-- Add `amount` to an asset, keeping its symbol. -/
def asset.plus (a : asset) (amount : share_type) : asset :=
  { amount := a.amount + amount, symbol := a.symbol }

/-- The state after `account_service.increase_balance name ⟨amount, _⟩` went through. -/
def credit (name : account_name_type) (amount : share_type) (s : database W M) : database W M :=
  { s with accounts := credit_accounts name amount s.accounts }

/-- The state with `amount` added to `pending_bets_volume`. -/
def add_pending_volume (amount : share_type) (s : database W M) : database W M :=
  { s with
    dprop := { s.dprop with
      betting_stats := { s.dprop.betting_stats with
        pending_bets_volume := s.dprop.betting_stats.pending_bets_volume.plus amount } } }

/-- The state with `amount` added to `matched_bets_volume`. -/
def add_matched_volume (amount : share_type) (s : database W M) : database W M :=
  { s with
    dprop := { s.dprop with
      betting_stats := { s.dprop.betting_stats with
        matched_bets_volume := s.dprop.betting_stats.matched_bets_volume.plus amount } } }

/-- The state with one more virtual operation on the trail. -/
def push_op (op : virtual_operation) (s : database W M) : database W M :=
  { s with virt_ops := s.virt_ops ++ [op] }

/-- The event `BetCancelled` of a bet. -/
def cancelled_op (game_uuid : uuid_type) (kind : bet_kind) (bet : bet_data W) : virtual_operation :=
  .bet_cancelled_operation game_uuid bet.better bet.uuid bet.stake kind

/-- The event `BetRestored` of a leg. -/
def restored_op (game_uuid : uuid_type) (bet : bet_data W) : virtual_operation :=
  .bet_restored_operation game_uuid bet.better bet.uuid bet.stake

/-- The pending store without the rows whose id is in `ids`. -/
def remove_pending (ids : List pending_bet_id_type) (s : database W M) : database W M :=
  { s with
    pending_bets := { s.pending_bets with
      objects := s.pending_bets.objects.filter (fun o => decide (o.id ∉ ids)) } }

/-- The state after `cancel_pending_bet bet game_uuid` went through. -/
def cancel_pending_bet_result (game_uuid : uuid_type) (bet : pending_bet_object W M)
    (s : database W M) : database W M :=
  remove_pending [bet.id]
    (add_pending_volume (-bet.data.stake.amount)
      (push_op (cancelled_op game_uuid .pending bet.data)
        (credit bet.data.better bet.data.stake.amount s)))

/-- The state after `return_bet bet game_uuid` went through. -/
def return_bet_result (game_uuid : uuid_type) (bet : bet_data W) (s : database W M) :
    database W M :=
  add_matched_volume (-bet.stake.amount)
    (push_op (cancelled_op game_uuid .matched bet)
      (credit bet.better bet.stake.amount s))

/-- The key under which pending bets coalesce: game, better, wincase, odds, kind, created. -/
def same_key (game_id : game_id_type) (bet : bet_data W) (o : pending_bet_object W M) : Prop :=
  o.game = game_id ∧ o.data.better = bet.better ∧ o.data.wincase = bet.wincase
    ∧ o.data.bet_odds = bet.bet_odds ∧ o.data.kind = bet.kind ∧ o.data.created = bet.created

/-- The pending store after the first half of `restore_pending_bet`: the stake goes to
the first row with the key of the leg, or a new row is appended. -/
def restore_index [LinearOrder W] (create_market : W → M) (game_id : game_id_type)
    (bet : bet_data W) (idx : db_index (pending_bet_object W M)) :
    db_index (pending_bet_object W M) :=
  match (idx.objects.filter
      (fun o => decide (o.game = game_id) && decide (o.data.better = bet.better))).find?
      (betting_service.restore_matches bet) with
  | some found =>
    { idx with
      objects := idx.objects.map (fun o =>
        if o.id = found.id then
          { o with data := { o.data with stake := found.data.stake.plus bet.stake.amount } }
        else o) }
  | none =>
    { objects := idx.objects ++
        [{ id := idx.next_id, game := game_id, market := create_market bet.wincase, data := bet }]
      next_id := idx.next_id + 1 }

/-- The state after `restore_pending_bet bet game_uuid` went through, for the game `game_id`. -/
def restore_pending_bet_result [LinearOrder W] (create_market : W → M) (game_id : game_id_type)
    (game_uuid : uuid_type) (bet : bet_data W) (s : database W M) : database W M :=
  push_op (restored_op game_uuid bet)
    (add_matched_volume (-bet.stake.amount)
      (add_pending_volume bet.stake.amount
        { s with pending_bets := restore_index create_market game_id bet s.pending_bets }))

/-- Every amount the loops touch is in the coin `sym`, the accounts are called `names`
and the game with uuid `game_uuid` is the one with id `game_id`. -/
structure consistent (sym : asset_symbol_type) (names : List account_name_type)
    (game_id : game_id_type) (game_uuid : uuid_type) (s : database W M) : Prop where
  names_eq : s.accounts.map (fun a => a.name) = names
  balances : ∀ a ∈ s.accounts, a.balance.symbol = sym
  pending_volume : s.dprop.betting_stats.pending_bets_volume.symbol = sym
  matched_volume : s.dprop.betting_stats.matched_bets_volume.symbol = sym
  pending_stakes : ∀ p ∈ s.pending_bets.objects, p.data.stake.symbol = sym
  game_by_uuid : ∃ g, s.games.find? (fun g => decide (g.uuid = game_uuid)) = some g ∧ g.id = game_id

/-- A bet the loops can process: its stake is in the coin and its better has an account. -/
def payable (sym : asset_symbol_type) (names : List account_name_type) (bet : bet_data W) : Prop :=
  bet.stake.symbol = sym ∧ bet.better ∈ names

end effects

section effects_bulk

variable {W M : Type}

/-- The two legs of each matched bet of a range, in the order the loop visits them. -/
def legs_of (bets : List (matched_bet_object W M)) : List (bet_data W) :=
  bets.flatMap (fun m => [m.bet1_data, m.bet2_data])

/-- The state after one leg was handled by the loop of `cancel_bets(game_id, created_after)`. -/
def cancel_bets_leg_result [LinearOrder W] (create_market : W → M) (game_id : game_id_type)
    (game_uuid : uuid_type) (created_after : time_point_sec) (leg : bet_data W)
    (s : database W M) : database W M :=
  if leg.created ≥ created_after then return_bet_result game_uuid leg s
  else restore_pending_bet_result create_market game_id game_uuid leg s

/-- The matched store without the rows whose id is in `ids`. -/
def remove_matched (ids : List matched_bet_id_type) (s : database W M) : database W M :=
  { s with
    matched_bets := { s.matched_bets with
      objects := s.matched_bets.objects.filter (fun o => decide (o.id ∉ ids)) } }

/-- The state after `cancel_bets(game_id, created_after)` went through, for a game whose
uuid is `game_uuid`. -/
def cancel_bets_created_after_result [LinearOrder W] (create_market : W → M)
    (game_id : game_id_type) (game_uuid : uuid_type) (created_after : time_point_sec)
    (s : database W M) : database W M :=
  remove_matched
    ((matched_bet_dba.get_range_by_game_id_created game_id created_after s).map (fun m => m.id))
    ((legs_of (matched_bet_dba.get_range_by_game_id_created game_id created_after s)).foldl
      (fun t leg => cancel_bets_leg_result create_market game_id game_uuid created_after leg t)
      ((pending_bet_dba.get_range_by_game_id_created game_id created_after s).foldl
        (fun t bet => cancel_pending_bet_result game_uuid bet t) s))

/-- The typing of the data model: every balance, stake and volume counter is in the coin
`sym`, every better of a stored bet has an account, the ids of the pending store are
distinct and below its id counter, the ids of the matched store are distinct, and a game
uuid belongs to one game id. -/
structure database.well_formed (sym : asset_symbol_type) (s : database W M) : Prop where
  balances : ∀ a ∈ s.accounts, a.balance.symbol = sym
  pending_volume : s.dprop.betting_stats.pending_bets_volume.symbol = sym
  matched_volume : s.dprop.betting_stats.matched_bets_volume.symbol = sym
  pending_bets : ∀ p ∈ s.pending_bets.objects,
    payable sym (s.accounts.map (fun a => a.name)) p.data
  matched_bets : ∀ m ∈ s.matched_bets.objects,
    payable sym (s.accounts.map (fun a => a.name)) m.bet1_data
      ∧ payable sym (s.accounts.map (fun a => a.name)) m.bet2_data
  pending_ids : (s.pending_bets.objects.map (fun p => p.id)).Nodup
  pending_ids_lt : ∀ p ∈ s.pending_bets.objects, p.id < s.pending_bets.next_id
  matched_ids : (s.matched_bets.objects.map (fun m => m.id)).Nodup
  game_uuids : ∀ g1 ∈ s.games, ∀ g2 ∈ s.games, g1.uuid = g2.uuid → g1.id = g2.id

/-- The sum of the stakes of a list of bets. -/
def stake_sum (bets : List (bet_data W)) : share_type :=
  (bets.map (fun b => b.stake.amount)).sum

/-- The sum of the stakes that the bets of a list hold for the better `name`. -/
def stake_sum_of (name : account_name_type) (bets : List (bet_data W)) : share_type :=
  stake_sum (bets.filter (fun b => decide (b.better = name)))

end effects_bulk

section effects_projections

variable {W M : Type}

/-- The event the loop of `cancel_bets(game_id, created_after)` emits for a leg. -/
def leg_op (game_uuid : uuid_type) (created_after : time_point_sec) (leg : bet_data W) :
    virtual_operation :=
  if leg.created ≥ created_after then cancelled_op game_uuid .matched leg
  else restored_op game_uuid leg

/-- The legs the loop returns to their betters. -/
def returned_legs (created_after : time_point_sec) (legs : List (bet_data W)) :
    List (bet_data W) :=
  legs.filter (fun leg => decide (leg.created ≥ created_after))

/-- The legs the loop restores to the pending store. -/
def restored_legs (created_after : time_point_sec) (legs : List (bet_data W)) :
    List (bet_data W) :=
  legs.filter (fun leg => !decide (leg.created ≥ created_after))

instance same_key_decidable [DecidableEq W] (game_id : game_id_type) (bet : bet_data W)
    (o : pending_bet_object W M) : Decidable (same_key game_id bet o) := by
  unfold same_key
  infer_instance

/-- The stake the pending rows hold under the key of `bet` in the game `game_id`. -/
def key_stake [DecidableEq W] (game_id : game_id_type) (bet : bet_data W)
    (objs : List (pending_bet_object W M)) : share_type :=
  (objs.map (fun o => if same_key game_id bet o then o.data.stake.amount else 0)).sum

/-- No two pending rows share a key (invariant 6 of the data model). -/
def keys_unique (objs : List (pending_bet_object W M)) : Prop :=
  objs.Pairwise (fun p q => ¬ same_key p.game p.data q)

end effects_projections

section effects_index

variable {W M : Type}

/-- The ids of a pending index are distinct and below its id counter. -/
def index_wf (idx : db_index (pending_bet_object W M)) : Prop :=
  (idx.objects.map (fun p => p.id)).Nodup ∧ ∀ p ∈ idx.objects, p.id < idx.next_id

/-- Two legs coalesce: same better, wincase, odds, kind and creation time. -/
def same_leg_key (a b : bet_data W) : Prop :=
  a.better = b.better ∧ a.wincase = b.wincase ∧ a.bet_odds = b.bet_odds ∧ a.kind = b.kind
    ∧ a.created = b.created

instance same_leg_key_decidable [DecidableEq W] (a b : bet_data W) :
    Decidable (same_leg_key a b) := by
  unfold same_leg_key
  infer_instance

end effects_index

section effects_decidable

variable {W M : Type}

instance payable_decidable (sym : asset_symbol_type) (names : List account_name_type)
    (bet : bet_data W) : Decidable (payable sym names bet) := by
  unfold payable
  infer_instance

/-- The pending rows that `cancel_bets(game_id, created_after)` does not cancel. -/
def surviving_pending (game_id : game_id_type) (created_after : time_point_sec)
    (s : database W M) : db_index (pending_bet_object W M) :=
  { objects := s.pending_bets.objects.filter (fun o =>
      decide (o.id ∉ (pending_bet_dba.get_range_by_game_id_created game_id created_after s).map
        (fun p => p.id)))
    next_id := s.pending_bets.next_id }

end effects_decidable

section effects_matched

variable {W M : Type}

/-- The state after `cancel_matched_bet bet game_uuid` went through. -/
def cancel_matched_bet_result (game_uuid : uuid_type) (bet : matched_bet_object W M)
    (s : database W M) : database W M :=
  remove_matched [bet.id]
    (return_bet_result game_uuid bet.bet2_data (return_bet_result game_uuid bet.bet1_data s))

/-- The state after the pending bets `ps` and then the matched bets `ms` were cancelled. -/
def cancel_all_result (game_uuid : uuid_type) (ps : List (pending_bet_object W M))
    (ms : List (matched_bet_object W M)) (s : database W M) : database W M :=
  ms.foldl (fun t m => cancel_matched_bet_result game_uuid m t)
    (ps.foldl (fun t p => cancel_pending_bet_result game_uuid p t) s)

end effects_matched

section effects_restore_target

variable {W M : Type}

/-- The row that `restore_pending_bet` looks for, in the words of its `find_if`: a pending
bet of the game and better with the same creation time, odds and kind, and a wincase that
is neither below nor above the wincase of the leg. -/
def restore_target [LT W] (game_id : game_id_type) (bet : bet_data W)
    (o : pending_bet_object W M) : Prop :=
  o.game = game_id ∧ o.data.better = bet.better ∧ o.data.created = bet.created
    ∧ o.data.bet_odds = bet.bet_odds ∧ o.data.kind = bet.kind
    ∧ ¬ o.data.wincase < bet.wincase ∧ ¬ bet.wincase < o.data.wincase

instance restore_target_decidable [LinearOrder W] (game_id : game_id_type) (bet : bet_data W)
    (o : pending_bet_object W M) : Decidable (restore_target game_id bet o) := by
  unfold restore_target
  infer_instance

/-- The row `o` with `amount` added to its stake. -/
def add_stake (amount : share_type) (o : pending_bet_object W M) : pending_bet_object W M :=
  { o with data := { o.data with stake := o.data.stake.plus amount } }

end effects_restore_target

section effects_of_game

variable {W M : Type}

/-- The pending bets of a game, in store order. -/
def pending_of_game (game_id : game_id_type) (s : database W M) :
    List (pending_bet_object W M) :=
  s.pending_bets.objects.filter (fun o => decide (o.game = game_id))

/-- The matched bets of a game, in store order. -/
def matched_of_game (game_id : game_id_type) (s : database W M) :
    List (matched_bet_object W M) :=
  s.matched_bets.objects.filter (fun o => decide (o.game = game_id))

end effects_of_game

section invariants

variable {W M : Type}

/-- The sum of the stakes of all pending bets. -/
def pending_stake_total (s : database W M) : share_type :=
  stake_sum (s.pending_bets.objects.map (fun p => p.data))

/-- The sum of the stakes of both legs over all matched bets. -/
def matched_stake_total (s : database W M) : share_type :=
  stake_sum (legs_of s.matched_bets.objects)

/-- The volume invariant: the two counters are the two sums. -/
def volumes_consistent (s : database W M) : Prop :=
  pending_stake_total s = s.dprop.betting_stats.pending_bets_volume.amount
    ∧ matched_stake_total s = s.dprop.betting_stats.matched_bets_volume.amount

/-- The primary keys of the two bet stores: the ids of the pending rows are distinct and
below the id counter, the ids of the matched rows are distinct. -/
def rows_wf (s : database W M) : Prop :=
  index_wf s.pending_bets ∧ (s.matched_bets.objects.map (fun m => m.id)).Nodup

/-- The sum of all account balances. -/
def balances_total (s : database W M) : share_type :=
  (s.accounts.map (fun a => a.balance.amount)).sum

/-- The stake held by the betting system: the two volume counters. -/
def staked_total (s : database W M) : share_type :=
  s.dprop.betting_stats.pending_bets_volume.amount
    + s.dprop.betting_stats.matched_bets_volume.amount

/-- The conserved quantity: all balances plus the stake held by the betting system. -/
def funds_total (s : database W M) : share_type :=
  balances_total s + staked_total s

/-- The account store is keyed by name. -/
def names_unique (s : database W M) : Prop :=
  (s.accounts.map (fun a => a.name)).Nodup

/-- The UUID-history invariant: the history holds the uuid of every pending bet and of
both legs of every matched bet. -/
def uuids_recorded (s : database W M) : Prop :=
  (∀ p ∈ s.pending_bets.objects, p.data.uuid ∈ s.uuid_hist)
    ∧ ∀ m ∈ s.matched_bets.objects,
        m.bet1_data.uuid ∈ s.uuid_hist ∧ m.bet2_data.uuid ∈ s.uuid_hist

/-- The market invariant: the market of every pending bet is the market of its wincase. -/
def markets_consistent (create_market : W → M) (s : database W M) : Prop :=
  ∀ p ∈ s.pending_bets.objects, p.market = create_market p.data.wincase

/-- The leg `b` is one of the two legs of a matched bet of the store. -/
def stored_leg (b : bet_data W) (s : database W M) : Prop :=
  ∃ m ∈ s.matched_bets.objects, b = m.bet1_data ∨ b = m.bet2_data

/-- The object references among the arguments of a call refer to rows of the store, and a
range passed to a call holds each of its rows once: the methods that take a
`const pending_bet_object&`, a `const matched_bet_object&` or a `bidir_range` of them are
handed objects of the accessor. -/
def service_call.admissible : service_call W M → database W M → Prop
  | .cancel_pending_bet bet _, s => bet ∈ s.pending_bets.objects
  | .cancel_pending_bets_range bets _, s =>
    bets.Nodup ∧ ∀ b ∈ bets, b ∈ s.pending_bets.objects
  | .cancel_matched_bet bet _, s => bet ∈ s.matched_bets.objects
  | .cancel_matched_bets_range bets _, s =>
    bets.Nodup ∧ ∀ b ∈ bets, b ∈ s.matched_bets.objects
  | _, _ => True

end invariants

section auto_resolver_effects

variable {W M : Type}

/-- The stake that the two stores hold for the account `name` on a game. -/
def stake_on_game (name : account_name_type) (game_id : game_id_type) (s : database W M) :
    share_type :=
  stake_sum_of name ((pending_of_game game_id s).map (fun p => p.data))
    + stake_sum_of name (legs_of (matched_of_game game_id s))

/-- The events of the auto-resolver for one game: the pending bets of the game in range
order, the legs of its matched bets in range order, then the change of status. -/
def auto_resolve_events [LinearOrder M] (s : database W M) (game : game_object) :
    List virtual_operation :=
  (pending_bet_dba.get_range_by_game_id_market game.id s).map
      (fun p => cancelled_op game.uuid .pending p.data)
    ++ (legs_of (matched_bet_dba.get_range_by_game_id_market game.id s)).map
      (fun b => cancelled_op game.uuid .matched b)
    ++ [.game_status_changed game.uuid .started .expired]

/-- The state after the auto-resolver went through its loop body for one game. -/
def auto_resolve_result [LinearOrder M] (game : game_object) (s : database W M) :
    database W M :=
  push_op (.game_status_changed game.uuid .started .expired)
    { cancel_all_result game.uuid (pending_bet_dba.get_range_by_game_id_market game.id s)
        (matched_bet_dba.get_range_by_game_id_market game.id s) s with
      games := s.games.filter (fun g => decide (g.id ≠ game.id)) }

end auto_resolver_effects

section events_and_guard

/-- The stake that the `BetCancelled` events of a trail, pending and matched, carry for the
better `name`; other events count for nothing. -/
def cancelled_stake_for (name : account_name_type) (ops : List virtual_operation) :
    share_type :=
  (ops.map (fun op =>
    match op with
    | .bet_cancelled_operation _ better _ stake _ => if better = name then stake.amount else 0
    | _ => 0)).sum

/-- A call of one of the two methods of the guard. -/
inductive guard_call where
  | is_allowed
  | apply
  deriving DecidableEq, Repr

/-- The guard after a call of one of its methods. -/
def guard_call.step {C : Type} (ctx : C) (c : guard_call)
    (g : genesis.single_time_apply_guard) : genesis.single_time_apply_guard :=
  match c with
  | .is_allowed => (genesis.single_time_apply_guard.is_allowed ctx g).state
  | .apply => (genesis.single_time_apply_guard.apply ctx g).state

/-- The guard after a sequence of calls, first call first. -/
def guard_after {C : Type} (ctx : C) (calls : List guard_call)
    (g : genesis.single_time_apply_guard) : genesis.single_time_apply_guard :=
  calls.foldl (fun t c => c.step ctx t) g

end events_and_guard

/-! ## Concrete states: the scenarios of the specification

Wincases and markets are numbered: wincase `2 * m` and wincase `2 * m + 1` are the two
sides of market `m`. -/

namespace scenario

/-- The native coin. -/
def SCR : asset_symbol_type := 1

/-- An amount of the native coin. -/
def scr (n : Int) : asset := { amount := n, symbol := SCR }

/-- The market of a numbered wincase. -/
def create_market (w : Nat) : Nat := w / 2

def home_yes : Nat := 0
def home_no : Nat := 1
def total_over : Nat := 2
def total_under : Nat := 3

/-- The uuid of the game `G`, whose id is `0`. -/
def G_uuid : uuid_type := 77

/-- Scenario S1 before the bet: Alice and Bob hold 1000 SCR each, nothing is staked. -/
def S1_initial : database Nat Nat :=
  { accounts := [{ name := "alice", balance := scr 1000 }, { name := "bob", balance := scr 1000 }]
    betting_property := { moderator := "moderator" }
    matched_bets := { objects := [], next_id := 0 }
    pending_bets := { objects := [], next_id := 0 }
    games := [{ id := 0, uuid := G_uuid }]
    dprop := { time := 10, betting_stats := { pending_bets_volume := scr 0, matched_bets_volume := scr 0 } }
    uuid_hist := []
    virt_ops := [] }

/-- The pending bet B1 of scenario S1. -/
def B1 : pending_bet_object Nat Nat :=
  { id := 0, game := 0, market := 0
    data := { uuid := 1, created := 10, better := "alice", wincase := home_yes, stake := scr 500
              bet_odds := { numerator := 3, denominator := 1 }, kind := .live } }

/-- Scenario S1 after `post_bet`: B1 is pending and recorded in the UUID history. -/
def S1_posted : database Nat Nat :=
  { S1_initial with
    accounts := [{ name := "alice", balance := scr 500 }, { name := "bob", balance := scr 1000 }]
    pending_bets := { objects := [B1], next_id := 1 }
    dprop := { time := 10, betting_stats := { pending_bets_volume := scr 500, matched_bets_volume := scr 0 } }
    uuid_hist := [1] }

/-- The cut-off times of scenario S3. -/
def T0 : time_point_sec := 10
def T1 : time_point_sec := 20

/-- A leg of scenario S3: a live bet at odds 2/1. -/
def leg (uuid : uuid_type) (created : time_point_sec) (better : account_name_type)
    (wincase : Nat) (stake : Int) : bet_data Nat :=
  { uuid := uuid, created := created, better := better, wincase := wincase, stake := scr stake
    bet_odds := { numerator := 2, denominator := 1 }, kind := .live }

/-- The pair (Alice, Bob) of scenario S3: posted and matched at `T0`. -/
def M_alice_bob : matched_bet_object Nat Nat :=
  { id := 0, game := 0, market := 0, created := T0
    bet1_data := leg 1 T0 "alice" home_yes 200, bet2_data := leg 2 T0 "bob" home_no 200 }

/-- The pair (Carol, Dave) of scenario S3: posted and matched at `T1`. -/
def M_carol_dave : matched_bet_object Nat Nat :=
  { id := 1, game := 0, market := 0, created := T1
    bet1_data := leg 3 T1 "carol" home_yes 50, bet2_data := leg 4 T1 "dave" home_no 50 }

/-- Scenario S3 before the call: everybody started with 1000 SCR, both pairs are matched. -/
def S3_matched : database Nat Nat :=
  { accounts := [{ name := "alice", balance := scr 800 }, { name := "bob", balance := scr 800 },
                 { name := "carol", balance := scr 950 }, { name := "dave", balance := scr 950 }]
    betting_property := { moderator := "moderator" }
    matched_bets := { objects := [M_alice_bob, M_carol_dave], next_id := 2 }
    pending_bets := { objects := [], next_id := 4 }
    games := [{ id := 0, uuid := G_uuid }]
    dprop := { time := T1, betting_stats := { pending_bets_volume := scr 0, matched_bets_volume := scr 500 } }
    uuid_hist := [1, 2, 3, 4]
    virt_ops := [] }

/-- Scenario S3 after `cancel_bets(G, created_after = T1)`, as the code leaves it: the pair
matched at `T1` is refunded, the pair matched at `T0` stays matched. -/
def S3_after : database Nat Nat :=
  { S3_matched with
    accounts := [{ name := "alice", balance := scr 800 }, { name := "bob", balance := scr 800 },
                 { name := "carol", balance := scr 1000 }, { name := "dave", balance := scr 1000 }]
    matched_bets := { objects := [M_alice_bob], next_id := 2 }
    dprop := { time := T1, betting_stats := { pending_bets_volume := scr 0, matched_bets_volume := scr 400 } }
    virt_ops := [.bet_cancelled_operation G_uuid "carol" 3 (scr 50) .matched,
                 .bet_cancelled_operation G_uuid "dave" 4 (scr 50) .matched] }

/-- A pair whose legs were posted at `T0` and matched at `T1`. -/
def M_late : matched_bet_object Nat Nat :=
  { id := 0, game := 0, market := 0, created := T1
    bet1_data := leg 1 T0 "alice" home_yes 200, bet2_data := leg 2 T0 "bob" home_no 200 }

/-- The unmatched rest of Alice's bet, still pending under the key of her leg. -/
def P_rest : pending_bet_object Nat Nat :=
  { id := 0, game := 0, market := 0, data := leg 1 T0 "alice" home_yes 100 }

/-- A state with the late pair matched and the rest of Alice's bet pending. -/
def S_late : database Nat Nat :=
  { accounts := [{ name := "alice", balance := scr 700 }, { name := "bob", balance := scr 800 }]
    betting_property := { moderator := "moderator" }
    matched_bets := { objects := [M_late], next_id := 1 }
    pending_bets := { objects := [P_rest], next_id := 2 }
    games := [{ id := 0, uuid := G_uuid }]
    dprop := { time := T1, betting_stats := { pending_bets_volume := scr 100, matched_bets_volume := scr 400 } }
    uuid_hist := [1, 2]
    virt_ops := [] }

/-- Alice's pending bet of scenario S4, on the market of `home_yes`. -/
def P_alice : pending_bet_object Nat Nat :=
  { id := 0, game := 0, market := 0, data := leg 1 T0 "alice" home_yes 100 }

/-- Bob's pending bet of scenario S4, on the market of `total_over`. -/
def P_bob : pending_bet_object Nat Nat :=
  { id := 1, game := 0, market := 1, data := leg 2 T0 "bob" total_over 100 }

/-- A pending bet of Carol on the same market as Bob's, on the other side. -/
def P_carol : pending_bet_object Nat Nat :=
  { id := 2, game := 0, market := 1, data := leg 3 T0 "carol" total_under 50 }

/-- Scenario S4 before the call: Alice is pending on one market, Bob on the other. -/
def S4_pending : database Nat Nat :=
  { accounts := [{ name := "alice", balance := scr 900 }, { name := "bob", balance := scr 900 }]
    betting_property := { moderator := "moderator" }
    matched_bets := { objects := [], next_id := 0 }
    pending_bets := { objects := [P_alice, P_bob], next_id := 2 }
    games := [{ id := 0, uuid := G_uuid }]
    dprop := { time := T1, betting_stats := { pending_bets_volume := scr 200, matched_bets_volume := scr 0 } }
    uuid_hist := [1, 2]
    virt_ops := [] }

/-- Scenario S4 after `cancel_bets(G, {market of total})`: Bob is refunded. -/
def S4_after : database Nat Nat :=
  { S4_pending with
    accounts := [{ name := "alice", balance := scr 900 }, { name := "bob", balance := scr 1000 }]
    pending_bets := { objects := [P_alice], next_id := 2 }
    dprop := { time := T1, betting_stats := { pending_bets_volume := scr 100, matched_bets_volume := scr 0 } }
    virt_ops := [.bet_cancelled_operation G_uuid "bob" 2 (scr 100) .pending] }

/-- Scenario S4 with a second pending bet, Carol's, on the market that gets cancelled. -/
def S4_two_on_market : database Nat Nat :=
  { S4_pending with
    accounts := [{ name := "alice", balance := scr 900 }, { name := "bob", balance := scr 900 },
                 { name := "carol", balance := scr 950 }]
    pending_bets := { objects := [P_alice, P_bob, P_carol], next_id := 3 }
    dprop := { time := T1, betting_stats := { pending_bets_volume := scr 250, matched_bets_volume := scr 0 } }
    uuid_hist := [1, 2, 3] }

/-- The state the code leaves `S4_two_on_market` in: only Bob's bet was cancelled. -/
def S4_two_after : database Nat Nat :=
  { S4_two_on_market with
    accounts := [{ name := "alice", balance := scr 900 }, { name := "bob", balance := scr 1000 },
                 { name := "carol", balance := scr 950 }]
    pending_bets := { objects := [P_alice, P_carol], next_id := 3 }
    dprop := { time := T1, betting_stats := { pending_bets_volume := scr 150, matched_bets_volume := scr 0 } }
    virt_ops := [.bet_cancelled_operation G_uuid "bob" 2 (scr 100) .pending] }

/-- The matched bet of scenario S2: Alice and Bob, 100 SCR each at 2/1. -/
def M_S2 : matched_bet_object Nat Nat :=
  { id := 0, game := 0, market := 0, created := T0
    bet1_data := leg 1 T0 "alice" home_yes 100, bet2_data := leg 2 T0 "bob" home_no 100 }

/-- Scenario S2 before the cancellation: the two bets are matched. -/
def S2_matched : database Nat Nat :=
  { accounts := [{ name := "alice", balance := scr 900 }, { name := "bob", balance := scr 900 }]
    betting_property := { moderator := "moderator" }
    matched_bets := { objects := [M_S2], next_id := 1 }
    pending_bets := { objects := [], next_id := 2 }
    games := [{ id := 0, uuid := G_uuid }]
    dprop := { time := T1, betting_stats := { pending_bets_volume := scr 0, matched_bets_volume := scr 200 } }
    uuid_hist := [1, 2]
    virt_ops := [] }

/-- Scenario S2 after `cancel_bets(G)`: both legs refunded. -/
def S2_after : database Nat Nat :=
  { S2_matched with
    accounts := [{ name := "alice", balance := scr 1000 }, { name := "bob", balance := scr 1000 }]
    matched_bets := { objects := [], next_id := 1 }
    dprop := { time := T1, betting_stats := { pending_bets_volume := scr 0, matched_bets_volume := scr 0 } }
    virt_ops := [.bet_cancelled_operation G_uuid "alice" 1 (scr 100) .matched,
                 .bet_cancelled_operation G_uuid "bob" 2 (scr 100) .matched] }

/-- The symbol of Scorum Power. -/
def SP : asset_symbol_type := 2

/-- A configuration for the validation scenarios: stakes of at least 1000000 SCR units,
odds between 1001/1000 and 1001/1, account names of 3 to 16 characters, every numbered
wincase valid. -/
def cfg : protocol.config Nat :=
  { SCORUM_SYMBOL := SCR
    SP_SYMBOL := SP
    SCORUM_MIN_BET_STAKE := scr 1000000
    min_odds_base := { numerator := 1001, denominator := 1000 }
    min_odds_inverted := { numerator := 1001, denominator := 1 }
    is_valid_account_name := fun n => decide (3 ≤ n.length) && decide (n.length ≤ 16)
    is_valid_wincase := fun _ => true }

/-- The operation `test_op` of the evaluator tests: better "alice", odds 3/1 and a stake of
1e9 SCR. -/
def test_op : protocol.post_bet_operation Nat :=
  { uuid := 1, better := "alice", wincase := home_yes
    odds := { numerator := 3, denominator := 1 }, stake := scr 1000000000 }

/-- A second game, with uuid 78 and no bets. -/
def G2 : game_object := { id := 1, uuid := 78 }

/-- Scenario S5 before the block task: game `G` holds the rest of Alice's bet as a pending
bet and the pair of Alice and Bob as a matched bet; the game `G2` holds no bet; both have
passed their auto-resolve deadline. -/
def S5_expired : database Nat Nat :=
  { S_late with games := [{ id := 0, uuid := G_uuid }, G2] }

/-- Helpers of the game operations that accept everything; the game is a number. -/
def gv : protocol.game_validators Nat Nat Nat :=
  { is_valid_json_metadata := fun _ => true
    is_valid_game := fun _ _ => true
    is_valid_markets := fun _ => true
    is_valid_wincases := fun _ => true }

end scenario

/-! ## The monad and the account adapter -/

section lemmas

variable {W M : Type}

theorem Op.bind_apply {σ α β : Type} (x : Op σ α) (f : α → Op σ β) (s : σ) :
    (x >>= f) s = match x s with
      | .ok a s1 => f a s1
      | .thrown e s1 => .thrown e s1 := rfl

theorem Op.pure_apply {σ α : Type} (a : α) (s : σ) : (pure a : Op σ α) s = .ok a s := rfl

theorem find_account_of_mem (l : List account_object) (n : account_name_type)
    (h : n ∈ l.map (fun a => a.name)) :
    ∃ acc, l.find? (fun a => decide (a.name = n)) = some acc ∧ acc.name = n ∧ acc ∈ l := by
  cases hf : l.find? (fun a => decide (a.name = n)) with
  | none =>
    exfalso
    rw [List.find?_eq_none] at hf
    obtain ⟨a, ha, han⟩ := List.mem_map.mp h
    exact (hf a ha) (by simpa using han)
  | some acc =>
    exact ⟨acc, rfl, by simpa using List.find?_some hf, List.mem_of_find?_eq_some hf⟩

theorem balance_of_credit_accounts (l : List account_object) (n : account_name_type)
    (amt : share_type) (a : account_name_type) :
    balance_of (credit_accounts n amt l) a
      = if a = n then (balance_of l a).map (fun b => b.plus amt) else balance_of l a := by
  unfold credit_accounts
  cases hf : l.find? (fun x => decide (x.name = n)) with
  | none =>
    simp only
    by_cases han : a = n
    · subst han
      simp [balance_of, hf]
    · simp [han]
  | some acc =>
    simp only
    by_cases han : a = n
    · subst han
      simp only [if_true]
      have h1 : balance_of l a = some acc.balance := by simp [balance_of, hf]
      rw [h1]
      simp only [Option.map_some', asset.plus]
      clear h1
      unfold balance_of
      induction l with
      | nil => simp at hf
      | cons x xs ih =>
        by_cases hxa : x.name = a
        · simp [-List.find?_map, List.find?_cons, hxa]
        · simp only [List.find?_cons, hxa, decide_False] at hf
          simp [-List.find?_map, List.find?_cons, hxa] 
          simpa [-List.find?_map] using ih hf
    · simp only [han, if_false]
      generalize acc.balance.amount + amt = v
      generalize acc.balance.symbol = sy
      clear hf
      unfold balance_of
      induction l with
      | nil => simp
      | cons x xs ih =>
        by_cases hxn : x.name = n <;> by_cases hxa : x.name = a
        · exact absurd (hxa.symm.trans hxn) han
        · have hna : ¬ n = a := fun h => han h.symm
          simp [-List.find?_map, List.find?_cons, hxn, hxa, hna] at ih ⊢
          exact ih
        · have hxn2 : ¬ a = n := han
          simp [-List.find?_map, List.find?_cons, hxn, hxa, hxn2]
        · simp [-List.find?_map, List.find?_cons, hxn, hxa] at ih ⊢
          exact ih

theorem names_credit_accounts (l : List account_object) (n : account_name_type)
    (amt : share_type) :
    (credit_accounts n amt l).map (fun a => a.name) = l.map (fun a => a.name) := by
  unfold credit_accounts
  split
  · rw [List.map_map]
    apply List.map_congr_left
    intro a _
    by_cases h : a.name = n <;> simp [h]
  · rfl

theorem symbols_credit_accounts (l : List account_object) (n : account_name_type)
    (amt : share_type) (sym : asset_symbol_type) (h : ∀ a ∈ l, a.balance.symbol = sym) :
    ∀ a ∈ credit_accounts n amt l, a.balance.symbol = sym := by
  unfold credit_accounts
  split
  · rename_i acc hf
    intro a ha
    obtain ⟨b, hb, rfl⟩ := List.mem_map.mp ha
    by_cases hbn : b.name = n
    · simp only [hbn, if_true]
      exact h acc (List.mem_of_find?_eq_some hf)
    · simp only [hbn, if_false]
      exact h b hb
  · exact h

theorem increase_balance_ok (s : database W M) (n : account_name_type) (stake : asset)
    (acc : account_object)
    (hacc : s.accounts.find? (fun a => decide (a.name = n)) = some acc)
    (hsym : acc.balance.symbol = stake.symbol) :
    account_service.increase_balance n stake s = .ok () (credit n stake.amount s) := by
  simp [account_service.increase_balance, Op.bind_apply, account_service.get_account, hacc,
    Op.lift, asset.add_assign, hsym, Op.modify, credit, credit_accounts,
    account_service.set_balance]

end lemmas

/-! ## Single steps of the service -/

section steps

variable {W M : Type}

open betting_service

theorem cancel_pending_bet_ok (s : database W M) (bet : pending_bet_object W M)
    (game_uuid : uuid_type) (acc : account_object)
    (hacc : s.accounts.find? (fun a => decide (a.name = bet.data.better)) = some acc)
    (hsym : acc.balance.symbol = bet.data.stake.symbol)
    (hvol : s.dprop.betting_stats.pending_bets_volume.symbol = bet.data.stake.symbol) :
    cancel_pending_bet bet game_uuid s = .ok () (cancel_pending_bet_result game_uuid bet s) := by
  have h1 := increase_balance_ok s bet.data.better bet.data.stake acc hacc hsym
  simp [cancel_pending_bet, Op.bind_apply, h1, push_pending_bet_cancelled_op,
    virt_op_emitter.push_virtual_operation, Op.modify, Op.get, Op.lift, asset.sub_assign,
    credit, hvol, pending_bet_dba.remove, cancel_pending_bet_result, remove_pending,
    add_pending_volume, push_op, cancelled_op, asset.plus, sub_eq_add_neg]

theorem return_bet_ok (s : database W M) (bet : bet_data W)
    (game_uuid : uuid_type) (acc : account_object)
    (hacc : s.accounts.find? (fun a => decide (a.name = bet.better)) = some acc)
    (hsym : acc.balance.symbol = bet.stake.symbol)
    (hvol : s.dprop.betting_stats.matched_bets_volume.symbol = bet.stake.symbol) :
    return_bet bet game_uuid s = .ok () (return_bet_result (M := M) game_uuid bet s) := by
  have h1 := increase_balance_ok s bet.better bet.stake acc hacc hsym
  simp [return_bet, Op.bind_apply, h1, push_matched_bet_cancelled_op,
    virt_op_emitter.push_virtual_operation, Op.modify, Op.get, Op.lift, asset.sub_assign,
    credit, hvol, return_bet_result,
    add_matched_volume, push_op, cancelled_op, asset.plus, sub_eq_add_neg]

theorem restore_pending_bet_ok [LinearOrder W] (create_market : W → M) (s : database W M)
    (bet : bet_data W) (game_uuid : uuid_type) (game : game_object)
    (hgame : s.games.find? (fun g => decide (g.uuid = game_uuid)) = some game)
    (hstakes : ∀ p ∈ s.pending_bets.objects, p.data.stake.symbol = bet.stake.symbol)
    (hpvol : s.dprop.betting_stats.pending_bets_volume.symbol = bet.stake.symbol)
    (hmvol : s.dprop.betting_stats.matched_bets_volume.symbol = bet.stake.symbol) :
    restore_pending_bet create_market bet game_uuid s
      = .ok () (restore_pending_bet_result create_market game.id game_uuid bet s) := by
  unfold restore_pending_bet restore_pending_bet_result restore_index
  simp only [Op.bind_apply, game_dba.get_by_uuid, hgame, Op.get,
    pending_bet_dba.get_range_by_game_id_better]
  cases hf : (s.pending_bets.objects.filter
      (fun o => decide (o.game = game.id) && decide (o.data.better = bet.better))).find?
      (restore_matches bet) with
  | none =>
    simp [Op.bind_apply, Op.pure_apply, Op.get, pending_bet_dba.create, Op.lift, asset.add_assign,
      asset.sub_assign, hpvol, hmvol, Op.modify, virt_op_emitter.push_virtual_operation,
      push_op, add_matched_volume, add_pending_volume, restored_op, asset.plus, sub_eq_add_neg]
  | some found =>
    have hmem : found ∈ s.pending_bets.objects :=
      List.mem_of_mem_filter (List.mem_of_find?_eq_some hf)
    have hfs := hstakes found hmem
    simp [Op.bind_apply, Op.get, pending_bet_dba.update_add_stake, Op.lift, asset.add_assign,
      asset.sub_assign, hpvol, hmvol, hfs, Op.modify, virt_op_emitter.push_virtual_operation,
      push_op, add_matched_volume, add_pending_volume, restored_op, asset.plus, sub_eq_add_neg]

end steps

/-! ## Posting and cancelling one pending bet -/

section single

variable {W M : Type}

open betting_service

theorem find_of_balance_of (l : List account_object) (n : account_name_type) (bal : asset)
    (h : balance_of l n = some bal) :
    ∃ acc, l.find? (fun a => decide (a.name = n)) = some acc ∧ acc.balance = bal
      ∧ acc.name = n := by
  unfold balance_of at h
  cases hf : l.find? (fun a => decide (a.name = n)) with
  | none => simp [hf] at h
  | some acc =>
    refine ⟨acc, rfl, ?_, by simpa using List.find?_some hf⟩
    simpa [hf] using h

theorem decrease_balance_ok (s : database W M) (stake : asset) (acc : account_object)
    (hacc : s.accounts.find? (fun a => decide (a.name = acc.name)) = some acc)
    (hsym : acc.balance.symbol = stake.symbol) :
    account_service.decrease_balance acc stake s = .ok () (credit acc.name (-stake.amount) s) := by
  simp [account_service.decrease_balance, Op.bind_apply, account_service.get_account, hacc,
    Op.lift, asset.sub_assign, hsym, Op.modify, credit, credit_accounts,
    account_service.set_balance, sub_eq_add_neg]

theorem balance_credit (s : database W M) (n : account_name_type) (amt : share_type)
    (a : account_name_type) :
    (credit n amt s).balance a
      = if a = n then (s.balance a).map (fun b => b.plus amt) else s.balance a :=
  balance_of_credit_accounts s.accounts n amt a

theorem ge_true_iff (a b : asset) :
    a.ge b = .ok true ↔ a.symbol = b.symbol ∧ b.amount ≤ a.amount := by
  unfold asset.ge asset.lt
  by_cases h : a.symbol = b.symbol
  · simp [h, Except.map]
  · simp [h, Except.map]

theorem gt_true_iff (a b : asset) :
    a.gt b = .ok true ↔ a.symbol = b.symbol ∧ b.amount < a.amount := by
  unfold asset.gt asset.le asset.eq asset.lt
  by_cases h : a.symbol = b.symbol
  · by_cases h2 : a.amount = b.amount
    · simp [h, h2, Except.map]
    · simp [h, h2, Except.map]
      exact ⟨fun h3 => lt_of_le_of_ne h3 (Ne.symm h2), le_of_lt⟩
  · simp [h, Except.map]

/-- The state a successful `create_pending_bet` ends in. -/
theorem create_pending_bet_ok (create_market : W → M) (s : database W M)
    (better : account_name_type) (stake : asset) (o : odds) (wincase : W)
    (game : game_id_type) (bet_uuid : uuid_type) (kind : pending_bet_kind) (bal : asset)
    (hacc : s.balance better = some bal)
    (hbal : bal.ge stake = .ok true)
    (hvol : s.dprop.betting_stats.pending_bets_volume.symbol = stake.symbol)
    (huuid : bet_uuid ∉ s.uuid_hist) :
    create_pending_bet create_market better stake o wincase game bet_uuid kind s
      = .ok
          { id := s.pending_bets.next_id, game := game, market := create_market wincase
            data := { uuid := bet_uuid, created := s.dprop.time, better := better
                      wincase := wincase, stake := stake, bet_odds := o, kind := kind } }
          (credit better (-stake.amount)
            (add_pending_volume stake.amount
              { s with
                uuid_hist := s.uuid_hist ++ [bet_uuid]
                pending_bets :=
                  { objects := s.pending_bets.objects ++
                      [{ id := s.pending_bets.next_id, game := game, market := create_market wincase
                         data := { uuid := bet_uuid, created := s.dprop.time, better := better
                                   wincase := wincase, stake := stake, bet_odds := o, kind := kind } }]
                    next_id := s.pending_bets.next_id + 1 } })) := by
  obtain ⟨acc, hfind, hb, hname⟩ := find_of_balance_of s.accounts better bal hacc
  subst hb
  have hsym : acc.balance.symbol = stake.symbol := ((ge_true_iff _ _).mp hbal).1
  subst hname
  simp [create_pending_bet, Op.bind_apply, Op.pure_apply, account_service.get_account, hfind, hbal,
    Op.lift, FC_ASSERT, uuid_hist_dba.create, huuid, Op.get, pending_bet_dba.create,
    asset.add_assign, hvol, Op.modify, account_service.decrease_balance, asset.sub_assign, hsym,
    credit, credit_accounts, add_pending_volume, asset.plus, account_service.set_balance,
    sub_eq_add_neg]

end single

section single_more

variable {W M : Type}

open betting_service

theorem cancel_pending_bet_ok_of_balance (s : database W M) (bet : pending_bet_object W M)
    (game_uuid : uuid_type) (bal : asset)
    (hacc : s.balance bet.data.better = some bal)
    (hsym : bal.symbol = bet.data.stake.symbol)
    (hvol : s.dprop.betting_stats.pending_bets_volume.symbol = bet.data.stake.symbol) :
    cancel_pending_bet bet game_uuid s = .ok () (cancel_pending_bet_result game_uuid bet s) := by
  obtain ⟨acc, hfind, hb, _⟩ := find_of_balance_of s.accounts bet.data.better bal hacc
  subst hb
  exact cancel_pending_bet_ok s bet game_uuid acc hfind hsym hvol

theorem return_bet_ok_of_balance (s : database W M) (bet : bet_data W)
    (game_uuid : uuid_type) (bal : asset)
    (hacc : s.balance bet.better = some bal)
    (hsym : bal.symbol = bet.stake.symbol)
    (hvol : s.dprop.betting_stats.matched_bets_volume.symbol = bet.stake.symbol) :
    return_bet bet game_uuid s = .ok () (return_bet_result (M := M) game_uuid bet s) := by
  obtain ⟨acc, hfind, hb, _⟩ := find_of_balance_of s.accounts bet.better bal hacc
  subst hb
  exact return_bet_ok s bet game_uuid acc hfind hsym hvol

theorem eq_of_id_eq {α : Type} (f : α → Nat) (l : List α) (h : (l.map f).Nodup)
    (p q : α) (hp : p ∈ l) (hq : q ∈ l) (hpq : f p = f q) : p = q :=
  List.inj_on_of_nodup_map h hp hq hpq

theorem filter_id_ne_eq_filter_ne {α : Type} [DecidableEq α] (f : α → Nat) (l : List α)
    (h : (l.map f).Nodup) (b : α) (hb : b ∈ l) :
    l.filter (fun o => decide (f o ≠ f b)) = l.filter (fun o => decide (o ≠ b)) := by
  apply List.filter_congr
  intro p hp
  by_cases hpb : p = b
  · subst hpb; simp
  · have : f p ≠ f b := fun hf => hpb (eq_of_id_eq f l h p b hp hb hf)
    simp [hpb, this]

theorem find_by_id_of_mem {α : Type} (f : α → Nat) (l : List α)
    (h : (l.map f).Nodup) (b : α) (hb : b ∈ l) :
    l.find? (fun o => decide (f o = f b)) = some b := by
  cases hf : l.find? (fun o => decide (f o = f b)) with
  | none =>
    rw [List.find?_eq_none] at hf
    exact absurd (by simp) (hf b hb)
  | some c =>
    have hc : f c = f b := by simpa using List.find?_some hf
    rw [eq_of_id_eq f l h c b (List.mem_of_find?_eq_some hf) hb hc]

/-- What must have held for `create_pending_bet` to return. -/
theorem create_pending_bet_ok_inv (create_market : W → M) (s : database W M)
    (better : account_name_type) (stake : asset) (o : odds) (wincase : W)
    (game : game_id_type) (bet_uuid : uuid_type) (kind : pending_bet_kind)
    (bet : pending_bet_object W M) (s1 : database W M)
    (h : create_pending_bet create_market better stake o wincase game bet_uuid kind s
      = .ok bet s1) :
    ∃ bal, s.balance better = some bal ∧ bal.ge stake = .ok true
      ∧ s.dprop.betting_stats.pending_bets_volume.symbol = stake.symbol
      ∧ bet_uuid ∉ s.uuid_hist := by
  cases hfind : s.accounts.find? (fun a => decide (a.name = better)) with
  | none =>
    simp [create_pending_bet, Op.bind_apply, account_service.get_account, hfind] at h
  | some acc =>
    have hbalance : s.balance better = some acc.balance := by
      simp [database.balance, balance_of, hfind]
    cases hge : acc.balance.ge stake with
    | error e =>
      simp [create_pending_bet, Op.bind_apply, account_service.get_account, hfind, hge,
        Op.lift] at h
    | ok r =>
      cases r with
      | false =>
        simp [create_pending_bet, Op.bind_apply, account_service.get_account, hfind, hge,
          Op.lift, FC_ASSERT] at h
      | true =>
        by_cases huuid : bet_uuid ∈ s.uuid_hist
        · simp [create_pending_bet, Op.bind_apply, account_service.get_account, hfind, hge,
            Op.lift, FC_ASSERT, uuid_hist_dba.create, huuid] at h
        · by_cases hvol : s.dprop.betting_stats.pending_bets_volume.symbol = stake.symbol
          · exact ⟨acc.balance, hbalance, hge, hvol, huuid⟩
          · simp [create_pending_bet, Op.bind_apply, account_service.get_account, hfind, hge,
              Op.lift, FC_ASSERT, uuid_hist_dba.create, huuid, Op.get, pending_bet_dba.create,
              asset.add_assign, hvol] at h

theorem plus_neg_plus (a : asset) (x : share_type) : (a.plus (-x)).plus x = a := by
  cases a
  simp [asset.plus]

theorem plus_plus_neg (a : asset) (x : share_type) : (a.plus x).plus (-x) = a := by
  cases a
  simp [asset.plus]

end single_more

/-! ## Loops -/

section loops

variable {W M : Type}

open betting_service

theorem foreach_mut_ok {α : Type} (f : α → Op (database W M) Unit)
    (eff : α → database W M → database W M) (Inv : database W M → Prop) (P : α → Prop)
    (hstep : ∀ x t, P x → Inv t → f x t = .ok () (eff x t) ∧ Inv (eff x t))
    (l : List α) (hP : ∀ x ∈ l, P x) (s : database W M) (hs : Inv s) :
    foreach_mut f l s = .ok () (l.foldl (fun t x => eff x t) s)
      ∧ Inv (l.foldl (fun t x => eff x t) s) := by
  induction l generalizing s with
  | nil => exact ⟨rfl, hs⟩
  | cons x xs ih =>
    obtain ⟨h1, h2⟩ := hstep x s (hP x (List.mem_cons_self x xs)) hs
    have ih2 := ih (fun y hy => hP y (List.mem_cons_of_mem x hy)) (eff x s) h2
    refine ⟨?_, ih2.2⟩
    show (f x >>= fun _ => foreach_mut f xs) s = _
    rw [Op.bind_apply, h1]
    exact ih2.1

theorem consistent_find_account {sym : asset_symbol_type} {names : List account_name_type}
    {game_id : game_id_type} {game_uuid : uuid_type} {s : database W M}
    (hs : consistent sym names game_id game_uuid s) (n : account_name_type) (hn : n ∈ names) :
    ∃ acc, s.accounts.find? (fun a => decide (a.name = n)) = some acc
      ∧ acc.balance.symbol = sym := by
  obtain ⟨acc, hf, _, hmem⟩ := find_account_of_mem s.accounts n (by rw [hs.names_eq]; exact hn)
  exact ⟨acc, hf, hs.balances acc hmem⟩

theorem consistent_credit {sym : asset_symbol_type} {names : List account_name_type}
    {game_id : game_id_type} {game_uuid : uuid_type} {s : database W M}
    (hs : consistent sym names game_id game_uuid s) (n : account_name_type) (amt : share_type) :
    consistent sym names game_id game_uuid (credit n amt s) :=
  { names_eq := by
      show (credit_accounts n amt s.accounts).map _ = names
      rw [names_credit_accounts]; exact hs.names_eq
    balances := symbols_credit_accounts s.accounts n amt sym hs.balances
    pending_volume := hs.pending_volume
    matched_volume := hs.matched_volume
    pending_stakes := hs.pending_stakes
    game_by_uuid := hs.game_by_uuid }

theorem consistent_push_op {sym : asset_symbol_type} {names : List account_name_type}
    {game_id : game_id_type} {game_uuid : uuid_type} {s : database W M}
    (hs : consistent sym names game_id game_uuid s) (op : virtual_operation) :
    consistent sym names game_id game_uuid (push_op op s) :=
  { names_eq := hs.names_eq
    balances := hs.balances
    pending_volume := hs.pending_volume
    matched_volume := hs.matched_volume
    pending_stakes := hs.pending_stakes
    game_by_uuid := hs.game_by_uuid }

theorem consistent_add_pending_volume {sym : asset_symbol_type} {names : List account_name_type}
    {game_id : game_id_type} {game_uuid : uuid_type} {s : database W M}
    (hs : consistent sym names game_id game_uuid s) (amt : share_type) :
    consistent sym names game_id game_uuid (add_pending_volume amt s) :=
  { names_eq := hs.names_eq
    balances := hs.balances
    pending_volume := hs.pending_volume
    matched_volume := hs.matched_volume
    pending_stakes := hs.pending_stakes
    game_by_uuid := hs.game_by_uuid }

theorem consistent_add_matched_volume {sym : asset_symbol_type} {names : List account_name_type}
    {game_id : game_id_type} {game_uuid : uuid_type} {s : database W M}
    (hs : consistent sym names game_id game_uuid s) (amt : share_type) :
    consistent sym names game_id game_uuid (add_matched_volume amt s) :=
  { names_eq := hs.names_eq
    balances := hs.balances
    pending_volume := hs.pending_volume
    matched_volume := hs.matched_volume
    pending_stakes := hs.pending_stakes
    game_by_uuid := hs.game_by_uuid }

theorem consistent_remove_pending {sym : asset_symbol_type} {names : List account_name_type}
    {game_id : game_id_type} {game_uuid : uuid_type} {s : database W M}
    (hs : consistent sym names game_id game_uuid s) (ids : List pending_bet_id_type) :
    consistent sym names game_id game_uuid (remove_pending ids s) :=
  { names_eq := hs.names_eq
    balances := hs.balances
    pending_volume := hs.pending_volume
    matched_volume := hs.matched_volume
    pending_stakes := fun p hp => hs.pending_stakes p (List.mem_of_mem_filter hp)
    game_by_uuid := hs.game_by_uuid }

theorem cancel_pending_bet_step {sym : asset_symbol_type} {names : List account_name_type}
    {game_id : game_id_type} {game_uuid : uuid_type} (g : uuid_type)
    (bet : pending_bet_object W M) (s : database W M)
    (hb : payable sym names bet.data) (hs : consistent sym names game_id game_uuid s) :
    cancel_pending_bet bet g s = .ok () (cancel_pending_bet_result g bet s)
      ∧ consistent sym names game_id game_uuid (cancel_pending_bet_result g bet s) := by
  obtain ⟨acc, hf, hsym⟩ := consistent_find_account hs bet.data.better hb.2
  refine ⟨cancel_pending_bet_ok s bet g acc hf (hsym.trans hb.1.symm)
    (hs.pending_volume.trans hb.1.symm), ?_⟩
  exact consistent_remove_pending
    (consistent_add_pending_volume (consistent_push_op (consistent_credit hs _ _) _) _) _

theorem return_bet_step {sym : asset_symbol_type} {names : List account_name_type}
    {game_id : game_id_type} {game_uuid : uuid_type} (g : uuid_type)
    (bet : bet_data W) (s : database W M)
    (hb : payable sym names bet) (hs : consistent sym names game_id game_uuid s) :
    return_bet bet g s = .ok () (return_bet_result (M := M) g bet s)
      ∧ consistent sym names game_id game_uuid (return_bet_result g bet s) := by
  obtain ⟨acc, hf, hsym⟩ := consistent_find_account hs bet.better hb.2
  refine ⟨return_bet_ok s bet g acc hf (hsym.trans hb.1.symm)
    (hs.matched_volume.trans hb.1.symm), ?_⟩
  exact consistent_add_matched_volume (consistent_push_op (consistent_credit hs _ _) _) _

theorem restore_index_stakes [LinearOrder W] (create_market : W → M) (game_id : game_id_type)
    (bet : bet_data W) (idx : db_index (pending_bet_object W M)) (sym : asset_symbol_type)
    (hbet : bet.stake.symbol = sym) (h : ∀ p ∈ idx.objects, p.data.stake.symbol = sym) :
    ∀ p ∈ (restore_index create_market game_id bet idx).objects, p.data.stake.symbol = sym := by
  unfold restore_index
  split
  · rename_i found hf
    have hmem : found ∈ idx.objects := List.mem_of_mem_filter (List.mem_of_find?_eq_some hf)
    intro p hp
    obtain ⟨q, hq, rfl⟩ := List.mem_map.mp hp
    by_cases hid : q.id = found.id
    · simp only [hid, if_true, asset.plus]
      exact h found hmem
    · simp only [hid, if_false]
      exact h q hq
  · intro p hp
    rcases List.mem_append.mp hp with hp | hp
    · exact h p hp
    · rw [List.mem_singleton] at hp
      subst hp
      exact hbet

theorem restore_pending_bet_step [LinearOrder W] {sym : asset_symbol_type}
    {names : List account_name_type} {game_id : game_id_type} {game_uuid : uuid_type}
    (create_market : W → M) (bet : bet_data W) (s : database W M)
    (hb : bet.stake.symbol = sym) (hs : consistent sym names game_id game_uuid s) :
    restore_pending_bet create_market bet game_uuid s
        = .ok () (restore_pending_bet_result create_market game_id game_uuid bet s)
      ∧ consistent sym names game_id game_uuid
          (restore_pending_bet_result create_market game_id game_uuid bet s) := by
  obtain ⟨g, hg, hid⟩ := hs.game_by_uuid
  have h1 := restore_pending_bet_ok create_market s bet game_uuid g hg
    (fun p hp => (hs.pending_stakes p hp).trans hb.symm)
    (hs.pending_volume.trans hb.symm) (hs.matched_volume.trans hb.symm)
  rw [hid] at h1
  refine ⟨h1, ?_⟩
  exact
    { names_eq := hs.names_eq
      balances := hs.balances
      pending_volume := hs.pending_volume
      matched_volume := hs.matched_volume
      pending_stakes := restore_index_stakes create_market game_id bet s.pending_bets sym hb
        hs.pending_stakes
      game_by_uuid := hs.game_by_uuid }

theorem cancel_bets_leg_step [LinearOrder W] {sym : asset_symbol_type}
    {names : List account_name_type} {game_id : game_id_type} {game_uuid : uuid_type}
    (create_market : W → M) (created_after : time_point_sec) (leg : bet_data W)
    (s : database W M)
    (hb : payable sym names leg) (hs : consistent sym names game_id game_uuid s) :
    cancel_bets_leg create_market created_after game_uuid leg s
        = .ok () (cancel_bets_leg_result create_market game_id game_uuid created_after leg s)
      ∧ consistent sym names game_id game_uuid
          (cancel_bets_leg_result create_market game_id game_uuid created_after leg s) := by
  unfold cancel_bets_leg cancel_bets_leg_result
  by_cases h : leg.created ≥ created_after
  · simp only [h, if_true]
    exact return_bet_step game_uuid leg s hb hs
  · simp only [h, if_false]
    exact restore_pending_bet_step create_market leg s hb.1 hs

/-- The loop over the matched bets visits the legs one after the other. -/
theorem foreach_mut_legs (f : bet_data W → Op (database W M) Unit)
    (l : List (matched_bet_object W M)) (s : database W M) :
    foreach_mut (fun m => do f m.bet1_data; f m.bet2_data) l s
      = foreach_mut f (legs_of l) s := by
  induction l generalizing s with
  | nil => rfl
  | cons m ms ih =>
    show ((f m.bet1_data >>= fun _ => f m.bet2_data) >>= fun _ => foreach_mut _ ms) s
      = (f m.bet1_data >>= fun _ => (f m.bet2_data >>= fun _ => foreach_mut f (legs_of ms))) s
    simp only [Op.bind_apply]
    cases f m.bet1_data s with
    | thrown e t => rfl
    | ok u t =>
      simp only
      cases f m.bet2_data t with
      | thrown e t2 => rfl
      | ok u2 t2 => exact ih t2

end loops

/-! ## The call `cancel_bets(game_id, created_after)` as a whole -/

section whole

variable {W M : Type}

open betting_service

theorem mem_pending_range (s : database W M) (game_id : game_id_type) (t : time_point_sec)
    (p : pending_bet_object W M) :
    p ∈ pending_bet_dba.get_range_by_game_id_created game_id t s
      ↔ p ∈ s.pending_bets.objects ∧ p.game = game_id ∧ t ≤ p.data.created := by
  unfold pending_bet_dba.get_range_by_game_id_created
  rw [(List.perm_insertionSort _ _).mem_iff]
  simp [List.mem_filter]

theorem mem_matched_range (s : database W M) (game_id : game_id_type) (t : time_point_sec)
    (m : matched_bet_object W M) :
    m ∈ matched_bet_dba.get_range_by_game_id_created game_id t s
      ↔ m ∈ s.matched_bets.objects ∧ m.game = game_id ∧ t ≤ m.created := by
  unfold matched_bet_dba.get_range_by_game_id_created
  rw [(List.perm_insertionSort _ _).mem_iff]
  simp [List.mem_filter]

theorem mem_legs_of (l : List (matched_bet_object W M)) (leg : bet_data W) :
    leg ∈ legs_of l ↔ ∃ m ∈ l, leg = m.bet1_data ∨ leg = m.bet2_data := by
  simp [legs_of, List.mem_flatMap]

theorem well_formed_consistent {sym : asset_symbol_type} {s : database W M}
    (hwf : s.well_formed sym) (game_id : game_id_type) (game : game_object)
    (hgame : s.games.find? (fun g => decide (g.id = game_id)) = some game) :
    consistent sym (s.accounts.map (fun a => a.name)) game_id game.uuid s := by
  have hmem : game ∈ s.games := List.mem_of_find?_eq_some hgame
  have hid : game.id = game_id := by simpa using List.find?_some hgame
  refine
    { names_eq := rfl
      balances := hwf.balances
      pending_volume := hwf.pending_volume
      matched_volume := hwf.matched_volume
      pending_stakes := fun p hp => (hwf.pending_bets p hp).1
      game_by_uuid := ?_ }
  cases hf : s.games.find? (fun g => decide (g.uuid = game.uuid)) with
  | none =>
    rw [List.find?_eq_none] at hf
    exact absurd (by simp) (hf game hmem)
  | some g =>
    refine ⟨g, rfl, ?_⟩
    have hu : g.uuid = game.uuid := by simpa using List.find?_some hf
    rw [hwf.game_uuids g (List.mem_of_find?_eq_some hf) game hmem hu, hid]

/-- In a well-formed state with the game in the store, `cancel_bets(game_id, created_after)`
returns, in the state described by `cancel_bets_created_after_result`. -/
theorem cancel_bets_created_after_ok [LinearOrder W] (create_market : W → M)
    (s : database W M) (game_id : game_id_type) (created_after : time_point_sec)
    (game : game_object) (sym : asset_symbol_type) (hwf : s.well_formed sym)
    (hgame : s.games.find? (fun g => decide (g.id = game_id)) = some game) :
    cancel_bets_created_after create_market game_id created_after s
      = .ok () (cancel_bets_created_after_result create_market game_id game.uuid
          created_after s) := by
  have hcons := well_formed_consistent hwf game_id game hgame
  have hp := foreach_mut_ok (fun bet => cancel_pending_bet bet game.uuid)
    (fun bet t => cancel_pending_bet_result game.uuid bet t)
    (consistent sym (s.accounts.map (fun a => a.name)) game_id game.uuid)
    (fun bet => payable sym (s.accounts.map (fun a => a.name)) bet.data)
    (fun bet t hb ht => cancel_pending_bet_step game.uuid bet t hb ht)
    (pending_bet_dba.get_range_by_game_id_created game_id created_after s)
    (fun bet hbet => hwf.pending_bets bet ((mem_pending_range s game_id created_after bet).mp hbet).1)
    s hcons
  have hm := foreach_mut_ok
    (cancel_bets_leg create_market created_after game.uuid)
    (fun leg t => cancel_bets_leg_result create_market game_id game.uuid created_after leg t)
    (consistent sym (s.accounts.map (fun a => a.name)) game_id game.uuid)
    (payable sym (s.accounts.map (fun a => a.name)))
    (fun leg t hb ht => cancel_bets_leg_step create_market created_after leg t hb ht)
    (legs_of (matched_bet_dba.get_range_by_game_id_created game_id created_after s))
    (fun leg hleg => by
      obtain ⟨m, hmr, hl⟩ := (mem_legs_of _ leg).mp hleg
      have hmem := ((mem_matched_range s game_id created_after m).mp hmr).1
      rcases hl with hl | hl
      · rw [hl]; exact (hwf.matched_bets m hmem).1
      · rw [hl]; exact (hwf.matched_bets m hmem).2)
    _ hp.2
  unfold cancel_bets_created_after cancel_bets_created_after_result
  simp only [Op.bind_apply, Op.get, game_dba.get_by_id, hgame, cancel_pending_bets_range, hp.1]
  rw [foreach_mut_legs (cancel_bets_leg create_market created_after game.uuid), hm.1]
  rfl

end whole

/-! ## Field by field: the state after the loops -/

section projections

variable {W M : Type}

open betting_service

theorem plus_zero (a : asset) : a.plus 0 = a := by
  cases a
  simp [asset.plus]

theorem balance_of_foldl_credit {α : Type} (name : α → account_name_type)
    (amount : α → share_type) (l : List α) (accs : List account_object)
    (a : account_name_type) :
    balance_of (l.foldl (fun acc x => credit_accounts (name x) (amount x) acc) accs) a
      = (balance_of accs a).map (fun b =>
          b.plus ((l.filter (fun x => decide (name x = a))).map amount).sum) := by
  induction l generalizing accs with
  | nil =>
    cases h : balance_of accs a with
    | none => simp [h]
    | some b => cases b; simp [h, asset.plus]
  | cons x xs ih =>
    rw [List.foldl_cons, ih, balance_of_credit_accounts]
    by_cases hx : name x = a
    · have hx2 : a = name x := hx.symm
      simp only [hx2, if_true, List.filter_cons, decide_True, List.map_cons, List.sum_cons]
      cases h : balance_of accs (name x) with
      | none => rfl
      | some b => cases b; simp [asset.plus, add_assoc]
    · have hx2 : ¬ a = name x := fun h => hx h.symm
      simp [hx2, hx, List.filter_cons]

/-- The state after the loop over the pending range, field by field. -/
theorem pending_fold_fields (g : uuid_type) (l : List (pending_bet_object W M))
    (s : database W M) :
    let t := l.foldl (fun t bet => cancel_pending_bet_result g bet t) s
    t.accounts = l.foldl (fun acc b => credit_accounts b.data.better b.data.stake.amount acc)
        s.accounts
    ∧ t.virt_ops = s.virt_ops ++ l.map (fun b => cancelled_op g .pending b.data)
    ∧ t.dprop.betting_stats.pending_bets_volume
        = s.dprop.betting_stats.pending_bets_volume.plus
            (-(stake_sum (l.map (fun b => b.data))))
    ∧ t.dprop.betting_stats.matched_bets_volume = s.dprop.betting_stats.matched_bets_volume
    ∧ t.dprop.time = s.dprop.time
    ∧ t.pending_bets.objects
        = s.pending_bets.objects.filter (fun o => decide (o.id ∉ l.map (fun b => b.id)))
    ∧ t.pending_bets.next_id = s.pending_bets.next_id
    ∧ t.matched_bets = s.matched_bets
    ∧ t.games = s.games
    ∧ t.uuid_hist = s.uuid_hist
    ∧ t.betting_property = s.betting_property := by
  induction l generalizing s with
  | nil =>
    refine ⟨rfl, by simp, ?_, rfl, rfl, by simp, rfl, rfl, rfl, rfl, rfl⟩
    simp [stake_sum, plus_zero]
  | cons b bs ih =>
    obtain ⟨h1, h2, h3, h4, h5, h6, h7, h8, h9, h10, h11⟩ := ih (cancel_pending_bet_result g b s)
    simp only [List.foldl_cons]
    refine ⟨h1, ?_, ?_, h4, h5, ?_, h7, h8, h9, h10, h11⟩
    · rw [h2]
      simp [cancel_pending_bet_result, remove_pending, add_pending_volume, push_op, credit]
    · rw [h3]
      simp [cancel_pending_bet_result, remove_pending, add_pending_volume, push_op, credit,
        asset.plus, stake_sum, add_assoc, add_comm]
    · rw [h6]
      simp [cancel_pending_bet_result, remove_pending, add_pending_volume, push_op, credit,
        List.filter_filter]
      apply List.filter_congr
      intro o _
      by_cases ho : o.id = b.id <;> simp [ho]

/-- The state after the loop over the legs, field by field. -/
theorem leg_fold_fields [LinearOrder W] (create_market : W → M) (game_id : game_id_type)
    (g : uuid_type) (created_after : time_point_sec) (l : List (bet_data W))
    (s : database W M) :
    let t := l.foldl
      (fun t leg => cancel_bets_leg_result create_market game_id g created_after leg t) s
    t.accounts = (returned_legs created_after l).foldl
        (fun acc b => credit_accounts b.better b.stake.amount acc) s.accounts
    ∧ t.virt_ops = s.virt_ops ++ l.map (leg_op g created_after)
    ∧ t.dprop.betting_stats.pending_bets_volume
        = s.dprop.betting_stats.pending_bets_volume.plus
            (stake_sum (restored_legs created_after l))
    ∧ t.dprop.betting_stats.matched_bets_volume
        = s.dprop.betting_stats.matched_bets_volume.plus (-(stake_sum l))
    ∧ t.dprop.time = s.dprop.time
    ∧ t.pending_bets = (restored_legs created_after l).foldl
        (fun idx leg => restore_index create_market game_id leg idx) s.pending_bets
    ∧ t.matched_bets = s.matched_bets
    ∧ t.games = s.games
    ∧ t.uuid_hist = s.uuid_hist
    ∧ t.betting_property = s.betting_property := by
  induction l generalizing s with
  | nil =>
    refine ⟨rfl, by simp, ?_, ?_, rfl, rfl, rfl, rfl, rfl, rfl⟩
    · simp [stake_sum, plus_zero, restored_legs]
    · simp [stake_sum, plus_zero]
  | cons b bs ih =>
    obtain ⟨h1, h2, h3, h4, h5, h6, h7, h8, h9, h10⟩ :=
      ih (cancel_bets_leg_result create_market game_id g created_after b s)
    simp only [List.foldl_cons]
    by_cases hb : b.created ≥ created_after
    · have hr : returned_legs created_after (b :: bs) = b :: returned_legs created_after bs := by
        simp [returned_legs, List.filter_cons, hb]
      have hs : restored_legs created_after (b :: bs) = restored_legs created_after bs := by
        simp [restored_legs, List.filter_cons, hb]
      rw [hr, hs]
      refine ⟨?_, ?_, ?_, ?_, ?_, ?_, ?_, ?_, ?_, ?_⟩
      · rw [h1]; simp [cancel_bets_leg_result, hb, return_bet_result, add_matched_volume, push_op, credit]
      · rw [h2]; simp [cancel_bets_leg_result, hb, return_bet_result, add_matched_volume, push_op, credit, leg_op]
      · rw [h3]; simp [cancel_bets_leg_result, hb, return_bet_result, add_matched_volume, push_op, credit]
      · rw [h4]; simp [cancel_bets_leg_result, hb, return_bet_result, add_matched_volume, push_op, credit, asset.plus, stake_sum, add_assoc, add_comm]
      · rw [h5]; simp [cancel_bets_leg_result, hb, return_bet_result, add_matched_volume, push_op, credit]
      · rw [h6]; simp [cancel_bets_leg_result, hb, return_bet_result, add_matched_volume, push_op, credit]
      · rw [h7]; simp [cancel_bets_leg_result, hb, return_bet_result, add_matched_volume, push_op, credit]
      · rw [h8]; simp [cancel_bets_leg_result, hb, return_bet_result, add_matched_volume, push_op, credit]
      · rw [h9]; simp [cancel_bets_leg_result, hb, return_bet_result, add_matched_volume, push_op, credit]
      · rw [h10]; simp [cancel_bets_leg_result, hb, return_bet_result, add_matched_volume, push_op, credit]
    · have hr : returned_legs created_after (b :: bs) = returned_legs created_after bs := by
        simp [returned_legs, List.filter_cons, hb]
      have hs : restored_legs created_after (b :: bs) = b :: restored_legs created_after bs := by
        simp [restored_legs, List.filter_cons, hb]
      rw [hr, hs]
      refine ⟨?_, ?_, ?_, ?_, ?_, ?_, ?_, ?_, ?_, ?_⟩
      · rw [h1]; simp [cancel_bets_leg_result, hb, restore_pending_bet_result, add_matched_volume, add_pending_volume, push_op]
      · rw [h2]; simp [cancel_bets_leg_result, hb, restore_pending_bet_result, add_matched_volume, add_pending_volume, push_op, leg_op]
      · rw [h3]; simp [cancel_bets_leg_result, hb, restore_pending_bet_result, add_matched_volume, add_pending_volume, push_op, asset.plus, stake_sum, add_assoc]
      · rw [h4]; simp [cancel_bets_leg_result, hb, restore_pending_bet_result, add_matched_volume, add_pending_volume, push_op, asset.plus, stake_sum, add_assoc, add_comm]
      · rw [h5]; simp [cancel_bets_leg_result, hb, restore_pending_bet_result, add_matched_volume, add_pending_volume, push_op]
      · rw [h6]; simp [cancel_bets_leg_result, hb, restore_pending_bet_result, add_matched_volume, add_pending_volume, push_op]
      · rw [h7]; simp [cancel_bets_leg_result, hb, restore_pending_bet_result, add_matched_volume, add_pending_volume, push_op]
      · rw [h8]; simp [cancel_bets_leg_result, hb, restore_pending_bet_result, add_matched_volume, add_pending_volume, push_op]
      · rw [h9]; simp [cancel_bets_leg_result, hb, restore_pending_bet_result, add_matched_volume, add_pending_volume, push_op]
      · rw [h10]; simp [cancel_bets_leg_result, hb, restore_pending_bet_result, add_matched_volume, add_pending_volume, push_op]

end projections

/-! ## The pending index under `restore_pending_bet` -/

section index

variable {W M : Type}

open betting_service

theorem restore_matches_iff [LinearOrder W] (game_id : game_id_type) (bet : bet_data W)
    (o : pending_bet_object W M) :
    ((decide (o.game = game_id) && decide (o.data.better = bet.better))
        && restore_matches bet o) = true ↔ same_key game_id bet o := by
  unfold restore_matches same_key
  simp only [Bool.and_eq_true, decide_eq_true_eq, Bool.not_eq_true', decide_eq_false_iff_not,
    not_lt]
  constructor
  · rintro ⟨⟨h1, h2⟩, ⟨⟨⟨h3, h4⟩, h5⟩, h6⟩, h7⟩
    exact ⟨h1, h2, le_antisymm h7 h6, h4, h5, h3⟩
  · rintro ⟨h1, h2, h3, h4, h5, h6⟩
    exact ⟨⟨h1, h2⟩, ⟨⟨⟨h6, h4⟩, h5⟩, h3 ▸ le_refl _⟩, h3 ▸ le_refl _⟩

/-- The lookup of `restore_pending_bet` finds the first row with the key of the leg. -/
theorem restore_index_eq [LinearOrder W] (create_market : W → M) (game_id : game_id_type)
    (bet : bet_data W) (idx : db_index (pending_bet_object W M)) :
    restore_index create_market game_id bet idx
      = match idx.objects.find? (fun o => decide (same_key game_id bet o)) with
        | some found =>
          { idx with
            objects := idx.objects.map (fun o =>
              if o.id = found.id then
                { o with data := { o.data with stake := found.data.stake.plus bet.stake.amount } }
              else o) }
        | none =>
          { objects := idx.objects ++
              [{ id := idx.next_id, game := game_id, market := create_market bet.wincase
                 data := bet }]
            next_id := idx.next_id + 1 } := by
  unfold restore_index
  rw [List.find?_filter]
  have hfun : (fun o : pending_bet_object W M =>
      decide ((decide (o.game = game_id) && decide (o.data.better = bet.better)) = true
        ∧ restore_matches bet o = true)) = (fun o => decide (same_key game_id bet o)) := by
    funext o
    apply decide_eq_decide.mpr
    rw [← restore_matches_iff]
    simp only [Bool.and_eq_true]
  rw [hfun]

theorem same_key_new_row (create_market : W → M) (game_id : game_id_type) (k bet : bet_data W)
    (n : Nat) :
    same_key game_id k
        ({ id := n, game := game_id, market := create_market bet.wincase, data := bet } :
          pending_bet_object W M)
      ↔ same_leg_key k bet := by
  unfold same_key same_leg_key
  simp only [true_and]
  constructor
  · rintro ⟨h1, h2, h3, h4, h5⟩
    exact ⟨h1.symm, h2.symm, h3.symm, h4.symm, h5.symm⟩
  · rintro ⟨h1, h2, h3, h4, h5⟩
    exact ⟨h1.symm, h2.symm, h3.symm, h4.symm, h5.symm⟩

theorem same_key_trans_leg (game_id : game_id_type) (k bet : bet_data W)
    (o : pending_bet_object W M) (ho : same_key game_id bet o) :
    same_key game_id k o ↔ same_leg_key k bet := by
  unfold same_key same_leg_key at *
  obtain ⟨h0, h1, h2, h3, h4, h5⟩ := ho
  constructor
  · rintro ⟨_, g1, g2, g3, g4, g5⟩
    exact ⟨g1.symm.trans h1, g2.symm.trans h2, g3.symm.trans h3, g4.symm.trans h4,
      g5.symm.trans h5⟩
  · rintro ⟨g1, g2, g3, g4, g5⟩
    exact ⟨h0, h1.trans g1.symm, h2.trans g2.symm, h3.trans g3.symm, h4.trans g4.symm,
      h5.trans g5.symm⟩

/-- The row that `restore_pending_bet` found has the key of the leg and is in the store. -/
theorem find_same_key_spec [DecidableEq W] (game_id : game_id_type) (bet : bet_data W)
    (objs : List (pending_bet_object W M)) (found : pending_bet_object W M)
    (h : objs.find? (fun o => decide (same_key game_id bet o)) = some found) :
    found ∈ objs ∧ same_key game_id bet found :=
  ⟨List.mem_of_find?_eq_some h, by simpa using List.find?_some h⟩

/-- After a restore the leg is represented by a pending row with its key. -/
theorem restore_index_has_key [LinearOrder W] (create_market : W → M) (game_id : game_id_type)
    (bet : bet_data W) (idx : db_index (pending_bet_object W M)) :
    ∃ r ∈ (restore_index create_market game_id bet idx).objects, same_key game_id bet r := by
  rw [restore_index_eq]
  cases hf : idx.objects.find? (fun o => decide (same_key game_id bet o)) with
  | none =>
    refine ⟨{ id := idx.next_id, game := game_id, market := create_market bet.wincase
              data := bet }, by simp, ?_⟩
    exact ⟨rfl, rfl, rfl, rfl, rfl, rfl⟩
  | some found =>
    obtain ⟨hmem, hkey⟩ := find_same_key_spec game_id bet idx.objects found hf
    refine ⟨{ found with data := { found.data with
      stake := found.data.stake.plus bet.stake.amount } }, ?_, hkey⟩
    simp only [List.mem_map]
    exact ⟨found, hmem, by simp⟩

/-- A restore keeps every key that was represented. -/
theorem restore_index_keeps_key [LinearOrder W] (create_market : W → M) (game_id : game_id_type)
    (bet : bet_data W) (idx : db_index (pending_bet_object W M)) (g : game_id_type)
    (k : bet_data W) (h : ∃ r ∈ idx.objects, same_key g k r) :
    ∃ r ∈ (restore_index create_market game_id bet idx).objects, same_key g k r := by
  obtain ⟨r, hr, hk⟩ := h
  rw [restore_index_eq]
  cases hf : idx.objects.find? (fun o => decide (same_key game_id bet o)) with
  | none => exact ⟨r, by simp [hr], hk⟩
  | some found =>
    by_cases hid : r.id = found.id
    · refine ⟨{ r with data := { r.data with
        stake := found.data.stake.plus bet.stake.amount } }, ?_, hk⟩
      simp only [List.mem_map]
      exact ⟨r, hr, by simp [hid]⟩
    · refine ⟨r, ?_, hk⟩
      simp only [List.mem_map]
      exact ⟨r, hr, by simp [hid]⟩

/-- A restore neither reuses an id that is absent and below the counter. -/
theorem restore_index_absent [LinearOrder W] (create_market : W → M) (game_id : game_id_type)
    (bet : bet_data W) (idx : db_index (pending_bet_object W M)) (n : Nat)
    (h : n < idx.next_id ∧ ∀ p ∈ idx.objects, p.id ≠ n) :
    n < (restore_index create_market game_id bet idx).next_id
      ∧ ∀ p ∈ (restore_index create_market game_id bet idx).objects, p.id ≠ n := by
  rw [restore_index_eq]
  cases hf : idx.objects.find? (fun o => decide (same_key game_id bet o)) with
  | none =>
    refine ⟨Nat.lt_succ_of_lt h.1, ?_⟩
    intro p hp
    rcases List.mem_append.mp hp with hp | hp
    · exact h.2 p hp
    · rw [List.mem_singleton] at hp
      subst hp
      exact Nat.ne_of_gt h.1
  | some found =>
    refine ⟨h.1, ?_⟩
    intro p hp
    obtain ⟨q, hq, rfl⟩ := List.mem_map.mp hp
    by_cases hid : q.id = found.id
    · simp only [hid, if_true]
      exact hid ▸ h.2 q hq
    · simp only [hid, if_false]
      exact h.2 q hq

theorem restore_index_ids_found (found : pending_bet_object W M) (st : asset)
    (objs : List (pending_bet_object W M)) :
    (objs.map (fun o =>
        if o.id = found.id then { o with data := { o.data with stake := st } } else o)).map
      (fun p => p.id) = objs.map (fun p => p.id) := by
  rw [List.map_map]
  apply List.map_congr_left
  intro o _
  by_cases h : o.id = found.id <;> simp [h]

/-- A restore keeps the ids of the pending index distinct and below the counter. -/
theorem restore_index_wf [LinearOrder W] (create_market : W → M) (game_id : game_id_type)
    (bet : bet_data W) (idx : db_index (pending_bet_object W M)) (h : index_wf idx) :
    index_wf (restore_index create_market game_id bet idx) := by
  rw [restore_index_eq]
  cases hf : idx.objects.find? (fun o => decide (same_key game_id bet o)) with
  | none =>
    constructor
    · simp only [List.map_append, List.map_cons, List.map_nil]
      rw [List.nodup_append]
      refine ⟨h.1, List.nodup_singleton _, ?_⟩
      intro a ha hb
      rw [List.mem_singleton] at hb
      obtain ⟨p, hp, rfl⟩ := List.mem_map.mp ha
      exact absurd hb (Nat.ne_of_lt (h.2 p hp))
    · intro p hp
      rcases List.mem_append.mp hp with hp | hp
      · exact Nat.lt_succ_of_lt (h.2 p hp)
      · rw [List.mem_singleton] at hp
        subst hp
        exact Nat.lt_succ_self _
  | some found =>
    constructor
    · simp only
      rw [restore_index_ids_found]
      exact h.1
    · intro p hp
      obtain ⟨q, hq, rfl⟩ := List.mem_map.mp hp
      by_cases hid : q.id = found.id
      · simp only [hid, if_true]
        exact hid ▸ h.2 q hq
      · simp only [hid, if_false]
        exact h.2 q hq

/-- A restore keeps the keys of the pending rows pairwise distinct. -/
theorem restore_index_keys_unique [LinearOrder W] (create_market : W → M)
    (game_id : game_id_type) (bet : bet_data W) (idx : db_index (pending_bet_object W M))
    (h : keys_unique idx.objects) :
    keys_unique (restore_index create_market game_id bet idx).objects := by
  rw [restore_index_eq]
  cases hf : idx.objects.find? (fun o => decide (same_key game_id bet o)) with
  | none =>
    unfold keys_unique
    simp only
    rw [List.pairwise_append]
    refine ⟨h, List.pairwise_singleton _ _, ?_⟩
    intro p hp q hq
    rw [List.mem_singleton] at hq
    subst hq
    rw [List.find?_eq_none] at hf
    intro hk
    apply hf p hp
    simp only [decide_eq_true_eq]
    obtain ⟨h0, h1, h2, h3, h4, h5⟩ := hk
    exact ⟨h0.symm, h1.symm, h2.symm, h3.symm, h4.symm, h5.symm⟩
  | some found =>
    unfold keys_unique at *
    simp only
    refine List.Pairwise.map _ ?_ h
    intro p q hpq
    by_cases hp : p.id = found.id <;> by_cases hq : q.id = found.id <;>
      simpa [hp, hq, same_key] using hpq

end index

section index_sums

variable {W M : Type}

theorem sum_indicator_id (objs : List (pending_bet_object W M))
    (found : pending_bet_object W M) (c : pending_bet_object W M → share_type)
    (hnd : (objs.map (fun p => p.id)).Nodup) (hmem : found ∈ objs) :
    (objs.map (fun o => if o.id = found.id then c o else 0)).sum = c found := by
  induction objs with
  | nil => simp at hmem
  | cons x xs ih =>
    simp only [List.map_cons, List.nodup_cons, List.mem_map, not_exists, not_and] at hnd
    obtain ⟨hx, hxs⟩ := hnd
    rcases List.mem_cons.mp hmem with h | h
    · subst h
      have hzero : (xs.map (fun o => if o.id = found.id then c o else 0)).sum = 0 := by
        apply List.sum_eq_zero
        intro v hv
        obtain ⟨o, ho, rfl⟩ := List.mem_map.mp hv
        have : ¬ o.id = found.id := hx o ho
        simp [this]
      simp [hzero]
    · have hne : ¬ x.id = found.id := fun he => hx found h he.symm
      simp only [List.map_cons, List.sum_cons, hne, if_false, zero_add]
      exact ih hxs h

/-- A restore adds the stake of the leg to the stake held under the key of the leg, and
leaves the stake held under every other key as it was. -/
theorem restore_index_key_stake [LinearOrder W] (create_market : W → M) (game_id : game_id_type)
    (bet : bet_data W) (idx : db_index (pending_bet_object W M)) (hwf : index_wf idx)
    (k : bet_data W) :
    key_stake game_id k (restore_index create_market game_id bet idx).objects
      = key_stake game_id k idx.objects
        + (if same_leg_key k bet then bet.stake.amount else 0) := by
  rw [restore_index_eq]
  cases hf : idx.objects.find? (fun o => decide (same_key game_id bet o)) with
  | none =>
    simp only [key_stake, List.map_append, List.sum_append, List.map_cons, List.map_nil,
      List.sum_cons, List.sum_nil, add_zero]
    congr 1
    by_cases hk : same_leg_key k bet
    · have := (same_key_new_row create_market game_id k bet idx.next_id).mpr hk
      simp [hk, this]
    · have : ¬ same_key game_id k
          ({ id := idx.next_id, game := game_id, market := create_market bet.wincase
             data := bet } : pending_bet_object W M) :=
        fun h => hk ((same_key_new_row create_market game_id k bet idx.next_id).mp h)
      simp [hk, this]
  | some found =>
    obtain ⟨hmem, hkey⟩ := find_same_key_spec game_id bet idx.objects found hf
    simp only [key_stake, List.map_map]
    have hpoint : ∀ o ∈ idx.objects,
        ((fun o : pending_bet_object W M =>
            if same_key game_id k o then o.data.stake.amount else 0) ∘
          (fun o : pending_bet_object W M =>
            if o.id = found.id then
              { o with data := { o.data with stake := found.data.stake.plus bet.stake.amount } }
            else o)) o
          = (if same_key game_id k o then o.data.stake.amount else 0)
            + (if o.id = found.id then
                (if same_key game_id k o then bet.stake.amount else 0) else 0) := by
      intro o ho
      by_cases hid : o.id = found.id
      · have hof : o = found := eq_of_id_eq (fun p => p.id) idx.objects hwf.1 o found ho hmem hid
        subst hof
        by_cases hk : same_key game_id k o
        · have hk2 : same_key game_id k
              { o with data := { o.data with stake := o.data.stake.plus bet.stake.amount } } := hk
          simp only [Function.comp_apply, if_true, if_pos hk2, if_pos hk]
          rfl
        · have hk2 : ¬ same_key game_id k
              { o with data := { o.data with stake := o.data.stake.plus bet.stake.amount } } := hk
          simp only [Function.comp_apply, if_true, if_neg hk2, if_neg hk]
          rfl
      · simp [hid]
    rw [List.map_congr_left hpoint, List.sum_map_add,
      sum_indicator_id idx.objects found
        (fun o => if same_key game_id k o then bet.stake.amount else 0) hwf.1 hmem]
    congr 1
    by_cases hk : same_leg_key k bet
    · simp [hk, (same_key_trans_leg game_id k bet found hkey).mpr hk]
    · have : ¬ same_key game_id k found :=
        fun h => hk ((same_key_trans_leg game_id k bet found hkey).mp h)
      simp [hk, this]

theorem restore_fold_wf [LinearOrder W] (create_market : W → M) (game_id : game_id_type)
    (legs : List (bet_data W)) (idx : db_index (pending_bet_object W M)) (h : index_wf idx) :
    index_wf (legs.foldl (fun i leg => restore_index create_market game_id leg i) idx) := by
  induction legs generalizing idx with
  | nil => exact h
  | cons l ls ih => exact ih _ (restore_index_wf create_market game_id l idx h)

theorem restore_fold_absent [LinearOrder W] (create_market : W → M) (game_id : game_id_type)
    (legs : List (bet_data W)) (idx : db_index (pending_bet_object W M)) (n : Nat)
    (h : n < idx.next_id ∧ ∀ p ∈ idx.objects, p.id ≠ n) :
    ∀ p ∈ (legs.foldl (fun i leg => restore_index create_market game_id leg i) idx).objects,
      p.id ≠ n := by
  induction legs generalizing idx with
  | nil => exact h.2
  | cons l ls ih => exact ih _ (restore_index_absent create_market game_id l idx n h)

theorem restore_fold_keeps_key [LinearOrder W] (create_market : W → M) (game_id : game_id_type)
    (legs : List (bet_data W)) (idx : db_index (pending_bet_object W M)) (g : game_id_type)
    (k : bet_data W) (h : ∃ r ∈ idx.objects, same_key g k r) :
    ∃ r ∈ (legs.foldl (fun i leg => restore_index create_market game_id leg i) idx).objects,
      same_key g k r := by
  induction legs generalizing idx with
  | nil => exact h
  | cons l ls ih => exact ih _ (restore_index_keeps_key create_market game_id l idx g k h)

theorem restore_fold_has_key [LinearOrder W] (create_market : W → M) (game_id : game_id_type)
    (legs : List (bet_data W)) (idx : db_index (pending_bet_object W M)) (k : bet_data W)
    (hk : k ∈ legs) :
    ∃ r ∈ (legs.foldl (fun i leg => restore_index create_market game_id leg i) idx).objects,
      same_key game_id k r := by
  induction legs generalizing idx with
  | nil => simp at hk
  | cons l ls ih =>
    rcases List.mem_cons.mp hk with h | h
    · subst h
      exact restore_fold_keeps_key create_market game_id ls _ game_id k
        (restore_index_has_key create_market game_id k idx)
    · exact ih _ h

theorem restore_fold_keys_unique [LinearOrder W] (create_market : W → M)
    (game_id : game_id_type) (legs : List (bet_data W))
    (idx : db_index (pending_bet_object W M)) (h : keys_unique idx.objects) :
    keys_unique
      (legs.foldl (fun i leg => restore_index create_market game_id leg i) idx).objects := by
  induction legs generalizing idx with
  | nil => exact h
  | cons l ls ih => exact ih _ (restore_index_keys_unique create_market game_id l idx h)

theorem restore_fold_key_stake [LinearOrder W] (create_market : W → M) (game_id : game_id_type)
    (legs : List (bet_data W)) (idx : db_index (pending_bet_object W M)) (hwf : index_wf idx)
    (k : bet_data W) :
    key_stake game_id k
        (legs.foldl (fun i leg => restore_index create_market game_id leg i) idx).objects
      = key_stake game_id k idx.objects
        + stake_sum (legs.filter (fun leg => decide (same_leg_key k leg))) := by
  induction legs generalizing idx with
  | nil => simp [stake_sum]
  | cons l ls ih =>
    rw [List.foldl_cons, ih _ (restore_index_wf create_market game_id l idx hwf),
      restore_index_key_stake create_market game_id l idx hwf k]
    by_cases hk : same_leg_key k l
    · simp [hk, List.filter_cons, stake_sum, add_assoc]
    · simp [hk, List.filter_cons, stake_sum]

end index_sums

section whole_fields

variable {W M : Type}

theorem plus_plus (a : asset) (x y : share_type) : (a.plus x).plus y = a.plus (x + y) := by
  cases a
  simp [asset.plus, add_assoc]

/-- The state after `cancel_bets(game_id, created_after)`, field by field. -/
theorem cancel_bets_created_after_fields [LinearOrder W] (create_market : W → M)
    (game_id : game_id_type) (g : uuid_type) (created_after : time_point_sec)
    (s : database W M) :
    let ps := pending_bet_dba.get_range_by_game_id_created game_id created_after s
    let ms := matched_bet_dba.get_range_by_game_id_created game_id created_after s
    let t := cancel_bets_created_after_result create_market game_id g created_after s
    (∀ a, t.balance a = (s.balance a).map (fun b => b.plus
        (stake_sum_of a (ps.map (fun p => p.data))
          + stake_sum_of a (returned_legs created_after (legs_of ms)))))
    ∧ t.virt_ops = s.virt_ops ++ ps.map (fun p => cancelled_op g .pending p.data)
        ++ (legs_of ms).map (leg_op g created_after)
    ∧ t.dprop.betting_stats.pending_bets_volume
        = s.dprop.betting_stats.pending_bets_volume.plus
            (-(stake_sum (ps.map (fun p => p.data)))
              + stake_sum (restored_legs created_after (legs_of ms)))
    ∧ t.dprop.betting_stats.matched_bets_volume
        = s.dprop.betting_stats.matched_bets_volume.plus (-(stake_sum (legs_of ms)))
    ∧ t.dprop.time = s.dprop.time
    ∧ t.pending_bets = (restored_legs created_after (legs_of ms)).foldl
        (fun idx leg => restore_index create_market game_id leg idx)
        { objects := s.pending_bets.objects.filter
            (fun o => decide (o.id ∉ ps.map (fun p => p.id)))
          next_id := s.pending_bets.next_id }
    ∧ t.matched_bets.objects
        = s.matched_bets.objects.filter (fun o => decide (o.id ∉ ms.map (fun m => m.id)))
    ∧ t.games = s.games
    ∧ t.uuid_hist = s.uuid_hist
    ∧ t.betting_property = s.betting_property := by
  intro ps ms t
  have p := pending_fold_fields g ps s
  have l := leg_fold_fields create_market game_id g created_after (legs_of ms)
    (ps.foldl (fun t bet => cancel_pending_bet_result g bet t) s)
  have ht : t = remove_matched (ms.map (fun m => m.id))
      ((legs_of ms).foldl
        (fun t leg => cancel_bets_leg_result create_market game_id g created_after leg t)
        (ps.foldl (fun t bet => cancel_pending_bet_result g bet t) s)) := rfl
  simp only at p l
  generalize ps.foldl (fun t bet => cancel_pending_bet_result g bet t) s = F1 at ht p l
  generalize (legs_of ms).foldl
    (fun t leg => cancel_bets_leg_result create_market game_id g created_after leg t) F1
    = F2 at ht l
  obtain ⟨p1, p2, p3, p4, p5, p6, p7, p8, p9, p10, p11⟩ := p
  obtain ⟨l1, l2, l3, l4, l5, l6, l7, l8, l9, l10⟩ := l
  rw [ht]
  refine ⟨?_, ?_, ?_, ?_, ?_, ?_, ?_, ?_, ?_, ?_⟩
  · intro a
    show balance_of F2.accounts a = _
    rw [l1, p1, balance_of_foldl_credit (fun b : bet_data W => b.better)
        (fun b => b.stake.amount),
      balance_of_foldl_credit (fun b : pending_bet_object W M => b.data.better)
        (fun b => b.data.stake.amount), Option.map_map]
    show Option.map _ (s.balance a) = Option.map _ (s.balance a)
    congr 1
    funext b
    simp only [Function.comp_apply, plus_plus, stake_sum_of, stake_sum, List.filter_map,
      List.map_map]
    rfl
  · show F2.virt_ops = _
    rw [l2, p2]
  · show F2.dprop.betting_stats.pending_bets_volume = _
    rw [l3, p3, plus_plus]
  · show F2.dprop.betting_stats.matched_bets_volume = _
    rw [l4, p4]
  · show F2.dprop.time = _
    rw [l5, p5]
  · show F2.pending_bets = _
    rw [l6]
    congr 1
    cases hpb : F1.pending_bets
    rw [hpb] at p6 p7
    simp only at p6 p7
    rw [p6, p7]
  · show List.filter _ F2.matched_bets.objects = _
    rw [l7, p8]
  · show F2.games = _
    rw [l8, p9]
  · show F2.uuid_hist = _
    rw [l9, p10]
  · show F2.betting_property = _
    rw [l10, p11]

end whole_fields

/-! ## One matched bet among the bets of the range -/

section one_matched

variable {W M : Type}

theorem legs_of_cons (m : matched_bet_object W M) (ms : List (matched_bet_object W M)) :
    legs_of (m :: ms) = m.bet1_data :: m.bet2_data :: legs_of ms := by
  simp [legs_of]

/-- Legs that a filter drops do not show in the filtered legs of the range. -/
theorem filter_legs_erase [DecidableEq W] [DecidableEq M] (p : bet_data W → Bool)
    (m : matched_bet_object W M) (ms : List (matched_bet_object W M))
    (h1 : p m.bet1_data = false) (h2 : p m.bet2_data = false) :
    (legs_of ms).filter p = (legs_of (ms.erase m)).filter p := by
  induction ms with
  | nil => rfl
  | cons x xs ih =>
    by_cases hx : x = m
    · subst hx
      simp [legs_of_cons, List.filter_cons, h1, h2]
    · have he : (x :: xs).erase m = x :: xs.erase m := by
        simp [List.erase_cons, hx]
      rw [he, legs_of_cons, legs_of_cons]
      simp only [List.filter_cons, ih]

/-- A sum over the legs of the range splits off the two legs of one of its bets. -/
theorem sum_legs_erase [DecidableEq W] [DecidableEq M] (f : bet_data W → share_type)
    (m : matched_bet_object W M) (ms : List (matched_bet_object W M)) (hm : m ∈ ms) :
    ((legs_of ms).map f).sum
      = f m.bet1_data + f m.bet2_data + ((legs_of (ms.erase m)).map f).sum := by
  induction ms with
  | nil => simp at hm
  | cons x xs ih =>
    by_cases hx : x = m
    · subst hx
      simp [legs_of_cons, add_assoc]
    · have he : (x :: xs).erase m = x :: xs.erase m := by
        simp [List.erase_cons, hx]
      have hmem : m ∈ xs := by
        rcases List.mem_cons.mp hm with h | h
        · exact absurd h.symm hx
        · exact h
      rw [he, legs_of_cons, legs_of_cons]
      simp only [List.map_cons, List.sum_cons, ih hmem]
      ring

theorem stake_sum_of_filter (a : account_name_type) (p : bet_data W → Bool)
    (l : List (bet_data W)) :
    stake_sum_of a (l.filter p)
      = (l.map (fun leg =>
          if p leg = true ∧ leg.better = a then leg.stake.amount else 0)).sum := by
  induction l with
  | nil => rfl
  | cons x xs ih =>
    unfold stake_sum_of stake_sum at ih ⊢
    rw [List.filter_filter] at ih
    by_cases hp : p x = true <;> by_cases ha : x.better = a <;>
      simp [List.filter_cons, hp, ha, ih]

/-- If the keys are pairwise distinct, the stake held under a key is the stake of the one
row with that key. -/
theorem key_stake_of_unique [DecidableEq W] (game_id : game_id_type) (k : bet_data W)
    (objs : List (pending_bet_object W M)) (hu : keys_unique objs)
    (r : pending_bet_object W M) (hr : r ∈ objs) (hk : same_key game_id k r) :
    key_stake game_id k objs = r.data.stake.amount := by
  induction objs with
  | nil => simp at hr
  | cons x xs ih =>
    unfold keys_unique at hu
    rw [List.pairwise_cons] at hu
    obtain ⟨hx, hxs⟩ := hu
    have hzero : ∀ (y : pending_bet_object W M), same_key game_id k y →
        (∀ q ∈ xs, ¬ same_key y.game y.data q) → key_stake game_id k xs = 0 := by
      intro y hy hq
      unfold key_stake
      apply List.sum_eq_zero
      intro v hv
      obtain ⟨q, hqm, rfl⟩ := List.mem_map.mp hv
      have : ¬ same_key game_id k q := by
        intro hkq
        apply hq q hqm
        obtain ⟨a0, a1, a2, a3, a4, a5⟩ := hy
        obtain ⟨b0, b1, b2, b3, b4, b5⟩ := hkq
        exact ⟨b0.trans a0.symm, b1.trans a1.symm, b2.trans a2.symm, b3.trans a3.symm,
          b4.trans a4.symm, b5.trans a5.symm⟩
      simp [this]
    rcases List.mem_cons.mp hr with h | h
    · subst h
      have hz := hzero r hk hx
      unfold key_stake at hz ⊢
      simp [hk, hz]
    · have hnx : ¬ same_key game_id k x := by
        intro hkx
        apply hx r h
        obtain ⟨a0, a1, a2, a3, a4, a5⟩ := hkx
        obtain ⟨b0, b1, b2, b3, b4, b5⟩ := hk
        exact ⟨b0.trans a0.symm, b1.trans a1.symm, b2.trans a2.symm, b3.trans a3.symm,
          b4.trans a4.symm, b5.trans a5.symm⟩
      have := ih hxs h
      unfold key_stake at this ⊢
      simp [hnx, this]

end one_matched

/-! ## Well-formed scenarios; the surviving pending rows -/

section scenarios

variable {W M : Type}

theorem S1_posted_well_formed : scenario.S1_posted.well_formed scenario.SCR :=
  { balances := by decide
    pending_volume := by decide
    matched_volume := by decide
    pending_bets := by decide
    matched_bets := by decide
    pending_ids := by decide
    pending_ids_lt := by decide
    matched_ids := by decide
    game_uuids := by decide }

theorem S3_matched_well_formed : scenario.S3_matched.well_formed scenario.SCR :=
  { balances := by decide
    pending_volume := by decide
    matched_volume := by decide
    pending_bets := by decide
    matched_bets := by decide
    pending_ids := by decide
    pending_ids_lt := by decide
    matched_ids := by decide
    game_uuids := by decide }

theorem S_late_well_formed : scenario.S_late.well_formed scenario.SCR :=
  { balances := by decide
    pending_volume := by decide
    matched_volume := by decide
    pending_bets := by decide
    matched_bets := by decide
    pending_ids := by decide
    pending_ids_lt := by decide
    matched_ids := by decide
    game_uuids := by decide }

theorem surviving_pending_wf {sym : asset_symbol_type} {s : database W M}
    (hwf : s.well_formed sym) (game_id : game_id_type) (created_after : time_point_sec) :
    index_wf (surviving_pending game_id created_after s) := by
  constructor
  · exact (List.Nodup.sublist
      (List.Sublist.map _ (List.filter_sublist _)) hwf.pending_ids)
  · intro p hp
    exact hwf.pending_ids_lt p (List.mem_of_mem_filter hp)

/-- A cancelled pending row is absent from the surviving rows, and its id is below the counter. -/
theorem surviving_pending_absent {sym : asset_symbol_type} {s : database W M}
    (hwf : s.well_formed sym) (game_id : game_id_type) (created_after : time_point_sec)
    (p : pending_bet_object W M)
    (hp : p ∈ pending_bet_dba.get_range_by_game_id_created game_id created_after s) :
    p.id < (surviving_pending game_id created_after s).next_id
      ∧ ∀ q ∈ (surviving_pending game_id created_after s).objects, q.id ≠ p.id := by
  constructor
  · exact hwf.pending_ids_lt p ((mem_pending_range s game_id created_after p).mp hp).1
  · intro q hq hqp
    have := (List.mem_filter.mp hq).2
    simp only [decide_eq_true_eq, List.mem_map, not_exists, not_and] at this
    exact this p hp hqp.symm

end scenarios

/-! ## What a returning call must have done -/

section inversion

variable {W M : Type}

open betting_service

theorem Op.bind_ok_inv {σ α β : Type} (x : Op σ α) (f : α → Op σ β) (s s1 : σ) (b : β)
    (h : (x >>= f) s = .ok b s1) : ∃ a t, x s = .ok a t ∧ f a t = .ok b s1 := by
  rw [Op.bind_apply] at h
  cases hx : x s with
  | ok a t =>
    rw [hx] at h
    exact ⟨a, t, rfl, h⟩
  | thrown e t =>
    rw [hx] at h
    cases h

/-- A returning loop went through every step; an invariant indexed by the elements still
to come is carried to the end. -/
theorem foreach_mut_inv {α : Type} (f : α → Op (database W M) Unit)
    (Inv : List α → database W M → Prop)
    (hstep : ∀ x rest t u t1, Inv (x :: rest) t → f x t = .ok u t1 → Inv rest t1)
    (l : List α) (s s1 : database W M) (u : Unit) (hs : Inv l s)
    (h : foreach_mut f l s = .ok u s1) : Inv [] s1 := by
  induction l generalizing s with
  | nil =>
    have : s1 = s := by
      have h2 : (Outcome.ok () s : Outcome (database W M) Unit) = .ok u s1 := h
      injection h2 with _ h3
      exact h3.symm
    rw [this]
    exact hs
  | cons x xs ih =>
    have h2 : (f x >>= fun _ => foreach_mut f xs) s = .ok u s1 := h
    obtain ⟨a, t, h3, h4⟩ := Op.bind_ok_inv _ _ _ _ _ h2
    exact ih t (hstep x xs s a t hs h3) h4

/-- A returning loop reached the state that the step function folds to. -/
theorem foreach_mut_eq_foldl {α : Type} (f : α → Op (database W M) Unit)
    (eff : α → database W M → database W M)
    (hstep : ∀ x t u t1, f x t = .ok u t1 → t1 = eff x t)
    (l : List α) (s s1 : database W M) (u : Unit)
    (h : foreach_mut f l s = .ok u s1) : s1 = l.foldl (fun t x => eff x t) s := by
  induction l generalizing s with
  | nil =>
    have h2 : (Outcome.ok () s : Outcome (database W M) Unit) = .ok u s1 := h
    injection h2 with _ h3
    exact h3.symm
  | cons x xs ih =>
    have h2 : (f x >>= fun _ => foreach_mut f xs) s = .ok u s1 := h
    obtain ⟨a, t, h3, h4⟩ := Op.bind_ok_inv _ _ _ _ _ h2
    rw [List.foldl_cons, ← hstep x s a t h3]
    exact ih t h4

theorem increase_balance_inv (s s1 : database W M) (n : account_name_type) (stake : asset)
    (u : Unit) (h : account_service.increase_balance n stake s = .ok u s1) :
    ∃ acc, s.accounts.find? (fun a => decide (a.name = n)) = some acc
      ∧ acc.balance.symbol = stake.symbol ∧ s1 = credit n stake.amount s := by
  cases hfind : s.accounts.find? (fun a => decide (a.name = n)) with
  | none =>
    simp [account_service.increase_balance, Op.bind_apply, account_service.get_account,
      hfind] at h
  | some acc =>
    by_cases hsym : acc.balance.symbol = stake.symbol
    · rw [increase_balance_ok s n stake acc hfind hsym] at h
      injection h with _ h2
      exact ⟨acc, rfl, hsym, h2.symm⟩
    · simp [account_service.increase_balance, Op.bind_apply, account_service.get_account,
        hfind, Op.lift, asset.add_assign, hsym] at h

theorem cancel_pending_bet_inv (s s1 : database W M) (bet : pending_bet_object W M)
    (g : uuid_type) (u : Unit) (h : cancel_pending_bet bet g s = .ok u s1) :
    ∃ acc, s.accounts.find? (fun a => decide (a.name = bet.data.better)) = some acc
      ∧ acc.balance.symbol = bet.data.stake.symbol
      ∧ s.dprop.betting_stats.pending_bets_volume.symbol = bet.data.stake.symbol
      ∧ s1 = cancel_pending_bet_result g bet s := by
  cases hfind : s.accounts.find? (fun a => decide (a.name = bet.data.better)) with
  | none =>
    simp [cancel_pending_bet, account_service.increase_balance, Op.bind_apply,
      account_service.get_account, hfind] at h
  | some acc =>
    by_cases hsym : acc.balance.symbol = bet.data.stake.symbol
    · by_cases hvol : s.dprop.betting_stats.pending_bets_volume.symbol = bet.data.stake.symbol
      · rw [cancel_pending_bet_ok s bet g acc hfind hsym hvol] at h
        injection h with _ h2
        exact ⟨acc, rfl, hsym, hvol, h2.symm⟩
      · have h1 := increase_balance_ok s bet.data.better bet.data.stake acc hfind hsym
        simp [cancel_pending_bet, Op.bind_apply, h1, push_pending_bet_cancelled_op,
          virt_op_emitter.push_virtual_operation, Op.modify, Op.get, Op.lift,
          asset.sub_assign, credit, hvol] at h
    · simp [cancel_pending_bet, account_service.increase_balance, Op.bind_apply,
        account_service.get_account, hfind, Op.lift, asset.add_assign, hsym] at h

theorem return_bet_inv (s s1 : database W M) (bet : bet_data W)
    (g : uuid_type) (u : Unit) (h : return_bet bet g s = .ok u s1) :
    ∃ acc, s.accounts.find? (fun a => decide (a.name = bet.better)) = some acc
      ∧ acc.balance.symbol = bet.stake.symbol
      ∧ s.dprop.betting_stats.matched_bets_volume.symbol = bet.stake.symbol
      ∧ s1 = return_bet_result g bet s := by
  cases hfind : s.accounts.find? (fun a => decide (a.name = bet.better)) with
  | none =>
    simp [return_bet, account_service.increase_balance, Op.bind_apply,
      account_service.get_account, hfind] at h
  | some acc =>
    by_cases hsym : acc.balance.symbol = bet.stake.symbol
    · by_cases hvol : s.dprop.betting_stats.matched_bets_volume.symbol = bet.stake.symbol
      · rw [return_bet_ok s bet g acc hfind hsym hvol] at h
        injection h with _ h2
        exact ⟨acc, rfl, hsym, hvol, h2.symm⟩
      · have h1 := increase_balance_ok s bet.better bet.stake acc hfind hsym
        simp [return_bet, Op.bind_apply, h1, push_matched_bet_cancelled_op,
          virt_op_emitter.push_virtual_operation, Op.modify, Op.get, Op.lift,
          asset.sub_assign, credit, hvol] at h
    · simp [return_bet, account_service.increase_balance, Op.bind_apply,
        account_service.get_account, hfind, Op.lift, asset.add_assign, hsym] at h

/-- The call `restore_pending_bet` returns as soon as the game is found and the row it
coalesces with, if any, and the two volume counters are in the coin of the stake. -/
theorem restore_pending_bet_ok_found [LinearOrder W] (create_market : W → M)
    (s : database W M) (bet : bet_data W) (game_uuid : uuid_type) (game : game_object)
    (hgame : s.games.find? (fun g => decide (g.uuid = game_uuid)) = some game)
    (hstake : ∀ found,
      (pending_bet_dba.get_range_by_game_id_better game.id bet.better s).find?
          (restore_matches bet) = some found →
        found.data.stake.symbol = bet.stake.symbol)
    (hpvol : s.dprop.betting_stats.pending_bets_volume.symbol = bet.stake.symbol)
    (hmvol : s.dprop.betting_stats.matched_bets_volume.symbol = bet.stake.symbol) :
    restore_pending_bet create_market bet game_uuid s
      = .ok () (restore_pending_bet_result create_market game.id game_uuid bet s) := by
  unfold restore_pending_bet restore_pending_bet_result restore_index
  unfold pending_bet_dba.get_range_by_game_id_better at hstake
  simp only [Op.bind_apply, game_dba.get_by_uuid, hgame, Op.get,
    pending_bet_dba.get_range_by_game_id_better]
  cases hf : (s.pending_bets.objects.filter
      (fun o => decide (o.game = game.id) && decide (o.data.better = bet.better))).find?
      (restore_matches bet) with
  | none =>
    simp [Op.bind_apply, Op.pure_apply, Op.get, pending_bet_dba.create, Op.lift,
      asset.add_assign, asset.sub_assign, hpvol, hmvol, Op.modify,
      virt_op_emitter.push_virtual_operation, push_op, add_matched_volume, add_pending_volume,
      restored_op, asset.plus, sub_eq_add_neg]
  | some found =>
    have hfs := hstake found hf
    simp [Op.bind_apply, Op.get, pending_bet_dba.update_add_stake, Op.lift, asset.add_assign,
      asset.sub_assign, hpvol, hmvol, hfs, Op.modify, virt_op_emitter.push_virtual_operation,
      push_op, add_matched_volume, add_pending_volume, restored_op, asset.plus, sub_eq_add_neg]

theorem restore_pending_bet_inv [LinearOrder W] (create_market : W → M)
    (s s1 : database W M) (bet : bet_data W) (game_uuid : uuid_type) (u : Unit)
    (h : restore_pending_bet create_market bet game_uuid s = .ok u s1) :
    ∃ game, s.games.find? (fun g => decide (g.uuid = game_uuid)) = some game
      ∧ s1 = restore_pending_bet_result create_market game.id game_uuid bet s := by
  cases hgame : s.games.find? (fun g => decide (g.uuid = game_uuid)) with
  | none =>
    simp [restore_pending_bet, Op.bind_apply, game_dba.get_by_uuid, hgame] at h
  | some game =>
    refine ⟨game, rfl, ?_⟩
    by_cases hstake : ∀ found,
        (pending_bet_dba.get_range_by_game_id_better game.id bet.better s).find?
            (restore_matches bet) = some found →
          found.data.stake.symbol = bet.stake.symbol
    · by_cases hpvol : s.dprop.betting_stats.pending_bets_volume.symbol = bet.stake.symbol
      · by_cases hmvol : s.dprop.betting_stats.matched_bets_volume.symbol = bet.stake.symbol
        · rw [restore_pending_bet_ok_found create_market s bet game_uuid game hgame hstake
            hpvol hmvol] at h
          injection h with _ h2
          exact h2.symm
        · exfalso
          unfold restore_pending_bet at h
          simp only [Op.bind_apply, game_dba.get_by_uuid, hgame, Op.get] at h
          cases hf : (pending_bet_dba.get_range_by_game_id_better game.id bet.better s).find?
              (restore_matches bet) with
          | none =>
            simp [hf, Op.bind_apply, Op.pure_apply, Op.get, pending_bet_dba.create, Op.lift,
              asset.add_assign, asset.sub_assign, hpvol, hmvol, Op.modify] at h
          | some found =>
            have hfs := hstake found hf
            simp [hf, Op.bind_apply, Op.get, pending_bet_dba.update_add_stake, Op.lift,
              asset.add_assign, asset.sub_assign, hpvol, hmvol, hfs, Op.modify] at h
      · exfalso
        unfold restore_pending_bet at h
        simp only [Op.bind_apply, game_dba.get_by_uuid, hgame, Op.get] at h
        cases hf : (pending_bet_dba.get_range_by_game_id_better game.id bet.better s).find?
            (restore_matches bet) with
        | none =>
          simp [hf, Op.bind_apply, Op.pure_apply, Op.get, pending_bet_dba.create, Op.lift,
            asset.add_assign, hpvol] at h
        | some found =>
          have hfs := hstake found hf
          simp [hf, Op.bind_apply, Op.get, pending_bet_dba.update_add_stake, Op.lift,
            asset.add_assign, hpvol, hfs, Op.modify] at h
    · exfalso
      push_neg at hstake
      obtain ⟨found, hf, hne⟩ := hstake
      unfold restore_pending_bet at h
      simp [Op.bind_apply, game_dba.get_by_uuid, hgame, Op.get, hf,
        pending_bet_dba.update_add_stake, Op.lift, asset.add_assign, hne] at h

theorem cancel_matched_bet_inv (s s1 : database W M) (bet : matched_bet_object W M)
    (g : uuid_type) (u : Unit) (h : cancel_matched_bet bet g s = .ok u s1) :
    s1 = cancel_matched_bet_result g bet s := by
  unfold cancel_matched_bet at h
  obtain ⟨a1, t1, h1, h2⟩ := Op.bind_ok_inv _ _ _ _ _ h
  obtain ⟨a2, t2, h3, h4⟩ := Op.bind_ok_inv _ _ _ _ _ h2
  obtain ⟨_, _, _, _, e1⟩ := return_bet_inv s t1 bet.bet1_data g a1 h1
  obtain ⟨_, _, _, _, e2⟩ := return_bet_inv t1 t2 bet.bet2_data g a2 h3
  have h5 : (Outcome.ok () (remove_matched [bet.id] t2) : Outcome (database W M) Unit)
      = .ok u s1 := by
    rw [← h4]
    simp [matched_bet_dba.remove, Op.modify, remove_matched]
  injection h5 with _ h6
  rw [← h6, e2, e1]
  rfl

end inversion

/-! ## One restore, one matched bet -/

section restore_one

variable {W M : Type}

open betting_service

theorem restore_target_iff [LinearOrder W] (game_id : game_id_type) (bet : bet_data W)
    (o : pending_bet_object W M) :
    ((decide (o.game = game_id) && decide (o.data.better = bet.better))
        && restore_matches bet o) = true ↔ restore_target game_id bet o := by
  unfold restore_matches restore_target
  simp only [Bool.and_eq_true, decide_eq_true_eq, Bool.not_eq_true', decide_eq_false_iff_not]
  constructor
  · rintro ⟨⟨h1, h2⟩, ⟨⟨⟨h3, h4⟩, h5⟩, h6⟩, h7⟩
    exact ⟨h1, h2, h3, h4, h5, h6, h7⟩
  · rintro ⟨h1, h2, h3, h4, h5, h6, h7⟩
    exact ⟨⟨h1, h2⟩, ⟨⟨⟨h3, h4⟩, h5⟩, h6⟩, h7⟩

/-- Updating the row with the id of `found` changes `found` alone when ids are distinct. -/
theorem map_update_unique {α : Type} (key : α → Nat) (g : α → α) (pre post : List α)
    (found : α) (hnd : ((pre ++ found :: post).map key).Nodup) :
    (pre ++ found :: post).map (fun o => if key o = key found then g o else o)
      = pre ++ g found :: post := by
  rw [List.map_append, List.map_cons] at hnd
  rw [List.nodup_append] at hnd
  obtain ⟨_, h2, h3⟩ := hnd
  rw [List.nodup_cons] at h2
  rw [List.map_append, List.map_cons]
  have hpre : pre.map (fun o => if key o = key found then g o else o) = pre := by
    conv_rhs => rw [← List.map_id pre]
    apply List.map_congr_left
    intro o ho
    have : key o ≠ key found := fun he =>
      h3 (List.mem_map_of_mem key ho) (he ▸ List.mem_cons_self _ _)
    simp [this]
  have hpost : post.map (fun o => if key o = key found then g o else o) = post := by
    conv_rhs => rw [← List.map_id post]
    apply List.map_congr_left
    intro o ho
    have : key o ≠ key found := fun he => h2.1 (he ▸ List.mem_map_of_mem key ho)
    simp [this]
  rw [hpre, hpost]
  simp

/-- The pending index after a restore, in the words of the claim: the first row that is a
target gets the stake, or a new row is appended. -/
theorem restore_index_cases [LinearOrder W] (create_market : W → M) (game_id : game_id_type)
    (bet : bet_data W) (idx : db_index (pending_bet_object W M)) (hwf : index_wf idx) :
    ((∃ o ∈ idx.objects, restore_target game_id bet o) →
      ∃ pre found post, idx.objects = pre ++ found :: post
        ∧ restore_target game_id bet found
        ∧ (∀ o ∈ pre, ¬ restore_target game_id bet o)
        ∧ (restore_index create_market game_id bet idx).objects
            = pre ++ add_stake bet.stake.amount found :: post
        ∧ (restore_index create_market game_id bet idx).next_id = idx.next_id)
    ∧ ((¬ ∃ o ∈ idx.objects, restore_target game_id bet o) →
      (restore_index create_market game_id bet idx).objects
          = idx.objects ++
            [{ id := idx.next_id, game := game_id, market := create_market bet.wincase
               data := bet }]
        ∧ (restore_index create_market game_id bet idx).next_id = idx.next_id + 1) := by
  have hfun : (fun o : pending_bet_object W M =>
      decide ((decide (o.game = game_id) && decide (o.data.better = bet.better)) = true
        ∧ restore_matches bet o = true)) = (fun o => decide (restore_target game_id bet o)) := by
    funext o
    apply decide_eq_decide.mpr
    rw [← restore_target_iff]
    simp only [Bool.and_eq_true]
  unfold restore_index
  rw [List.find?_filter, hfun]
  constructor
  · rintro ⟨o, ho, hto⟩
    cases hf : idx.objects.find? (fun o => decide (restore_target game_id bet o)) with
    | none =>
      rw [List.find?_eq_none] at hf
      exact absurd (by simpa using hto) (hf o ho)
    | some found =>
      obtain ⟨hp, pre, post, hsplit, hpre⟩ := List.find?_eq_some.mp hf
      refine ⟨pre, found, post, hsplit, by simpa using hp, ?_, ?_, rfl⟩
      · intro x hx
        simpa using hpre x hx
      · simp only
        have hnd := hwf.1
        rw [hsplit] at hnd ⊢
        exact map_update_unique (fun p : pending_bet_object W M => p.id)
          (fun p => { p with data := { p.data with
            stake := found.data.stake.plus bet.stake.amount } }) pre post found hnd
  · intro hno
    cases hf : idx.objects.find? (fun o => decide (restore_target game_id bet o)) with
    | none => exact ⟨rfl, rfl⟩
    | some found =>
      exfalso
      apply hno
      exact ⟨found, List.mem_of_find?_eq_some hf, by simpa using List.find?_some hf⟩

theorem return_bet_ok_payable (s : database W M) (bet : bet_data W) (g : uuid_type)
    (sym : asset_symbol_type)
    (hb : ∀ a ∈ s.accounts, a.balance.symbol = sym)
    (hv : s.dprop.betting_stats.matched_bets_volume.symbol = sym)
    (hp : payable sym (s.accounts.map (fun a => a.name)) bet) :
    return_bet bet g s = .ok () (return_bet_result (M := M) g bet s) := by
  obtain ⟨acc, hf, _, hmem⟩ := find_account_of_mem s.accounts bet.better hp.2
  exact return_bet_ok s bet g acc hf ((hb acc hmem).trans hp.1.symm) (hv.trans hp.1.symm)

theorem cancel_matched_bet_ok (s : database W M) (m : matched_bet_object W M) (g : uuid_type)
    (sym : asset_symbol_type)
    (hb : ∀ a ∈ s.accounts, a.balance.symbol = sym)
    (hv : s.dprop.betting_stats.matched_bets_volume.symbol = sym)
    (h1 : payable sym (s.accounts.map (fun a => a.name)) m.bet1_data)
    (h2 : payable sym (s.accounts.map (fun a => a.name)) m.bet2_data) :
    cancel_matched_bet m g s = .ok () (cancel_matched_bet_result g m s) := by
  have e1 := return_bet_ok_payable s m.bet1_data g sym hb hv h1
  have hb2 : ∀ a ∈ (return_bet_result (M := M) g m.bet1_data s).accounts,
      a.balance.symbol = sym :=
    symbols_credit_accounts s.accounts _ _ sym hb
  have hn2 : (return_bet_result (M := M) g m.bet1_data s).accounts.map (fun a => a.name)
      = s.accounts.map (fun a => a.name) := names_credit_accounts s.accounts _ _
  have e2 := return_bet_ok_payable (return_bet_result (M := M) g m.bet1_data s) m.bet2_data g
    sym hb2 hv (by rw [hn2]; exact h2)
  unfold cancel_matched_bet
  simp only [Op.bind_apply, e1, e2]
  simp [matched_bet_dba.remove, Op.modify, cancel_matched_bet_result, remove_matched]

end restore_one

/-! ## Cancelling a list of pending bets and a list of matched bets -/

section cancel_lists

variable {W M : Type}

open betting_service

theorem consistent_remove_matched {sym : asset_symbol_type} {names : List account_name_type}
    {game_id : game_id_type} {game_uuid : uuid_type} {s : database W M}
    (hs : consistent sym names game_id game_uuid s) (ids : List matched_bet_id_type) :
    consistent sym names game_id game_uuid (remove_matched ids s) :=
  { names_eq := hs.names_eq
    balances := hs.balances
    pending_volume := hs.pending_volume
    matched_volume := hs.matched_volume
    pending_stakes := hs.pending_stakes
    game_by_uuid := hs.game_by_uuid }

theorem cancel_matched_bet_step {sym : asset_symbol_type} {names : List account_name_type}
    {game_id : game_id_type} {game_uuid : uuid_type} (g : uuid_type)
    (m : matched_bet_object W M) (s : database W M)
    (hb : payable sym names m.bet1_data ∧ payable sym names m.bet2_data)
    (hs : consistent sym names game_id game_uuid s) :
    cancel_matched_bet m g s = .ok () (cancel_matched_bet_result g m s)
      ∧ consistent sym names game_id game_uuid (cancel_matched_bet_result g m s) := by
  obtain ⟨e1, c1⟩ := return_bet_step g m.bet1_data s hb.1 hs
  obtain ⟨e2, c2⟩ := return_bet_step g m.bet2_data _ hb.2 c1
  refine ⟨?_, consistent_remove_matched c2 _⟩
  unfold cancel_matched_bet
  simp only [Op.bind_apply, e1, e2]
  simp [matched_bet_dba.remove, Op.modify, cancel_matched_bet_result, remove_matched]

/-- The state after the loop over a list of matched bets, field by field. -/
theorem matched_fold_fields (g : uuid_type) (l : List (matched_bet_object W M))
    (s : database W M) :
    let t := l.foldl (fun t m => cancel_matched_bet_result g m t) s
    t.accounts = (legs_of l).foldl (fun acc b => credit_accounts b.better b.stake.amount acc)
        s.accounts
    ∧ t.virt_ops = s.virt_ops ++ (legs_of l).map (fun b => cancelled_op g .matched b)
    ∧ t.dprop.betting_stats.matched_bets_volume
        = s.dprop.betting_stats.matched_bets_volume.plus (-(stake_sum (legs_of l)))
    ∧ t.dprop.betting_stats.pending_bets_volume = s.dprop.betting_stats.pending_bets_volume
    ∧ t.dprop.time = s.dprop.time
    ∧ t.matched_bets.objects
        = s.matched_bets.objects.filter (fun o => decide (o.id ∉ l.map (fun b => b.id)))
    ∧ t.matched_bets.next_id = s.matched_bets.next_id
    ∧ t.pending_bets = s.pending_bets
    ∧ t.games = s.games
    ∧ t.uuid_hist = s.uuid_hist
    ∧ t.betting_property = s.betting_property := by
  induction l generalizing s with
  | nil =>
    refine ⟨rfl, by simp [legs_of], ?_, rfl, rfl, by simp, rfl, rfl, rfl, rfl, rfl⟩
    simp [stake_sum, plus_zero, legs_of]
  | cons b bs ih =>
    obtain ⟨h1, h2, h3, h4, h5, h6, h7, h8, h9, h10, h11⟩ := ih (cancel_matched_bet_result g b s)
    simp only [List.foldl_cons, legs_of_cons]
    refine ⟨?_, ?_, ?_, h4, h5, ?_, h7, h8, h9, h10, h11⟩
    · rw [h1]
      rfl
    · rw [h2]
      simp [cancel_matched_bet_result, remove_matched, return_bet_result, add_matched_volume,
        push_op, credit]
    · rw [h3]
      simp [cancel_matched_bet_result, remove_matched, return_bet_result, add_matched_volume,
        push_op, credit, asset.plus, stake_sum, add_assoc, add_comm, add_left_comm]
    · rw [h6]
      simp [cancel_matched_bet_result, remove_matched, return_bet_result, add_matched_volume,
        push_op, credit, List.filter_filter]
      apply List.filter_congr
      intro o _
      by_cases ho : o.id = b.id <;> simp [ho]

/-- In a well-formed state with the game in the store, cancelling a list of pending rows
of the store and then a list of matched rows of the store returns. -/
theorem cancel_lists_ok {sym : asset_symbol_type} (s : database W M) (game_id : game_id_type)
    (game : game_object) (hwf : s.well_formed sym)
    (hgame : s.games.find? (fun g => decide (g.id = game_id)) = some game)
    (ps : List (pending_bet_object W M)) (hps : ∀ p ∈ ps, p ∈ s.pending_bets.objects)
    (ms : List (matched_bet_object W M)) (hms : ∀ m ∈ ms, m ∈ s.matched_bets.objects) :
    cancel_pending_bets_range ps game.uuid s
        = .ok () (ps.foldl (fun t p => cancel_pending_bet_result game.uuid p t) s)
      ∧ cancel_matched_bets_range ms game.uuid
          (ps.foldl (fun t p => cancel_pending_bet_result game.uuid p t) s)
        = .ok () (cancel_all_result game.uuid ps ms s) := by
  have hcons := well_formed_consistent hwf game_id game hgame
  have hp := foreach_mut_ok (fun bet => cancel_pending_bet bet game.uuid)
    (fun bet t => cancel_pending_bet_result game.uuid bet t)
    (consistent sym (s.accounts.map (fun a => a.name)) game_id game.uuid)
    (fun bet => payable sym (s.accounts.map (fun a => a.name)) bet.data)
    (fun bet t hb ht => cancel_pending_bet_step game.uuid bet t hb ht)
    ps (fun bet hbet => hwf.pending_bets bet (hps bet hbet)) s hcons
  have hm := foreach_mut_ok (fun bet => cancel_matched_bet bet game.uuid)
    (fun bet t => cancel_matched_bet_result game.uuid bet t)
    (consistent sym (s.accounts.map (fun a => a.name)) game_id game.uuid)
    (fun bet => payable sym (s.accounts.map (fun a => a.name)) bet.bet1_data
      ∧ payable sym (s.accounts.map (fun a => a.name)) bet.bet2_data)
    (fun bet t hb ht => cancel_matched_bet_step game.uuid bet t hb ht)
    ms (fun bet hbet => hwf.matched_bets bet (hms bet hbet)) _ hp.2
  exact ⟨hp.1, hm.1⟩

/-- The state after cancelling a list of pending bets and a list of matched bets, field by
field. -/
theorem cancel_all_fields (g : uuid_type) (ps : List (pending_bet_object W M))
    (ms : List (matched_bet_object W M)) (s : database W M) :
    let t := cancel_all_result g ps ms s
    (∀ a, t.balance a = (s.balance a).map (fun b => b.plus
        (stake_sum_of a (ps.map (fun p => p.data)) + stake_sum_of a (legs_of ms))))
    ∧ t.virt_ops = s.virt_ops ++ ps.map (fun p => cancelled_op g .pending p.data)
        ++ (legs_of ms).map (fun b => cancelled_op g .matched b)
    ∧ t.dprop.betting_stats.pending_bets_volume
        = s.dprop.betting_stats.pending_bets_volume.plus
            (-(stake_sum (ps.map (fun p => p.data))))
    ∧ t.dprop.betting_stats.matched_bets_volume
        = s.dprop.betting_stats.matched_bets_volume.plus (-(stake_sum (legs_of ms)))
    ∧ t.dprop.time = s.dprop.time
    ∧ t.pending_bets.objects
        = s.pending_bets.objects.filter (fun o => decide (o.id ∉ ps.map (fun p => p.id)))
    ∧ t.pending_bets.next_id = s.pending_bets.next_id
    ∧ t.matched_bets.objects
        = s.matched_bets.objects.filter (fun o => decide (o.id ∉ ms.map (fun m => m.id)))
    ∧ t.games = s.games
    ∧ t.uuid_hist = s.uuid_hist
    ∧ t.betting_property = s.betting_property := by
  intro t
  have p := pending_fold_fields g ps s
  have l := matched_fold_fields g ms (ps.foldl (fun t bet => cancel_pending_bet_result g bet t) s)
  have ht : t = ms.foldl (fun t m => cancel_matched_bet_result g m t)
      (ps.foldl (fun t bet => cancel_pending_bet_result g bet t) s) := rfl
  simp only at p l
  generalize ps.foldl (fun t bet => cancel_pending_bet_result g bet t) s = F1 at ht p l
  generalize ms.foldl (fun t m => cancel_matched_bet_result g m t) F1 = F2 at ht l
  obtain ⟨p1, p2, p3, p4, p5, p6, p7, p8, p9, p10, p11⟩ := p
  obtain ⟨l1, l2, l3, l4, l5, l6, l7, l8, l9, l10, l11⟩ := l
  rw [ht]
  refine ⟨?_, ?_, ?_, ?_, ?_, ?_, ?_, ?_, ?_, ?_, ?_⟩
  · intro a
    show balance_of F2.accounts a = _
    rw [l1, p1, balance_of_foldl_credit (fun b : bet_data W => b.better)
        (fun b => b.stake.amount),
      balance_of_foldl_credit (fun b : pending_bet_object W M => b.data.better)
        (fun b => b.data.stake.amount), Option.map_map]
    show Option.map _ (s.balance a) = Option.map _ (s.balance a)
    congr 1
    funext b
    simp only [Function.comp_apply, plus_plus, stake_sum_of, stake_sum, List.filter_map,
      List.map_map]
    rfl
  · rw [l2, p2]
  · rw [l4, p3]
  · rw [l3, p4]
  · rw [l5, p5]
  · rw [l8, p6]
  · rw [l8, p7]
  · rw [l6, p8]
  · rw [l9, p9]
  · rw [l10, p10]
  · rw [l11, p11]

end cancel_lists

/-! ## The ranges by market and their intersection with a set of markets -/

section by_market

variable {W M : Type}

open betting_service

theorem set_intersection_cons [LinearOrder M] {α : Type} (market : α → M) (x : α)
    (xs : List α) (ms : List M) :
    set_intersection market (x :: xs) ms
      = match ms.dropWhile (fun m => decide (m < market x)) with
        | [] => []
        | m :: rest =>
          if market x < m then set_intersection market xs (m :: rest)
          else x :: set_intersection market xs rest := rfl

/-- The intersection keeps a subsequence of the bets. -/
theorem set_intersection_sublist [LinearOrder M] {α : Type} (market : α → M) (l : List α)
    (ms : List M) : (set_intersection market l ms).Sublist l := by
  induction l generalizing ms with
  | nil => exact List.Sublist.refl _
  | cons x xs ih =>
    rw [set_intersection_cons]
    cases hd : ms.dropWhile (fun m => decide (m < market x)) with
    | nil => exact List.nil_sublist _
    | cons m rest =>
      simp only
      by_cases hlt : market x < m
      · simp only [hlt, if_true]
        exact List.Sublist.cons _ (ih _)
      · simp only [hlt, if_false]
        exact List.Sublist.cons₂ _ (ih _)

/-- Every bet the intersection keeps is on one of the markets. -/
theorem set_intersection_market_mem [LinearOrder M] {α : Type} (market : α → M) (l : List α)
    (ms : List M) : ∀ x ∈ set_intersection market l ms, market x ∈ ms := by
  induction l generalizing ms with
  | nil => intro x hx; simp [set_intersection] at hx
  | cons y ys ih =>
    intro x hx
    rw [set_intersection_cons] at hx
    cases hd : ms.dropWhile (fun m => decide (m < market y)) with
    | nil => rw [hd] at hx; simp at hx
    | cons m rest =>
      rw [hd] at hx
      simp only at hx
      have hsub : (m :: rest).Sublist ms := hd ▸ List.dropWhile_sublist _
      by_cases hlt : market y < m
      · simp only [hlt, if_true] at hx
        exact hsub.subset (ih _ x hx)
      · simp only [hlt, if_false] at hx
        rcases List.mem_cons.mp hx with h | h
        · subst h
          have hnot : ¬ m < market x := by
            have := List.head_dropWhile_not (fun m => decide (m < market x)) ms
              (by rw [hd]; simp)
            simpa [hd] using this
          have : market x = m := le_antisymm (not_lt.mp hnot) (not_lt.mp hlt)
          rw [this]
          exact hsub.subset (List.mem_cons_self _ _)
        · exact hsub.subset (List.mem_cons_of_mem _ (ih _ x h))

theorem mem_pending_range_market [LinearOrder M] (s : database W M) (game_id : game_id_type)
    (p : pending_bet_object W M) :
    p ∈ pending_bet_dba.get_range_by_game_id_market game_id s
      ↔ p ∈ s.pending_bets.objects ∧ p.game = game_id := by
  unfold pending_bet_dba.get_range_by_game_id_market
  rw [(List.perm_insertionSort _ _).mem_iff]
  simp [List.mem_filter]

theorem mem_matched_range_market [LinearOrder M] (s : database W M) (game_id : game_id_type)
    (m : matched_bet_object W M) :
    m ∈ matched_bet_dba.get_range_by_game_id_market game_id s
      ↔ m ∈ s.matched_bets.objects ∧ m.game = game_id := by
  unfold matched_bet_dba.get_range_by_game_id_market
  rw [(List.perm_insertionSort _ _).mem_iff]
  simp [List.mem_filter]

/-- The matched range only reads the matched store. -/
theorem matched_range_market_congr [LinearOrder M] (s t : database W M)
    (game_id : game_id_type) (h : t.matched_bets = s.matched_bets) :
    matched_bet_dba.get_range_by_game_id_market game_id t
      = matched_bet_dba.get_range_by_game_id_market game_id s := by
  unfold matched_bet_dba.get_range_by_game_id_market
  rw [h]

/-- In a well-formed state with the game in the store, `cancel_bets(game_id)` returns, in
the state where the pending and the matched range of the game were cancelled. -/
theorem cancel_bets_ok [LinearOrder M] {sym : asset_symbol_type} (s : database W M)
    (game_id : game_id_type) (game : game_object) (hwf : s.well_formed sym)
    (hgame : s.games.find? (fun g => decide (g.id = game_id)) = some game) :
    cancel_bets game_id s
      = .ok () (cancel_all_result game.uuid
          (pending_bet_dba.get_range_by_game_id_market game_id s)
          (matched_bet_dba.get_range_by_game_id_market game_id s) s) := by
  obtain ⟨h1, h2⟩ := cancel_lists_ok s game_id game hwf hgame
    (pending_bet_dba.get_range_by_game_id_market game_id s)
    (fun p hp => ((mem_pending_range_market s game_id p).mp hp).1)
    (matched_bet_dba.get_range_by_game_id_market game_id s)
    (fun m hm => ((mem_matched_range_market s game_id m).mp hm).1)
  obtain ⟨_, _, _, _, _, _, _, p8, p9, _, _⟩ := pending_fold_fields game.uuid
    (pending_bet_dba.get_range_by_game_id_market game_id s) s
  have hgame2 : ((pending_bet_dba.get_range_by_game_id_market game_id s).foldl
      (fun t p => cancel_pending_bet_result game.uuid p t) s).games.find?
        (fun g => decide (g.id = game_id)) = some game := by
    rw [p9]; exact hgame
  unfold cancel_bets cancel_pending_bets cancel_matched_bets
  simp only [Op.bind_apply, Op.get, game_dba.get_by_id, hgame, h1, hgame2,
    matched_range_market_congr s _ game_id p8, h2]

/-- In a well-formed state with the game in the store, `cancel_bets(game_id, markets)`
returns, in the state where the bets picked by the intersections were cancelled. -/
theorem cancel_bets_markets_ok [LinearOrder M] {sym : asset_symbol_type} (s : database W M)
    (game_id : game_id_type) (markets : List M) (game : game_object)
    (hwf : s.well_formed sym)
    (hgame : s.games.find? (fun g => decide (g.id = game_id)) = some game) :
    cancel_bets_markets game_id markets s
      = .ok () (cancel_all_result game.uuid
          (set_intersection (fun b : pending_bet_object W M => b.market)
            (pending_bet_dba.get_range_by_game_id_market game_id s) markets)
          (set_intersection (fun b : matched_bet_object W M => b.market)
            (matched_bet_dba.get_range_by_game_id_market game_id s) markets) s) := by
  obtain ⟨h1, h2⟩ := cancel_lists_ok s game_id game hwf hgame
    (set_intersection (fun b : pending_bet_object W M => b.market)
      (pending_bet_dba.get_range_by_game_id_market game_id s) markets)
    (fun p hp => ((mem_pending_range_market s game_id p).mp
      ((set_intersection_sublist _ _ _).subset hp)).1)
    (set_intersection (fun b : matched_bet_object W M => b.market)
      (matched_bet_dba.get_range_by_game_id_market game_id s) markets)
    (fun m hm => ((mem_matched_range_market s game_id m).mp
      ((set_intersection_sublist _ _ _).subset hm)).1)
  obtain ⟨_, _, _, _, _, _, _, p8, _, _, _⟩ := pending_fold_fields game.uuid
    (set_intersection (fun b : pending_bet_object W M => b.market)
      (pending_bet_dba.get_range_by_game_id_market game_id s) markets) s
  unfold cancel_bets_markets
  simp only [Op.bind_apply, Op.get, game_dba.get_by_id, hgame, h1,
    matched_range_market_congr s _ game_id p8, h2]

end by_market

/-! ## Sums over ranges; `create_pending_bet` keeps the state well-formed -/

section sums

variable {W M : Type}

open betting_service

theorem stake_sum_perm (l1 l2 : List (bet_data W)) (h : l1.Perm l2) :
    stake_sum l1 = stake_sum l2 :=
  (h.map _).sum_eq

theorem stake_sum_of_perm (a : account_name_type) (l1 l2 : List (bet_data W))
    (h : l1.Perm l2) : stake_sum_of a l1 = stake_sum_of a l2 :=
  stake_sum_perm _ _ (h.filter _)

theorem legs_of_perm (l1 l2 : List (matched_bet_object W M)) (h : l1.Perm l2) :
    (legs_of l1).Perm (legs_of l2) :=
  h.flatMap_right _

theorem pending_range_market_perm [LinearOrder M] (s : database W M) (game_id : game_id_type) :
    (pending_bet_dba.get_range_by_game_id_market game_id s).Perm (pending_of_game game_id s) :=
  List.perm_insertionSort _ _

theorem matched_range_market_perm [LinearOrder M] (s : database W M) (game_id : game_id_type) :
    (matched_bet_dba.get_range_by_game_id_market game_id s).Perm (matched_of_game game_id s) :=
  List.perm_insertionSort _ _

theorem stake_sum_of_eq_zero (a : account_name_type) (l : List (bet_data W))
    (h : ∀ b ∈ l, b.better ≠ a) : stake_sum_of a l = 0 := by
  unfold stake_sum_of
  have : l.filter (fun b => decide (b.better = a)) = [] := by
    rw [List.filter_eq_nil_iff]
    intro b hb
    simpa using h b hb
  rw [this]
  rfl

/-- A returning `create_pending_bet` leaves a well-formed state well-formed. -/
theorem create_pending_bet_well_formed (create_market : W → M) (s : database W M)
    (better : account_name_type) (stake : asset) (o : odds) (wincase : W)
    (game : game_id_type) (bet_uuid : uuid_type) (kind : pending_bet_kind)
    (bet : pending_bet_object W M) (s1 : database W M) (sym : asset_symbol_type)
    (hwf : s.well_formed sym)
    (h : create_pending_bet create_market better stake o wincase game bet_uuid kind s
      = .ok bet s1) :
    s1.well_formed sym := by
  obtain ⟨bal, hacc, hbal, hvol, huuid⟩ :=
    create_pending_bet_ok_inv create_market s better stake o wincase game bet_uuid kind bet s1 h
  rw [create_pending_bet_ok create_market s better stake o wincase game bet_uuid kind bal hacc
    hbal hvol huuid] at h
  injection h with _ hs1
  subst hs1
  obtain ⟨acc, hfind, hb, hname⟩ := find_of_balance_of s.accounts better bal hacc
  have hmem : acc ∈ s.accounts := List.mem_of_find?_eq_some hfind
  have hsym : stake.symbol = sym := by
    rw [← ((ge_true_iff _ _).mp hbal).1, ← hb]
    exact hwf.balances acc hmem
  have hnames : (credit_accounts better (-stake.amount) s.accounts).map (fun a => a.name)
      = s.accounts.map (fun a => a.name) := names_credit_accounts _ _ _
  have hbetter : better ∈ s.accounts.map (fun a => a.name) :=
    List.mem_map.mpr ⟨acc, hmem, hname⟩
  refine
    { balances := symbols_credit_accounts s.accounts _ _ sym hwf.balances
      pending_volume := hwf.pending_volume
      matched_volume := hwf.matched_volume
      pending_bets := ?_
      matched_bets := ?_
      pending_ids := ?_
      pending_ids_lt := ?_
      matched_ids := hwf.matched_ids
      game_uuids := hwf.game_uuids }
  · intro p hp
    show payable sym ((credit_accounts better (-stake.amount) s.accounts).map _) p.data
    rw [hnames]
    rcases List.mem_append.mp hp with hp | hp
    · exact hwf.pending_bets p hp
    · rw [List.mem_singleton] at hp
      subst hp
      exact ⟨hsym, hbetter⟩
  · intro m hm
    show payable sym ((credit_accounts better (-stake.amount) s.accounts).map _) m.bet1_data
      ∧ payable sym ((credit_accounts better (-stake.amount) s.accounts).map _) m.bet2_data
    rw [hnames]
    exact hwf.matched_bets m hm
  · show ((s.pending_bets.objects ++ [_]).map (fun p : pending_bet_object W M => p.id)).Nodup
    rw [List.map_append, List.nodup_append]
    refine ⟨hwf.pending_ids, List.nodup_singleton _, ?_⟩
    intro a ha hb2
    simp only [List.map_cons, List.map_nil, List.mem_singleton] at hb2
    obtain ⟨p, hp, rfl⟩ := List.mem_map.mp ha
    exact absurd hb2 (Nat.ne_of_lt (hwf.pending_ids_lt p hp))
  · intro p hp
    show p.id < s.pending_bets.next_id + 1
    rcases List.mem_append.mp hp with hp | hp
    · exact Nat.lt_succ_of_lt (hwf.pending_ids_lt p hp)
    · rw [List.mem_singleton] at hp
      subst hp
      exact Nat.lt_succ_self _

end sums

/-! ## `cancel_bets(game_id)`, by game -/

section by_game

variable {W M : Type}

open betting_service

/-- Removing the ids of the rows of a game from a store with distinct ids removes the rows
of the game. -/
theorem filter_ids_of_game {α : Type} (id : α → Nat) (game : α → game_id_type)
    (objs range : List α) (game_id : game_id_type)
    (hids : (objs.map id).Nodup)
    (hrange : ∀ o, o ∈ range ↔ o ∈ objs ∧ game o = game_id) :
    objs.filter (fun o => decide (id o ∉ range.map id))
      = objs.filter (fun o => decide (game o ≠ game_id)) := by
  apply List.filter_congr
  intro o ho
  by_cases hg : game o = game_id
  · have : id o ∈ range.map id := List.mem_map.mpr ⟨o, (hrange o).mpr ⟨ho, hg⟩, rfl⟩
    simp [hg, this]
  · have : id o ∉ range.map id := by
      intro hmem
      obtain ⟨q, hq, hqo⟩ := List.mem_map.mp hmem
      have hq2 := (hrange q).mp hq
      have : q = o := eq_of_id_eq id objs hids q o hq2.1 ho hqo
      rw [this] at hq2
      exact hg hq2.2
    simp [hg, this]

/-- In a well-formed state with the game in the store, `cancel_bets(game_id)` returns; the
stores lose the rows of the game, the balances grow by the stakes of these rows and the
two counters drop by them. -/
theorem cancel_bets_by_game [LinearOrder M] {sym : asset_symbol_type} (s : database W M)
    (game_id : game_id_type) (game : game_object) (hwf : s.well_formed sym)
    (hgame : s.games.find? (fun g => decide (g.id = game_id)) = some game) :
    ∃ s1, cancel_bets game_id s = .ok () s1
      ∧ s1.pending_bets.objects
          = s.pending_bets.objects.filter (fun o => decide (o.game ≠ game_id))
      ∧ s1.matched_bets.objects
          = s.matched_bets.objects.filter (fun o => decide (o.game ≠ game_id))
      ∧ (∀ a, s1.balance a = (s.balance a).map (fun b => b.plus
          (stake_sum_of a ((pending_of_game game_id s).map (fun p => p.data))
            + stake_sum_of a (legs_of (matched_of_game game_id s)))))
      ∧ s1.dprop.betting_stats.pending_bets_volume
          = s.dprop.betting_stats.pending_bets_volume.plus
              (-(stake_sum ((pending_of_game game_id s).map (fun p => p.data))))
      ∧ s1.dprop.betting_stats.matched_bets_volume
          = s.dprop.betting_stats.matched_bets_volume.plus
              (-(stake_sum (legs_of (matched_of_game game_id s)))) := by
  obtain ⟨f1, _, f3, f4, _, f6, _, f8, _, _, _⟩ := cancel_all_fields game.uuid
    (pending_bet_dba.get_range_by_game_id_market game_id s)
    (matched_bet_dba.get_range_by_game_id_market game_id s) s
  have hp := pending_range_market_perm s game_id
  have hm := matched_range_market_perm s game_id
  refine ⟨_, cancel_bets_ok s game_id game hwf hgame, ?_, ?_, ?_, ?_, ?_⟩
  · rw [f6]
    exact filter_ids_of_game (fun p : pending_bet_object W M => p.id) (fun p => p.game) _ _
      game_id hwf.pending_ids
      (mem_pending_range_market s game_id)
  · rw [f8]
    exact filter_ids_of_game (fun m : matched_bet_object W M => m.id) (fun m => m.game) _ _
      game_id hwf.matched_ids
      (mem_matched_range_market s game_id)
  · intro a
    rw [f1, stake_sum_of_perm a _ _ (hp.map (fun p => p.data)),
      stake_sum_of_perm a _ _ (legs_of_perm _ _ hm)]
  · rw [f3, stake_sum_perm _ _ (hp.map (fun p => p.data))]
  · rw [f4, stake_sum_perm _ _ (legs_of_perm _ _ hm)]

end by_game

/-! ## The shape of a returning service call -/

section shapes

variable {W M : Type}

open betting_service

theorem ok_inj {σ α : Type} {a b : α} {s t : σ}
    (h : (Outcome.ok a s : Outcome σ α) = .ok b t) : s = t := by
  injection h

theorem game_get_by_id_inv (s t : database W M) (id : game_id_type) (g : game_object)
    (h : game_dba.get_by_id id s = .ok g t) :
    t = s ∧ s.games.find? (fun x => decide (x.id = id)) = some g := by
  unfold game_dba.get_by_id at h
  cases hf : s.games.find? (fun x => decide (x.id = id)) with
  | none => rw [hf] at h; cases h
  | some g2 =>
    rw [hf] at h
    injection h with h1 h2
    exact ⟨h2.symm, by rw [h1]⟩

theorem Op.get_bind_apply {σ β : Type} (f : σ → Op σ β) (s : σ) :
    (Op.get >>= f) s = f s s := rfl

theorem FC_ASSERT_bind_inv {σ β : Type} (c : Bool) (e : fc_exception) (f : Unit → Op σ β)
    (s s1 : σ) (b : β) (h : (FC_ASSERT c e >>= f) s = .ok b s1) : f () s = .ok b s1 := by
  rw [Op.bind_apply] at h
  unfold FC_ASSERT at h
  cases c with
  | true => exact h
  | false => cases h

theorem game_get_by_id_bind_inv {β : Type} (id : game_id_type)
    (f : game_object → Op (database W M) β) (s s1 : database W M) (b : β)
    (h : (game_dba.get_by_id id >>= f) s = .ok b s1) :
    ∃ game, s.games.find? (fun x => decide (x.id = id)) = some game ∧ f game s = .ok b s1 := by
  obtain ⟨game, t, h1, h2⟩ := Op.bind_ok_inv _ _ _ _ _ h
  obtain ⟨e, hg⟩ := game_get_by_id_inv _ _ _ _ h1
  rw [e] at h2
  exact ⟨game, hg, h2⟩

theorem cancel_pending_bet_by_id_inv (s s1 : database W M) (id : pending_bet_id_type)
    (u : Unit) (h : cancel_pending_bet_by_id id s = .ok u s1) :
    ∃ (bet : pending_bet_object W M) (game : game_object), bet ∈ s.pending_bets.objects
      ∧ cancel_pending_bet bet game.uuid s = .ok u s1 := by
  unfold cancel_pending_bet_by_id at h
  obtain ⟨bet, t, h1, h2⟩ := Op.bind_ok_inv _ _ _ _ _ h
  unfold pending_bet_dba.get_by_id at h1
  cases hf : s.pending_bets.objects.find? (fun o => decide (o.id = id)) with
  | none => rw [hf] at h1; cases h1
  | some b =>
    rw [hf] at h1
    injection h1 with e1 e2
    rw [← e1, ← e2] at h2
    obtain ⟨game, _, h4⟩ := game_get_by_id_bind_inv _ _ _ _ _ h2
    exact ⟨b, game, List.mem_of_find?_eq_some hf, h4⟩

theorem cancel_pending_bets_inv [LinearOrder M] (s s1 : database W M) (game_id : game_id_type)
    (u : Unit) (h : cancel_pending_bets game_id s = .ok u s1) :
    ∃ game, s.games.find? (fun x => decide (x.id = game_id)) = some game
      ∧ cancel_pending_bets_range (pending_bet_dba.get_range_by_game_id_market game_id s)
          game.uuid s = .ok u s1 := by
  unfold cancel_pending_bets at h
  simp only [Op.get_bind_apply] at h
  exact game_get_by_id_bind_inv _ _ _ _ _ h

theorem cancel_pending_bets_kind_inv (s s1 : database W M) (game_id : game_id_type)
    (kind : pending_bet_kind) (u : Unit)
    (h : cancel_pending_bets_kind game_id kind s = .ok u s1) :
    ∃ game, s.games.find? (fun x => decide (x.id = game_id)) = some game
      ∧ cancel_pending_bets_range (pending_bet_dba.get_range_by_game_id_kind game_id kind s)
          game.uuid s = .ok u s1 := by
  unfold cancel_pending_bets_kind at h
  simp only [Op.get_bind_apply] at h
  exact game_get_by_id_bind_inv _ _ _ _ _ h

theorem cancel_matched_bets_inv [LinearOrder M] (s s1 : database W M) (game_id : game_id_type)
    (u : Unit) (h : cancel_matched_bets game_id s = .ok u s1) :
    ∃ game, s.games.find? (fun x => decide (x.id = game_id)) = some game
      ∧ cancel_matched_bets_range (matched_bet_dba.get_range_by_game_id_market game_id s)
          game.uuid s = .ok u s1 := by
  unfold cancel_matched_bets at h
  simp only [Op.get_bind_apply] at h
  exact game_get_by_id_bind_inv _ _ _ _ _ h

theorem cancel_bets_inv [LinearOrder M] (s s1 : database W M) (game_id : game_id_type)
    (u : Unit) (h : cancel_bets game_id s = .ok u s1) :
    ∃ t, cancel_pending_bets game_id s = .ok () t
      ∧ cancel_matched_bets game_id t = .ok u s1 := by
  unfold cancel_bets at h
  obtain ⟨a, t, h1, h2⟩ := Op.bind_ok_inv _ _ _ _ _ h
  exact ⟨t, h1, h2⟩

theorem cancel_bets_markets_inv [LinearOrder M] (s s1 : database W M)
    (game_id : game_id_type) (markets : List M) (u : Unit)
    (h : cancel_bets_markets game_id markets s = .ok u s1) :
    ∃ game t, s.games.find? (fun x => decide (x.id = game_id)) = some game
      ∧ cancel_pending_bets_range
          (set_intersection (fun b : pending_bet_object W M => b.market)
            (pending_bet_dba.get_range_by_game_id_market game_id s) markets) game.uuid s
        = .ok () t
      ∧ cancel_matched_bets_range
          (set_intersection (fun b : matched_bet_object W M => b.market)
            (matched_bet_dba.get_range_by_game_id_market game_id t) markets) game.uuid t
        = .ok u s1 := by
  unfold cancel_bets_markets at h
  obtain ⟨game, hg, h2⟩ := game_get_by_id_bind_inv _ _ _ _ _ h
  simp only [Op.get_bind_apply] at h2
  obtain ⟨a2, t2, h5, h6⟩ := Op.bind_ok_inv _ _ _ _ _ h2
  simp only [Op.get_bind_apply] at h6
  exact ⟨game, t2, hg, h5, h6⟩

theorem cancel_bets_created_after_inv [LinearOrder W] (create_market : W → M)
    (s s1 : database W M) (game_id : game_id_type) (created_after : time_point_sec) (u : Unit)
    (h : cancel_bets_created_after create_market game_id created_after s = .ok u s1) :
    ∃ game t1 t2, s.games.find? (fun x => decide (x.id = game_id)) = some game
      ∧ cancel_pending_bets_range
          (pending_bet_dba.get_range_by_game_id_created game_id created_after s) game.uuid s
        = .ok () t1
      ∧ foreach_mut (fun matched_bet : matched_bet_object W M => do
            cancel_bets_leg create_market created_after game.uuid matched_bet.bet1_data
            cancel_bets_leg create_market created_after game.uuid matched_bet.bet2_data)
          (matched_bet_dba.get_range_by_game_id_created game_id created_after s) t1
        = .ok () t2
      ∧ s1 = remove_matched
          ((matched_bet_dba.get_range_by_game_id_created game_id created_after s).map
            (fun m => m.id)) t2 := by
  unfold cancel_bets_created_after at h
  simp only [Op.get_bind_apply] at h
  obtain ⟨game, hg, h4⟩ := game_get_by_id_bind_inv _ _ _ _ _ h
  obtain ⟨a1, t1, h5, h6⟩ := Op.bind_ok_inv _ _ _ _ _ h4
  obtain ⟨a2, t2, h7, h8⟩ := Op.bind_ok_inv _ _ _ _ _ h6
  refine ⟨game, t1, t2, hg, h5, h7, ?_⟩
  exact (ok_inj h8).symm

theorem cancel_matched_bet_shape (s s1 : database W M) (bet : matched_bet_object W M)
    (g : uuid_type) (u : Unit) (h : cancel_matched_bet bet g s = .ok u s1) :
    ∃ t1 t2, return_bet bet.bet1_data g s = .ok () t1
      ∧ return_bet bet.bet2_data g t1 = .ok () t2
      ∧ s1 = remove_matched [bet.id] t2 := by
  unfold cancel_matched_bet at h
  obtain ⟨a1, t1, h1, h2⟩ := Op.bind_ok_inv _ _ _ _ _ h
  obtain ⟨a2, t2, h3, h4⟩ := Op.bind_ok_inv _ _ _ _ _ h2
  refine ⟨t1, t2, h1, h3, ?_⟩
  have h5 : (Outcome.ok () (remove_matched [bet.id] t2) : Outcome (database W M) Unit)
      = .ok u s1 := by
    rw [← h4]
    simp [matched_bet_dba.remove, Op.modify, remove_matched]
  exact (ok_inj h5).symm

theorem cancel_game_inv [LinearOrder M] (s s1 : database W M) (game_id : game_id_type)
    (u : Unit) (h : cancel_game game_id s = .ok u s1) :
    ∃ games, s1 = { s with games := games } := by
  unfold cancel_game at h
  simp only [Op.get_bind_apply] at h
  have h2 := FC_ASSERT_bind_inv _ _ _ _ _ _ h
  simp only [Op.get_bind_apply] at h2
  have h3 := FC_ASSERT_bind_inv _ _ _ _ _ _ h2
  obtain ⟨game, _, h4⟩ := game_get_by_id_bind_inv _ _ _ _ _ h3
  exact ⟨_, (ok_inj h4).symm⟩

theorem run_create_inv [LinearOrder W] [LinearOrder M] (create_market : W → M)
    (s s1 : database W M) (better : account_name_type) (stake : asset) (o : odds)
    (wincase : W) (game : game_id_type) (bet_uuid : uuid_type) (kind : pending_bet_kind)
    (u : Unit)
    (h : (service_call.create_pending_bet better stake o wincase game bet_uuid kind
      : service_call W M).run create_market s = .ok u s1) :
    ∃ bet, create_pending_bet create_market better stake o wincase game bet_uuid kind s
      = .ok bet s1 := by
  unfold service_call.run at h
  obtain ⟨bet, t, h1, h2⟩ := Op.bind_ok_inv _ _ _ _ _ h
  have : t = s1 := ok_inj h2
  subst this
  exact ⟨bet, h1⟩

theorem run_moderator_inv [LinearOrder W] [LinearOrder M] (create_market : W → M)
    (s s1 : database W M) (name : account_name_type) (u : Unit)
    (h : (service_call.is_betting_moderator name : service_call W M).run create_market s
      = .ok u s1) : s1 = s := by
  unfold service_call.run is_betting_moderator at h
  obtain ⟨b, t, h1, h2⟩ := Op.bind_ok_inv _ _ _ _ _ h
  simp only [Op.get_bind_apply] at h1
  have e3 : s = t := ok_inj h1
  rw [e3]
  exact (ok_inj h2).symm

end shapes

/-! ## Invariants of the service: the general argument -/

section preserves

variable {W M : Type}

open betting_service

theorem cancel_pending_bet_keeps_matched (s s1 : database W M) (bet : pending_bet_object W M)
    (g : uuid_type) (u : Unit) (h : cancel_pending_bet bet g s = .ok u s1) :
    s1.matched_bets = s.matched_bets := by
  obtain ⟨_, _, _, _, e⟩ := cancel_pending_bet_inv s s1 bet g u h
  rw [e]
  rfl

theorem return_bet_keeps_stores (s s1 : database W M) (bet : bet_data W)
    (g : uuid_type) (u : Unit) (h : return_bet bet g s = .ok u s1) :
    s1.matched_bets = s.matched_bets ∧ s1.pending_bets = s.pending_bets := by
  obtain ⟨_, _, _, _, e⟩ := return_bet_inv s s1 bet g u h
  rw [e]
  exact ⟨rfl, rfl⟩

theorem restore_pending_bet_keeps_matched [LinearOrder W] (create_market : W → M)
    (s s1 : database W M) (bet : bet_data W) (g : uuid_type) (u : Unit)
    (h : restore_pending_bet create_market bet g s = .ok u s1) :
    s1.matched_bets = s.matched_bets := by
  obtain ⟨_, _, e⟩ := restore_pending_bet_inv create_market s s1 bet g u h
  rw [e]
  rfl

/-- A property of the state that every returning step of a loop keeps holds after a
returning loop. -/
theorem foreach_mut_preserves {α : Type} (f : α → Op (database W M) Unit)
    (Inv : database W M → Prop)
    (hstep : ∀ x t u t1, Inv t → f x t = .ok u t1 → Inv t1)
    (l : List α) (s s1 : database W M) (u : Unit) (hs : Inv s)
    (h : foreach_mut f l s = .ok u s1) : Inv s1 :=
  foreach_mut_inv f (fun _ t => Inv t) (fun x _ t u t1 ht hf => hstep x t u t1 ht hf)
    l s s1 u hs h

/-- A property kept by a returning `cancel_pending_bet`, by a returning `return_bet`, by
a returning `restore_pending_bet` of a leg of a stored matched bet and by the removal of
matched rows is kept by a returning `cancel_bets(game_id, created_after)`. -/
theorem cancel_bets_created_after_preserves [LinearOrder W] (create_market : W → M)
    (Inv : database W M → Prop)
    (hcancel : ∀ t bet g u t1, Inv t → cancel_pending_bet bet g t = .ok u t1 → Inv t1)
    (hreturn : ∀ t b g u t1, Inv t → return_bet b g t = .ok u t1 → Inv t1)
    (hrestore : ∀ t b g u t1, Inv t → stored_leg b t →
      restore_pending_bet create_market b g t = .ok u t1 → Inv t1)
    (hremove : ∀ t ids, Inv t → Inv (remove_matched ids t))
    (s s1 : database W M) (game_id : game_id_type) (created_after : time_point_sec) (u : Unit)
    (hs : Inv s)
    (h : cancel_bets_created_after create_market game_id created_after s = .ok u s1) :
    Inv s1 := by
  obtain ⟨game, t1, t2, _, h1, h2, e⟩ :=
    cancel_bets_created_after_inv create_market s s1 game_id created_after u h
  have hp : Inv t1 ∧ t1.matched_bets = s.matched_bets :=
    foreach_mut_preserves (fun bet => cancel_pending_bet bet game.uuid)
      (fun t => Inv t ∧ t.matched_bets = s.matched_bets)
      (fun bet t u t1 ht hf => ⟨hcancel t bet game.uuid u t1 ht.1 hf,
        (cancel_pending_bet_keeps_matched t t1 bet game.uuid u hf).trans ht.2⟩)
      _ s t1 () ⟨hs, rfl⟩ h1
  have hleg : ∀ (b : bet_data W) (t : database W M) (v : Unit) (t3 : database W M),
      Inv t ∧ t.matched_bets = s.matched_bets → stored_leg b s →
      cancel_bets_leg create_market created_after game.uuid b t = .ok v t3 →
      Inv t3 ∧ t3.matched_bets = s.matched_bets := by
    intro b t v t3 ht hb hf
    unfold cancel_bets_leg at hf
    split at hf
    · exact ⟨hreturn t b game.uuid v t3 ht.1 hf,
        (return_bet_keeps_stores t t3 b game.uuid v hf).1.trans ht.2⟩
    · refine ⟨hrestore t b game.uuid v t3 ht.1 ?_ hf,
        (restore_pending_bet_keeps_matched create_market t t3 b game.uuid v hf).trans ht.2⟩
      unfold stored_leg at hb ⊢
      rw [ht.2]
      exact hb
  have hm := foreach_mut_inv
    (fun matched_bet : matched_bet_object W M => do
      cancel_bets_leg create_market created_after game.uuid matched_bet.bet1_data
      cancel_bets_leg create_market created_after game.uuid matched_bet.bet2_data)
    (fun rest t => (Inv t ∧ t.matched_bets = s.matched_bets)
      ∧ ∀ m ∈ rest, m ∈ s.matched_bets.objects)
    (fun x rest t v t3 ht hf => by
      obtain ⟨a1, t4, h3, h4⟩ := Op.bind_ok_inv _ _ _ _ _ hf
      have hx : x ∈ s.matched_bets.objects := ht.2 x (List.mem_cons_self _ _)
      have i1 := hleg x.bet1_data t a1 t4 ht.1 ⟨x, hx, Or.inl rfl⟩ h3
      have i2 := hleg x.bet2_data t4 v t3 i1 ⟨x, hx, Or.inr rfl⟩ h4
      exact ⟨i2, fun m hm => ht.2 m (List.mem_cons_of_mem _ hm)⟩)
    _ t1 t2 () ⟨hp, fun m hm => ((mem_matched_range s game_id created_after m).mp hm).1⟩ h2
  rw [e]
  exact hremove t2 _ hm.1.1

/-- A property of the state that the building blocks of the service keep is kept by a
returning public operation; of `create_pending_bet` only the call at hand is asked for. -/
theorem run_preserves_core [LinearOrder W] [LinearOrder M] (create_market : W → M)
    (Inv : database W M → Prop) (c : service_call W M) (s : database W M)
    (hcreate : ∀ better stake o wincase game bet_uuid kind bet t1,
      c = .create_pending_bet better stake o wincase game bet_uuid kind → Inv s →
      create_pending_bet create_market better stake o wincase game bet_uuid kind s
        = .ok bet t1 → Inv t1)
    (hcancel : ∀ t bet g u t1, Inv t → cancel_pending_bet bet g t = .ok u t1 → Inv t1)
    (hreturn : ∀ t b g u t1, Inv t → return_bet b g t = .ok u t1 → Inv t1)
    (hrestore : ∀ t b g u t1, Inv t → stored_leg b t →
      restore_pending_bet create_market b g t = .ok u t1 → Inv t1)
    (hremove : ∀ t ids, Inv t → Inv (remove_matched ids t))
    (hgames : ∀ (t : database W M) games, Inv t → Inv { t with games := games })
    (s1 : database W M) (hs : Inv s)
    (h : c.run create_market s = .ok () s1) : Inv s1 := by
  have hploop : ∀ (l : List (pending_bet_object W M)) g (t t1 : database W M) (u : Unit),
      Inv t → cancel_pending_bets_range l g t = .ok u t1 → Inv t1 := by
    intro l g t t1 u ht hl
    exact foreach_mut_preserves (fun bet => cancel_pending_bet bet g) Inv
      (fun bet t u t1 ht hf => hcancel t bet g u t1 ht hf) l t t1 u ht hl
  have hmatched : ∀ (bet : matched_bet_object W M) g (t t1 : database W M) (u : Unit),
      Inv t → cancel_matched_bet bet g t = .ok u t1 → Inv t1 := by
    intro bet g t t1 u ht hl
    obtain ⟨t2, t3, h1, h2, e⟩ := cancel_matched_bet_shape t t1 bet g u hl
    rw [e]
    exact hremove _ _ (hreturn _ _ _ _ _ (hreturn _ _ _ _ _ ht h1) h2)
  have hmloop : ∀ (l : List (matched_bet_object W M)) g (t t1 : database W M) (u : Unit),
      Inv t → cancel_matched_bets_range l g t = .ok u t1 → Inv t1 := by
    intro l g t t1 u ht hl
    exact foreach_mut_preserves (fun bet => cancel_matched_bet bet g) Inv
      (fun bet t u t1 ht hf => hmatched bet g t t1 u ht hf) l t t1 u ht hl
  cases c with
  | create_pending_bet better stake o wincase game bet_uuid kind =>
    obtain ⟨bet, hc⟩ := run_create_inv create_market s s1 better stake o wincase game
      bet_uuid kind () h
    exact hcreate better stake o wincase game bet_uuid kind bet s1 rfl hs hc
  | cancel_pending_bet bet g => exact hcancel s bet g () s1 hs h
  | cancel_pending_bet_by_id id =>
    obtain ⟨bet, game, _, hc⟩ := cancel_pending_bet_by_id_inv s s1 id () h
    exact hcancel s bet game.uuid () s1 hs hc
  | cancel_pending_bets game_id =>
    obtain ⟨game, _, hc⟩ := cancel_pending_bets_inv s s1 game_id () h
    exact hploop _ _ s s1 () hs hc
  | cancel_pending_bets_kind game_id kind =>
    obtain ⟨game, _, hc⟩ := cancel_pending_bets_kind_inv s s1 game_id kind () h
    exact hploop _ _ s s1 () hs hc
  | cancel_pending_bets_range bets g => exact hploop bets g s s1 () hs h
  | cancel_matched_bet bet g => exact hmatched bet g s s1 () hs h
  | cancel_matched_bets game_id =>
    obtain ⟨game, _, hc⟩ := cancel_matched_bets_inv s s1 game_id () h
    exact hmloop _ _ s s1 () hs hc
  | cancel_matched_bets_range bets g => exact hmloop bets g s s1 () hs h
  | cancel_bets game_id =>
    obtain ⟨t, h1, h2⟩ := cancel_bets_inv s s1 game_id () h
    obtain ⟨game, _, hc⟩ := cancel_pending_bets_inv s t game_id () h1
    obtain ⟨game2, _, hc2⟩ := cancel_matched_bets_inv t s1 game_id () h2
    exact hmloop _ _ t s1 () (hploop _ _ s t () hs hc) hc2
  | cancel_bets_created_after game_id created_after =>
    exact cancel_bets_created_after_preserves create_market Inv hcancel hreturn hrestore
      hremove s s1 game_id created_after () hs h
  | cancel_bets_markets game_id markets =>
    obtain ⟨game, t, _, h1, h2⟩ := cancel_bets_markets_inv s s1 game_id markets () h
    exact hmloop _ _ t s1 () (hploop _ _ s t () hs h1) h2
  | cancel_game game_id =>
    obtain ⟨games, e⟩ := cancel_game_inv s s1 game_id () h
    rw [e]
    exact hgames s games hs
  | is_betting_moderator name =>
    rw [run_moderator_inv create_market s s1 name () h]
    exact hs

/-- A property of the state that the building blocks of the service keep is kept by every
returning public operation. -/
theorem run_preserves [LinearOrder W] [LinearOrder M] (create_market : W → M)
    (Inv : database W M → Prop)
    (hcreate : ∀ t better stake o wincase game bet_uuid kind bet t1, Inv t →
      create_pending_bet create_market better stake o wincase game bet_uuid kind t
        = .ok bet t1 → Inv t1)
    (hcancel : ∀ t bet g u t1, Inv t → cancel_pending_bet bet g t = .ok u t1 → Inv t1)
    (hreturn : ∀ t b g u t1, Inv t → return_bet b g t = .ok u t1 → Inv t1)
    (hrestore : ∀ t b g u t1, Inv t → stored_leg b t →
      restore_pending_bet create_market b g t = .ok u t1 → Inv t1)
    (hremove : ∀ t ids, Inv t → Inv (remove_matched ids t))
    (hgames : ∀ (t : database W M) games, Inv t → Inv { t with games := games })
    (c : service_call W M) (s s1 : database W M) (hs : Inv s)
    (h : c.run create_market s = .ok () s1) : Inv s1 :=
  run_preserves_core create_market Inv c s
    (fun better stake o wincase game bet_uuid kind bet t1 _ hi hc =>
      hcreate s better stake o wincase game bet_uuid kind bet t1 hi hc)
    hcancel hreturn hrestore hremove hgames s1 hs h

end preserves

/-! ## Conservation of funds, step by step -/

section funds

variable {W M : Type}

open betting_service

theorem sum_indicator_key {α κ : Type} [DecidableEq κ] (key : α → κ) (l : List α) (x : α)
    (c : α → share_type) (hnd : (l.map key).Nodup) (hx : x ∈ l) :
    (l.map (fun o => if key o = key x then c o else 0)).sum = c x := by
  induction l with
  | nil => simp at hx
  | cons y ys ih =>
    simp only [List.map_cons, List.nodup_cons, List.mem_map, not_exists, not_and] at hnd
    obtain ⟨hy, hys⟩ := hnd
    rcases List.mem_cons.mp hx with h | h
    · subst h
      have hzero : (ys.map (fun o => if key o = key x then c o else 0)).sum = 0 := by
        apply List.sum_eq_zero
        intro v hv
        obtain ⟨o, ho, rfl⟩ := List.mem_map.mp hv
        have : ¬ key o = key x := hy o ho
        simp [this]
      simp [hzero]
    · have hne : ¬ key y = key x := fun he => hy x h he.symm
      simp only [List.map_cons, List.sum_cons, hne, if_false, zero_add]
      exact ih hys h

/-- With the accounts keyed by name, a credit adds its amount to the sum of the balances. -/
theorem balances_total_credit (s : database W M) (n : account_name_type) (amt : share_type)
    (acc : account_object) (hn : names_unique s)
    (hfind : s.accounts.find? (fun a => decide (a.name = n)) = some acc) :
    balances_total (credit n amt s) = balances_total s + amt := by
  have hmem : acc ∈ s.accounts := List.mem_of_find?_eq_some hfind
  have hname : acc.name = n := by simpa using List.find?_some hfind
  unfold balances_total credit credit_accounts
  simp only [hfind, List.map_map]
  have hpt : ((fun a : account_object => a.balance.amount) ∘ fun a : account_object =>
      if a.name = n then
        { a with balance :=
            { amount := acc.balance.amount + amt, symbol := acc.balance.symbol } }
      else a)
      = fun a => a.balance.amount
          + (if a.name = acc.name then acc.balance.amount + amt - a.balance.amount else 0) := by
    funext a
    by_cases ha : a.name = n
    · simp [ha, hname]
    · simp [ha, hname]
  rw [hpt, List.sum_map_add,
    sum_indicator_key (fun a : account_object => a.name) s.accounts acc
      (fun a => acc.balance.amount + amt - a.balance.amount) hn hmem]
  ring

theorem names_unique_credit (s : database W M) (n : account_name_type) (amt : share_type)
    (hn : names_unique s) : names_unique (credit n amt s) := by
  unfold names_unique credit
  rw [names_credit_accounts]
  exact hn

theorem funds_cancel_pending_bet (s s1 : database W M) (bet : pending_bet_object W M)
    (g : uuid_type) (u : Unit) (hn : names_unique s)
    (h : cancel_pending_bet bet g s = .ok u s1) :
    names_unique s1 ∧ funds_total s1 = funds_total s := by
  obtain ⟨acc, hfind, _, _, e⟩ := cancel_pending_bet_inv s s1 bet g u h
  have hb := balances_total_credit s bet.data.better bet.data.stake.amount acc hn hfind
  have hu := names_unique_credit s bet.data.better bet.data.stake.amount hn
  rw [e]
  refine ⟨hu, ?_⟩
  show balances_total (credit bet.data.better bet.data.stake.amount s)
      + ((s.dprop.betting_stats.pending_bets_volume.amount + -bet.data.stake.amount)
        + s.dprop.betting_stats.matched_bets_volume.amount) = _
  rw [hb]
  unfold funds_total staked_total
  ring

theorem funds_return_bet (s s1 : database W M) (bet : bet_data W)
    (g : uuid_type) (u : Unit) (hn : names_unique s)
    (h : return_bet bet g s = .ok u s1) :
    names_unique s1 ∧ funds_total s1 = funds_total s := by
  obtain ⟨acc, hfind, _, _, e⟩ := return_bet_inv s s1 bet g u h
  have hb := balances_total_credit s bet.better bet.stake.amount acc hn hfind
  have hu := names_unique_credit s bet.better bet.stake.amount hn
  rw [e]
  refine ⟨hu, ?_⟩
  show balances_total (credit bet.better bet.stake.amount s)
      + (s.dprop.betting_stats.pending_bets_volume.amount
        + (s.dprop.betting_stats.matched_bets_volume.amount + -bet.stake.amount)) = _
  rw [hb]
  unfold funds_total staked_total
  ring

theorem funds_restore_pending_bet [LinearOrder W] (create_market : W → M)
    (s s1 : database W M) (bet : bet_data W) (g : uuid_type) (u : Unit) (hn : names_unique s)
    (h : restore_pending_bet create_market bet g s = .ok u s1) :
    names_unique s1 ∧ funds_total s1 = funds_total s := by
  obtain ⟨game, _, e⟩ := restore_pending_bet_inv create_market s s1 bet g u h
  rw [e]
  refine ⟨hn, ?_⟩
  show balances_total s
      + ((s.dprop.betting_stats.pending_bets_volume.amount + bet.stake.amount)
        + (s.dprop.betting_stats.matched_bets_volume.amount + -bet.stake.amount)) = _
  unfold funds_total staked_total
  ring

theorem funds_create_pending_bet (create_market : W → M) (s s1 : database W M)
    (better : account_name_type) (stake : asset) (o : odds) (wincase : W)
    (game : game_id_type) (bet_uuid : uuid_type) (kind : pending_bet_kind)
    (bet : pending_bet_object W M) (hn : names_unique s)
    (h : create_pending_bet create_market better stake o wincase game bet_uuid kind s
      = .ok bet s1) :
    names_unique s1 ∧ funds_total s1 = funds_total s := by
  obtain ⟨bal, hacc, hbal, hvol, huuid⟩ :=
    create_pending_bet_ok_inv create_market s better stake o wincase game bet_uuid kind bet s1 h
  rw [create_pending_bet_ok create_market s better stake o wincase game bet_uuid kind bal hacc
    hbal hvol huuid] at h
  injection h with _ hs1
  subst hs1
  obtain ⟨acc, hfind, _, _⟩ := find_of_balance_of s.accounts better bal hacc
  have hb := balances_total_credit s better (-stake.amount) acc hn hfind
  have hu := names_unique_credit s better (-stake.amount) hn
  refine ⟨hu, ?_⟩
  show balances_total (credit better (-stake.amount) s)
      + ((s.dprop.betting_stats.pending_bets_volume.amount + stake.amount)
        + s.dprop.betting_stats.matched_bets_volume.amount) = _
  rw [hb]
  unfold funds_total staked_total
  ring

end funds

/-! ## Row properties that a restore keeps -/

section restore_rows

variable {W M : Type}

open betting_service

/-- A property of pending rows that does not look at the stake and holds for the row a
restore would create holds for every row after the restore. -/
theorem restore_index_forall [LinearOrder W] (create_market : W → M) (game_id : game_id_type)
    (bet : bet_data W) (idx : db_index (pending_bet_object W M))
    (P : pending_bet_object W M → Prop)
    (hstake : ∀ (o : pending_bet_object W M) st, P o →
      P { o with data := { o.data with stake := st } })
    (hnew : P { id := idx.next_id, game := game_id, market := create_market bet.wincase
                data := bet })
    (hall : ∀ p ∈ idx.objects, P p) :
    ∀ p ∈ (restore_index create_market game_id bet idx).objects, P p := by
  intro p hp
  unfold restore_index at hp
  split at hp
  · rename_i x found hf
    obtain ⟨q, hq, rfl⟩ := List.mem_map.mp hp
    by_cases hid : q.id = found.id
    · rw [if_pos hid]
      exact hstake q _ (hall q hq)
    · rw [if_neg hid]
      exact hall q hq
  · rcases List.mem_append.mp hp with h | h
    · exact hall p h
    · rw [List.mem_singleton] at h
      rw [h]
      exact hnew

/-- A restore either changes stakes only, or appends the leg as a new row on the market of
its wincase. -/
theorem restore_index_shape [LinearOrder W] (create_market : W → M) (game_id : game_id_type)
    (bet : bet_data W) (idx : db_index (pending_bet_object W M)) :
    List.Forall₂
        (fun o o1 : pending_bet_object W M =>
          o1 = { o with data := { o.data with stake := o1.data.stake } })
        idx.objects (restore_index create_market game_id bet idx).objects
      ∨ (restore_index create_market game_id bet idx).objects
          = idx.objects ++
            [{ id := idx.next_id, game := game_id, market := create_market bet.wincase
               data := bet }] := by
  unfold restore_index
  split
  · left
    rename_i x found hf
    simp only
    rw [List.forall₂_map_right_iff, List.forall₂_same]
    intro o _
    by_cases hid : o.id = found.id
    · rw [if_pos hid]
    · rw [if_neg hid]
  · right
    rfl

end restore_rows

/-! ## What the building blocks do to the stores and to the UUID history -/

section store_shapes

variable {W M : Type}

open betting_service

theorem create_pending_bet_stores (create_market : W → M) (s s1 : database W M)
    (better : account_name_type) (stake : asset) (o : odds) (wincase : W)
    (game : game_id_type) (bet_uuid : uuid_type) (kind : pending_bet_kind)
    (bet : pending_bet_object W M)
    (h : create_pending_bet create_market better stake o wincase game bet_uuid kind s
      = .ok bet s1) :
    bet = { id := s.pending_bets.next_id, game := game, market := create_market wincase
            data := { uuid := bet_uuid, created := s.dprop.time, better := better
                      wincase := wincase, stake := stake, bet_odds := o, kind := kind } }
      ∧ s1.pending_bets.objects = s.pending_bets.objects ++ [bet]
      ∧ s1.pending_bets.next_id = s.pending_bets.next_id + 1
      ∧ s1.matched_bets = s.matched_bets
      ∧ s1.uuid_hist = s.uuid_hist ++ [bet_uuid]
      ∧ s1.dprop.betting_stats.pending_bets_volume
          = s.dprop.betting_stats.pending_bets_volume.plus stake.amount
      ∧ s1.dprop.betting_stats.matched_bets_volume
          = s.dprop.betting_stats.matched_bets_volume := by
  obtain ⟨bal, hacc, hbal, hvol, huuid⟩ :=
    create_pending_bet_ok_inv create_market s better stake o wincase game bet_uuid kind bet s1 h
  rw [create_pending_bet_ok create_market s better stake o wincase game bet_uuid kind bal hacc
    hbal hvol huuid] at h
  injection h with hbet hs1
  subst hs1
  subst hbet
  exact ⟨rfl, rfl, rfl, rfl, rfl, rfl, rfl⟩

theorem cancel_pending_bet_stores (s s1 : database W M) (bet : pending_bet_object W M)
    (g : uuid_type) (u : Unit) (h : cancel_pending_bet bet g s = .ok u s1) :
    s1.pending_bets.objects
        = s.pending_bets.objects.filter (fun o => decide (o.id ∉ [bet.id]))
      ∧ s1.pending_bets.next_id = s.pending_bets.next_id
      ∧ s1.matched_bets = s.matched_bets
      ∧ s1.uuid_hist = s.uuid_hist
      ∧ s1.dprop.betting_stats.pending_bets_volume
          = s.dprop.betting_stats.pending_bets_volume.plus (-bet.data.stake.amount)
      ∧ s1.dprop.betting_stats.matched_bets_volume
          = s.dprop.betting_stats.matched_bets_volume := by
  obtain ⟨_, _, _, _, e⟩ := cancel_pending_bet_inv s s1 bet g u h
  rw [e]
  exact ⟨rfl, rfl, rfl, rfl, rfl, rfl⟩

theorem return_bet_stores (s s1 : database W M) (bet : bet_data W)
    (g : uuid_type) (u : Unit) (h : return_bet bet g s = .ok u s1) :
    s1.pending_bets = s.pending_bets
      ∧ s1.matched_bets = s.matched_bets
      ∧ s1.uuid_hist = s.uuid_hist
      ∧ s1.dprop.betting_stats.pending_bets_volume
          = s.dprop.betting_stats.pending_bets_volume
      ∧ s1.dprop.betting_stats.matched_bets_volume
          = s.dprop.betting_stats.matched_bets_volume.plus (-bet.stake.amount) := by
  obtain ⟨_, _, _, _, e⟩ := return_bet_inv s s1 bet g u h
  rw [e]
  exact ⟨rfl, rfl, rfl, rfl, rfl⟩

theorem restore_pending_bet_stores [LinearOrder W] (create_market : W → M)
    (s s1 : database W M) (bet : bet_data W) (g : uuid_type) (u : Unit)
    (h : restore_pending_bet create_market bet g s = .ok u s1) :
    ∃ game : game_object,
      s1.pending_bets = restore_index create_market game.id bet s.pending_bets
      ∧ s1.matched_bets = s.matched_bets
      ∧ s1.uuid_hist = s.uuid_hist
      ∧ s1.dprop.betting_stats.pending_bets_volume
          = s.dprop.betting_stats.pending_bets_volume.plus bet.stake.amount
      ∧ s1.dprop.betting_stats.matched_bets_volume
          = s.dprop.betting_stats.matched_bets_volume.plus (-bet.stake.amount) := by
  obtain ⟨game, _, e⟩ := restore_pending_bet_inv create_market s s1 bet g u h
  rw [e]
  exact ⟨game, rfl, rfl, rfl, rfl, rfl⟩

end store_shapes

/-! ## Sums of stakes over the stores -/

section store_sums

variable {W M : Type}

open betting_service

/-- The rows removed by id and the rows that stay add up to the whole store. -/
theorem sum_filter_ids {α : Type} (id : α → Nat) (f : α → share_type) (objs l : List α)
    (hids : (objs.map id).Nodup) (hl : l.Nodup) (hsub : ∀ x ∈ l, x ∈ objs) :
    ((objs.filter (fun o => decide (id o ∉ l.map id))).map f).sum + (l.map f).sum
      = (objs.map f).sum := by
  have hobjs : objs.Nodup := List.Nodup.of_map id hids
  have hperm : (objs.filter (fun o => decide (id o ∈ l.map id))).Perm l := by
    rw [List.perm_ext_iff_of_nodup (hobjs.filter _) hl]
    intro a
    constructor
    · intro ha
      obtain ⟨ha1, ha2⟩ := List.mem_filter.mp ha
      obtain ⟨x, hx, hxa⟩ := List.mem_map.mp (of_decide_eq_true ha2)
      rw [← eq_of_id_eq id objs hids x a (hsub x hx) ha1 hxa]
      exact hx
    · intro ha
      exact List.mem_filter.mpr ⟨hsub a ha, decide_eq_true (List.mem_map_of_mem id ha)⟩
  have hnot : objs.filter (fun o => decide (id o ∉ l.map id))
      = objs.filter (fun o => !decide (id o ∈ l.map id)) := by
    apply List.filter_congr
    intro o _
    exact decide_not
  have hsplit := ((List.filter_append_perm (fun o => decide (id o ∈ l.map id)) objs).map f).sum_eq
  rw [List.map_append, List.sum_append, (hperm.map f).sum_eq] at hsplit
  rw [hnot, ← hsplit]
  ring

theorem stake_sum_legs_of (l : List (matched_bet_object W M)) :
    stake_sum (legs_of l)
      = (l.map (fun m => m.bet1_data.stake.amount + m.bet2_data.stake.amount)).sum := by
  induction l with
  | nil => rfl
  | cons x xs ih =>
    rw [legs_of_cons]
    unfold stake_sum at ih ⊢
    simp only [List.map_cons, List.sum_cons, ih]
    ring

theorem stake_sum_legs_cons (m : matched_bet_object W M) (ms : List (matched_bet_object W M)) :
    stake_sum (legs_of (m :: ms))
      = m.bet1_data.stake.amount + m.bet2_data.stake.amount + stake_sum (legs_of ms) := by
  rw [legs_of_cons]
  unfold stake_sum
  simp only [List.map_cons, List.sum_cons]
  ring

/-- With distinct ids, a restore adds the stake of the leg to the sum of the pending
stakes. -/
theorem restore_index_total [LinearOrder W] (create_market : W → M) (game_id : game_id_type)
    (bet : bet_data W) (idx : db_index (pending_bet_object W M)) (hwf : index_wf idx) :
    stake_sum ((restore_index create_market game_id bet idx).objects.map (fun p => p.data))
      = stake_sum (idx.objects.map (fun p => p.data)) + bet.stake.amount := by
  obtain ⟨hyes, hno⟩ := restore_index_cases create_market game_id bet idx hwf
  by_cases hex : ∃ o ∈ idx.objects, restore_target game_id bet o
  · obtain ⟨pre, found, post, e1, _, _, e2, _⟩ := hyes hex
    rw [e2, e1]
    unfold stake_sum
    simp only [List.map_append, List.map_cons, List.sum_append, List.sum_cons, add_stake,
      asset.plus]
    ring
  · obtain ⟨e2, _⟩ := hno hex
    rw [e2]
    unfold stake_sum
    simp only [List.map_append, List.map_cons, List.map_nil, List.sum_append, List.sum_cons,
      List.sum_nil]
    ring

theorem nodup_of_ids {α : Type} (id : α → Nat) (objs : List α) (h : (objs.map id).Nodup) :
    objs.Nodup :=
  List.Nodup.of_map id h

theorem ids_nodup_filter {α : Type} (id : α → Nat) (p : α → Bool) (objs : List α)
    (h : (objs.map id).Nodup) : ((objs.filter p).map id).Nodup :=
  h.sublist ((List.filter_sublist objs).map id)

end store_sums

/-! ## The volume invariant, step by step -/

section volume_steps

variable {W M : Type}

open betting_service

theorem stake_sum_data (l : List (pending_bet_object W M)) :
    stake_sum (l.map (fun p => p.data)) = (l.map (fun p => p.data.stake.amount)).sum := by
  unfold stake_sum
  rw [List.map_map]
  rfl

theorem index_wf_filter (idx : db_index (pending_bet_object W M))
    (p : pending_bet_object W M → Bool) (h : index_wf idx) :
    index_wf { idx with objects := idx.objects.filter p } :=
  ⟨ids_nodup_filter (fun o : pending_bet_object W M => o.id) p idx.objects h.1,
    fun o ho => h.2 o (List.mem_of_mem_filter ho)⟩

/-- A row of a list without repetitions whose head was removed by id is still there. -/
theorem mem_filter_of_rest {α : Type} (id : α → Nat) (objs : List α) (x : α) (rest : List α)
    (hids : (objs.map id).Nodup) (hnd : (x :: rest).Nodup)
    (hsub : ∀ b ∈ x :: rest, b ∈ objs) :
    ∀ b ∈ rest, b ∈ objs.filter (fun o => decide (id o ∉ [id x])) := by
  intro b hb
  have hbo := hsub b (List.mem_cons_of_mem _ hb)
  refine List.mem_filter.mpr ⟨hbo, ?_⟩
  simp only [List.mem_singleton, decide_eq_true_eq]
  intro hid
  have : b = x := eq_of_id_eq id objs hids b x hbo (hsub x (List.mem_cons_self _ _)) hid
  rw [this] at hb
  exact (List.nodup_cons.mp hnd).1 hb

theorem volumes_cancel_pending_bet (s s1 : database W M) (bet : pending_bet_object W M)
    (g : uuid_type) (u : Unit) (hr : rows_wf s) (hv : volumes_consistent s)
    (hb : bet ∈ s.pending_bets.objects) (h : cancel_pending_bet bet g s = .ok u s1) :
    rows_wf s1 ∧ volumes_consistent s1 := by
  obtain ⟨e1, e2, e3, _, e5, e6⟩ := cancel_pending_bet_stores s s1 bet g u h
  have hsum := sum_filter_ids (fun p : pending_bet_object W M => p.id)
    (fun p => p.data.stake.amount) s.pending_bets.objects [bet] hr.1.1
    (List.nodup_singleton _) (fun x hx => by rw [List.mem_singleton.mp hx]; exact hb)
  simp only [List.map_cons, List.map_nil, List.sum_cons, List.sum_nil, add_zero] at hsum
  have hv1 := hv.1
  unfold pending_stake_total at hv1
  rw [stake_sum_data] at hv1
  refine ⟨⟨⟨?_, ?_⟩, ?_⟩, ?_, ?_⟩
  · rw [e1]
    exact ids_nodup_filter _ _ _ hr.1.1
  · intro p hp
    rw [e1] at hp
    rw [e2]
    exact hr.1.2 p (List.mem_of_mem_filter hp)
  · rw [e3]
    exact hr.2
  · unfold pending_stake_total
    rw [stake_sum_data, e1, e5]
    show _ = s.dprop.betting_stats.pending_bets_volume.amount + -bet.data.stake.amount
    linarith
  · unfold matched_stake_total
    rw [e3, e6]
    exact hv.2

/-- A returning loop over distinct pending rows of the store keeps the volume invariant. -/
theorem volumes_cancel_pending_bets_range (l : List (pending_bet_object W M)) (g : uuid_type)
    (s s1 : database W M) (u : Unit) (hr : rows_wf s) (hv : volumes_consistent s)
    (hl : l.Nodup) (hsub : ∀ b ∈ l, b ∈ s.pending_bets.objects)
    (h : cancel_pending_bets_range l g s = .ok u s1) :
    rows_wf s1 ∧ volumes_consistent s1 ∧ s1.matched_bets = s.matched_bets := by
  have hloop := foreach_mut_inv (fun bet => cancel_pending_bet bet g)
    (fun rest t => rest.Nodup ∧ (∀ b ∈ rest, b ∈ t.pending_bets.objects)
      ∧ rows_wf t ∧ volumes_consistent t ∧ t.matched_bets = s.matched_bets)
    (fun x rest t v t1 ht hf => by
      obtain ⟨h1, h2, h3, h4, h5⟩ := ht
      obtain ⟨e1, _, e3, _, _, _⟩ := cancel_pending_bet_stores t t1 x g v hf
      obtain ⟨r1, r2⟩ := volumes_cancel_pending_bet t t1 x g v h3 h4
        (h2 x (List.mem_cons_self _ _)) hf
      refine ⟨(List.nodup_cons.mp h1).2, ?_, r1, r2, e3.trans h5⟩
      rw [e1]
      exact mem_filter_of_rest (fun p : pending_bet_object W M => p.id) _ x rest h3.1.1 h1 h2)
    l s s1 u ⟨hl, hsub, hr, hv, rfl⟩ h
  exact ⟨hloop.2.2.1, hloop.2.2.2.1, hloop.2.2.2.2⟩

theorem volumes_cancel_matched_bet (s s1 : database W M) (bet : matched_bet_object W M)
    (g : uuid_type) (u : Unit) (hr : rows_wf s) (hv : volumes_consistent s)
    (hb : bet ∈ s.matched_bets.objects) (h : cancel_matched_bet bet g s = .ok u s1) :
    rows_wf s1 ∧ volumes_consistent s1
      ∧ s1.matched_bets.objects
          = s.matched_bets.objects.filter (fun o => decide (o.id ∉ [bet.id])) := by
  obtain ⟨t1, t2, h1, h2, e⟩ := cancel_matched_bet_shape s s1 bet g u h
  obtain ⟨a1, a2, _, a4, a5⟩ := return_bet_stores s t1 bet.bet1_data g () h1
  obtain ⟨b1, b2, _, b4, b5⟩ := return_bet_stores t1 t2 bet.bet2_data g () h2
  have hsum := sum_filter_ids (fun m : matched_bet_object W M => m.id)
    (fun m => m.bet1_data.stake.amount + m.bet2_data.stake.amount) s.matched_bets.objects
    [bet] hr.2 (List.nodup_singleton _) (fun x hx => by rw [List.mem_singleton.mp hx]; exact hb)
  simp only [List.map_cons, List.map_nil, List.sum_cons, List.sum_nil, add_zero] at hsum
  have hv2 := hv.2
  unfold matched_stake_total at hv2
  rw [stake_sum_legs_of] at hv2
  have ep : s1.pending_bets = s.pending_bets := by
    rw [e]
    exact b1.trans a1
  have em : s1.matched_bets.objects
      = s.matched_bets.objects.filter (fun o => decide (o.id ∉ [bet.id])) := by
    rw [e]
    show t2.matched_bets.objects.filter _ = _
    rw [b2, a2]
  have epv : s1.dprop.betting_stats.pending_bets_volume
      = s.dprop.betting_stats.pending_bets_volume := by
    rw [e]
    exact b4.trans a4
  have emv : s1.dprop.betting_stats.matched_bets_volume
      = (s.dprop.betting_stats.matched_bets_volume.plus (-bet.bet1_data.stake.amount)).plus
          (-bet.bet2_data.stake.amount) := by
    rw [e]
    show t2.dprop.betting_stats.matched_bets_volume = _
    rw [b5, a5]
  refine ⟨⟨?_, ?_⟩, ⟨?_, ?_⟩, em⟩
  · rw [ep]
    exact hr.1
  · rw [em]
    exact ids_nodup_filter _ _ _ hr.2
  · unfold pending_stake_total
    rw [ep, epv]
    exact hv.1
  · unfold matched_stake_total
    rw [stake_sum_legs_of, em, emv]
    show _ = s.dprop.betting_stats.matched_bets_volume.amount + -bet.bet1_data.stake.amount
      + -bet.bet2_data.stake.amount
    linarith

/-- A returning loop over distinct matched rows of the store keeps the volume invariant. -/
theorem volumes_cancel_matched_bets_range (l : List (matched_bet_object W M)) (g : uuid_type)
    (s s1 : database W M) (u : Unit) (hr : rows_wf s) (hv : volumes_consistent s)
    (hl : l.Nodup) (hsub : ∀ b ∈ l, b ∈ s.matched_bets.objects)
    (h : cancel_matched_bets_range l g s = .ok u s1) :
    rows_wf s1 ∧ volumes_consistent s1 := by
  have hloop := foreach_mut_inv (fun bet => cancel_matched_bet bet g)
    (fun rest t => rest.Nodup ∧ (∀ b ∈ rest, b ∈ t.matched_bets.objects)
      ∧ rows_wf t ∧ volumes_consistent t)
    (fun x rest t v t1 ht hf => by
      obtain ⟨h1, h2, h3, h4⟩ := ht
      obtain ⟨r1, r2, e1⟩ := volumes_cancel_matched_bet t t1 x g v h3 h4
        (h2 x (List.mem_cons_self _ _)) hf
      refine ⟨(List.nodup_cons.mp h1).2, ?_, r1, r2⟩
      rw [e1]
      exact mem_filter_of_rest (fun m : matched_bet_object W M => m.id) _ x rest h3.2 h1 h2)
    l s s1 u ⟨hl, hsub, hr, hv⟩ h
  exact ⟨hloop.2.2.1, hloop.2.2.2⟩

/-- One leg of the loop of `cancel_bets(game_id, created_after)`: the pending side stays
consistent, the matched store is not touched and the matched counter drops by the stake. -/
theorem volumes_cancel_bets_leg [LinearOrder W] (create_market : W → M)
    (created_after : time_point_sec) (g : uuid_type) (b : bet_data W) (t t1 : database W M)
    (u : Unit) (hidx : index_wf t.pending_bets)
    (hp : pending_stake_total t = t.dprop.betting_stats.pending_bets_volume.amount)
    (h : cancel_bets_leg create_market created_after g b t = .ok u t1) :
    index_wf t1.pending_bets
      ∧ pending_stake_total t1 = t1.dprop.betting_stats.pending_bets_volume.amount
      ∧ t1.matched_bets = t.matched_bets
      ∧ t1.dprop.betting_stats.matched_bets_volume.amount
          = t.dprop.betting_stats.matched_bets_volume.amount - b.stake.amount := by
  unfold cancel_bets_leg at h
  split at h
  · obtain ⟨e1, e2, _, e4, e5⟩ := return_bet_stores t t1 b g u h
    refine ⟨by rw [e1]; exact hidx, ?_, e2, ?_⟩
    · unfold pending_stake_total
      rw [e1, e4]
      exact hp
    · rw [e5]
      show _ + -b.stake.amount = _
      ring
  · obtain ⟨game, e1, e2, _, e4, e5⟩ := restore_pending_bet_stores create_market t t1 b g u h
    refine ⟨by rw [e1]; exact restore_index_wf create_market game.id b _ hidx, ?_, e2, ?_⟩
    · unfold pending_stake_total at hp ⊢
      rw [e1, e4, restore_index_total create_market game.id b _ hidx, hp]
      rfl
    · rw [e5]
      show _ + -b.stake.amount = _
      ring

theorem volumes_cancel_bets_created_after [LinearOrder W] (create_market : W → M)
    (s s1 : database W M) (game_id : game_id_type) (created_after : time_point_sec) (u : Unit)
    (hr : rows_wf s) (hv : volumes_consistent s)
    (h : cancel_bets_created_after create_market game_id created_after s = .ok u s1) :
    rows_wf s1 ∧ volumes_consistent s1 := by
  obtain ⟨game, t1, t2, _, h1, h2, e⟩ :=
    cancel_bets_created_after_inv create_market s s1 game_id created_after u h
  have hpn : (pending_bet_dba.get_range_by_game_id_created game_id created_after s).Nodup := by
    unfold pending_bet_dba.get_range_by_game_id_created
    rw [(List.perm_insertionSort _ _).nodup_iff]
    exact (nodup_of_ids (fun p : pending_bet_object W M => p.id) _ hr.1.1).filter _
  have hmn : (matched_bet_dba.get_range_by_game_id_created game_id created_after s).Nodup := by
    unfold matched_bet_dba.get_range_by_game_id_created
    rw [(List.perm_insertionSort _ _).nodup_iff]
    exact (nodup_of_ids (fun m : matched_bet_object W M => m.id) _ hr.2).filter _
  have hms : ∀ m ∈ matched_bet_dba.get_range_by_game_id_created game_id created_after s,
      m ∈ s.matched_bets.objects :=
    fun m hm => ((mem_matched_range s game_id created_after m).mp hm).1
  obtain ⟨r1, v1, m1⟩ := volumes_cancel_pending_bets_range _ game.uuid s t1 () hr hv hpn
    (fun p hp => ((mem_pending_range s game_id created_after p).mp hp).1) h1
  have hstart : t1.dprop.betting_stats.matched_bets_volume.amount = matched_stake_total s := by
    rw [← v1.2]
    unfold matched_stake_total
    rw [m1]
  have hloop := foreach_mut_inv
    (fun matched_bet : matched_bet_object W M => do
      cancel_bets_leg create_market created_after game.uuid matched_bet.bet1_data
      cancel_bets_leg create_market created_after game.uuid matched_bet.bet2_data)
    (fun rest t => index_wf t.pending_bets
      ∧ pending_stake_total t = t.dprop.betting_stats.pending_bets_volume.amount
      ∧ t.matched_bets = s.matched_bets
      ∧ t.dprop.betting_stats.matched_bets_volume.amount
            + stake_sum (legs_of
                (matched_bet_dba.get_range_by_game_id_created game_id created_after s))
          = matched_stake_total s + stake_sum (legs_of rest))
    (fun x rest t v t3 ht hf => by
      obtain ⟨i1, i2, i3, i4⟩ := ht
      obtain ⟨a1, t4, h3, h4⟩ := Op.bind_ok_inv _ _ _ _ _ hf
      obtain ⟨j1, j2, j3, j4⟩ := volumes_cancel_bets_leg create_market created_after game.uuid
        x.bet1_data t t4 a1 i1 i2 h3
      obtain ⟨k1, k2, k3, k4⟩ := volumes_cancel_bets_leg create_market created_after game.uuid
        x.bet2_data t4 t3 v j1 j2 h4
      refine ⟨k1, k2, (k3.trans j3).trans i3, ?_⟩
      rw [stake_sum_legs_cons] at i4
      rw [k4, j4]
      linarith)
    _ t1 t2 () ⟨r1.1, v1.1, m1, by rw [hstart]⟩ h2
  obtain ⟨l1, l2, l3, l4⟩ := hloop
  have hsum := sum_filter_ids (fun m : matched_bet_object W M => m.id)
    (fun m => m.bet1_data.stake.amount + m.bet2_data.stake.amount) s.matched_bets.objects
    (matched_bet_dba.get_range_by_game_id_created game_id created_after s) hr.2 hmn hms
  rw [← stake_sum_legs_of, ← stake_sum_legs_of, ← stake_sum_legs_of] at hsum
  have hnil : stake_sum (legs_of ([] : List (matched_bet_object W M))) = 0 := rfl
  rw [hnil] at l4
  have em : s1.matched_bets.objects = s.matched_bets.objects.filter (fun o => decide (o.id ∉
      (matched_bet_dba.get_range_by_game_id_created game_id created_after s).map
        (fun m => m.id))) := by
    rw [e]
    show t2.matched_bets.objects.filter _ = _
    rw [l3]
  refine ⟨⟨by rw [e]; exact l1, ?_⟩, ?_, ?_⟩
  · rw [em]
    exact ids_nodup_filter _ _ _ hr.2
  · rw [e]
    exact l2
  · unfold matched_stake_total at l4 ⊢
    rw [em]
    have emv : s1.dprop.betting_stats.matched_bets_volume
        = t2.dprop.betting_stats.matched_bets_volume := by rw [e]; rfl
    rw [emv]
    linarith

end volume_steps

/-! ## `cancel_bets(game_id)` followed by `cancel_game(game_id)` -/

section bets_then_game

variable {W M : Type}

open betting_service

theorem cancel_pending_bets_range_inv (l : List (pending_bet_object W M)) (g : uuid_type)
    (s s1 : database W M) (u : Unit) (h : cancel_pending_bets_range l g s = .ok u s1) :
    s1 = l.foldl (fun t bet => cancel_pending_bet_result g bet t) s :=
  foreach_mut_eq_foldl (fun bet => cancel_pending_bet bet g)
    (fun bet t => cancel_pending_bet_result g bet t)
    (fun x t v t1 hf => (cancel_pending_bet_inv t t1 x g v hf).choose_spec.2.2.2)
    l s s1 u h

theorem cancel_matched_bets_range_inv (l : List (matched_bet_object W M)) (g : uuid_type)
    (s s1 : database W M) (u : Unit) (h : cancel_matched_bets_range l g s = .ok u s1) :
    s1 = l.foldl (fun t bet => cancel_matched_bet_result g bet t) s :=
  foreach_mut_eq_foldl (fun bet => cancel_matched_bet bet g)
    (fun bet t => cancel_matched_bet_result g bet t)
    (fun x t v t1 hf => cancel_matched_bet_inv t t1 x g v hf)
    l s s1 u h

/-- Removing the ids of a range that holds every row of the game leaves no row of the
game. -/
theorem filter_ids_no_game {α : Type} (id : α → Nat) (game : α → game_id_type)
    (objs range : List α) (game_id : game_id_type)
    (hrange : ∀ o ∈ objs, game o = game_id → o ∈ range) :
    (objs.filter (fun o => decide (id o ∉ range.map id))).filter
        (fun o => decide (game o = game_id)) = [] := by
  rw [List.filter_filter, List.filter_eq_nil_iff]
  intro o ho
  by_cases hg : game o = game_id
  · have : id o ∈ range.map id := List.mem_map_of_mem id (hrange o ho hg)
    simp [hg, this]
  · simp [hg]

/-- A returning `cancel_bets(game_id)` found the game and left no bet of it in either
store; the game store is as it was. -/
theorem cancel_bets_clears [LinearOrder M] (s s1 : database W M) (game_id : game_id_type)
    (u : Unit) (h : cancel_bets game_id s = .ok u s1) :
    pending_of_game game_id s1 = [] ∧ matched_of_game game_id s1 = []
      ∧ s1.games = s.games
      ∧ ∃ game, s.games.find? (fun x => decide (x.id = game_id)) = some game := by
  obtain ⟨t, h1, h2⟩ := cancel_bets_inv s s1 game_id u h
  obtain ⟨game, hg, hc⟩ := cancel_pending_bets_inv s t game_id () h1
  obtain ⟨game2, _, hc2⟩ := cancel_matched_bets_inv t s1 game_id u h2
  have e1 := cancel_pending_bets_range_inv _ _ s t () hc
  have e2 := cancel_matched_bets_range_inv _ _ t s1 u hc2
  obtain ⟨_, _, _, _, _, p6, _, _, p9, _, _⟩ := pending_fold_fields game.uuid
    (pending_bet_dba.get_range_by_game_id_market game_id s) s
  obtain ⟨_, _, _, _, _, m6, _, m8, m9, _, _⟩ := matched_fold_fields game2.uuid
    (matched_bet_dba.get_range_by_game_id_market game_id t) t
  rw [← e1] at p6 p9
  rw [← e2] at m6 m8 m9
  refine ⟨?_, ?_, m9.trans p9, game, hg⟩
  · unfold pending_of_game
    rw [m8, p6]
    exact filter_ids_no_game (fun p : pending_bet_object W M => p.id) (fun p => p.game) _ _
      game_id (fun o ho hgo => (mem_pending_range_market s game_id o).mpr ⟨ho, hgo⟩)
  · unfold matched_of_game
    rw [m6]
    exact filter_ids_no_game (fun m : matched_bet_object W M => m.id) (fun m => m.game) _ _
      game_id (fun o ho hgo => (mem_matched_range_market t game_id o).mpr ⟨ho, hgo⟩)

/-- With no matched bet of the game in the store and the game in the game store,
`cancel_game` returns and removes the records with the id of the game. -/
theorem cancel_game_ok [LinearOrder M] (s : database W M) (game_id : game_id_type)
    (game : game_object) (hm : matched_of_game game_id s = [])
    (hgame : s.games.find? (fun g => decide (g.id = game_id)) = some game) :
    cancel_game game_id s
      = .ok () { s with games := s.games.filter (fun g => decide (g.id ≠ game_id)) } := by
  have hid : game.id = game_id := by simpa using List.find?_some hgame
  have hrange : matched_bet_dba.get_range_by_game_id_market game_id s = [] := by
    unfold matched_bet_dba.get_range_by_game_id_market
    unfold matched_of_game at hm
    rw [hm]
    rfl
  unfold cancel_game
  simp only [Op.bind_apply, Op.get, hrange, FC_ASSERT, List.isEmpty_nil, if_true,
    game_dba.get_by_id, hgame, game_dba.remove, Op.modify, hid]

end bets_then_game

/-! ## Cancelling a selection of pending rows -/

section pending_selection

variable {W M : Type}

open betting_service

theorem length_legs_of (l : List (matched_bet_object W M)) :
    (legs_of l).length = 2 * l.length := by
  induction l with
  | nil => rfl
  | cons x xs ih =>
    rw [legs_of_cons]
    simp only [List.length_cons, ih]
    ring

/-- Removing the ids of a range that holds exactly the selected rows of a store with
distinct ids removes the selected rows. -/
theorem filter_ids_of_selection {α : Type} (id : α → Nat) (sel : α → Bool)
    (objs range : List α) (hids : (objs.map id).Nodup)
    (hrange : ∀ o, o ∈ range ↔ o ∈ objs ∧ sel o = true) :
    objs.filter (fun o => decide (id o ∉ range.map id))
      = objs.filter (fun o => !sel o) := by
  apply List.filter_congr
  intro o ho
  by_cases hs : sel o = true
  · have : id o ∈ range.map id := List.mem_map.mpr ⟨o, (hrange o).mpr ⟨ho, hs⟩, rfl⟩
    simp [hs, this]
  · have : id o ∉ range.map id := by
      intro hmem
      obtain ⟨q, hq, hqo⟩ := List.mem_map.mp hmem
      have hq2 := (hrange q).mp hq
      have : q = o := eq_of_id_eq id objs hids q o hq2.1 ho hqo
      rw [this] at hq2
      exact hs hq2.2
    simp [hs, this]

/-- In a well-formed state with the game in the store, the loop over a range that holds
exactly the selected pending rows returns; it cancels these rows and nothing else. -/
theorem cancel_pending_selection_ok {sym : asset_symbol_type} (s : database W M)
    (game_id : game_id_type) (game : game_object) (hwf : s.well_formed sym)
    (hgame : s.games.find? (fun g => decide (g.id = game_id)) = some game)
    (ps : List (pending_bet_object W M)) (sel : pending_bet_object W M → Bool)
    (hperm : ps.Perm (s.pending_bets.objects.filter sel)) :
    cancel_pending_bets_range ps game.uuid s
        = .ok () (ps.foldl (fun t p => cancel_pending_bet_result game.uuid p t) s)
      ∧ (ps.foldl (fun t p => cancel_pending_bet_result game.uuid p t) s).pending_bets.objects
          = s.pending_bets.objects.filter (fun o => !sel o)
      ∧ (ps.foldl (fun t p =>
            cancel_pending_bet_result game.uuid p t) s).dprop.betting_stats.pending_bets_volume
          = s.dprop.betting_stats.pending_bets_volume.plus
              (-(stake_sum ((s.pending_bets.objects.filter sel).map (fun p => p.data))))
      ∧ (ps.foldl (fun t p => cancel_pending_bet_result game.uuid p t) s).matched_bets
          = s.matched_bets
      ∧ (∀ a, (ps.foldl (fun t p => cancel_pending_bet_result game.uuid p t) s).balance a
          = (s.balance a).map (fun b => b.plus
              (stake_sum_of a ((s.pending_bets.objects.filter sel).map (fun p => p.data)))))
      ∧ (ps.foldl (fun t p => cancel_pending_bet_result game.uuid p t) s).virt_ops
          = s.virt_ops ++ ps.map (fun p => cancelled_op game.uuid .pending p.data) := by
  have hmem : ∀ o, o ∈ ps ↔ o ∈ s.pending_bets.objects ∧ sel o = true := by
    intro o
    rw [hperm.mem_iff, List.mem_filter]
  obtain ⟨h1, _⟩ := cancel_lists_ok s game_id game hwf hgame ps
    (fun p hp => ((hmem p).mp hp).1) [] (fun m hm => absurd hm (List.not_mem_nil m))
  obtain ⟨f1, f2, f3, _, _, f6, _, _, _, _, _⟩ := cancel_all_fields game.uuid ps [] s
  obtain ⟨_, _, _, _, _, _, _, p8, _, _, _⟩ := pending_fold_fields game.uuid ps s
  have hall : cancel_all_result game.uuid ps [] s
      = ps.foldl (fun t p => cancel_pending_bet_result game.uuid p t) s := rfl
  rw [hall] at f1 f2 f3 f6
  refine ⟨h1, ?_, ?_, p8, ?_, ?_⟩
  · rw [f6]
    exact filter_ids_of_selection (fun p : pending_bet_object W M => p.id) sel _ ps
      hwf.pending_ids hmem
  · rw [f3, stake_sum_perm _ _ (hperm.map (fun p => p.data))]
  · intro a
    rw [f1, stake_sum_of_perm a _ _ (hperm.map (fun p => p.data))]
    have hz : stake_sum_of a (legs_of ([] : List (matched_bet_object W M))) = 0 := rfl
    rw [hz, add_zero]
  · rw [f2]
    simp [legs_of]

end pending_selection

/-! ## protocol: `is_unique` and the two `validate` methods -/

section protocol_lemmas

open protocol

theorem adjacent_find_eq_nil_iff {α : Type} [DecidableEq α] (l : List α) :
    adjacent_find l = [] ↔ l.Chain' (fun a b => a ≠ b) := by
  induction l with
  | nil => simp [adjacent_find]
  | cons x xs ih =>
    cases xs with
    | nil => simp [adjacent_find]
    | cons y rest =>
      rw [List.chain'_cons]
      by_cases hxy : x = y
      · simp [adjacent_find, hxy]
      · simp only [adjacent_find, hxy, if_false, ne_eq, not_false_eq_true, true_and]
        exact ih

theorem nodup_of_sorted_of_chain_ne {α : Type} [LinearOrder α] (l : List α)
    (hs : l.Sorted (fun a b => a ≤ b)) (hc : l.Chain' (fun a b => a ≠ b)) : l.Nodup := by
  induction l with
  | nil => exact List.nodup_nil
  | cons x xs ih =>
    have hs2 := List.sorted_cons.mp hs
    cases xs with
    | nil => exact List.nodup_singleton x
    | cons y rest =>
      have hc2 := List.chain'_cons.mp hc
      refine List.nodup_cons.mpr ⟨?_, ih hs2.2 hc2.2⟩
      intro hx
      have hxy : x ≤ y := hs2.1 y (List.mem_cons_self _ _)
      have hyx : y ≤ x := by
        rcases List.mem_cons.mp hx with h | h
        · exact le_of_eq h.symm
        · exact (List.sorted_cons.mp hs2.2).1 x h
      exact hc2.1 (le_antisymm hxy hyx)

/-- The function `is_unique` is true exactly on the lists without repetition. -/
theorem is_unique_iff_nodup {α : Type} [LinearOrder α] (input : List α) :
    is_unique input = true ↔ input.Nodup := by
  unfold is_unique
  simp only [List.isEmpty_iff]
  rw [adjacent_find_eq_nil_iff, ← (List.perm_insertionSort (fun a b : α => a ≤ b) input).nodup_iff]
  constructor
  · exact nodup_of_sorted_of_chain_ne _ (List.sorted_insertionSort _ _)
  · intro h
    exact List.Pairwise.chain' h

theorem FC_ASSERT_bind_ok {β : Type} (c : Bool) (e : validation_error)
    (f : Unit → Except validation_error β) (b : β) :
    (protocol.FC_ASSERT c e >>= f) = .ok b ↔ c = true ∧ f () = .ok b := by
  cases c with
  | true => simp [protocol.FC_ASSERT, bind, Except.bind]
  | false => simp [protocol.FC_ASSERT, bind, Except.bind]

theorem FC_ASSERT_ok (c : Bool) (e : validation_error) :
    protocol.FC_ASSERT c e = .ok () ↔ c = true := by
  cases c with
  | true => simp [protocol.FC_ASSERT]
  | false => simp [protocol.FC_ASSERT]

theorem asset_ge_bind_ok {β : Type} (a b : asset) (f : Bool → Except validation_error β)
    (r : β) :
    (asset_ge a b >>= f) = .ok r ↔ ∃ v, a.ge b = .ok v ∧ f v = .ok r := by
  unfold asset_ge
  cases h : a.ge b with
  | error e => simp [bind, Except.bind]
  | ok v => simp [bind, Except.bind]

theorem rational_bind_ok {β : Type} (n d : Int) (f : ℚ → Except validation_error β) (r : β) :
    (rational n d >>= f) = .ok r ↔ d ≠ 0 ∧ f ((n : ℚ) / (d : ℚ)) = .ok r := by
  unfold rational
  by_cases hd : d = 0
  · simp [hd, bind, Except.bind]
  · simp [hd, bind, Except.bind]

end protocol_lemmas

/-! ## Keys of the pending store -/

section pending_keys

variable {W M : Type}

open betting_service

/-- When a pending row has the key of the leg, a restore adds no row: the first such row
gets the stake of the leg. -/
theorem restore_index_existing_key [LinearOrder W] (create_market : W → M)
    (game_id : game_id_type) (bet : bet_data W) (idx : db_index (pending_bet_object W M))
    (h : ∃ p ∈ idx.objects, same_key game_id bet p) :
    (restore_index create_market game_id bet idx).objects.length = idx.objects.length
      ∧ ∃ found ∈ idx.objects, same_key game_id bet found
          ∧ add_stake bet.stake.amount found
              ∈ (restore_index create_market game_id bet idx).objects := by
  rw [restore_index_eq]
  cases hf : idx.objects.find? (fun o => decide (same_key game_id bet o)) with
  | none =>
    exfalso
    obtain ⟨p, hp, hk⟩ := h
    rw [List.find?_eq_none] at hf
    exact hf p hp (by simpa using hk)
  | some found =>
    obtain ⟨hmem, hkey⟩ := find_same_key_spec game_id bet idx.objects found hf
    refine ⟨by simp, found, hmem, hkey, ?_⟩
    simp only [List.mem_map]
    exact ⟨found, hmem, by simp [add_stake]⟩

/-- Appending a row keeps the keys distinct exactly when no row has the key of the new
one. -/
theorem keys_unique_append (objs : List (pending_bet_object W M))
    (bet : pending_bet_object W M) :
    keys_unique (objs ++ [bet])
      ↔ keys_unique objs ∧ ∀ p ∈ objs, ¬ same_key p.game p.data bet := by
  unfold keys_unique
  rw [List.pairwise_append]
  constructor
  · rintro ⟨h1, _, h3⟩
    exact ⟨h1, fun p hp => h3 p hp bet (List.mem_singleton_self _)⟩
  · rintro ⟨h1, h3⟩
    refine ⟨h1, List.pairwise_singleton _ _, ?_⟩
    intro p hp q hq
    rw [List.mem_singleton] at hq
    rw [hq]
    exact h3 p hp

theorem keys_unique_filter (objs : List (pending_bet_object W M))
    (p : pending_bet_object W M → Bool) (h : keys_unique objs) :
    keys_unique (objs.filter p) :=
  List.Pairwise.sublist (List.filter_sublist objs) h

end pending_keys

/-! ## The auto-resolver, one game at a time -/

section auto_resolver_step

variable {W M : Type}

open betting_service

theorem foldl_credit_names {α : Type} (name : α → account_name_type) (amt : α → share_type)
    (l : List α) (accs : List account_object) :
    (l.foldl (fun acc b => credit_accounts (name b) (amt b) acc) accs).map (fun a => a.name)
      = accs.map (fun a => a.name) := by
  induction l generalizing accs with
  | nil => rfl
  | cons x xs ih =>
    simp only [List.foldl_cons]
    rw [ih, names_credit_accounts]

theorem foldl_credit_symbols {α : Type} (name : α → account_name_type) (amt : α → share_type)
    (l : List α) (accs : List account_object) (sym : asset_symbol_type)
    (h : ∀ a ∈ accs, a.balance.symbol = sym) :
    ∀ a ∈ l.foldl (fun acc b => credit_accounts (name b) (amt b) acc) accs,
      a.balance.symbol = sym := by
  induction l generalizing accs with
  | nil => exact h
  | cons x xs ih =>
    simp only [List.foldl_cons]
    exact ih _ (symbols_credit_accounts accs (name x) (amt x) sym h)

/-- A state whose stores are parts of the stores of a well-formed state, with the same
account names and all amounts in the coin, is well-formed. -/
theorem well_formed_of_part {sym : asset_symbol_type} (s t : database W M)
    (hwf : s.well_formed sym)
    (hnames : t.accounts.map (fun a => a.name) = s.accounts.map (fun a => a.name))
    (hbal : ∀ a ∈ t.accounts, a.balance.symbol = sym)
    (hpv : t.dprop.betting_stats.pending_bets_volume.symbol = sym)
    (hmv : t.dprop.betting_stats.matched_bets_volume.symbol = sym)
    (hp : t.pending_bets.objects.Sublist s.pending_bets.objects)
    (hnext : t.pending_bets.next_id = s.pending_bets.next_id)
    (hm : t.matched_bets.objects.Sublist s.matched_bets.objects)
    (hg : t.games.Sublist s.games) : t.well_formed sym :=
  { balances := hbal
    pending_volume := hpv
    matched_volume := hmv
    pending_bets := fun p hpm => by
      rw [hnames]
      exact hwf.pending_bets p (hp.subset hpm)
    matched_bets := fun m hmm => by
      rw [hnames]
      exact hwf.matched_bets m (hm.subset hmm)
    pending_ids := hwf.pending_ids.sublist (hp.map _)
    pending_ids_lt := fun p hpm => by
      rw [hnext]
      exact hwf.pending_ids_lt p (hp.subset hpm)
    matched_ids := hwf.matched_ids.sublist (hm.map _)
    game_uuids := fun g1 h1 g2 h2 => hwf.game_uuids g1 (hg.subset h1) g2 (hg.subset h2) }

/-- Looking a game up by id in a store from which another id was removed. -/
theorem find_game_filter_ne (games : List game_object) (id other : game_id_type)
    (hne : id ≠ other) :
    (games.filter (fun g => decide (g.id ≠ other))).find? (fun x => decide (x.id = id))
      = games.find? (fun x => decide (x.id = id)) := by
  rw [List.find?_filter]
  congr 1
  funext a
  by_cases h : a.id = id
  · simp [h, hne]
  · simp [h]

end auto_resolver_step

/-! ## The auto-resolver over a list of games -/

section auto_resolver_list

variable {W M : Type}

open betting_service

theorem flatMap_congr_mem {α β : Type} (f g : α → List β) (l : List α)
    (h : ∀ x ∈ l, f x = g x) : l.flatMap f = l.flatMap g := by
  induction l with
  | nil => rfl
  | cons x xs ih =>
    simp only [List.flatMap_cons]
    rw [h x (List.mem_cons_self _ _), ih (fun y hy => h y (List.mem_cons_of_mem _ hy))]

/-- The pending bets of a game are not affected by the removal of the bets of another. -/
theorem filter_game_of_filter_ne {α : Type} (game : α → game_id_type) (objs : List α)
    (g other : game_id_type) (hne : g ≠ other) :
    (objs.filter (fun o => decide (game o ≠ other))).filter (fun o => decide (game o = g))
      = objs.filter (fun o => decide (game o = g)) := by
  rw [List.filter_filter]
  apply List.filter_congr
  intro o _
  by_cases ho : game o = g
  · simp [ho, hne]
  · simp [ho]

/-- In a well-formed state with the game in the store, the loop body of the auto-resolver
returns for that game, and the loop goes on from `auto_resolve_result`. -/
theorem on_apply_cons [LinearOrder M] {sym : asset_symbol_type} (s : database W M)
    (game : game_object) (games : List game_object) (hwf : s.well_formed sym)
    (hfind : s.games.find? (fun x => decide (x.id = game.id)) = some game) :
    process_bets_auto_resolving.on_apply (game :: games) s
      = process_bets_auto_resolving.on_apply games (auto_resolve_result game s) := by
  have h1 := cancel_bets_ok s game.id game hwf hfind
  obtain ⟨_, hm, hg, _⟩ := cancel_bets_clears s _ game.id () h1
  have hgame1 : (cancel_all_result game.uuid
      (pending_bet_dba.get_range_by_game_id_market game.id s)
      (matched_bet_dba.get_range_by_game_id_market game.id s) s).games.find?
        (fun x => decide (x.id = game.id)) = some game := by
    rw [hg]; exact hfind
  have h2 := cancel_game_ok _ game.id game hm hgame1
  rw [process_bets_auto_resolving.on_apply]
  simp only [Op.bind_apply, h1, h2, virt_op_emitter.push_virtual_operation, Op.modify]
  unfold auto_resolve_result push_op
  simp only [hg]

/-- The state after the loop body of the auto-resolver for one game, field by field. -/
theorem auto_resolve_fields [LinearOrder M] {sym : asset_symbol_type} (s : database W M)
    (game : game_object) (hwf : s.well_formed sym)
    (hfind : s.games.find? (fun x => decide (x.id = game.id)) = some game) :
    (auto_resolve_result game s).well_formed sym
      ∧ (auto_resolve_result game s).games
          = s.games.filter (fun g => decide (g.id ≠ game.id))
      ∧ (auto_resolve_result game s).pending_bets.objects
          = s.pending_bets.objects.filter (fun o => decide (o.game ≠ game.id))
      ∧ (auto_resolve_result game s).matched_bets.objects
          = s.matched_bets.objects.filter (fun o => decide (o.game ≠ game.id))
      ∧ (∀ a, (auto_resolve_result game s).balance a
          = (s.balance a).map (fun b => b.plus (stake_on_game a game.id s)))
      ∧ (auto_resolve_result game s).virt_ops = s.virt_ops ++ auto_resolve_events s game := by
  have h1 := cancel_bets_ok s game.id game hwf hfind
  obtain ⟨s1, h, hp, hm, hb, _, _⟩ := cancel_bets_by_game s game.id game hwf hfind
  have e : s1 = cancel_all_result game.uuid
      (pending_bet_dba.get_range_by_game_id_market game.id s)
      (matched_bet_dba.get_range_by_game_id_market game.id s) s := ok_inj (h.symm.trans h1)
  rw [e] at hp hm hb
  obtain ⟨_, f2, f3, f4, _, _, f7, _, _, _, _⟩ := cancel_all_fields game.uuid
    (pending_bet_dba.get_range_by_game_id_market game.id s)
    (matched_bet_dba.get_range_by_game_id_market game.id s) s
  obtain ⟨p1, _, _, _, _, _, _, _, _, _, _⟩ := pending_fold_fields game.uuid
    (pending_bet_dba.get_range_by_game_id_market game.id s) s
  obtain ⟨l1, _, _, _, _, _, _, _, _, _, _⟩ := matched_fold_fields game.uuid
    (matched_bet_dba.get_range_by_game_id_market game.id s)
    ((pending_bet_dba.get_range_by_game_id_market game.id s).foldl
      (fun t bet => cancel_pending_bet_result game.uuid bet t) s)
  have hacc : (cancel_all_result game.uuid
      (pending_bet_dba.get_range_by_game_id_market game.id s)
      (matched_bet_dba.get_range_by_game_id_market game.id s) s).accounts
      = (legs_of (matched_bet_dba.get_range_by_game_id_market game.id s)).foldl
          (fun acc b => credit_accounts b.better b.stake.amount acc)
          ((pending_bet_dba.get_range_by_game_id_market game.id s).foldl
            (fun acc b => credit_accounts b.data.better b.data.stake.amount acc) s.accounts) := by
    unfold cancel_all_result
    rw [l1, p1]
  refine ⟨?_, rfl, hp, hm, hb, ?_⟩
  · apply well_formed_of_part s _ hwf
    · show (cancel_all_result game.uuid _ _ s).accounts.map _ = _
      rw [hacc, foldl_credit_names (fun b : bet_data W => b.better) (fun b => b.stake.amount),
        foldl_credit_names (fun b : pending_bet_object W M => b.data.better)
          (fun b => b.data.stake.amount)]
    · show ∀ a ∈ (cancel_all_result game.uuid _ _ s).accounts, a.balance.symbol = sym
      rw [hacc]
      exact foldl_credit_symbols (fun b : bet_data W => b.better) (fun b => b.stake.amount) _ _
        sym (foldl_credit_symbols (fun b : pending_bet_object W M => b.data.better)
          (fun b => b.data.stake.amount) _ _ sym hwf.balances)
    · show (cancel_all_result game.uuid _ _ s).dprop.betting_stats.pending_bets_volume.symbol
        = sym
      rw [f3]
      exact hwf.pending_volume
    · show (cancel_all_result game.uuid _ _ s).dprop.betting_stats.matched_bets_volume.symbol
        = sym
      rw [f4]
      exact hwf.matched_volume
    · show (cancel_all_result game.uuid _ _ s).pending_bets.objects.Sublist _
      rw [hp]
      exact List.filter_sublist _
    · exact f7
    · show (cancel_all_result game.uuid _ _ s).matched_bets.objects.Sublist _
      rw [hm]
      exact List.filter_sublist _
    · exact List.filter_sublist _
  · show (cancel_all_result game.uuid _ _ s).virt_ops ++ [_] = _
    rw [f2]
    unfold auto_resolve_events
    simp only [List.append_assoc]

/-- The events and the stakes of a game are the same after the auto-resolver handled
another game. -/
theorem auto_resolve_other_game [LinearOrder M] (s u : database W M) (g other : game_id_type)
    (hne : g ≠ other)
    (hp : u.pending_bets.objects
      = s.pending_bets.objects.filter (fun o => decide (o.game ≠ other)))
    (hm : u.matched_bets.objects
      = s.matched_bets.objects.filter (fun o => decide (o.game ≠ other))) :
    pending_of_game g u = pending_of_game g s
      ∧ matched_of_game g u = matched_of_game g s
      ∧ pending_bet_dba.get_range_by_game_id_market g u
          = pending_bet_dba.get_range_by_game_id_market g s
      ∧ matched_bet_dba.get_range_by_game_id_market g u
          = matched_bet_dba.get_range_by_game_id_market g s := by
  have e1 : pending_of_game g u = pending_of_game g s := by
    unfold pending_of_game
    rw [hp]
    exact filter_game_of_filter_ne (fun o : pending_bet_object W M => o.game) _ g other hne
  have e2 : matched_of_game g u = matched_of_game g s := by
    unfold matched_of_game
    rw [hm]
    exact filter_game_of_filter_ne (fun o : matched_bet_object W M => o.game) _ g other hne
  refine ⟨e1, e2, ?_, ?_⟩
  · unfold pending_bet_dba.get_range_by_game_id_market
    unfold pending_of_game at e1
    rw [e1]
  · unfold matched_bet_dba.get_range_by_game_id_market
    unfold matched_of_game at e2
    rw [e2]

end auto_resolver_list

/-! ## The auto-resolver as a whole -/

section auto_resolver_whole

variable {W M : Type}

open betting_service

theorem filter_not_mem_cons {α : Type} (key : α → Nat) (objs : List α) (k : Nat)
    (ks : List Nat) :
    (objs.filter (fun o => decide (key o ≠ k))).filter (fun o => decide (key o ∉ ks))
      = objs.filter (fun o => decide (key o ∉ k :: ks)) := by
  rw [List.filter_filter]
  apply List.filter_congr
  intro o _
  by_cases h1 : key o = k
  · simp [h1]
  · by_cases h2 : key o ∈ ks
    · simp [h1, h2]
    · simp [h1, h2]

/-- In a well-formed state, for a list of distinct games of the store, the auto-resolver
returns; the state it returns, field by field. -/
theorem on_apply_fields [LinearOrder M] {sym : asset_symbol_type} (games : List game_object) :
    ∀ (s : database W M), s.well_formed sym → (games.map (fun g => g.id)).Nodup →
      (∀ g ∈ games, s.games.find? (fun x => decide (x.id = g.id)) = some g) →
      ∃ s1, process_bets_auto_resolving.on_apply games s = .ok () s1
        ∧ s1.well_formed sym
        ∧ s1.games = s.games.filter (fun g => decide (g.id ∉ games.map (fun g => g.id)))
        ∧ s1.pending_bets.objects
            = s.pending_bets.objects.filter
                (fun o => decide (o.game ∉ games.map (fun g => g.id)))
        ∧ s1.matched_bets.objects
            = s.matched_bets.objects.filter
                (fun o => decide (o.game ∉ games.map (fun g => g.id)))
        ∧ (∀ a, s1.balance a = (s.balance a).map (fun b => b.plus
            ((games.map (fun g => stake_on_game a g.id s)).sum)))
        ∧ s1.virt_ops = s.virt_ops ++ games.flatMap (auto_resolve_events s) := by
  induction games with
  | nil =>
    intro s hwf _ _
    refine ⟨s, rfl, hwf, ?_, ?_, ?_, ?_, ?_⟩
    · simp
    · simp
    · simp
    · intro a
      cases s.balance a with
      | none => rfl
      | some b => simp [plus_zero]
    · simp
  | cons g gs ih =>
    intro s hwf hnd hfind
    have hg := hfind g (List.mem_cons_self _ _)
    obtain ⟨w, eg, ep, em, eb, ev⟩ := auto_resolve_fields s g hwf hg
    rw [List.map_cons, List.nodup_cons] at hnd
    have hne : ∀ g2 ∈ gs, g2.id ≠ g.id := by
      intro g2 hg2 heq
      exact hnd.1 (heq ▸ List.mem_map_of_mem (fun g => g.id) hg2)
    have hfind2 : ∀ g2 ∈ gs, (auto_resolve_result g s).games.find?
        (fun x => decide (x.id = g2.id)) = some g2 := by
      intro g2 hg2
      rw [eg, find_game_filter_ne _ _ _ (hne g2 hg2)]
      exact hfind g2 (List.mem_cons_of_mem _ hg2)
    obtain ⟨s1, h, w1, e1, e2, e3, e4, e5⟩ := ih (auto_resolve_result g s) w hnd.2 hfind2
    refine ⟨s1, (on_apply_cons s g gs hwf hg).trans h, w1, ?_, ?_, ?_, ?_, ?_⟩
    · rw [e1, eg, List.map_cons]
      exact filter_not_mem_cons (fun x : game_object => x.id) _ _ _
    · rw [e2, ep, List.map_cons]
      exact filter_not_mem_cons (fun x : pending_bet_object W M => x.game) _ _ _
    · rw [e3, em, List.map_cons]
      exact filter_not_mem_cons (fun x : matched_bet_object W M => x.game) _ _ _
    · intro a
      have hsame : gs.map (fun g2 => stake_on_game a g2.id (auto_resolve_result g s))
          = gs.map (fun g2 => stake_on_game a g2.id s) := by
        apply List.map_congr_left
        intro g2 hg2
        obtain ⟨q1, q2, _, _⟩ := auto_resolve_other_game s (auto_resolve_result g s) g2.id g.id
          (hne g2 hg2) ep em
        unfold stake_on_game
        rw [q1, q2]
      rw [e4, eb, hsame, Option.map_map]
      cases s.balance a with
      | none => rfl
      | some b =>
        simp only [Option.map_some', Function.comp_apply, List.map_cons, List.sum_cons,
          plus_plus]
    · have hsame : gs.flatMap (auto_resolve_events (auto_resolve_result g s))
          = gs.flatMap (auto_resolve_events s) := by
        apply flatMap_congr_mem
        intro g2 hg2
        obtain ⟨_, _, q3, q4⟩ := auto_resolve_other_game s (auto_resolve_result g s) g2.id g.id
          (hne g2 hg2) ep em
        unfold auto_resolve_events
        rw [q3, q4]
      rw [e5, ev, hsame, List.flatMap_cons, List.append_assoc]

end auto_resolver_whole

/-! ## Flat sets and the one-shot guard -/

section flat_set_and_guard

open protocol

theorem flat_set_of_length_iff {α : Type} [LinearOrder α] (l : List α) :
    (flat_set_of l).length = l.length ↔ l.Nodup := by
  unfold flat_set_of
  rw [(List.perm_insertionSort (fun a b : α => a ≤ b) l.dedup).length_eq]
  constructor
  · intro h
    have : l.dedup = l := (List.dedup_sublist l).eq_of_length h
    rw [← this]
    exact List.nodup_dedup l
  · intro h
    rw [List.dedup_eq_self.mpr h]

theorem guard_after_applied {C : Type} (ctx : C) (calls : List guard_call)
    (g : genesis.single_time_apply_guard) :
    (guard_after ctx calls g)._applied = (g._applied || decide (guard_call.apply ∈ calls)) := by
  induction calls generalizing g with
  | nil => simp [guard_after]
  | cons c cs ih =>
    have hstep : guard_after ctx (c :: cs) g = guard_after ctx cs (c.step ctx g) := rfl
    rw [hstep, ih]
    cases c with
    | is_allowed =>
      have : (guard_call.is_allowed.step ctx g) = g := rfl
      rw [this]
      simp
    | apply =>
      have : (guard_call.apply.step ctx g)._applied = true := rfl
      rw [this]
      simp

end flat_set_and_guard

/-! ## The trail of events as a ledger of the credits -/

section ledger

variable {W M : Type}

theorem cancelled_stake_for_append (a : account_name_type) (l1 l2 : List virtual_operation) :
    cancelled_stake_for a (l1 ++ l2) = cancelled_stake_for a l1 + cancelled_stake_for a l2 := by
  simp [cancelled_stake_for, List.map_append, List.sum_append]

theorem map_plus_zero (o : Option asset) : o.map (fun b => b.plus 0) = o := by
  cases o with
  | none => rfl
  | some b => simp [plus_zero]

theorem cancelled_stake_for_restored (a : account_name_type) (g : uuid_type) (bet : bet_data W) :
    cancelled_stake_for a [restored_op g bet] = 0 := by
  simp [cancelled_stake_for, restored_op]

theorem credit_balance_event (t : database W M) (g : uuid_type) (kind : bet_kind)
    (bet : bet_data W) (a : account_name_type) :
    (credit bet.better bet.stake.amount t).balance a
      = (t.balance a).map (fun b => b.plus (cancelled_stake_for a [cancelled_op g kind bet])) := by
  rw [balance_credit]
  by_cases h : a = bet.better
  · simp [h, cancelled_stake_for, cancelled_op]
  · have h2 : ¬ bet.better = a := fun e => h e.symm
    simp [h, h2, cancelled_stake_for, cancelled_op, map_plus_zero]

/-- One more event whose stake is the credit of the step keeps the ledger. -/
theorem ledger_step (s t t1 : database W M) (ev : virtual_operation)
    (hv : t1.virt_ops = t.virt_ops ++ [ev])
    (hb : ∀ a, t1.balance a
      = (t.balance a).map (fun b => b.plus (cancelled_stake_for a [ev])))
    (ht : ∃ added, t.virt_ops = s.virt_ops ++ added
      ∧ ∀ a, t.balance a = (s.balance a).map (fun b => b.plus (cancelled_stake_for a added))) :
    ∃ added, t1.virt_ops = s.virt_ops ++ added
      ∧ ∀ a, t1.balance a = (s.balance a).map (fun b => b.plus (cancelled_stake_for a added)) := by
  obtain ⟨added, h1, h2⟩ := ht
  refine ⟨added ++ [ev], by rw [hv, h1, List.append_assoc], fun a => ?_⟩
  rw [hb, h2, Option.map_map, cancelled_stake_for_append]
  congr 1
  funext b
  simp [Function.comp, plus_plus]

end ledger

/-! ## Claims about posting and cancelling a pending bet -/

section claims_single

variable {W M : Type}

open betting_service

/-- C1: when the better has an account whose balance is at least the stake (the volume
counter being kept in the same coin) and the uuid is not in the history,
`create_pending_bet` returns; the uuid is appended to the history, exactly the returned
bet is appended to the pending store with the given game, market `create_market wincase`
and data (created at the head-block time), `pending_bets_volume` grows by the stake, the
better's balance drops by the stake, and the matched store, `matched_bets_volume`, the
games, the events and every other balance stay as they were. -/
theorem create_pending_bet_effects (create_market : W → M) (s : database W M)
    (better : account_name_type) (stake : asset) (o : odds) (wincase : W)
    (game : game_id_type) (bet_uuid : uuid_type) (kind : pending_bet_kind) (bal : asset)
    (hacc : s.balance better = some bal)
    (hbal : bal.ge stake = .ok true)
    (hvol : s.dprop.betting_stats.pending_bets_volume.symbol = stake.symbol)
    (huuid : bet_uuid ∉ s.uuid_hist) :
    ∃ bet s1,
      create_pending_bet create_market better stake o wincase game bet_uuid kind s = .ok bet s1
      ∧ s1.uuid_hist = s.uuid_hist ++ [bet_uuid]
      ∧ s1.pending_bets.objects = s.pending_bets.objects ++ [bet]
      ∧ bet.game = game ∧ bet.market = create_market wincase
      ∧ bet.data = { uuid := bet_uuid, created := s.dprop.time, better := better
                     wincase := wincase, stake := stake, bet_odds := o, kind := kind }
      ∧ s1.dprop.betting_stats.pending_bets_volume
          = { amount := s.dprop.betting_stats.pending_bets_volume.amount + stake.amount
              symbol := s.dprop.betting_stats.pending_bets_volume.symbol }
      ∧ s1.balance better = some { amount := bal.amount - stake.amount, symbol := bal.symbol }
      ∧ (∀ a, a ≠ better → s1.balance a = s.balance a)
      ∧ s1.matched_bets = s.matched_bets
      ∧ s1.dprop.betting_stats.matched_bets_volume = s.dprop.betting_stats.matched_bets_volume
      ∧ s1.dprop.time = s.dprop.time
      ∧ s1.games = s.games
      ∧ s1.betting_property = s.betting_property
      ∧ s1.virt_ops = s.virt_ops := by
  refine ⟨_, _, create_pending_bet_ok create_market s better stake o wincase game bet_uuid kind
    bal hacc hbal hvol huuid, rfl, rfl, rfl, rfl, rfl, rfl, ?_, ?_, rfl, rfl, rfl, rfl, rfl, rfl⟩
  · rw [balance_credit]
    have : (add_pending_volume stake.amount
        { s with
          uuid_hist := s.uuid_hist ++ [bet_uuid]
          pending_bets :=
            { objects := s.pending_bets.objects ++
                [{ id := s.pending_bets.next_id, game := game, market := create_market wincase
                   data := { uuid := bet_uuid, created := s.dprop.time, better := better
                             wincase := wincase, stake := stake, bet_odds := o, kind := kind } }]
              next_id := s.pending_bets.next_id + 1 } }).balance better = some bal := hacc
    simp [this, asset.plus, sub_eq_add_neg]
  · intro a ha
    rw [balance_credit]
    simp only [ha, if_false]
    rfl

/-- Witness for C1: Alice, holding 1000 SCR, posts B1 with a stake of 500 SCR. -/
theorem create_pending_bet_effects_witness :
    scenario.S1_initial.balance "alice" = some (scenario.scr 1000)
    ∧ (scenario.scr 1000).ge (scenario.scr 500) = .ok true
    ∧ 1 ∉ scenario.S1_initial.uuid_hist
    ∧ ∃ bet s1,
        create_pending_bet scenario.create_market "alice" (scenario.scr 500)
          { numerator := 3, denominator := 1 } scenario.home_yes 0 1 .live scenario.S1_initial
          = .ok bet s1
        ∧ s1.uuid_hist = [1]
        ∧ s1.balance "alice" = some (scenario.scr 500) := by
  refine ⟨by decide, rfl, by decide, ?_⟩
  obtain ⟨bet, s1, h, hu, _, _, _, _, _, hb, _⟩ :=
    create_pending_bet_effects scenario.create_market scenario.S1_initial "alice"
      (scenario.scr 500) { numerator := 3, denominator := 1 } scenario.home_yes 0 1 .live
      (scenario.scr 1000) (by decide) rfl (by decide) (by decide)
  exact ⟨bet, s1, h, hu, hb⟩

/-- C2: when the stake is strictly greater than the better's balance, `create_pending_bet`
throws "Insufficient funds" and the state at the throw is the state before the call:
history, pending store, volumes and balances are untouched. -/
theorem create_pending_bet_insufficient_funds (create_market : W → M) (s : database W M)
    (better : account_name_type) (stake : asset) (o : odds) (wincase : W)
    (game : game_id_type) (bet_uuid : uuid_type) (kind : pending_bet_kind) (bal : asset)
    (hacc : s.balance better = some bal)
    (hgt : stake.gt bal = .ok true) :
    create_pending_bet create_market better stake o wincase game bet_uuid kind s
      = .thrown .insufficient_funds s := by
  obtain ⟨acc, hfind, hb, _⟩ := find_of_balance_of s.accounts better bal hacc
  subst hb
  obtain ⟨hsym, hlt⟩ := (gt_true_iff _ _).mp hgt
  simp [create_pending_bet, Op.bind_apply, account_service.get_account, hfind, Op.lift,
    asset.ge, asset.lt, hsym, hlt, Except.map, FC_ASSERT]

/-- Witness for C2: Alice, holding 1000 SCR, tries to stake 1001 SCR. -/
theorem create_pending_bet_insufficient_funds_witness :
    scenario.S1_initial.balance "alice" = some (scenario.scr 1000)
    ∧ (scenario.scr 1001).gt (scenario.scr 1000) = .ok true
    ∧ create_pending_bet scenario.create_market "alice" (scenario.scr 1001)
        { numerator := 3, denominator := 1 } scenario.home_yes 0 1 .live scenario.S1_initial
        = .thrown .insufficient_funds scenario.S1_initial :=
  ⟨by decide, rfl,
    create_pending_bet_insufficient_funds scenario.create_market scenario.S1_initial "alice"
      (scenario.scr 1001) { numerator := 3, denominator := 1 } scenario.home_yes 0 1 .live
      (scenario.scr 1000) (by decide) rfl⟩

/-- C3: when the uuid is already in the history, `create_pending_bet` throws for every
better and stake, and the state at the throw is the state before the call; when the
better could have paid, the exception is the one of the unique uuid index. -/
theorem create_pending_bet_duplicate_uuid (create_market : W → M) (s : database W M)
    (better : account_name_type) (stake : asset) (o : odds) (wincase : W)
    (game : game_id_type) (bet_uuid : uuid_type) (kind : pending_bet_kind)
    (huuid : bet_uuid ∈ s.uuid_hist) :
    (∃ e, create_pending_bet create_market better stake o wincase game bet_uuid kind s
        = .thrown e s)
    ∧ (∀ bal, s.balance better = some bal → bal.ge stake = .ok true →
        create_pending_bet create_market better stake o wincase game bet_uuid kind s
          = .thrown .uniqueness_violated s) := by
  constructor
  · cases hfind : s.accounts.find? (fun a => decide (a.name = better)) with
    | none =>
      exact ⟨.object_not_found, by
        simp [create_pending_bet, Op.bind_apply, account_service.get_account, hfind]⟩
    | some acc =>
      cases hge : acc.balance.ge stake with
      | error e =>
        exact ⟨e, by
          simp [create_pending_bet, Op.bind_apply, account_service.get_account, hfind, hge,
            Op.lift]⟩
      | ok r =>
        cases r with
        | false =>
          exact ⟨.insufficient_funds, by
            simp [create_pending_bet, Op.bind_apply, account_service.get_account, hfind, hge,
              Op.lift, FC_ASSERT]⟩
        | true =>
          exact ⟨.uniqueness_violated, by
            simp [create_pending_bet, Op.bind_apply, account_service.get_account, hfind, hge,
              Op.lift, FC_ASSERT, uuid_hist_dba.create, huuid]⟩
  · intro bal hacc hge
    obtain ⟨acc, hfind, hb, _⟩ := find_of_balance_of s.accounts better bal hacc
    subst hb
    simp [create_pending_bet, Op.bind_apply, account_service.get_account, hfind, hge,
      Op.lift, FC_ASSERT, uuid_hist_dba.create, huuid]

/-- Witness for C3: after S1 accepted B1, Bob posts a bet with the uuid of B1. -/
theorem create_pending_bet_duplicate_uuid_witness :
    1 ∈ scenario.S1_posted.uuid_hist
    ∧ create_pending_bet scenario.create_market "bob" (scenario.scr 100)
        { numerator := 2, denominator := 1 } scenario.home_no 0 1 .live scenario.S1_posted
        = .thrown .uniqueness_violated scenario.S1_posted :=
  ⟨by decide,
    (create_pending_bet_duplicate_uuid scenario.create_market scenario.S1_posted "bob"
      (scenario.scr 100) { numerator := 2, denominator := 1 } scenario.home_no 0 1 .live
      (by decide)).2 (scenario.scr 1000) (by decide) rfl⟩

end claims_single

section claims_cancel

variable {W M : Type}

open betting_service

/-- C4: for a pending bet `b` of the store (primary ids being unique, the better having an
account, stake, balance and volume counter being in one coin), `cancel_pending_bet b
game_uuid` returns; the better's balance grows by the stake, `pending_bets_volume` drops by
the stake, `b` leaves the pending store while every other pending bet stays, exactly one
event `BetCancelled` of kind pending with the game uuid, better, bet uuid and stake is
appended, and matched bets, `matched_bets_volume`, the UUID history, the games and every
other balance are unchanged.  `cancel_pending_bet(id)` is the same call with the uuid of
the game the bet belongs to. -/
theorem cancel_pending_bet_effects [DecidableEq W] [DecidableEq M] (s : database W M)
    (b : pending_bet_object W M) (game_uuid : uuid_type) (bal : asset)
    (hb : b ∈ s.pending_bets.objects)
    (hids : (s.pending_bets.objects.map (fun p => p.id)).Nodup)
    (hacc : s.balance b.data.better = some bal)
    (hsym : bal.symbol = b.data.stake.symbol)
    (hvol : s.dprop.betting_stats.pending_bets_volume.symbol = b.data.stake.symbol) :
    (∃ s1, cancel_pending_bet b game_uuid s = .ok () s1
      ∧ s1.balance b.data.better
          = some { amount := bal.amount + b.data.stake.amount, symbol := bal.symbol }
      ∧ (∀ a, a ≠ b.data.better → s1.balance a = s.balance a)
      ∧ s1.dprop.betting_stats.pending_bets_volume
          = { amount := s.dprop.betting_stats.pending_bets_volume.amount - b.data.stake.amount
              symbol := s.dprop.betting_stats.pending_bets_volume.symbol }
      ∧ s1.pending_bets.objects = s.pending_bets.objects.filter (fun p => decide (p ≠ b))
      ∧ b ∉ s1.pending_bets.objects
      ∧ (∀ p, p ≠ b → (p ∈ s1.pending_bets.objects ↔ p ∈ s.pending_bets.objects))
      ∧ s1.virt_ops = s.virt_ops ++
          [.bet_cancelled_operation game_uuid b.data.better b.data.uuid b.data.stake .pending]
      ∧ s1.matched_bets = s.matched_bets
      ∧ s1.dprop.betting_stats.matched_bets_volume = s.dprop.betting_stats.matched_bets_volume
      ∧ s1.uuid_hist = s.uuid_hist
      ∧ s1.games = s.games
      ∧ s1.dprop.time = s.dprop.time
      ∧ s1.betting_property = s.betting_property)
    ∧ (∀ game, s.games.find? (fun g => decide (g.id = b.game)) = some game →
        cancel_pending_bet_by_id b.id s = cancel_pending_bet b game.uuid s) := by
  have hobj : (cancel_pending_bet_result game_uuid b s).pending_bets.objects
      = s.pending_bets.objects.filter (fun p => decide (p ≠ b)) := by
    rw [← filter_id_ne_eq_filter_ne (fun p => p.id) s.pending_bets.objects hids b hb]
    simp [cancel_pending_bet_result, remove_pending, add_pending_volume, push_op, credit]
  refine ⟨⟨_, cancel_pending_bet_ok_of_balance s b game_uuid bal hacc hsym hvol,
    ?_, ?_, ?_, hobj, ?_, ?_, rfl, rfl, rfl, rfl, rfl, rfl, rfl⟩, ?_⟩
  · show (credit b.data.better b.data.stake.amount s).balance b.data.better = _
    rw [balance_credit]
    simp [hacc, asset.plus]
  · intro a ha
    show (credit b.data.better b.data.stake.amount s).balance a = _
    rw [balance_credit]
    simp [ha]
  · simp [cancel_pending_bet_result, remove_pending, add_pending_volume, push_op, credit,
      asset.plus, sub_eq_add_neg]
  · rw [hobj]
    simp
  · intro p hp
    rw [hobj]
    simp [hp]
  · intro game hgame
    have hfind := find_by_id_of_mem (fun p => p.id) s.pending_bets.objects hids b hb
    simp only at hfind
    simp [cancel_pending_bet_by_id, Op.bind_apply, pending_bet_dba.get_by_id, hfind,
      game_dba.get_by_id, hgame]

/-- Witness for C4: scenario S1, Alice's pending bet B1 is cancelled. -/
theorem cancel_pending_bet_effects_witness :
    scenario.B1 ∈ scenario.S1_posted.pending_bets.objects
    ∧ scenario.S1_posted.balance "alice" = some (scenario.scr 500)
    ∧ ∃ s1, cancel_pending_bet scenario.B1 scenario.G_uuid scenario.S1_posted = .ok () s1
        ∧ s1.balance "alice" = some (scenario.scr 1000)
        ∧ s1.pending_bets.objects = []
        ∧ s1.dprop.betting_stats.pending_bets_volume = scenario.scr 0 := by
  refine ⟨by decide, by decide, ?_⟩
  obtain ⟨⟨s1, h, hbal, _, hv, hobj, _⟩, _⟩ :=
    cancel_pending_bet_effects scenario.S1_posted scenario.B1 scenario.G_uuid
      (scenario.scr 500) (by decide) (by decide) (by decide) (by decide) (by decide)
  exact ⟨s1, h, hbal, by rw [hobj]; decide, hv⟩

/-- C5, counterexample: in scenario S1 the bet B1 is posted and cancelled; the pending
store held no row and the id counter 0 before, and holds no row and the id counter 1
afterwards, so the pending store is not the one from before the create. -/
theorem create_then_cancel_advances_id_counter :
    create_pending_bet scenario.create_market "alice" (scenario.scr 500)
        { numerator := 3, denominator := 1 } scenario.home_yes 0 1 .live scenario.S1_initial
      = .ok scenario.B1 scenario.S1_posted
    ∧ cancel_pending_bet scenario.B1 scenario.G_uuid scenario.S1_posted
      = .ok () (cancel_pending_bet scenario.B1 scenario.G_uuid scenario.S1_posted).state
    ∧ scenario.S1_initial.pending_bets = { objects := [], next_id := 0 }
    ∧ (cancel_pending_bet scenario.B1 scenario.G_uuid scenario.S1_posted).state.pending_bets
      = { objects := [], next_id := 1 }
    ∧ (cancel_pending_bet scenario.B1 scenario.G_uuid scenario.S1_posted).state.pending_bets
      ≠ scenario.S1_initial.pending_bets := by
  refine ⟨by decide, by decide, by decide, by decide, by decide⟩

/-- C5, amended: whenever `create_pending_bet` returns (in a store whose ids lie below the
id counter), cancelling the returned bet returns too, and the resulting state has the
balances, the pending bets, the matched store, the volume counters, the games and the
betting property of the state before the create.  Of the persisted stores only two things
differ: the UUID history holds the uuid of the bet in addition, and the id counter of the
pending store has advanced by one.  The trail of events holds the `BetCancelled` event of
the bet in addition. -/
theorem create_then_cancel_round_trip (create_market : W → M) (s : database W M)
    (better : account_name_type) (stake : asset) (o : odds) (wincase : W)
    (game : game_id_type) (bet_uuid : uuid_type) (kind : pending_bet_kind)
    (game_uuid : uuid_type) (bet : pending_bet_object W M) (s1 : database W M)
    (hids : ∀ p ∈ s.pending_bets.objects, p.id < s.pending_bets.next_id)
    (hcreate : create_pending_bet create_market better stake o wincase game bet_uuid kind s
      = .ok bet s1) :
    ∃ s2, cancel_pending_bet bet game_uuid s1 = .ok () s2
      ∧ (∀ a, s2.balance a = s.balance a)
      ∧ s2.pending_bets.objects = s.pending_bets.objects
      ∧ s2.matched_bets = s.matched_bets
      ∧ s2.dprop = s.dprop
      ∧ s2.games = s.games
      ∧ s2.betting_property = s.betting_property
      ∧ s2.uuid_hist = s.uuid_hist ++ [bet_uuid]
      ∧ s2.pending_bets.next_id = s.pending_bets.next_id + 1
      ∧ s2.virt_ops
          = s.virt_ops ++ [.bet_cancelled_operation game_uuid better bet_uuid stake .pending] := by
  obtain ⟨bal, hacc, hbal, hvol, huuid⟩ :=
    create_pending_bet_ok_inv create_market s better stake o wincase game bet_uuid kind bet s1
      hcreate
  have hok := create_pending_bet_ok create_market s better stake o wincase game bet_uuid kind
    bal hacc hbal hvol huuid
  rw [hok] at hcreate
  injection hcreate with hbet hs1
  subst hbet
  subst hs1
  have hsym : bal.symbol = stake.symbol := ((ge_true_iff _ _).mp hbal).1
  refine ⟨_, cancel_pending_bet_ok_of_balance _ _ game_uuid (bal.plus (-stake.amount)) ?_ ?_ ?_,
    ?_, ?_, rfl, ?_, rfl, rfl, rfl, rfl, rfl⟩
  · rw [balance_credit]
    simp only [if_true]
    have : (add_pending_volume stake.amount
        { s with
          uuid_hist := s.uuid_hist ++ [bet_uuid]
          pending_bets :=
            { objects := s.pending_bets.objects ++
                [{ id := s.pending_bets.next_id, game := game, market := create_market wincase
                   data := { uuid := bet_uuid, created := s.dprop.time, better := better
                             wincase := wincase, stake := stake, bet_odds := o, kind := kind } }]
              next_id := s.pending_bets.next_id + 1 } }).balance better = some bal := hacc
    rw [this]
    rfl
  · exact hsym
  · exact hvol
  · intro a
    show (credit better stake.amount (credit better (-stake.amount) s)).balance a = _
    rw [balance_credit, balance_credit]
    by_cases ha : a = better
    · subst ha
      simp only [if_true, Option.map_map]
      cases hba : s.balance a with
      | none => rfl
      | some x => simp [plus_neg_plus]
    · simp [ha]
  · simp only [cancel_pending_bet_result, remove_pending, add_pending_volume, push_op, credit,
      List.mem_singleton, List.filter_append]
    have h1 : s.pending_bets.objects.filter
        (fun o => decide (¬ o.id = s.pending_bets.next_id)) = s.pending_bets.objects := by
      rw [List.filter_eq_self]
      intro p hp
      have hlt := hids p hp
      simpa using Nat.ne_of_lt hlt
    rw [h1]
    simp
  · simp only [cancel_pending_bet_result, remove_pending, add_pending_volume, push_op, credit,
      plus_plus_neg]

/-- Witness for C5, amended: scenario S1, the state reached by posting B1 and cancelling
it. -/
theorem create_then_cancel_round_trip_witness :
    create_pending_bet scenario.create_market "alice" (scenario.scr 500)
        { numerator := 3, denominator := 1 } scenario.home_yes 0 1 .live scenario.S1_initial
      = .ok scenario.B1 scenario.S1_posted
    ∧ ∃ s2, cancel_pending_bet scenario.B1 scenario.G_uuid scenario.S1_posted = .ok () s2
        ∧ s2.balance "alice" = some (scenario.scr 1000)
        ∧ s2.pending_bets.objects = []
        ∧ s2.dprop = scenario.S1_initial.dprop
        ∧ s2.uuid_hist = [1]
        ∧ s2.pending_bets.next_id = 1 := by
  have hc : create_pending_bet scenario.create_market "alice" (scenario.scr 500)
        { numerator := 3, denominator := 1 } scenario.home_yes 0 1 .live scenario.S1_initial
      = .ok scenario.B1 scenario.S1_posted := by decide
  refine ⟨hc, ?_⟩
  obtain ⟨s2, h, hbal, hobj, _, hd, _, _, hu, hn, _⟩ :=
    create_then_cancel_round_trip scenario.create_market scenario.S1_initial "alice"
      (scenario.scr 500) { numerator := 3, denominator := 1 } scenario.home_yes 0 1 .live
      scenario.G_uuid scenario.B1 scenario.S1_posted (by decide) hc
  exact ⟨s2, h, by rw [hbal]; decide, hobj, hd, hu, hn⟩

end claims_cancel

/-! ## Claims about `cancel_game` and `cancel_bets(game_id, created_after)` -/

section claims_game

open betting_service

/-- C6, the code at the failing input: in scenario S1 after the bet was posted, the
pending store holds the bet B1 of game `G` and the matched store is empty; `cancel_game`
returns and removes the game record, because both its checks read the matched store. -/
theorem cancel_game_with_pending_bet :
    scenario.B1 ∈ pending_bet_dba.get_range_by_game_id_market 0 scenario.S1_posted
    ∧ cancel_game 0 scenario.S1_posted = .ok () { scenario.S1_posted with games := [] } := by
  decide

end claims_game

section claims_created_after

variable {W M : Type}

open betting_service

/-- C7, counterexample: in scenario S1 after the bet was posted, B1 is a pending bet of game
`G` created at `T0`; `cancel_bets(G, created_after = T1)` with `T0 < T1` returns and leaves
the state as it was: B1 is still pending, nothing was refunded, no event was emitted. -/
theorem cancel_bets_created_after_keeps_earlier_pending :
    scenario.B1 ∈ scenario.S1_posted.pending_bets.objects
    ∧ scenario.B1.game = 0
    ∧ scenario.B1.data.created < scenario.T1
    ∧ cancel_bets_created_after scenario.create_market 0 scenario.T1 scenario.S1_posted
        = .ok () scenario.S1_posted := by
  decide

/-- C7, amended: in a well-formed state with the game in the store,
`cancel_bets(game_id, created_after)` returns, and every pending bet of the game created at
or after `created_after` went through the refund path: it is in the range the call walks,
its row is gone from the pending store, its event `BetCancelled` of kind pending is on the
trail, its stake is one of the stakes credited to the balances and taken off
`pending_bets_volume`. -/
theorem cancel_bets_created_after_pending [LinearOrder W] (create_market : W → M)
    (s : database W M) (game_id : game_id_type) (created_after : time_point_sec)
    (game : game_object) (sym : asset_symbol_type) (hwf : s.well_formed sym)
    (hgame : s.games.find? (fun g => decide (g.id = game_id)) = some game) :
    ∃ s1, cancel_bets_created_after create_market game_id created_after s = .ok () s1
      ∧ (∀ p ∈ s.pending_bets.objects, p.game = game_id → created_after ≤ p.data.created →
          p ∈ pending_bet_dba.get_range_by_game_id_created game_id created_after s
          ∧ (∀ q ∈ s1.pending_bets.objects, q.id ≠ p.id)
          ∧ virtual_operation.bet_cancelled_operation game.uuid p.data.better p.data.uuid
              p.data.stake .pending ∈ s1.virt_ops)
      ∧ (∀ a, s1.balance a = (s.balance a).map (fun b => b.plus
          (stake_sum_of a
              ((pending_bet_dba.get_range_by_game_id_created game_id created_after s).map
                (fun p => p.data))
            + stake_sum_of a (returned_legs created_after
                (legs_of (matched_bet_dba.get_range_by_game_id_created game_id created_after s))))))
      ∧ s1.dprop.betting_stats.pending_bets_volume
          = s.dprop.betting_stats.pending_bets_volume.plus
              (-(stake_sum
                  ((pending_bet_dba.get_range_by_game_id_created game_id created_after s).map
                    (fun p => p.data)))
                + stake_sum (restored_legs created_after
                    (legs_of
                      (matched_bet_dba.get_range_by_game_id_created game_id created_after s)))) := by
  obtain ⟨f1, f2, f3, _, _, f6, _, _, _, _⟩ :=
    cancel_bets_created_after_fields create_market game_id game.uuid created_after s
  refine ⟨_, cancel_bets_created_after_ok create_market s game_id created_after game sym hwf
    hgame, ?_, f1, f3⟩
  intro p hp hpg hpc
  have hrange := (mem_pending_range s game_id created_after p).mpr ⟨hp, hpg, hpc⟩
  refine ⟨hrange, ?_, ?_⟩
  · rw [f6]
    exact restore_fold_absent create_market game_id _ (surviving_pending game_id created_after s)
      p.id (surviving_pending_absent hwf game_id created_after p hrange)
  · rw [f2]
    apply List.mem_append_left
    apply List.mem_append_right
    exact List.mem_map.mpr ⟨p, hrange, rfl⟩

/-- Witness for C7 (amended): scenario S1 with the cut-off at `T0`, the creation time of B1. -/
theorem cancel_bets_created_after_pending_witness :
    scenario.S1_posted.well_formed scenario.SCR
    ∧ ∃ s1, cancel_bets_created_after scenario.create_market 0 scenario.T0 scenario.S1_posted
          = .ok () s1
        ∧ (∀ q ∈ s1.pending_bets.objects, q.id ≠ scenario.B1.id)
        ∧ s1.balance "alice" = some (scenario.scr 1000) := by
  refine ⟨S1_posted_well_formed, ?_⟩
  obtain ⟨s1, h, hp, hb, _⟩ :=
    cancel_bets_created_after_pending scenario.create_market scenario.S1_posted 0 scenario.T0
      { id := 0, uuid := scenario.G_uuid } scenario.SCR S1_posted_well_formed (by decide)
  refine ⟨s1, h, (hp scenario.B1 (by decide) (by decide) (by decide)).2.1, ?_⟩
  rw [hb]
  decide

/-- C8, counterexample: scenario S3.  After `cancel_bets(G, created_after = T1)` the volume
counters are not `pending = 400, matched = 0`, and the pair (Alice, Bob), created at `T0`,
is still in the matched store. -/
theorem cancel_bets_created_after_S3_differs :
    (cancel_bets_created_after scenario.create_market 0 scenario.T1
        scenario.S3_matched).succeeded = true
    ∧ (cancel_bets_created_after scenario.create_market 0 scenario.T1
        scenario.S3_matched).state.dprop.betting_stats
        ≠ { pending_bets_volume := scenario.scr 400, matched_bets_volume := scenario.scr 0 }
    ∧ scenario.M_alice_bob ∈ (cancel_bets_created_after scenario.create_market 0 scenario.T1
        scenario.S3_matched).state.matched_bets.objects := by
  decide

/-- C8, amended: in a well-formed state with the game in the store,
`cancel_bets(game_id, created_after)` returns; every matched bet of the game whose `created`
key is at or after `created_after` has its row removed and each of its two legs decided on
its own (a leg created at or after the cut-off is returned with `BetCancelled` of kind
matched, a leg created before it is restored with `BetRestored`; one event per leg, in
range order; balances, `pending_bets_volume` and `matched_bets_volume` move by the returned,
restored and all legs); every other matched bet stays in the store.  In scenario S3 the
final state has `pending_bets_volume = 0`, `matched_bets_volume = 400`, Carol and Dave are
credited 50 each and the pair (Alice, Bob) stays matched. -/
theorem cancel_bets_created_after_matched [LinearOrder W] (create_market : W → M)
    (s : database W M) (game_id : game_id_type) (created_after : time_point_sec)
    (game : game_object) (sym : asset_symbol_type) (hwf : s.well_formed sym)
    (hgame : s.games.find? (fun g => decide (g.id = game_id)) = some game) :
    (∃ s1, cancel_bets_created_after create_market game_id created_after s = .ok () s1
      ∧ (∀ m ∈ s.matched_bets.objects, m.game = game_id → created_after ≤ m.created →
          (∀ q ∈ s1.matched_bets.objects, q.id ≠ m.id)
          ∧ (∀ leg, leg = m.bet1_data ∨ leg = m.bet2_data →
              (created_after ≤ leg.created →
                virtual_operation.bet_cancelled_operation game.uuid leg.better leg.uuid
                  leg.stake .matched ∈ s1.virt_ops)
              ∧ (leg.created < created_after →
                virtual_operation.bet_restored_operation game.uuid leg.better leg.uuid
                  leg.stake ∈ s1.virt_ops)))
      ∧ (∀ m ∈ s.matched_bets.objects, ¬ (m.game = game_id ∧ created_after ≤ m.created) →
          m ∈ s1.matched_bets.objects)
      ∧ s1.virt_ops = s.virt_ops
          ++ (pending_bet_dba.get_range_by_game_id_created game_id created_after s).map
              (fun p => cancelled_op game.uuid .pending p.data)
          ++ (legs_of (matched_bet_dba.get_range_by_game_id_created game_id created_after s)).map
              (leg_op game.uuid created_after)
      ∧ (∀ a, s1.balance a = (s.balance a).map (fun b => b.plus
          (stake_sum_of a
              ((pending_bet_dba.get_range_by_game_id_created game_id created_after s).map
                (fun p => p.data))
            + stake_sum_of a (returned_legs created_after
                (legs_of (matched_bet_dba.get_range_by_game_id_created game_id created_after s))))))
      ∧ s1.dprop.betting_stats.pending_bets_volume
          = s.dprop.betting_stats.pending_bets_volume.plus
              (-(stake_sum
                  ((pending_bet_dba.get_range_by_game_id_created game_id created_after s).map
                    (fun p => p.data)))
                + stake_sum (restored_legs created_after
                    (legs_of
                      (matched_bet_dba.get_range_by_game_id_created game_id created_after s))))
      ∧ s1.dprop.betting_stats.matched_bets_volume
          = s.dprop.betting_stats.matched_bets_volume.plus
              (-(stake_sum (legs_of
                  (matched_bet_dba.get_range_by_game_id_created game_id created_after s)))))
    ∧ (cancel_bets_created_after scenario.create_market 0 scenario.T1 scenario.S3_matched
          = .ok () scenario.S3_after
        ∧ scenario.S3_after.dprop.betting_stats.pending_bets_volume = scenario.scr 0
        ∧ scenario.S3_after.dprop.betting_stats.matched_bets_volume = scenario.scr 400
        ∧ scenario.S3_matched.balance "carol" = some (scenario.scr 950)
        ∧ scenario.S3_after.balance "carol" = some (scenario.scr 1000)
        ∧ scenario.S3_matched.balance "dave" = some (scenario.scr 950)
        ∧ scenario.S3_after.balance "dave" = some (scenario.scr 1000)
        ∧ scenario.M_alice_bob ∈ scenario.S3_after.matched_bets.objects) := by
  refine ⟨?_, by decide⟩
  obtain ⟨f1, f2, f3, f4, _, _, f7, _, _, _⟩ :=
    cancel_bets_created_after_fields create_market game_id game.uuid created_after s
  refine ⟨_, cancel_bets_created_after_ok create_market s game_id created_after game sym hwf
    hgame, ?_, ?_, f2, f1, f3, f4⟩
  · intro m hm hmg hmc
    have hrange := (mem_matched_range s game_id created_after m).mpr ⟨hm, hmg, hmc⟩
    constructor
    · intro q hq hqm
      rw [f7] at hq
      have := (List.mem_filter.mp hq).2
      simp only [decide_eq_true_eq, List.mem_map, not_exists, not_and] at this
      exact this m hrange hqm.symm
    · intro leg hleg
      have hlegs : leg ∈ legs_of
          (matched_bet_dba.get_range_by_game_id_created game_id created_after s) :=
        (mem_legs_of _ leg).mpr ⟨m, hrange, hleg⟩
      have hop : leg_op game.uuid created_after leg ∈
          (cancel_bets_created_after_result create_market game_id game.uuid created_after
            s).virt_ops := by
        rw [f2]
        apply List.mem_append_right
        exact List.mem_map.mpr ⟨leg, hlegs, rfl⟩
      constructor
      · intro hc
        have hc2 : leg.created ≥ created_after := hc
        simpa [leg_op, hc2, cancelled_op] using hop
      · intro hc
        have hc2 : ¬ leg.created ≥ created_after := Nat.not_le.mpr hc
        simpa [leg_op, hc2, restored_op] using hop
  · intro m hm hnot
    rw [f7]
    refine List.mem_filter.mpr ⟨hm, ?_⟩
    simp only [decide_eq_true_eq, List.mem_map, not_exists, not_and]
    intro x hx hxm
    have hxr := (mem_matched_range s game_id created_after x).mp hx
    have hxm2 : x = m :=
      eq_of_id_eq (fun m => m.id) s.matched_bets.objects hwf.matched_ids x m hxr.1 hm hxm
    exact hnot (hxm2 ▸ hxr.2)

/-- Witness for C8 (amended): scenario S3, where the pair (Carol, Dave) is in the range. -/
theorem cancel_bets_created_after_matched_witness :
    scenario.S3_matched.well_formed scenario.SCR
    ∧ ∃ s1, cancel_bets_created_after scenario.create_market 0 scenario.T1 scenario.S3_matched
          = .ok () s1
        ∧ (∀ q ∈ s1.matched_bets.objects, q.id ≠ scenario.M_carol_dave.id)
        ∧ scenario.M_alice_bob ∈ s1.matched_bets.objects
        ∧ s1.dprop.betting_stats.matched_bets_volume = scenario.scr 400 := by
  refine ⟨S3_matched_well_formed, ?_⟩
  obtain ⟨⟨s1, h, hm, hk, _, _, _, hv⟩, _⟩ :=
    cancel_bets_created_after_matched scenario.create_market scenario.S3_matched 0 scenario.T1
      { id := 0, uuid := scenario.G_uuid } scenario.SCR S3_matched_well_formed (by decide)
  refine ⟨s1, h, (hm scenario.M_carol_dave (by decide) (by decide) (by decide)).1,
    hk scenario.M_alice_bob (by decide) (by decide), ?_⟩
  rw [hv]
  decide

end claims_created_after

section claims_legs

variable {W M : Type}

open betting_service

/-- C9: in a well-formed state with the game in the store, let `m` be a matched bet of the
game whose two legs were both created at or after `created_after` (and which, as a matched
bet, is not older than one of its legs).  Then `cancel_bets(game_id, created_after)`
returns; the row of `m` is gone from the matched store; each leg's better is credited with
that leg's stake (on top of what the other bets of the call credit); `matched_bets_volume`
drops by the two stakes (on top of the legs of the other bets); both legs get
`BetCancelled` of kind matched; and the pending store and `pending_bets_volume` are what
the legs of the other matched bets of the range make of them: the legs of `m` add no row
and no stake. -/
theorem cancel_bets_created_after_returns_late_legs [LinearOrder W] [DecidableEq M]
    (create_market : W → M) (s : database W M) (game_id : game_id_type)
    (created_after : time_point_sec) (game : game_object) (sym : asset_symbol_type)
    (m : matched_bet_object W M) (hwf : s.well_formed sym)
    (hgame : s.games.find? (fun g => decide (g.id = game_id)) = some game)
    (hm : m ∈ s.matched_bets.objects) (hmg : m.game = game_id)
    (h1 : created_after ≤ m.bet1_data.created) (h2 : created_after ≤ m.bet2_data.created)
    (hkey : m.bet1_data.created ≤ m.created ∨ m.bet2_data.created ≤ m.created) :
    ∃ s1, cancel_bets_created_after create_market game_id created_after s = .ok () s1
      ∧ (∀ q ∈ s1.matched_bets.objects, q.id ≠ m.id)
      ∧ (∀ a, s1.balance a = (s.balance a).map (fun b => b.plus
          ((if m.bet1_data.better = a then m.bet1_data.stake.amount else 0)
            + (if m.bet2_data.better = a then m.bet2_data.stake.amount else 0)
            + (stake_sum_of a
                ((pending_bet_dba.get_range_by_game_id_created game_id created_after s).map
                  (fun p => p.data))
              + stake_sum_of a (returned_legs created_after
                  (legs_of ((matched_bet_dba.get_range_by_game_id_created game_id created_after
                    s).erase m)))))))
      ∧ s1.dprop.betting_stats.matched_bets_volume
          = s.dprop.betting_stats.matched_bets_volume.plus
              (-(m.bet1_data.stake.amount + m.bet2_data.stake.amount)
                + -(stake_sum (legs_of
                    ((matched_bet_dba.get_range_by_game_id_created game_id created_after
                      s).erase m))))
      ∧ virtual_operation.bet_cancelled_operation game.uuid m.bet1_data.better m.bet1_data.uuid
          m.bet1_data.stake .matched ∈ s1.virt_ops
      ∧ virtual_operation.bet_cancelled_operation game.uuid m.bet2_data.better m.bet2_data.uuid
          m.bet2_data.stake .matched ∈ s1.virt_ops
      ∧ s1.pending_bets
          = (restored_legs created_after
              (legs_of ((matched_bet_dba.get_range_by_game_id_created game_id created_after
                s).erase m))).foldl
              (fun idx leg => restore_index create_market game_id leg idx)
              (surviving_pending game_id created_after s)
      ∧ s1.dprop.betting_stats.pending_bets_volume
          = s.dprop.betting_stats.pending_bets_volume.plus
              (-(stake_sum
                  ((pending_bet_dba.get_range_by_game_id_created game_id created_after s).map
                    (fun p => p.data)))
                + stake_sum (restored_legs created_after
                    (legs_of ((matched_bet_dba.get_range_by_game_id_created game_id
                      created_after s).erase m)))) := by
  have hmc : created_after ≤ m.created := by
    rcases hkey with h | h
    · exact Nat.le_trans h1 h
    · exact Nat.le_trans h2 h
  have hrange := (mem_matched_range s game_id created_after m).mpr ⟨hm, hmg, hmc⟩
  obtain ⟨f1, f2, f3, f4, _, f6, f7, _, _, _⟩ :=
    cancel_bets_created_after_fields create_market game_id game.uuid created_after s
  have hrest : restored_legs created_after
        (legs_of (matched_bet_dba.get_range_by_game_id_created game_id created_after s))
      = restored_legs created_after
        (legs_of ((matched_bet_dba.get_range_by_game_id_created game_id created_after
          s).erase m)) := by
    unfold restored_legs
    apply filter_legs_erase
    · have : m.bet1_data.created ≥ created_after := h1
      simp [this]
    · have : m.bet2_data.created ≥ created_after := h2
      simp [this]
  have hop : ∀ leg, (leg = m.bet1_data ∨ leg = m.bet2_data) →
      leg_op game.uuid created_after leg ∈
        (cancel_bets_created_after_result create_market game_id game.uuid created_after
          s).virt_ops := by
    intro leg hleg
    rw [f2]
    apply List.mem_append_right
    exact List.mem_map.mpr ⟨leg, (mem_legs_of _ leg).mpr ⟨m, hrange, hleg⟩, rfl⟩
  refine ⟨_, cancel_bets_created_after_ok create_market s game_id created_after game sym hwf
    hgame, ?_, ?_, ?_, ?_, ?_, ?_, ?_⟩
  · intro q hq hqm
    rw [f7] at hq
    have := (List.mem_filter.mp hq).2
    simp only [decide_eq_true_eq, List.mem_map, not_exists, not_and] at this
    exact this m hrange hqm.symm
  · intro a
    rw [f1]
    congr 1
    funext b
    congr 1
    unfold returned_legs
    rw [stake_sum_of_filter, stake_sum_of_filter, sum_legs_erase _ m _ hrange]
    have e1 : m.bet1_data.created ≥ created_after := h1
    have e2 : m.bet2_data.created ≥ created_after := h2
    simp only [decide_eq_true_eq, e1, e2, true_and]
    ring
  · rw [f4]
    congr 1
    unfold stake_sum
    rw [sum_legs_erase _ m _ hrange]
    ring
  · have := hop m.bet1_data (Or.inl rfl)
    have e1 : m.bet1_data.created ≥ created_after := h1
    simpa [leg_op, e1, cancelled_op] using this
  · have := hop m.bet2_data (Or.inr rfl)
    have e2 : m.bet2_data.created ≥ created_after := h2
    simpa [leg_op, e2, cancelled_op] using this
  · rw [f6, hrest]
    rfl
  · rw [f3, hrest]

/-- Witness for C9: scenario S3, the pair (Carol, Dave) created at the cut-off `T1`. -/
theorem cancel_bets_created_after_returns_late_legs_witness :
    scenario.S3_matched.well_formed scenario.SCR
    ∧ scenario.M_carol_dave ∈ scenario.S3_matched.matched_bets.objects
    ∧ scenario.T1 ≤ scenario.M_carol_dave.bet1_data.created
    ∧ scenario.T1 ≤ scenario.M_carol_dave.bet2_data.created
    ∧ ∃ s1, cancel_bets_created_after scenario.create_market 0 scenario.T1 scenario.S3_matched
          = .ok () s1
        ∧ (∀ q ∈ s1.matched_bets.objects, q.id ≠ scenario.M_carol_dave.id)
        ∧ s1.balance "carol" = some (scenario.scr 1000)
        ∧ s1.pending_bets = scenario.S3_matched.pending_bets := by
  refine ⟨S3_matched_well_formed, by decide, by decide, by decide, ?_⟩
  obtain ⟨s1, h, hq, hb, _, _, _, hp, _⟩ :=
    cancel_bets_created_after_returns_late_legs scenario.create_market scenario.S3_matched 0
      scenario.T1 { id := 0, uuid := scenario.G_uuid } scenario.SCR scenario.M_carol_dave
      S3_matched_well_formed (by decide) (by decide) (by decide) (by decide) (by decide)
      (by decide)
  refine ⟨s1, h, hq, ?_, ?_⟩
  · rw [hb]
    decide
  · rw [hp]
    decide

end claims_legs

section claims_restore

variable {W M : Type}

open betting_service

/-- C10, counterexample: scenario S3.  Both legs of the pair (Alice, Bob) were created at
`T0`, before the cut-off `T1`, yet after `cancel_bets(G, created_after = T1)` the pair is
still in the matched store and the pending store holds no row for its legs. -/
theorem cancel_bets_created_after_keeps_earlier_matched :
    scenario.M_alice_bob ∈ scenario.S3_matched.matched_bets.objects
    ∧ scenario.M_alice_bob.game = 0
    ∧ scenario.M_alice_bob.bet1_data.created < scenario.T1
    ∧ scenario.M_alice_bob.bet2_data.created < scenario.T1
    ∧ (cancel_bets_created_after scenario.create_market 0 scenario.T1
        scenario.S3_matched).succeeded = true
    ∧ (cancel_bets_created_after scenario.create_market 0 scenario.T1
        scenario.S3_matched).state.pending_bets.objects = []
    ∧ scenario.M_alice_bob ∈ (cancel_bets_created_after scenario.create_market 0 scenario.T1
        scenario.S3_matched).state.matched_bets.objects := by
  decide

/-- C10, amended: in a well-formed state with the game in the store, let `m` be a matched
bet of the game whose `created` key is at or after `created_after` and whose two legs were
both created before it.  Then `cancel_bets(game_id, created_after)` returns; the row of `m`
is gone from the matched store; the balances receive only what the pending bets and the
other matched bets of the call credit; each leg of `m` is represented by a pending row of
the game with the leg's better, odds, wincase, creation time and kind; if the keys of the
surviving pending rows were pairwise distinct so are the keys afterwards; and the stake
held under any key is the stake the surviving rows held under it plus the stakes of the
restored legs with that key, so that with distinct keys the one row of a key carries the
sum. -/
theorem cancel_bets_created_after_restores_early_legs [LinearOrder W] [DecidableEq M]
    (create_market : W → M) (s : database W M) (game_id : game_id_type)
    (created_after : time_point_sec) (game : game_object) (sym : asset_symbol_type)
    (m : matched_bet_object W M) (hwf : s.well_formed sym)
    (hgame : s.games.find? (fun g => decide (g.id = game_id)) = some game)
    (hm : m ∈ s.matched_bets.objects) (hmg : m.game = game_id)
    (hmc : created_after ≤ m.created)
    (h1 : m.bet1_data.created < created_after) (h2 : m.bet2_data.created < created_after) :
    ∃ s1, cancel_bets_created_after create_market game_id created_after s = .ok () s1
      ∧ (∀ q ∈ s1.matched_bets.objects, q.id ≠ m.id)
      ∧ (∀ a, s1.balance a = (s.balance a).map (fun b => b.plus
          (stake_sum_of a
              ((pending_bet_dba.get_range_by_game_id_created game_id created_after s).map
                (fun p => p.data))
            + stake_sum_of a (returned_legs created_after
                (legs_of ((matched_bet_dba.get_range_by_game_id_created game_id created_after
                  s).erase m))))))
      ∧ (∀ leg, leg = m.bet1_data ∨ leg = m.bet2_data →
          virtual_operation.bet_restored_operation game.uuid leg.better leg.uuid leg.stake
              ∈ s1.virt_ops
          ∧ ∃ r ∈ s1.pending_bets.objects, r.game = game_id ∧ r.data.better = leg.better
              ∧ r.data.bet_odds = leg.bet_odds ∧ r.data.wincase = leg.wincase
              ∧ r.data.created = leg.created ∧ r.data.kind = leg.kind)
      ∧ (keys_unique (surviving_pending game_id created_after s).objects →
          keys_unique s1.pending_bets.objects)
      ∧ (∀ k, key_stake game_id k s1.pending_bets.objects
          = key_stake game_id k (surviving_pending game_id created_after s).objects
            + stake_sum ((restored_legs created_after
                (legs_of (matched_bet_dba.get_range_by_game_id_created game_id created_after
                  s))).filter (fun leg => decide (same_leg_key k leg))))
      ∧ (keys_unique (surviving_pending game_id created_after s).objects →
          ∀ k, ∀ r ∈ s1.pending_bets.objects, same_key game_id k r →
            r.data.stake.amount
              = key_stake game_id k (surviving_pending game_id created_after s).objects
                + stake_sum ((restored_legs created_after
                    (legs_of (matched_bet_dba.get_range_by_game_id_created game_id
                      created_after s))).filter (fun leg => decide (same_leg_key k leg)))) := by
  have hrange := (mem_matched_range s game_id created_after m).mpr ⟨hm, hmg, hmc⟩
  have e1 : ¬ m.bet1_data.created ≥ created_after := Nat.not_le.mpr h1
  have e2 : ¬ m.bet2_data.created ≥ created_after := Nat.not_le.mpr h2
  obtain ⟨f1, f2, _, _, _, f6, f7, _, _, _⟩ :=
    cancel_bets_created_after_fields create_market game_id game.uuid created_after s
  have hret : returned_legs created_after
        (legs_of (matched_bet_dba.get_range_by_game_id_created game_id created_after s))
      = returned_legs created_after
        (legs_of ((matched_bet_dba.get_range_by_game_id_created game_id created_after
          s).erase m)) := by
    unfold returned_legs
    apply filter_legs_erase
    · simp [e1]
    · simp [e2]
  have f6b : (cancel_bets_created_after_result create_market game_id game.uuid created_after
        s).pending_bets
      = (restored_legs created_after
          (legs_of (matched_bet_dba.get_range_by_game_id_created game_id created_after
            s))).foldl
          (fun idx leg => restore_index create_market game_id leg idx)
          (surviving_pending game_id created_after s) := f6
  have hswf := surviving_pending_wf hwf game_id created_after
  have hstake := fun k => restore_fold_key_stake create_market game_id
    (restored_legs created_after
      (legs_of (matched_bet_dba.get_range_by_game_id_created game_id created_after s)))
    (surviving_pending game_id created_after s) hswf k
  have hunique := restore_fold_keys_unique create_market game_id
    (restored_legs created_after
      (legs_of (matched_bet_dba.get_range_by_game_id_created game_id created_after s)))
    (surviving_pending game_id created_after s)
  refine ⟨_, cancel_bets_created_after_ok create_market s game_id created_after game sym hwf
    hgame, ?_, ?_, ?_, ?_, ?_, ?_⟩
  · intro q hq hqm
    rw [f7] at hq
    have := (List.mem_filter.mp hq).2
    simp only [decide_eq_true_eq, List.mem_map, not_exists, not_and] at this
    exact this m hrange hqm.symm
  · intro a
    rw [f1, hret]
  · intro leg hleg
    have hlegs : leg ∈ legs_of
        (matched_bet_dba.get_range_by_game_id_created game_id created_after s) :=
      (mem_legs_of _ leg).mpr ⟨m, hrange, hleg⟩
    have hlc : ¬ leg.created ≥ created_after := by
      rcases hleg with h | h
      · rw [h]; exact e1
      · rw [h]; exact e2
    constructor
    · have hop : leg_op game.uuid created_after leg ∈
          (cancel_bets_created_after_result create_market game_id game.uuid created_after
            s).virt_ops := by
        rw [f2]
        apply List.mem_append_right
        exact List.mem_map.mpr ⟨leg, hlegs, rfl⟩
      simpa [leg_op, hlc, restored_op] using hop
    · have hres : leg ∈ restored_legs created_after
          (legs_of (matched_bet_dba.get_range_by_game_id_created game_id created_after s)) := by
        unfold restored_legs
        exact List.mem_filter.mpr ⟨hlegs, by simp [hlc]⟩
      obtain ⟨r, hr, hk⟩ := restore_fold_has_key create_market game_id _
        (surviving_pending game_id created_after s) leg hres
      rw [← f6b] at hr
      obtain ⟨k0, k1, k2, k3, k4, k5⟩ := hk
      exact ⟨r, hr, k0, k1, k3, k2, k5, k4⟩
  · intro hu
    rw [f6b]
    exact hunique hu
  · intro k
    rw [f6b]
    exact hstake k
  · intro hu k r hr hk
    rw [f6b] at hr
    rw [← hstake k]
    exact (key_stake_of_unique game_id k _ (hunique hu) r hr hk).symm

/-- Witness for C10 (amended): the pair matched at `T1` from legs posted at `T0`, with the
rest of Alice's bet still pending; the cut-off lies between `T0` and `T1`. -/
theorem cancel_bets_created_after_restores_early_legs_witness :
    scenario.S_late.well_formed scenario.SCR
    ∧ scenario.M_late ∈ scenario.S_late.matched_bets.objects
    ∧ 15 ≤ scenario.M_late.created
    ∧ scenario.M_late.bet1_data.created < 15
    ∧ scenario.M_late.bet2_data.created < 15
    ∧ ∃ s1, cancel_bets_created_after scenario.create_market 0 15 scenario.S_late = .ok () s1
        ∧ (∀ q ∈ s1.matched_bets.objects, q.id ≠ scenario.M_late.id)
        ∧ s1.balance "alice" = some (scenario.scr 700)
        ∧ (∀ r ∈ s1.pending_bets.objects,
            same_key 0 scenario.M_late.bet1_data r → r.data.stake.amount = 300) := by
  refine ⟨S_late_well_formed, by decide, by decide, by decide, by decide, ?_⟩
  obtain ⟨s1, h, hq, hb, _, _, _, hs⟩ :=
    cancel_bets_created_after_restores_early_legs scenario.create_market scenario.S_late 0 15
      { id := 0, uuid := scenario.G_uuid } scenario.SCR scenario.M_late
      S_late_well_formed (by decide) (by decide) (by decide) (by decide) (by decide)
      (by decide)
  refine ⟨s1, h, hq, ?_, ?_⟩
  · rw [hb]
    decide
  · intro r hr hk
    rw [hs (by unfold keys_unique; decide) scenario.M_late.bet1_data r hr hk]
    decide

end claims_restore

/-! ## Claims about `restore_pending_bet`, `return_bet` and `cancel_matched_bet` -/

section claims_helpers

variable {W M : Type}

open betting_service

/-- C13: when the game of `game_uuid` is in the store (ids of the pending store distinct,
stakes and volume counters in the coin of the leg), `restore_pending_bet bet game_uuid`
returns.  If the pending store holds a bet of that game and better with the same created,
odds and kind and a wincase neither below nor above `bet.wincase`, the first such row gets
`bet.stake` added to its stake and the rows are otherwise the same, none added; otherwise
exactly one row is appended, with the game's id, market `create_market bet.wincase` and
data equal to `bet`. -/
theorem restore_pending_bet_store [LinearOrder W] (create_market : W → M) (s : database W M)
    (bet : bet_data W) (game_uuid : uuid_type) (game : game_object)
    (hgame : s.games.find? (fun g => decide (g.uuid = game_uuid)) = some game)
    (hwf : index_wf s.pending_bets)
    (hstakes : ∀ p ∈ s.pending_bets.objects, p.data.stake.symbol = bet.stake.symbol)
    (hpvol : s.dprop.betting_stats.pending_bets_volume.symbol = bet.stake.symbol)
    (hmvol : s.dprop.betting_stats.matched_bets_volume.symbol = bet.stake.symbol) :
    ∃ s1, restore_pending_bet create_market bet game_uuid s = .ok () s1
      ∧ ((∃ o ∈ s.pending_bets.objects, restore_target game.id bet o) →
          ∃ pre found post, s.pending_bets.objects = pre ++ found :: post
            ∧ restore_target game.id bet found
            ∧ (∀ o ∈ pre, ¬ restore_target game.id bet o)
            ∧ s1.pending_bets.objects = pre ++ add_stake bet.stake.amount found :: post
            ∧ s1.pending_bets.next_id = s.pending_bets.next_id)
      ∧ ((¬ ∃ o ∈ s.pending_bets.objects, restore_target game.id bet o) →
          s1.pending_bets.objects
              = s.pending_bets.objects ++
                [{ id := s.pending_bets.next_id, game := game.id
                   market := create_market bet.wincase, data := bet }]
            ∧ s1.pending_bets.next_id = s.pending_bets.next_id + 1) := by
  obtain ⟨c1, c2⟩ := restore_index_cases create_market game.id bet s.pending_bets hwf
  exact ⟨_, restore_pending_bet_ok create_market s bet game_uuid game hgame hstakes hpvol hmvol,
    c1, c2⟩

/-- Witness for C13: Alice's leg is restored while the rest of her bet is pending. -/
theorem restore_pending_bet_store_witness :
    index_wf scenario.S_late.pending_bets
    ∧ ∃ s1, restore_pending_bet scenario.create_market scenario.M_late.bet1_data
          scenario.G_uuid scenario.S_late = .ok () s1
        ∧ s1.pending_bets.objects = [add_stake 200 scenario.P_rest] := by
  have hwf : index_wf scenario.S_late.pending_bets := by
    unfold index_wf
    decide
  refine ⟨hwf, ?_⟩
  obtain ⟨s1, h, hc, _⟩ :=
    restore_pending_bet_store scenario.create_market scenario.S_late scenario.M_late.bet1_data
      scenario.G_uuid { id := 0, uuid := scenario.G_uuid } (by decide) hwf (by decide)
      (by decide) (by decide)
  refine ⟨s1, h, ?_⟩
  obtain ⟨pre, found, post, hsplit, _, hpre, hobj, _⟩ :=
    hc ⟨scenario.P_rest, by decide, by decide⟩
  have hpre2 : pre = [] := by
    cases pre with
    | nil => rfl
    | cons x xs =>
      exfalso
      have hx : x = scenario.P_rest := by
        have := congrArg List.head? hsplit
        simpa [scenario.S_late] using this.symm
      exact hpre x (List.mem_cons_self _ _) (hx ▸ by decide)
  subst hpre2
  have h2 : [scenario.P_rest] = found :: post := hsplit
  injection h2 with h3 h4
  rw [hobj, ← h3, ← h4]
  rfl

/-- C14: in both branches of `restore_pending_bet bet game_uuid` (whenever the call
returns, which it does under the hypotheses), `pending_bets_volume` grows by `bet.stake`,
`matched_bets_volume` drops by `bet.stake`, their sum stays, exactly one event
`BetRestored` with the game uuid, better, bet uuid and stake is appended, and the accounts
are untouched. -/
theorem restore_pending_bet_volumes [LinearOrder W] (create_market : W → M)
    (s : database W M) (bet : bet_data W) (game_uuid : uuid_type) (game : game_object)
    (hgame : s.games.find? (fun g => decide (g.uuid = game_uuid)) = some game)
    (hstakes : ∀ p ∈ s.pending_bets.objects, p.data.stake.symbol = bet.stake.symbol)
    (hpvol : s.dprop.betting_stats.pending_bets_volume.symbol = bet.stake.symbol)
    (hmvol : s.dprop.betting_stats.matched_bets_volume.symbol = bet.stake.symbol) :
    ∃ s1, restore_pending_bet create_market bet game_uuid s = .ok () s1
      ∧ s1.dprop.betting_stats.pending_bets_volume
          = { amount := s.dprop.betting_stats.pending_bets_volume.amount + bet.stake.amount
              symbol := s.dprop.betting_stats.pending_bets_volume.symbol }
      ∧ s1.dprop.betting_stats.matched_bets_volume
          = { amount := s.dprop.betting_stats.matched_bets_volume.amount - bet.stake.amount
              symbol := s.dprop.betting_stats.matched_bets_volume.symbol }
      ∧ s1.dprop.betting_stats.pending_bets_volume.amount
            + s1.dprop.betting_stats.matched_bets_volume.amount
          = s.dprop.betting_stats.pending_bets_volume.amount
            + s.dprop.betting_stats.matched_bets_volume.amount
      ∧ s1.virt_ops = s.virt_ops ++
          [.bet_restored_operation game_uuid bet.better bet.uuid bet.stake]
      ∧ s1.accounts = s.accounts
      ∧ (∀ a, s1.balance a = s.balance a) := by
  refine ⟨_, restore_pending_bet_ok create_market s bet game_uuid game hgame hstakes hpvol
    hmvol, rfl, ?_, ?_, rfl, rfl, fun _ => rfl⟩
  · simp [restore_pending_bet_result, push_op, add_matched_volume, add_pending_volume,
      asset.plus, sub_eq_add_neg]
  · simp [restore_pending_bet_result, push_op, add_matched_volume, add_pending_volume,
      asset.plus]
    ring

/-- Witness for C14: Bob's leg is restored into a new row. -/
theorem restore_pending_bet_volumes_witness :
    ∃ s1, restore_pending_bet scenario.create_market scenario.M_late.bet2_data
          scenario.G_uuid scenario.S_late = .ok () s1
        ∧ s1.dprop.betting_stats.pending_bets_volume = scenario.scr 300
        ∧ s1.dprop.betting_stats.matched_bets_volume = scenario.scr 200
        ∧ s1.accounts = scenario.S_late.accounts := by
  obtain ⟨s1, h, hp, hm, _, _, ha, _⟩ :=
    restore_pending_bet_volumes scenario.create_market scenario.S_late
      scenario.M_late.bet2_data scenario.G_uuid { id := 0, uuid := scenario.G_uuid }
      (by decide) (by decide) (by decide) (by decide)
  exact ⟨s1, h, by rw [hp]; decide, by rw [hm]; decide, ha⟩

/-- C15: for a matched bet `m` of the store (matched ids distinct, balances, stakes and the
matched volume in one coin, both betters having accounts), `cancel_matched_bet m game_uuid`
returns; the better of each leg is credited with the stake of that leg,
`matched_bets_volume` drops by the two stakes, `BetCancelled` of kind matched is appended
for `bet1_data` and then for `bet2_data`, `m` leaves the matched store while the other
rows stay, and the pending store and `pending_bets_volume` are unchanged.  `return_bet`
alone credits one leg, appends its event and lowers the matched volume by its stake; it
removes nothing. -/
theorem cancel_matched_bet_effects [DecidableEq W] [DecidableEq M] (s : database W M)
    (m : matched_bet_object W M) (game_uuid : uuid_type) (sym : asset_symbol_type)
    (hm : m ∈ s.matched_bets.objects)
    (hids : (s.matched_bets.objects.map (fun o => o.id)).Nodup)
    (hb : ∀ a ∈ s.accounts, a.balance.symbol = sym)
    (hv : s.dprop.betting_stats.matched_bets_volume.symbol = sym)
    (h1 : payable sym (s.accounts.map (fun a => a.name)) m.bet1_data)
    (h2 : payable sym (s.accounts.map (fun a => a.name)) m.bet2_data) :
    (∃ s1, cancel_matched_bet m game_uuid s = .ok () s1
      ∧ (∀ a, s1.balance a = (s.balance a).map (fun b => b.plus
          ((if m.bet1_data.better = a then m.bet1_data.stake.amount else 0)
            + (if m.bet2_data.better = a then m.bet2_data.stake.amount else 0))))
      ∧ s1.dprop.betting_stats.matched_bets_volume
          = s.dprop.betting_stats.matched_bets_volume.plus
              (-(m.bet1_data.stake.amount + m.bet2_data.stake.amount))
      ∧ s1.virt_ops = s.virt_ops ++
          [.bet_cancelled_operation game_uuid m.bet1_data.better m.bet1_data.uuid
              m.bet1_data.stake .matched,
           .bet_cancelled_operation game_uuid m.bet2_data.better m.bet2_data.uuid
              m.bet2_data.stake .matched]
      ∧ s1.matched_bets.objects = s.matched_bets.objects.filter (fun o => decide (o ≠ m))
      ∧ m ∉ s1.matched_bets.objects
      ∧ s1.pending_bets = s.pending_bets
      ∧ s1.dprop.betting_stats.pending_bets_volume = s.dprop.betting_stats.pending_bets_volume
      ∧ s1.uuid_hist = s.uuid_hist
      ∧ s1.games = s.games)
    ∧ (∃ t, return_bet m.bet1_data game_uuid s = .ok () t
      ∧ (∀ a, t.balance a = (s.balance a).map (fun b => b.plus
          (if m.bet1_data.better = a then m.bet1_data.stake.amount else 0)))
      ∧ t.dprop.betting_stats.matched_bets_volume
          = s.dprop.betting_stats.matched_bets_volume.plus (-m.bet1_data.stake.amount)
      ∧ t.virt_ops = s.virt_ops ++
          [.bet_cancelled_operation game_uuid m.bet1_data.better m.bet1_data.uuid
              m.bet1_data.stake .matched]
      ∧ t.matched_bets = s.matched_bets
      ∧ t.pending_bets = s.pending_bets
      ∧ t.dprop.betting_stats.pending_bets_volume
          = s.dprop.betting_stats.pending_bets_volume) := by
  have hobj : (cancel_matched_bet_result game_uuid m s).matched_bets.objects
      = s.matched_bets.objects.filter (fun o => decide (o ≠ m)) := by
    rw [← filter_id_ne_eq_filter_ne (fun o => o.id) s.matched_bets.objects hids m hm]
    simp [cancel_matched_bet_result, remove_matched, return_bet_result, add_matched_volume,
      push_op, credit]
  constructor
  · refine ⟨_, cancel_matched_bet_ok s m game_uuid sym hb hv h1 h2, ?_, ?_, ?_, hobj, ?_,
      rfl, rfl, rfl, rfl⟩
    · intro a
      show (credit m.bet2_data.better m.bet2_data.stake.amount
        (credit m.bet1_data.better m.bet1_data.stake.amount s)).balance a = _
      rw [balance_credit, balance_credit]
      cases hbal : s.balance a with
      | none => by_cases e1 : a = m.bet1_data.better <;> by_cases e2 : a = m.bet2_data.better <;>
          simp [e1, e2]
      | some b =>
        by_cases e1 : a = m.bet1_data.better <;> by_cases e2 : a = m.bet2_data.better
        · have e1s : m.bet1_data.better = a := e1.symm
          have e2s : m.bet2_data.better = a := e2.symm
          simp [e1s, e2s, plus_plus]
        · have e1s : m.bet1_data.better = a := e1.symm
          have e2s : ¬ m.bet2_data.better = a := fun h => e2 h.symm
          simp [e1s, e2, e2s, hbal]
        · have e1s : ¬ m.bet1_data.better = a := fun h => e1 h.symm
          have e2s : m.bet2_data.better = a := e2.symm
          simp [e1, e1s, e2s, hbal]
        · have e1s : ¬ m.bet1_data.better = a := fun h => e1 h.symm
          have e2s : ¬ m.bet2_data.better = a := fun h => e2 h.symm
          simp [e1, e2, e1s, e2s, plus_zero]
    · simp [cancel_matched_bet_result, remove_matched, return_bet_result, add_matched_volume,
        push_op, credit, asset.plus, add_assoc, add_comm]
    · simp [cancel_matched_bet_result, remove_matched, return_bet_result, add_matched_volume,
        push_op, credit, cancelled_op]
    · rw [hobj]
      simp
  · refine ⟨_, return_bet_ok_payable s m.bet1_data game_uuid sym hb hv h1, ?_, rfl, rfl, rfl,
      rfl, rfl⟩
    intro a
    show (credit m.bet1_data.better m.bet1_data.stake.amount s).balance a = _
    rw [balance_credit]
    cases hbal : s.balance a with
    | none => by_cases e1 : a = m.bet1_data.better <;> simp [e1]
    | some b =>
      by_cases e1 : a = m.bet1_data.better
      · have e1s : m.bet1_data.better = a := e1.symm
        simp [e1s]
      · have e1s : ¬ m.bet1_data.better = a := fun h => e1 h.symm
        simp [e1, e1s, plus_zero]

/-- Witness for C15: scenario S2, the matched bet of Alice and Bob is cancelled. -/
theorem cancel_matched_bet_effects_witness :
    scenario.M_S2 ∈ scenario.S2_matched.matched_bets.objects
    ∧ ∃ s1, cancel_matched_bet scenario.M_S2 scenario.G_uuid scenario.S2_matched = .ok () s1
        ∧ s1.balance "alice" = some (scenario.scr 1000)
        ∧ s1.balance "bob" = some (scenario.scr 1000)
        ∧ s1.dprop.betting_stats.matched_bets_volume = scenario.scr 0
        ∧ scenario.M_S2 ∉ s1.matched_bets.objects := by
  refine ⟨by decide, ?_⟩
  obtain ⟨⟨s1, h, hb, hv, _, _, hn, _⟩, _⟩ :=
    cancel_matched_bet_effects scenario.S2_matched scenario.M_S2 scenario.G_uuid scenario.SCR
      (by decide) (by decide) (by decide) (by decide) (by decide) (by decide)
  exact ⟨s1, h, by rw [hb]; decide, by rw [hb]; decide, by rw [hv]; decide, hn⟩

end claims_helpers

/-! ## Claims about `cancel_bets(game_id, markets)` and `cancel_bets(game_id)` -/

section claims_markets

variable {W M : Type}

open betting_service

/-- C11, the code at the failing input: Bob and Carol both have a pending bet of game `G`
on the market that is cancelled.  `cancel_bets(G, {that market})` returns; Bob's bet is
refunded, Carol's bet of the same market is still in the pending store and she is not
refunded: the intersection copies one bet per market of the set. -/
theorem cancel_bets_markets_leaves_second_bet :
    scenario.P_carol ∈ scenario.S4_two_on_market.pending_bets.objects
    ∧ scenario.P_carol.game = 0
    ∧ scenario.P_carol.market ∈ [1]
    ∧ cancel_bets_markets 0 [1] scenario.S4_two_on_market = .ok () scenario.S4_two_after
    ∧ scenario.P_carol ∈ scenario.S4_two_after.pending_bets.objects
    ∧ scenario.S4_two_after.balance "carol" = scenario.S4_two_on_market.balance "carol" := by
  decide

/-- C12: in a well-formed state with the game in the store, `cancel_bets(game_id, markets)`
returns; every pending and matched bet of another game or on a market outside `markets`
is still in its store, no row of the two stores was changed (every row afterwards is a row
from before), and the balance of an account that holds no pending bet and no matched leg
of the game on those markets is what it was.  In scenario S4 Bob, on the cancelled market,
is refunded and Alice keeps her pending bet and her balance. -/
theorem cancel_bets_markets_frame [LinearOrder M] (s : database W M) (game_id : game_id_type)
    (markets : List M) (game : game_object) (sym : asset_symbol_type)
    (hwf : s.well_formed sym)
    (hgame : s.games.find? (fun g => decide (g.id = game_id)) = some game) :
    (∃ s1, cancel_bets_markets game_id markets s = .ok () s1
      ∧ (∀ p ∈ s.pending_bets.objects, (p.game ≠ game_id ∨ p.market ∉ markets) →
          p ∈ s1.pending_bets.objects)
      ∧ (∀ p ∈ s1.pending_bets.objects, p ∈ s.pending_bets.objects)
      ∧ (∀ m ∈ s.matched_bets.objects, (m.game ≠ game_id ∨ m.market ∉ markets) →
          m ∈ s1.matched_bets.objects)
      ∧ (∀ m ∈ s1.matched_bets.objects, m ∈ s.matched_bets.objects)
      ∧ (∀ a,
          (∀ p ∈ s.pending_bets.objects, p.game = game_id → p.market ∈ markets →
            p.data.better ≠ a) →
          (∀ m ∈ s.matched_bets.objects, m.game = game_id → m.market ∈ markets →
            m.bet1_data.better ≠ a ∧ m.bet2_data.better ≠ a) →
          s1.balance a = s.balance a))
    ∧ (cancel_bets_markets 0 [1] scenario.S4_pending = .ok () scenario.S4_after
      ∧ scenario.S4_pending.balance "bob" = some (scenario.scr 900)
      ∧ scenario.S4_after.balance "bob" = some (scenario.scr 1000)
      ∧ scenario.P_bob ∉ scenario.S4_after.pending_bets.objects
      ∧ scenario.P_alice ∈ scenario.S4_after.pending_bets.objects
      ∧ scenario.S4_after.balance "alice" = scenario.S4_pending.balance "alice") := by
  refine ⟨?_, by decide⟩
  have hfp : ∀ p ∈ set_intersection (fun b : pending_bet_object W M => b.market)
      (pending_bet_dba.get_range_by_game_id_market game_id s) markets,
      p ∈ s.pending_bets.objects ∧ p.game = game_id ∧ p.market ∈ markets := by
    intro p hp
    have h1 := (mem_pending_range_market s game_id p).mp
      ((set_intersection_sublist _ _ _).subset hp)
    exact ⟨h1.1, h1.2, set_intersection_market_mem _ _ _ p hp⟩
  have hfm : ∀ m ∈ set_intersection (fun b : matched_bet_object W M => b.market)
      (matched_bet_dba.get_range_by_game_id_market game_id s) markets,
      m ∈ s.matched_bets.objects ∧ m.game = game_id ∧ m.market ∈ markets := by
    intro m hm
    have h1 := (mem_matched_range_market s game_id m).mp
      ((set_intersection_sublist _ _ _).subset hm)
    exact ⟨h1.1, h1.2, set_intersection_market_mem _ _ _ m hm⟩
  obtain ⟨f1, _, _, _, _, f6, _, f8, _, _, _⟩ := cancel_all_fields game.uuid
    (set_intersection (fun b : pending_bet_object W M => b.market)
      (pending_bet_dba.get_range_by_game_id_market game_id s) markets)
    (set_intersection (fun b : matched_bet_object W M => b.market)
      (matched_bet_dba.get_range_by_game_id_market game_id s) markets) s
  refine ⟨_, cancel_bets_markets_ok s game_id markets game hwf hgame, ?_, ?_, ?_, ?_, ?_⟩
  · intro p hp hout
    rw [f6]
    refine List.mem_filter.mpr ⟨hp, ?_⟩
    simp only [decide_eq_true_eq, List.mem_map, not_exists, not_and]
    intro q hq hqp
    obtain ⟨hq1, hq2, hq3⟩ := hfp q hq
    have hqe : q = p :=
      eq_of_id_eq (fun p => p.id) s.pending_bets.objects hwf.pending_ids q p hq1 hp hqp
    subst hqe
    rcases hout with h | h
    · exact h hq2
    · exact h hq3
  · intro p hp
    rw [f6] at hp
    exact List.mem_of_mem_filter hp
  · intro m hm hout
    rw [f8]
    refine List.mem_filter.mpr ⟨hm, ?_⟩
    simp only [decide_eq_true_eq, List.mem_map, not_exists, not_and]
    intro q hq hqm
    obtain ⟨hq1, hq2, hq3⟩ := hfm q hq
    have hqe : q = m :=
      eq_of_id_eq (fun m => m.id) s.matched_bets.objects hwf.matched_ids q m hq1 hm hqm
    subst hqe
    rcases hout with h | h
    · exact h hq2
    · exact h hq3
  · intro m hm
    rw [f8] at hm
    exact List.mem_of_mem_filter hm
  · intro a hpa hma
    rw [f1]
    have z1 : stake_sum_of a ((set_intersection (fun b : pending_bet_object W M => b.market)
        (pending_bet_dba.get_range_by_game_id_market game_id s) markets).map
          (fun p => p.data)) = 0 := by
      apply stake_sum_of_eq_zero
      intro b hb
      obtain ⟨p, hp, rfl⟩ := List.mem_map.mp hb
      obtain ⟨h1, h2, h3⟩ := hfp p hp
      exact hpa p h1 h2 h3
    have z2 : stake_sum_of a (legs_of (set_intersection
        (fun b : matched_bet_object W M => b.market)
        (matched_bet_dba.get_range_by_game_id_market game_id s) markets)) = 0 := by
      apply stake_sum_of_eq_zero
      intro b hb
      obtain ⟨m, hm, hl⟩ := (mem_legs_of _ b).mp hb
      obtain ⟨h1, h2, h3⟩ := hfm m hm
      rcases hl with hl | hl
      · rw [hl]; exact (hma m h1 h2 h3).1
      · rw [hl]; exact (hma m h1 h2 h3).2
    rw [z1, z2]
    cases s.balance a with
    | none => rfl
    | some b => simp [plus_zero]

/-- Witness for C12: scenario S4. -/
theorem cancel_bets_markets_frame_witness :
    scenario.S4_pending.well_formed scenario.SCR
    ∧ ∃ s1, cancel_bets_markets 0 [1] scenario.S4_pending = .ok () s1
        ∧ scenario.P_alice ∈ s1.pending_bets.objects
        ∧ s1.balance "alice" = scenario.S4_pending.balance "alice" := by
  have hwf : scenario.S4_pending.well_formed scenario.SCR :=
    { balances := by decide
      pending_volume := by decide
      matched_volume := by decide
      pending_bets := by decide
      matched_bets := by decide
      pending_ids := by decide
      pending_ids_lt := by decide
      matched_ids := by decide
      game_uuids := by decide }
  refine ⟨hwf, ?_⟩
  obtain ⟨⟨s1, h, hp, _, _, _, hb⟩, _⟩ :=
    cancel_bets_markets_frame scenario.S4_pending 0 [1] { id := 0, uuid := scenario.G_uuid }
      scenario.SCR hwf (by decide)
  exact ⟨s1, h, hp scenario.P_alice (by decide) (by decide),
    hb "alice" (by decide) (by decide)⟩

end claims_markets

/-! ## Claims about `cancel_bets(game_id)` -/

section claims_cancel_bets

variable {W M : Type}

open betting_service

/-- C16, the counterexample: in scenario S1 Alice already holds the pending bet B1 of 500
on game `G`; she posts a second bet of 100 on `G` and `cancel_bets(G)` is called.  Both
calls return, and her balance ends at 1000 and the pending volume at 0, not at the 500 and
500 they had before the create. -/
theorem create_then_cancel_bets_with_earlier_bet :
    scenario.S1_posted.balance "alice" = some (scenario.scr 500)
    ∧ scenario.S1_posted.dprop.betting_stats.pending_bets_volume = scenario.scr 500
    ∧ (create_pending_bet scenario.create_market "alice" (scenario.scr 100)
        { numerator := 2, denominator := 1 } scenario.home_no 0 2 .live
        scenario.S1_posted).succeeded = true
    ∧ (cancel_bets 0
        (create_pending_bet scenario.create_market "alice" (scenario.scr 100)
          { numerator := 2, denominator := 1 } scenario.home_no 0 2 .live
          scenario.S1_posted).state).succeeded = true
    ∧ (cancel_bets 0
        (create_pending_bet scenario.create_market "alice" (scenario.scr 100)
          { numerator := 2, denominator := 1 } scenario.home_no 0 2 .live
          scenario.S1_posted).state).state.balance "alice" = some (scenario.scr 1000)
    ∧ (cancel_bets 0
        (create_pending_bet scenario.create_market "alice" (scenario.scr 100)
          { numerator := 2, denominator := 1 } scenario.home_no 0 2 .live
          scenario.S1_posted).state).state.dprop.betting_stats.pending_bets_volume
        = scenario.scr 0 := by
  decide

/-- C16, amended: in a well-formed state with the game in the store, `cancel_bets(game_id)`
returns; afterwards neither store holds a bet of the game, every balance has grown by the
stakes of the pending bets and matched legs that the account had on the game, the two
volume counters have dropped by the sums of these stakes, and the bets of every other game
are the same rows as before.  When the game held no bet before a `create_pending_bet` on
it, the create followed by `cancel_bets(game_id)` leaves the balance of the better and both
counters where they were before the create. -/
theorem cancel_bets_effects [LinearOrder M] (create_market : W → M) (s : database W M)
    (game_id : game_id_type) (game : game_object) (sym : asset_symbol_type)
    (hwf : s.well_formed sym)
    (hgame : s.games.find? (fun g => decide (g.id = game_id)) = some game) :
    (∃ s1, cancel_bets game_id s = .ok () s1
      ∧ pending_of_game game_id s1 = []
      ∧ matched_of_game game_id s1 = []
      ∧ (∀ a, s1.balance a = (s.balance a).map (fun b => b.plus
          (stake_sum_of a ((pending_of_game game_id s).map (fun p => p.data))
            + stake_sum_of a (legs_of (matched_of_game game_id s)))))
      ∧ s1.dprop.betting_stats.pending_bets_volume
          = s.dprop.betting_stats.pending_bets_volume.plus
              (-(stake_sum ((pending_of_game game_id s).map (fun p => p.data))))
      ∧ s1.dprop.betting_stats.matched_bets_volume
          = s.dprop.betting_stats.matched_bets_volume.plus
              (-(stake_sum (legs_of (matched_of_game game_id s))))
      ∧ (∀ g, g ≠ game_id →
          pending_of_game g s1 = pending_of_game g s
            ∧ matched_of_game g s1 = matched_of_game g s))
    ∧ (∀ better stake o wincase bet_uuid kind bet s1,
        pending_of_game game_id s = [] → matched_of_game game_id s = [] →
        create_pending_bet create_market better stake o wincase game_id bet_uuid kind s
          = .ok bet s1 →
        ∃ s2, cancel_bets game_id s1 = .ok () s2
          ∧ s2.balance better = s.balance better
          ∧ s2.dprop.betting_stats.pending_bets_volume
              = s.dprop.betting_stats.pending_bets_volume
          ∧ s2.dprop.betting_stats.matched_bets_volume
              = s.dprop.betting_stats.matched_bets_volume
          ∧ pending_of_game game_id s2 = []
          ∧ matched_of_game game_id s2 = []) := by
  have hnone_p : ∀ (t t1 : database W M),
      t1.pending_bets.objects = t.pending_bets.objects.filter (fun o => decide (o.game ≠ game_id))
      → pending_of_game game_id t1 = [] := by
    intro t t1 h
    unfold pending_of_game
    rw [h, List.filter_filter, List.filter_eq_nil_iff]
    intro o _
    simp
  have hnone_m : ∀ (t t1 : database W M),
      t1.matched_bets.objects = t.matched_bets.objects.filter (fun o => decide (o.game ≠ game_id))
      → matched_of_game game_id t1 = [] := by
    intro t t1 h
    unfold matched_of_game
    rw [h, List.filter_filter, List.filter_eq_nil_iff]
    intro o _
    simp
  constructor
  · obtain ⟨s1, h, hp, hm, hb, hpv, hmv⟩ := cancel_bets_by_game s game_id game hwf hgame
    refine ⟨s1, h, hnone_p s s1 hp, hnone_m s s1 hm, hb, hpv, hmv, ?_⟩
    intro g hg
    unfold pending_of_game matched_of_game
    rw [hp, hm, List.filter_filter, List.filter_filter]
    constructor
    · apply List.filter_congr
      intro o _
      by_cases ho : o.game = g
      · simp [ho, hg]
      · simp [ho]
    · apply List.filter_congr
      intro o _
      by_cases ho : o.game = g
      · simp [ho, hg]
      · simp [ho]
  · intro better stake o wincase bet_uuid kind bet s1 hnp hnm hcreate
    have hwf1 := create_pending_bet_well_formed create_market s better stake o wincase game_id
      bet_uuid kind bet s1 sym hwf hcreate
    obtain ⟨bal, hacc, hbal, hvol, huuid⟩ :=
      create_pending_bet_ok_inv create_market s better stake o wincase game_id bet_uuid kind
        bet s1 hcreate
    rw [create_pending_bet_ok create_market s better stake o wincase game_id bet_uuid kind bal
      hacc hbal hvol huuid] at hcreate
    injection hcreate with hbet hs1
    subst hs1
    obtain ⟨s2, h, hp, hm, hb, hpv, hmv⟩ := cancel_bets_by_game _ game_id game hwf1 hgame
    have hpg : pending_of_game game_id
        (credit better (-stake.amount)
          (add_pending_volume stake.amount
            { s with
              uuid_hist := s.uuid_hist ++ [bet_uuid]
              pending_bets :=
                { objects := s.pending_bets.objects ++
                    [{ id := s.pending_bets.next_id, game := game_id
                       market := create_market wincase
                       data := { uuid := bet_uuid, created := s.dprop.time, better := better
                                 wincase := wincase, stake := stake, bet_odds := o
                                 kind := kind } }]
                  next_id := s.pending_bets.next_id + 1 } }))
        = [{ id := s.pending_bets.next_id, game := game_id, market := create_market wincase
             data := { uuid := bet_uuid, created := s.dprop.time, better := better
                       wincase := wincase, stake := stake, bet_odds := o, kind := kind } }] := by
      unfold pending_of_game at hnp ⊢
      show List.filter _ (s.pending_bets.objects ++ [_]) = _
      rw [List.filter_append, hnp]
      simp
    have hmg : matched_of_game game_id
        (credit better (-stake.amount)
          (add_pending_volume stake.amount
            { s with
              uuid_hist := s.uuid_hist ++ [bet_uuid]
              pending_bets :=
                { objects := s.pending_bets.objects ++
                    [{ id := s.pending_bets.next_id, game := game_id
                       market := create_market wincase
                       data := { uuid := bet_uuid, created := s.dprop.time, better := better
                                 wincase := wincase, stake := stake, bet_odds := o
                                 kind := kind } }]
                  next_id := s.pending_bets.next_id + 1 } }))
        = [] := hnm
    rw [hpg, hmg] at hb
    rw [hpg] at hpv
    rw [hmg] at hmv
    refine ⟨s2, h, ?_, ?_, ?_, hnone_p _ s2 hp, hnone_m _ s2 hm⟩
    · rw [hb, balance_credit]
      simp only [if_true]
      have hsb : (add_pending_volume stake.amount
          { s with
            uuid_hist := s.uuid_hist ++ [bet_uuid]
            pending_bets :=
              { objects := s.pending_bets.objects ++
                  [{ id := s.pending_bets.next_id, game := game_id
                     market := create_market wincase
                     data := { uuid := bet_uuid, created := s.dprop.time, better := better
                               wincase := wincase, stake := stake, bet_odds := o
                               kind := kind } }]
                next_id := s.pending_bets.next_id + 1 } }).balance better
          = s.balance better := rfl
      rw [hsb, hacc]
      simp [stake_sum_of, stake_sum, legs_of, plus_neg_plus]
    · rw [hpv]
      show (s.dprop.betting_stats.pending_bets_volume.plus stake.amount).plus _ = _
      simp [stake_sum, plus_plus_neg]
    · rw [hmv]
      show s.dprop.betting_stats.matched_bets_volume.plus _ = _
      simp [stake_sum, legs_of, plus_zero]

/-- Witness for C16: scenario S1, where game `G` holds no bet before Alice posts B1. -/
theorem cancel_bets_effects_witness :
    scenario.S1_initial.well_formed scenario.SCR
    ∧ create_pending_bet scenario.create_market "alice" (scenario.scr 500)
        { numerator := 3, denominator := 1 } scenario.home_yes 0 1 .live scenario.S1_initial
      = .ok scenario.B1 scenario.S1_posted
    ∧ ∃ s2, cancel_bets 0 scenario.S1_posted = .ok () s2
        ∧ s2.balance "alice" = some (scenario.scr 1000)
        ∧ s2.dprop.betting_stats.pending_bets_volume = scenario.scr 0
        ∧ pending_of_game 0 s2 = [] := by
  have hwf : scenario.S1_initial.well_formed scenario.SCR :=
    { balances := by decide
      pending_volume := by decide
      matched_volume := by decide
      pending_bets := by decide
      matched_bets := by decide
      pending_ids := by decide
      pending_ids_lt := by decide
      matched_ids := by decide
      game_uuids := by decide }
  have hc : create_pending_bet scenario.create_market "alice" (scenario.scr 500)
        { numerator := 3, denominator := 1 } scenario.home_yes 0 1 .live scenario.S1_initial
      = .ok scenario.B1 scenario.S1_posted := by decide
  refine ⟨hwf, hc, ?_⟩
  obtain ⟨s2, h, hb, hpv, _, hp, _⟩ :=
    (cancel_bets_effects scenario.create_market scenario.S1_initial 0
      { id := 0, uuid := scenario.G_uuid } scenario.SCR hwf (by decide)).2
      "alice" (scenario.scr 500) { numerator := 3, denominator := 1 } scenario.home_yes 1 .live
      scenario.B1 scenario.S1_posted (by decide) (by decide) hc
  exact ⟨s2, h, by rw [hb]; decide, by rw [hpv]; decide, hp⟩

end claims_cancel_bets

/-! ## Invariants kept by every operation of the service -/

section claims_invariants

variable {W M : Type}

open betting_service

/-- C18: with the accounts keyed by name, every returning public operation of the service
leaves the sum of all balances plus `pending_bets_volume` plus `matched_bets_volume` as it
was, and so do the helpers `return_bet` and `restore_pending_bet`; equivalently the stake
held by the betting system grows by exactly what the balances lose. -/
theorem funds_conserved [LinearOrder W] [LinearOrder M] (create_market : W → M)
    (s : database W M) (hn : names_unique s) :
    (∀ (c : service_call W M) s1, c.run create_market s = .ok () s1 →
        names_unique s1 ∧ funds_total s1 = funds_total s
          ∧ staked_total s1 - staked_total s = balances_total s - balances_total s1)
    ∧ (∀ (b : bet_data W) g s1, return_bet b g s = .ok () s1 →
        funds_total s1 = funds_total s)
    ∧ (∀ (b : bet_data W) g s1, restore_pending_bet create_market b g s = .ok () s1 →
        funds_total s1 = funds_total s) := by
  refine ⟨?_, ?_, ?_⟩
  · intro c s1 h
    have hr := run_preserves create_market
      (fun t => names_unique t ∧ funds_total t = funds_total s)
      (fun t better stake o wincase game bet_uuid kind bet t1 ht hc => by
        obtain ⟨h1, h2⟩ := funds_create_pending_bet create_market t t1 better stake o wincase
          game bet_uuid kind bet ht.1 hc
        exact ⟨h1, h2.trans ht.2⟩)
      (fun t bet g u t1 ht hc => by
        obtain ⟨h1, h2⟩ := funds_cancel_pending_bet t t1 bet g u ht.1 hc
        exact ⟨h1, h2.trans ht.2⟩)
      (fun t b g u t1 ht hc => by
        obtain ⟨h1, h2⟩ := funds_return_bet t t1 b g u ht.1 hc
        exact ⟨h1, h2.trans ht.2⟩)
      (fun t b g u t1 ht _ hc => by
        obtain ⟨h1, h2⟩ := funds_restore_pending_bet create_market t t1 b g u ht.1 hc
        exact ⟨h1, h2.trans ht.2⟩)
      (fun t ids ht => ht)
      (fun t games ht => ht)
      c s s1 ⟨hn, rfl⟩ h
    refine ⟨hr.1, hr.2, ?_⟩
    have h2 := hr.2
    unfold funds_total at h2
    linarith
  · intro b g s1 h
    exact (funds_return_bet s s1 b g () hn h).2
  · intro b g s1 h
    exact (funds_restore_pending_bet create_market s s1 b g () hn h).2

/-- Witness for C18: scenario S3, where `cancel_bets(G, T1)` refunds two legs and restores
two; balances and counters add up to 4000 before and after. -/
theorem funds_conserved_witness :
    names_unique scenario.S3_matched
    ∧ (service_call.cancel_bets_created_after 0 scenario.T1 : service_call Nat Nat).run
        scenario.create_market scenario.S3_matched = .ok () scenario.S3_after
    ∧ funds_total scenario.S3_after = funds_total scenario.S3_matched
    ∧ funds_total scenario.S3_matched = 4000 := by
  have hn : names_unique scenario.S3_matched := by unfold names_unique; decide
  have hrun : (service_call.cancel_bets_created_after 0 scenario.T1 : service_call Nat Nat).run
      scenario.create_market scenario.S3_matched = .ok () scenario.S3_after := by decide
  exact ⟨hn, hrun,
    ((funds_conserved scenario.create_market scenario.S3_matched hn).1 _ _ hrun).2.1,
    by decide⟩

/-- C19: a returning public operation only appends to the UUID history, and the helpers
`return_bet` and `restore_pending_bet` leave it as it is; if the history holds the uuid of
every pending bet and of both legs of every matched bet, it still does after every
returning public operation, after `return_bet`, and after `restore_pending_bet` of a leg
of a stored matched bet, which may create a pending bet with the uuid of the leg. -/
theorem uuid_history_invariant [LinearOrder W] [LinearOrder M] (create_market : W → M)
    (s : database W M) :
    (∀ (c : service_call W M) s1, c.run create_market s = .ok () s1 →
        ∃ added, s1.uuid_hist = s.uuid_hist ++ added)
    ∧ (∀ (b : bet_data W) g s1, return_bet b g s = .ok () s1 → s1.uuid_hist = s.uuid_hist)
    ∧ (∀ (b : bet_data W) g s1, restore_pending_bet create_market b g s = .ok () s1 →
        s1.uuid_hist = s.uuid_hist)
    ∧ (uuids_recorded s →
        (∀ (c : service_call W M) s1, c.run create_market s = .ok () s1 → uuids_recorded s1)
        ∧ (∀ (b : bet_data W) g s1, return_bet b g s = .ok () s1 → uuids_recorded s1)
        ∧ (∀ (b : bet_data W) g s1, stored_leg b s →
            restore_pending_bet create_market b g s = .ok () s1 → uuids_recorded s1)) := by
  have hret : ∀ (t t1 : database W M) (b : bet_data W) g (u : Unit), uuids_recorded t →
      return_bet b g t = .ok u t1 → uuids_recorded t1 := by
    intro t t1 b g u ht hc
    obtain ⟨e1, e2, e3, _, _⟩ := return_bet_stores t t1 b g u hc
    unfold uuids_recorded
    rw [e1, e2, e3]
    exact ht
  have hres : ∀ (t t1 : database W M) (b : bet_data W) g (u : Unit), uuids_recorded t →
      stored_leg b t → restore_pending_bet create_market b g t = .ok u t1 →
      uuids_recorded t1 := by
    intro t t1 b g u ht hb hc
    obtain ⟨game, e1, e2, e3, _, _⟩ := restore_pending_bet_stores create_market t t1 b g u hc
    have hbu : b.uuid ∈ t.uuid_hist := by
      obtain ⟨m, hm, hor⟩ := hb
      rcases hor with h | h
      · rw [h]; exact (ht.2 m hm).1
      · rw [h]; exact (ht.2 m hm).2
    unfold uuids_recorded
    rw [e1, e2, e3]
    exact ⟨restore_index_forall create_market game.id b t.pending_bets
      (fun p => p.data.uuid ∈ t.uuid_hist) (fun _ _ hp => hp) hbu ht.1, ht.2⟩
  refine ⟨?_, ?_, ?_, ?_⟩
  · intro c s1 h
    exact run_preserves create_market (fun t => ∃ added, t.uuid_hist = s.uuid_hist ++ added)
      (fun t better stake o wincase game bet_uuid kind bet t1 ht hc => by
        obtain ⟨added, ha⟩ := ht
        obtain ⟨_, _, _, _, e, _, _⟩ := create_pending_bet_stores create_market t t1 better
          stake o wincase game bet_uuid kind bet hc
        exact ⟨added ++ [bet_uuid], by rw [e, ha, List.append_assoc]⟩)
      (fun t bet g u t1 ht hc => by
        obtain ⟨_, _, _, e, _, _⟩ := cancel_pending_bet_stores t t1 bet g u hc
        rw [e]
        exact ht)
      (fun t b g u t1 ht hc => by
        obtain ⟨_, _, e, _, _⟩ := return_bet_stores t t1 b g u hc
        rw [e]
        exact ht)
      (fun t b g u t1 ht _ hc => by
        obtain ⟨_, _, _, e, _, _⟩ := restore_pending_bet_stores create_market t t1 b g u hc
        rw [e]
        exact ht)
      (fun t ids ht => ht)
      (fun t games ht => ht)
      c s s1 ⟨[], by simp⟩ h
  · intro b g s1 h
    exact (return_bet_stores s s1 b g () h).2.2.1
  · intro b g s1 h
    obtain ⟨_, _, _, e, _, _⟩ := restore_pending_bet_stores create_market s s1 b g () h
    exact e
  · intro hinv
    refine ⟨?_, fun b g s1 h => hret s s1 b g () hinv h,
      fun b g s1 hb h => hres s s1 b g () hinv hb h⟩
    intro c s1 h
    exact run_preserves create_market uuids_recorded
      (fun t better stake o wincase game bet_uuid kind bet t1 ht hc => by
        obtain ⟨e0, e1, _, e2, e3, _, _⟩ := create_pending_bet_stores create_market t t1
          better stake o wincase game bet_uuid kind bet hc
        unfold uuids_recorded
        rw [e1, e2, e3]
        constructor
        · intro p hp
          rcases List.mem_append.mp hp with hp | hp
          · exact List.mem_append_left _ (ht.1 p hp)
          · rw [List.mem_singleton] at hp
            rw [hp, e0]
            exact List.mem_append_right _ (List.mem_singleton_self _)
        · intro m hm
          exact ⟨List.mem_append_left _ (ht.2 m hm).1, List.mem_append_left _ (ht.2 m hm).2⟩)
      (fun t bet g u t1 ht hc => by
        obtain ⟨e1, _, e2, e3, _, _⟩ := cancel_pending_bet_stores t t1 bet g u hc
        unfold uuids_recorded
        rw [e1, e2, e3]
        exact ⟨fun p hp => ht.1 p (List.mem_of_mem_filter hp), ht.2⟩)
      (fun t b g u t1 ht hc => hret t t1 b g u ht hc)
      (fun t b g u t1 ht hb hc => hres t t1 b g u ht hb hc)
      (fun t ids ht => ⟨ht.1, fun m hm => ht.2 m (List.mem_of_mem_filter hm)⟩)
      (fun t games ht => ht)
      c s s1 hinv h

/-- Witness for C19: a state with one late pair matched, where `cancel_bets(G, 15)` restores
both legs: Alice's coalesces with her pending rest, Bob's becomes a new pending bet with
the uuid 2 of the history. -/
theorem uuid_history_invariant_witness :
    uuids_recorded scenario.S_late
    ∧ ((service_call.cancel_bets_created_after 0 15 : service_call Nat Nat).run
        scenario.create_market scenario.S_late).succeeded = true
    ∧ uuids_recorded ((service_call.cancel_bets_created_after 0 15 : service_call Nat Nat).run
        scenario.create_market scenario.S_late).state
    ∧ ((service_call.cancel_bets_created_after 0 15 : service_call Nat Nat).run
        scenario.create_market scenario.S_late).state.pending_bets.objects.map
          (fun p => p.data.uuid) = [1, 2] := by
  have hinv : uuids_recorded scenario.S_late := by unfold uuids_recorded; decide
  have hrun : (service_call.cancel_bets_created_after 0 15 : service_call Nat Nat).run
      scenario.create_market scenario.S_late
      = .ok () ((service_call.cancel_bets_created_after 0 15 : service_call Nat Nat).run
          scenario.create_market scenario.S_late).state := by decide
  exact ⟨hinv, by decide,
    ((uuid_history_invariant scenario.create_market scenario.S_late).2.2.2 hinv).1 _ _ hrun,
    by decide⟩

/-- C20: if the market of every pending bet is the market of its wincase, this still holds
after every returning public operation and after the helpers `return_bet` and
`restore_pending_bet`.  The bet that `create_pending_bet` returns is in the store on the
market of its wincase; a returning `restore_pending_bet` either changes nothing but
stakes, or appends the leg as one new row on the market of its wincase. -/
theorem market_invariant [LinearOrder W] [LinearOrder M] (create_market : W → M)
    (s : database W M) (hinv : markets_consistent create_market s) :
    (∀ (c : service_call W M) s1, c.run create_market s = .ok () s1 →
        markets_consistent create_market s1)
    ∧ (∀ (b : bet_data W) g s1, return_bet b g s = .ok () s1 →
        markets_consistent create_market s1)
    ∧ (∀ (b : bet_data W) g s1, restore_pending_bet create_market b g s = .ok () s1 →
        markets_consistent create_market s1
        ∧ (List.Forall₂
              (fun o o1 : pending_bet_object W M =>
                o1 = { o with data := { o.data with stake := o1.data.stake } })
              s.pending_bets.objects s1.pending_bets.objects
            ∨ ∃ row, s1.pending_bets.objects = s.pending_bets.objects ++ [row]
                ∧ row.data = b ∧ row.market = create_market b.wincase))
    ∧ (∀ better stake o wincase game bet_uuid kind bet s1,
        create_pending_bet create_market better stake o wincase game bet_uuid kind s
          = .ok bet s1 →
        bet ∈ s1.pending_bets.objects ∧ bet.data.wincase = wincase
          ∧ bet.market = create_market wincase) := by
  have hret : ∀ (t t1 : database W M) (b : bet_data W) g (u : Unit),
      markets_consistent create_market t → return_bet b g t = .ok u t1 →
      markets_consistent create_market t1 := by
    intro t t1 b g u ht hc
    obtain ⟨e1, _, _, _, _⟩ := return_bet_stores t t1 b g u hc
    unfold markets_consistent
    rw [e1]
    exact ht
  have hres : ∀ (t t1 : database W M) (b : bet_data W) g (u : Unit),
      markets_consistent create_market t →
      restore_pending_bet create_market b g t = .ok u t1 →
      markets_consistent create_market t1 := by
    intro t t1 b g u ht hc
    obtain ⟨game, e1, _, _, _, _⟩ := restore_pending_bet_stores create_market t t1 b g u hc
    unfold markets_consistent
    rw [e1]
    exact restore_index_forall create_market game.id b t.pending_bets
      (fun p => p.market = create_market p.data.wincase) (fun _ _ hp => hp) rfl ht
  refine ⟨?_, fun b g s1 h => hret s s1 b g () hinv h, ?_, ?_⟩
  · intro c s1 h
    exact run_preserves create_market (markets_consistent create_market)
      (fun t better stake o wincase game bet_uuid kind bet t1 ht hc => by
        obtain ⟨e0, e1, _, _, _, _, _⟩ := create_pending_bet_stores create_market t t1
          better stake o wincase game bet_uuid kind bet hc
        unfold markets_consistent
        rw [e1]
        intro p hp
        rcases List.mem_append.mp hp with hp | hp
        · exact ht p hp
        · rw [List.mem_singleton] at hp
          rw [hp, e0])
      (fun t bet g u t1 ht hc => by
        obtain ⟨e1, _, _, _, _, _⟩ := cancel_pending_bet_stores t t1 bet g u hc
        unfold markets_consistent
        rw [e1]
        exact fun p hp => ht p (List.mem_of_mem_filter hp))
      (fun t b g u t1 ht hc => hret t t1 b g u ht hc)
      (fun t b g u t1 ht _ hc => hres t t1 b g u ht hc)
      (fun t ids ht => ht)
      (fun t games ht => ht)
      c s s1 hinv h
  · intro b g s1 h
    refine ⟨hres s s1 b g () hinv h, ?_⟩
    obtain ⟨game, e1, _, _, _, _⟩ := restore_pending_bet_stores create_market s s1 b g () h
    rw [e1]
    rcases restore_index_shape create_market game.id b s.pending_bets with hs | hs
    · exact Or.inl hs
    · exact Or.inr ⟨_, hs, rfl, rfl⟩
  · intro better stake o wincase game bet_uuid kind bet s1 h
    obtain ⟨e0, e1, _, _, _, _, _⟩ := create_pending_bet_stores create_market s s1
      better stake o wincase game bet_uuid kind bet h
    refine ⟨?_, ?_, ?_⟩
    · rw [e1]
      exact List.mem_append_right _ (List.mem_singleton_self _)
    · rw [e0]
    · rw [e0]

/-- Witness for C20: a state with one late pair matched, where `cancel_bets(G, 15)` restores
both legs, one into an existing pending bet and one as a new pending bet. -/
theorem market_invariant_witness :
    markets_consistent scenario.create_market scenario.S_late
    ∧ ((service_call.cancel_bets_created_after 0 15 : service_call Nat Nat).run
        scenario.create_market scenario.S_late).succeeded = true
    ∧ markets_consistent scenario.create_market
        ((service_call.cancel_bets_created_after 0 15 : service_call Nat Nat).run
          scenario.create_market scenario.S_late).state
    ∧ ((service_call.cancel_bets_created_after 0 15 : service_call Nat Nat).run
        scenario.create_market scenario.S_late).state.pending_bets.objects.length = 2 := by
  have hinv : markets_consistent scenario.create_market scenario.S_late := by
    unfold markets_consistent; decide
  have hrun : (service_call.cancel_bets_created_after 0 15 : service_call Nat Nat).run
      scenario.create_market scenario.S_late
      = .ok () ((service_call.cancel_bets_created_after 0 15 : service_call Nat Nat).run
          scenario.create_market scenario.S_late).state := by decide
  exact ⟨hinv, by decide,
    (market_invariant scenario.create_market scenario.S_late hinv).1 _ _ hrun,
    by decide⟩

end claims_invariants

/-! ## The volume invariant -/

section claims_volume

variable {W M : Type}

open betting_service

/-- C17: in a state whose stores have distinct ids, where the sum of the stakes of all
pending bets is `pending_bets_volume` and the sum of the stakes of both legs of all
matched bets is `matched_bets_volume`, the same two equalities hold after every returning
public operation of the service called on objects of the store: `create_pending_bet`,
`cancel_pending_bet`, every `cancel_pending_bets`, `cancel_matched_bet`, both
`cancel_matched_bets`, the three `cancel_bets` and `cancel_game`; the ids stay distinct. -/
theorem volume_invariant [LinearOrder W] [LinearOrder M] (create_market : W → M)
    (s s1 : database W M) (c : service_call W M)
    (hr : rows_wf s) (hv : volumes_consistent s) (hadm : c.admissible s)
    (h : c.run create_market s = .ok () s1) :
    volumes_consistent s1 ∧ rows_wf s1 := by
  have hpobjs := nodup_of_ids (fun p : pending_bet_object W M => p.id) _ hr.1.1
  have hprange : ∀ (t : database W M) game_id, rows_wf t →
      (pending_bet_dba.get_range_by_game_id_market game_id t).Nodup := by
    intro t game_id ht
    unfold pending_bet_dba.get_range_by_game_id_market
    rw [(List.perm_insertionSort _ _).nodup_iff]
    exact (nodup_of_ids (fun p : pending_bet_object W M => p.id) _ ht.1.1).filter _
  have hmrange : ∀ (t : database W M) game_id, rows_wf t →
      (matched_bet_dba.get_range_by_game_id_market game_id t).Nodup := by
    intro t game_id ht
    unfold matched_bet_dba.get_range_by_game_id_market
    rw [(List.perm_insertionSort _ _).nodup_iff]
    exact (nodup_of_ids (fun m : matched_bet_object W M => m.id) _ ht.2).filter _
  cases c with
  | create_pending_bet better stake o wincase game bet_uuid kind =>
    obtain ⟨bet, hc⟩ := run_create_inv create_market s s1 better stake o wincase game
      bet_uuid kind () h
    obtain ⟨e0, e1, e2, e3, _, e5, e6⟩ := create_pending_bet_stores create_market s s1 better
      stake o wincase game bet_uuid kind bet hc
    have hid : bet.id = s.pending_bets.next_id := by rw [e0]
    have hst : bet.data.stake = stake := by rw [e0]
    refine ⟨⟨?_, ?_⟩, ⟨?_, ?_⟩, ?_⟩
    · unfold pending_stake_total
      rw [stake_sum_data, e1, e5, List.map_append, List.sum_append, ← stake_sum_data]
      have := hv.1
      unfold pending_stake_total at this
      rw [this]
      simp [hst, asset.plus]
    · unfold matched_stake_total
      rw [e3, e6]
      exact hv.2
    · rw [e1, List.map_append, List.nodup_append]
      refine ⟨hr.1.1, List.nodup_singleton _, ?_⟩
      intro a ha hb
      simp only [List.map_cons, List.map_nil, List.mem_singleton] at hb
      obtain ⟨p, hp, rfl⟩ := List.mem_map.mp ha
      rw [hid] at hb
      exact absurd hb (Nat.ne_of_lt (hr.1.2 p hp))
    · intro p hp
      rw [e2]
      rw [e1] at hp
      rcases List.mem_append.mp hp with hp | hp
      · exact Nat.lt_succ_of_lt (hr.1.2 p hp)
      · rw [List.mem_singleton] at hp
        rw [hp, hid]
        exact Nat.lt_succ_self _
    · rw [e3]
      exact hr.2
  | cancel_pending_bet bet g =>
    exact (volumes_cancel_pending_bet s s1 bet g () hr hv hadm h).symm
  | cancel_pending_bet_by_id id =>
    obtain ⟨bet, game, hb, hc⟩ := cancel_pending_bet_by_id_inv s s1 id () h
    exact (volumes_cancel_pending_bet s s1 bet game.uuid () hr hv hb hc).symm
  | cancel_pending_bets game_id =>
    obtain ⟨game, _, hc⟩ := cancel_pending_bets_inv s s1 game_id () h
    obtain ⟨r, v, _⟩ := volumes_cancel_pending_bets_range _ _ s s1 () hr hv
      (hprange s game_id hr) (fun p hp => ((mem_pending_range_market s game_id p).mp hp).1) hc
    exact ⟨v, r⟩
  | cancel_pending_bets_kind game_id kind =>
    obtain ⟨game, _, hc⟩ := cancel_pending_bets_kind_inv s s1 game_id kind () h
    obtain ⟨r, v, _⟩ := volumes_cancel_pending_bets_range _ _ s s1 () hr hv
      (hpobjs.filter _) (fun p hp => List.mem_of_mem_filter hp) hc
    exact ⟨v, r⟩
  | cancel_pending_bets_range bets g =>
    obtain ⟨r, v, _⟩ := volumes_cancel_pending_bets_range bets g s s1 () hr hv hadm.1 hadm.2 h
    exact ⟨v, r⟩
  | cancel_matched_bet bet g =>
    obtain ⟨r, v, _⟩ := volumes_cancel_matched_bet s s1 bet g () hr hv hadm h
    exact ⟨v, r⟩
  | cancel_matched_bets game_id =>
    obtain ⟨game, _, hc⟩ := cancel_matched_bets_inv s s1 game_id () h
    exact (volumes_cancel_matched_bets_range _ _ s s1 () hr hv (hmrange s game_id hr)
      (fun m hm => ((mem_matched_range_market s game_id m).mp hm).1) hc).symm
  | cancel_matched_bets_range bets g =>
    exact (volumes_cancel_matched_bets_range bets g s s1 () hr hv hadm.1 hadm.2 h).symm
  | cancel_bets game_id =>
    obtain ⟨t, h1, h2⟩ := cancel_bets_inv s s1 game_id () h
    obtain ⟨game, _, hc⟩ := cancel_pending_bets_inv s t game_id () h1
    obtain ⟨game2, _, hc2⟩ := cancel_matched_bets_inv t s1 game_id () h2
    obtain ⟨r, v, _⟩ := volumes_cancel_pending_bets_range _ _ s t () hr hv
      (hprange s game_id hr) (fun p hp => ((mem_pending_range_market s game_id p).mp hp).1) hc
    exact (volumes_cancel_matched_bets_range _ _ t s1 () r v (hmrange t game_id r)
      (fun m hm => ((mem_matched_range_market t game_id m).mp hm).1) hc2).symm
  | cancel_bets_created_after game_id created_after =>
    exact (volumes_cancel_bets_created_after create_market s s1 game_id created_after () hr hv
      h).symm
  | cancel_bets_markets game_id markets =>
    obtain ⟨game, t, _, h1, h2⟩ := cancel_bets_markets_inv s s1 game_id markets () h
    obtain ⟨r, v, _⟩ := volumes_cancel_pending_bets_range _ _ s t () hr hv
      ((hprange s game_id hr).sublist (set_intersection_sublist _ _ _))
      (fun p hp => ((mem_pending_range_market s game_id p).mp
        ((set_intersection_sublist _ _ _).subset hp)).1) h1
    exact (volumes_cancel_matched_bets_range _ _ t s1 () r v
      ((hmrange t game_id r).sublist (set_intersection_sublist _ _ _))
      (fun m hm => ((mem_matched_range_market t game_id m).mp
        ((set_intersection_sublist _ _ _).subset hm)).1) h2).symm
  | cancel_game game_id =>
    obtain ⟨games, e⟩ := cancel_game_inv s s1 game_id () h
    rw [e]
    exact ⟨hv, hr⟩
  | is_betting_moderator name =>
    rw [run_moderator_inv create_market s s1 name () h]
    exact ⟨hv, hr⟩

/-- Witness for C17: a state with one late pair matched and a pending rest, where
`cancel_bets(G, 15)` restores both legs: the pending stakes and the pending counter go from
100 to 500, the matched stakes and the matched counter from 400 to 0. -/
theorem volume_invariant_witness :
    rows_wf scenario.S_late
    ∧ volumes_consistent scenario.S_late
    ∧ ((service_call.cancel_bets_created_after 0 15 : service_call Nat Nat).run
        scenario.create_market scenario.S_late).succeeded = true
    ∧ volumes_consistent
        ((service_call.cancel_bets_created_after 0 15 : service_call Nat Nat).run
          scenario.create_market scenario.S_late).state
    ∧ pending_stake_total
        ((service_call.cancel_bets_created_after 0 15 : service_call Nat Nat).run
          scenario.create_market scenario.S_late).state = 500
    ∧ matched_stake_total
        ((service_call.cancel_bets_created_after 0 15 : service_call Nat Nat).run
          scenario.create_market scenario.S_late).state = 0 := by
  have hr : rows_wf scenario.S_late := by unfold rows_wf index_wf; decide
  have hv : volumes_consistent scenario.S_late := by unfold volumes_consistent; decide
  have hrun : (service_call.cancel_bets_created_after 0 15 : service_call Nat Nat).run
      scenario.create_market scenario.S_late
      = .ok () ((service_call.cancel_bets_created_after 0 15 : service_call Nat Nat).run
          scenario.create_market scenario.S_late).state := by decide
  exact ⟨hr, hv, by decide,
    (volume_invariant scenario.create_market scenario.S_late _
      (service_call.cancel_bets_created_after 0 15) hr hv trivial hrun).1,
    by decide, by decide⟩

end claims_volume

/-! ## Bulk cancellation of pending bets, event order, `cancel_game`, the moderator -/

section claims_bulk

variable {W M : Type}

open betting_service

/-- C23: in a well-formed state with the game in the store, `cancel_pending_bets(game_id)`
returns; it is the loop of `cancel_pending_bet` over a range that holds exactly the pending
bets of the game, the pending bets of other games stay as they are and
`pending_bets_volume` drops by the sum of the cancelled stakes.  The same holds for
`cancel_pending_bets(game_id, kind)` with the pending bets of the game whose kind is
`kind`: bets of the other kind and of other games stay.  Neither call touches the matched
store. -/
theorem cancel_pending_bets_effects [LinearOrder M] (s : database W M)
    (game_id : game_id_type) (kind : pending_bet_kind) (game : game_object)
    (sym : asset_symbol_type) (hwf : s.well_formed sym)
    (hgame : s.games.find? (fun g => decide (g.id = game_id)) = some game) :
    (∃ s1, cancel_pending_bets game_id s = .ok () s1
      ∧ cancel_pending_bets game_id s
          = foreach_mut (fun bet => cancel_pending_bet bet game.uuid)
              (pending_bet_dba.get_range_by_game_id_market game_id s) s
      ∧ (∀ p, p ∈ pending_bet_dba.get_range_by_game_id_market game_id s
          ↔ p ∈ s.pending_bets.objects ∧ p.game = game_id)
      ∧ s1.pending_bets.objects
          = s.pending_bets.objects.filter (fun o => decide (o.game ≠ game_id))
      ∧ s1.dprop.betting_stats.pending_bets_volume
          = s.dprop.betting_stats.pending_bets_volume.plus
              (-(stake_sum ((pending_of_game game_id s).map (fun p => p.data))))
      ∧ (∀ a, s1.balance a = (s.balance a).map (fun b => b.plus
          (stake_sum_of a ((pending_of_game game_id s).map (fun p => p.data)))))
      ∧ s1.matched_bets = s.matched_bets)
    ∧ (∃ s1, cancel_pending_bets_kind game_id kind s = .ok () s1
      ∧ cancel_pending_bets_kind game_id kind s
          = foreach_mut (fun bet => cancel_pending_bet bet game.uuid)
              (pending_bet_dba.get_range_by_game_id_kind game_id kind s) s
      ∧ (∀ p, p ∈ pending_bet_dba.get_range_by_game_id_kind game_id kind s
          ↔ p ∈ s.pending_bets.objects ∧ p.game = game_id ∧ p.data.kind = kind)
      ∧ s1.pending_bets.objects
          = s.pending_bets.objects.filter
              (fun o => decide (¬ (o.game = game_id ∧ o.data.kind = kind)))
      ∧ s1.dprop.betting_stats.pending_bets_volume
          = s.dprop.betting_stats.pending_bets_volume.plus
              (-(stake_sum ((pending_bet_dba.get_range_by_game_id_kind game_id kind s).map
                  (fun p => p.data))))
      ∧ (∀ a, s1.balance a = (s.balance a).map (fun b => b.plus
          (stake_sum_of a ((pending_bet_dba.get_range_by_game_id_kind game_id kind s).map
            (fun p => p.data)))))
      ∧ s1.matched_bets = s.matched_bets) := by
  constructor
  · obtain ⟨h1, h2, h3, h4, h5, _⟩ := cancel_pending_selection_ok s game_id game hwf hgame
      (pending_bet_dba.get_range_by_game_id_market game_id s)
      (fun o => decide (o.game = game_id)) (pending_range_market_perm s game_id)
    have hcall : cancel_pending_bets game_id s
        = foreach_mut (fun bet => cancel_pending_bet bet game.uuid)
            (pending_bet_dba.get_range_by_game_id_market game_id s) s := by
      unfold cancel_pending_bets
      simp only [Op.bind_apply, Op.get, game_dba.get_by_id, hgame]
      rfl
    refine ⟨_, hcall.trans h1, hcall, mem_pending_range_market s game_id, ?_, h3, h5, h4⟩
    rw [h2]
    apply List.filter_congr
    intro o _
    simp
  · obtain ⟨h1, h2, h3, h4, h5, _⟩ := cancel_pending_selection_ok s game_id game hwf hgame
      (pending_bet_dba.get_range_by_game_id_kind game_id kind s)
      (fun o => decide (o.game = game_id) && decide (o.data.kind = kind)) (List.Perm.refl _)
    have hcall : cancel_pending_bets_kind game_id kind s
        = foreach_mut (fun bet => cancel_pending_bet bet game.uuid)
            (pending_bet_dba.get_range_by_game_id_kind game_id kind s) s := by
      unfold cancel_pending_bets_kind
      simp only [Op.bind_apply, Op.get, game_dba.get_by_id, hgame]
      rfl
    refine ⟨_, hcall.trans h1, hcall, ?_, ?_, h3, h5, h4⟩
    · intro p
      unfold pending_bet_dba.get_range_by_game_id_kind
      simp [List.mem_filter]
    · rw [h2]
      apply List.filter_congr
      intro o _
      simp

/-- Witness for C23: scenario S4, where Alice and Bob each hold a live pending bet of 100
on game `G`; `cancel_pending_bets(G)` empties the pending store and the counter. -/
theorem cancel_pending_bets_effects_witness :
    scenario.S4_pending.well_formed scenario.SCR
    ∧ ∃ s1, cancel_pending_bets 0 scenario.S4_pending = .ok () s1
        ∧ s1.pending_bets.objects = []
        ∧ s1.dprop.betting_stats.pending_bets_volume = scenario.scr 0 := by
  have hwf : scenario.S4_pending.well_formed scenario.SCR :=
    { balances := by decide
      pending_volume := by decide
      matched_volume := by decide
      pending_bets := by decide
      matched_bets := by decide
      pending_ids := by decide
      pending_ids_lt := by decide
      matched_ids := by decide
      game_uuids := by decide }
  refine ⟨hwf, ?_⟩
  obtain ⟨⟨s1, h, _, _, hp, hv, _, _⟩, _⟩ :=
    cancel_pending_bets_effects scenario.S4_pending 0 .live
      { id := 0, uuid := scenario.G_uuid } scenario.SCR hwf (by decide)
  exact ⟨s1, h, by rw [hp]; decide, by rw [hv]; decide⟩

/-- C27: in a well-formed state with the game in the store, `cancel_bets(game_id)` returns
and appends to the event trail, in this order: one `BetCancelled{pending}` per pending bet
of the game in the order of the `(game, market)` range, then for each matched bet of the
game in range order `BetCancelled{matched}` for `bet1_data` followed by
`BetCancelled{matched}` for `bet2_data`; each event carries the uuid of the game and the
better, uuid and stake of the bet.  These are P + 2M events for P pending and M matched
bets of the game. -/
theorem cancel_bets_event_order [LinearOrder M] (s : database W M) (game_id : game_id_type)
    (game : game_object) (sym : asset_symbol_type) (hwf : s.well_formed sym)
    (hgame : s.games.find? (fun g => decide (g.id = game_id)) = some game) :
    ∃ s1, cancel_bets game_id s = .ok () s1
      ∧ s1.virt_ops = s.virt_ops
          ++ (pending_bet_dba.get_range_by_game_id_market game_id s).map
              (fun p => virtual_operation.bet_cancelled_operation game.uuid p.data.better
                p.data.uuid p.data.stake .pending)
          ++ (matched_bet_dba.get_range_by_game_id_market game_id s).flatMap
              (fun m =>
                [virtual_operation.bet_cancelled_operation game.uuid m.bet1_data.better
                    m.bet1_data.uuid m.bet1_data.stake .matched,
                  virtual_operation.bet_cancelled_operation game.uuid m.bet2_data.better
                    m.bet2_data.uuid m.bet2_data.stake .matched])
      ∧ s1.virt_ops.length
          = s.virt_ops.length + (pending_of_game game_id s).length
            + 2 * (matched_of_game game_id s).length := by
  obtain ⟨_, f2, _, _, _, _, _, _, _, _, _⟩ := cancel_all_fields game.uuid
    (pending_bet_dba.get_range_by_game_id_market game_id s)
    (matched_bet_dba.get_range_by_game_id_market game_id s) s
  refine ⟨_, cancel_bets_ok s game_id game hwf hgame, ?_, ?_⟩
  · rw [f2]
    congr 1
    unfold legs_of
    rw [List.map_flatMap]
    rfl
  · rw [f2]
    simp only [List.length_append, List.length_map, length_legs_of,
      (pending_range_market_perm s game_id).length_eq,
      (matched_range_market_perm s game_id).length_eq]

/-- Witness for C27: a state where game `G` holds one pending bet of Alice and one matched
pair of Alice and Bob; `cancel_bets(G)` emits the pending event and then the two matched
events, bet1 before bet2. -/
theorem cancel_bets_event_order_witness :
    scenario.S_late.well_formed scenario.SCR
    ∧ ∃ s1, cancel_bets 0 scenario.S_late = .ok () s1
        ∧ s1.virt_ops
            = [.bet_cancelled_operation scenario.G_uuid "alice" 1 (scenario.scr 100) .pending,
               .bet_cancelled_operation scenario.G_uuid "alice" 1 (scenario.scr 200) .matched,
               .bet_cancelled_operation scenario.G_uuid "bob" 2 (scenario.scr 200) .matched] := by
  refine ⟨S_late_well_formed, ?_⟩
  obtain ⟨s1, h, hv, _⟩ := cancel_bets_event_order scenario.S_late 0
    { id := 0, uuid := scenario.G_uuid } scenario.SCR S_late_well_formed (by decide)
  exact ⟨s1, h, by rw [hv]; decide⟩

/-- C28: when the game is in the store and neither store holds a bet of it,
`cancel_game(game_id)` returns in the state that differs from the state before only in the
game store, which lost the records with the id of the game: every other game is still
there, and bets, balances, volume counters, UUID history and event trail are as before. -/
theorem cancel_game_frame [LinearOrder M] (s : database W M) (game_id : game_id_type)
    (game : game_object)
    (hgame : s.games.find? (fun g => decide (g.id = game_id)) = some game)
    (hp : pending_of_game game_id s = []) (hm : matched_of_game game_id s = []) :
    ∃ s1, cancel_game game_id s = .ok () s1
      ∧ s1 = { s with games := s.games.filter (fun g => decide (g.id ≠ game_id)) }
      ∧ game ∉ s1.games
      ∧ (∀ g, g ∈ s1.games ↔ g ∈ s.games ∧ g.id ≠ game_id)
      ∧ s1.pending_bets = s.pending_bets ∧ s1.matched_bets = s.matched_bets
      ∧ s1.accounts = s.accounts ∧ s1.dprop = s.dprop
      ∧ s1.uuid_hist = s.uuid_hist ∧ s1.virt_ops = s.virt_ops
      ∧ s1.betting_property = s.betting_property
      ∧ pending_of_game game_id s1 = [] ∧ matched_of_game game_id s1 = [] := by
  have hid : game.id = game_id := by simpa using List.find?_some hgame
  refine ⟨_, cancel_game_ok s game_id game hm hgame, rfl, ?_, ?_, rfl, rfl, rfl, rfl, rfl, rfl,
    rfl, hp, hm⟩
  · intro hmem
    have := (List.mem_filter.mp hmem).2
    simp [hid] at this
  · intro g
    simp [List.mem_filter]

/-- Witness for C28: scenario S1 before any bet is posted; `cancel_game(G)` leaves an
empty game store and everything else as it was. -/
theorem cancel_game_frame_witness :
    ∃ s1, cancel_game 0 scenario.S1_initial = .ok () s1
      ∧ s1 = { scenario.S1_initial with games := [] } := by
  obtain ⟨s1, h, e, _⟩ := cancel_game_frame scenario.S1_initial 0
    { id := 0, uuid := scenario.G_uuid } (by decide) (by decide) (by decide)
  exact ⟨s1, h, by rw [e]; decide⟩

/-- C29: `is_betting_moderator(a)` returns in the state it was called in, with the value
true exactly when `a` is the moderator of the betting property. -/
theorem is_betting_moderator_spec (s : database W M) (a : account_name_type) :
    ∃ r, is_betting_moderator a s = .ok r s
      ∧ (r = true ↔ a = s.betting_property.moderator) := by
  refine ⟨decide (s.betting_property.moderator = a), rfl, ?_⟩
  simp [eq_comm]

/-- C30: whenever `cancel_bets(game_id)` returns, the two ranges that `cancel_game`
inspects are empty in the state it returns, and so is the pending range of the game; the
call `cancel_game(game_id)` made next returns.  In a well-formed state with the game in
the store `cancel_bets(game_id)` does return. -/
theorem cancel_game_after_cancel_bets [LinearOrder M] (s : database W M)
    (game_id : game_id_type) :
    (∀ s1, cancel_bets game_id s = .ok () s1 →
        matched_bet_dba.get_range_by_game_id_market game_id s1 = []
        ∧ pending_bet_dba.get_range_by_game_id_market game_id s1 = []
        ∧ ∃ s2, cancel_game game_id s1 = .ok () s2)
    ∧ (∀ sym game, s.well_formed sym →
        s.games.find? (fun g => decide (g.id = game_id)) = some game →
        ∃ s1 s2, cancel_bets game_id s = .ok () s1 ∧ cancel_game game_id s1 = .ok () s2) := by
  have hfirst : ∀ s1, cancel_bets game_id s = .ok () s1 →
      matched_bet_dba.get_range_by_game_id_market game_id s1 = []
      ∧ pending_bet_dba.get_range_by_game_id_market game_id s1 = []
      ∧ ∃ s2, cancel_game game_id s1 = .ok () s2 := by
    intro s1 h
    obtain ⟨hp, hm, hg, game, hgame⟩ := cancel_bets_clears s s1 game_id () h
    have hgame1 : s1.games.find? (fun g => decide (g.id = game_id)) = some game := by
      rw [hg]; exact hgame
    refine ⟨?_, ?_, _, cancel_game_ok s1 game_id game hm hgame1⟩
    · unfold matched_bet_dba.get_range_by_game_id_market
      unfold matched_of_game at hm
      rw [hm]
      rfl
    · unfold pending_bet_dba.get_range_by_game_id_market
      unfold pending_of_game at hp
      rw [hp]
      rfl
  refine ⟨hfirst, ?_⟩
  intro sym game hwf hgame
  have h := cancel_bets_ok s game_id game hwf hgame
  obtain ⟨_, _, s2, h2⟩ := hfirst _ h
  exact ⟨_, s2, h, h2⟩

/-- Witness for C30: a state where game `G` holds a pending bet and a matched pair;
`cancel_bets(G)` and then `cancel_game(G)` both return. -/
theorem cancel_game_after_cancel_bets_witness :
    scenario.S_late.well_formed scenario.SCR
    ∧ scenario.S_late.pending_bets.objects ≠ []
    ∧ scenario.S_late.matched_bets.objects ≠ []
    ∧ ∃ s1 s2, cancel_bets 0 scenario.S_late = .ok () s1 ∧ cancel_game 0 s1 = .ok () s2 :=
  ⟨S_late_well_formed, by decide, by decide,
    (cancel_game_after_cancel_bets scenario.S_late 0).2 scenario.SCR
      { id := 0, uuid := scenario.G_uuid } S_late_well_formed (by decide)⟩

end claims_bulk

/-! ## Claims about the `validate` methods and `is_unique` -/

section claims_validate

variable {W : Type}

open protocol

/-- C24: with the two odds bounds of the configuration having non-zero denominators,
`post_bet_operation::validate` returns normally exactly when the better is a valid account
name, the wincase is valid, the stake is in SCR and at least `SCORUM_MIN_BET_STAKE`,
`numerator > denominator > 0`, and the exact fraction lies between the minimum odds and the
inverted minimum odds.  It rejects the empty better when the empty name is invalid, the
odds 1/10, a zero stake when the minimum stake is positive, and a stake in SP; it accepts
better "alice" with odds 3/1 and a stake of 1e9 SCR when the name and the wincase are
valid, the minimum stake is an SCR amount of at most 1e9 and 3/1 lies within the bounds. -/
theorem post_bet_operation_validate_spec (cfg : config W) (op : post_bet_operation W)
    (hmin : cfg.min_odds_base.denominator ≠ 0)
    (hmax : cfg.min_odds_inverted.denominator ≠ 0) :
    (op.validate cfg = .ok () ↔
      cfg.is_valid_account_name op.better = true
      ∧ cfg.is_valid_wincase op.wincase = true
      ∧ op.stake.symbol = cfg.SCORUM_SYMBOL
      ∧ op.stake.ge cfg.SCORUM_MIN_BET_STAKE = .ok true
      ∧ op.odds.numerator > op.odds.denominator ∧ op.odds.denominator > 0
      ∧ (cfg.min_odds_base.numerator : ℚ) / (cfg.min_odds_base.denominator : ℚ)
          ≤ (op.odds.numerator : ℚ) / (op.odds.denominator : ℚ)
      ∧ (op.odds.numerator : ℚ) / (op.odds.denominator : ℚ)
          ≤ (cfg.min_odds_inverted.numerator : ℚ)
            / (cfg.min_odds_inverted.denominator : ℚ))
    ∧ (cfg.is_valid_account_name "" = false →
        post_bet_operation.validate cfg { op with better := "" }
          = .error .invalid_account_name)
    ∧ post_bet_operation.validate cfg
          { op with odds := { numerator := 1, denominator := 10 } } ≠ .ok ()
    ∧ (0 < cfg.SCORUM_MIN_BET_STAKE.amount →
        post_bet_operation.validate cfg
          { op with stake := { amount := 0, symbol := op.stake.symbol } } ≠ .ok ())
    ∧ (cfg.SP_SYMBOL ≠ cfg.SCORUM_SYMBOL →
        post_bet_operation.validate cfg
          { op with stake := { amount := op.stake.amount, symbol := cfg.SP_SYMBOL } } ≠ .ok ())
    ∧ (cfg.is_valid_account_name "alice" = true → cfg.is_valid_wincase op.wincase = true →
        cfg.SCORUM_MIN_BET_STAKE.symbol = cfg.SCORUM_SYMBOL →
        cfg.SCORUM_MIN_BET_STAKE.amount ≤ 1000000000 →
        (cfg.min_odds_base.numerator : ℚ) / (cfg.min_odds_base.denominator : ℚ) ≤ 3 →
        (3 : ℚ) ≤ (cfg.min_odds_inverted.numerator : ℚ)
            / (cfg.min_odds_inverted.denominator : ℚ) →
        post_bet_operation.validate cfg
          { op with
            better := "alice"
            odds := { numerator := 3, denominator := 1 }
            stake := { amount := 1000000000, symbol := cfg.SCORUM_SYMBOL } } = .ok ()) := by
  have hiff : ∀ o : post_bet_operation W, o.validate cfg = .ok () ↔
      cfg.is_valid_account_name o.better = true
      ∧ cfg.is_valid_wincase o.wincase = true
      ∧ o.stake.symbol = cfg.SCORUM_SYMBOL
      ∧ o.stake.ge cfg.SCORUM_MIN_BET_STAKE = .ok true
      ∧ o.odds.numerator > o.odds.denominator ∧ o.odds.denominator > 0
      ∧ (cfg.min_odds_base.numerator : ℚ) / (cfg.min_odds_base.denominator : ℚ)
          ≤ (o.odds.numerator : ℚ) / (o.odds.denominator : ℚ)
      ∧ (o.odds.numerator : ℚ) / (o.odds.denominator : ℚ)
          ≤ (cfg.min_odds_inverted.numerator : ℚ)
            / (cfg.min_odds_inverted.denominator : ℚ) := by
    intro o
    simp only [post_bet_operation.validate, validate_account_name, validate_wincase,
      FC_ASSERT_bind_ok, asset_ge_bind_ok, rational_bind_ok, FC_ASSERT_ok, is_asset_type,
      decide_eq_true_eq]
    constructor
    · rintro ⟨h1, h2, h3, v, h4, hv, _, h6, h7, _, _, _, h8, h9⟩
      subst hv
      exact ⟨h1, h2, h3, h4, h7, h6, h9, h8⟩
    · rintro ⟨h1, h2, h3, h4, h5, h6, h7, h8⟩
      exact ⟨h1, h2, h3, true, h4, rfl, lt_trans h6 h5, h6, h5, ne_of_gt h6, hmin, hmax,
        h8, h7⟩
  refine ⟨hiff op, ?_, ?_, ?_, ?_, ?_⟩
  · intro hempty
    simp [post_bet_operation.validate, validate_account_name, protocol.FC_ASSERT, hempty,
      bind, Except.bind]
  · intro h
    have := ((hiff _).mp h).2.2.2.2.1
    simp at this
  · intro hpos h
    have hge := ((hiff _).mp h).2.2.2.1
    have := (ge_true_iff _ _).mp hge
    exact absurd this.2 (not_le.mpr hpos)
  · intro hsp h
    have := ((hiff _).mp h).2.2.1
    exact hsp this
  · intro hname hwin hsym hamt hlo hhi
    refine (hiff _).mpr ⟨hname, hwin, rfl, ?_, ?_, ?_, ?_, ?_⟩
    · exact (ge_true_iff _ _).mpr ⟨hsym.symm, hamt⟩
    · show (3 : Int) > 1
      decide
    · show (1 : Int) > 0
      decide
    · show _ ≤ ((3 : Int) : ℚ) / ((1 : Int) : ℚ)
      norm_num
      exact hlo
    · show ((3 : Int) : ℚ) / ((1 : Int) : ℚ) ≤ _
      norm_num
      exact hhi

/-- Witness for C24: the operation of the evaluator test under the scenario configuration. -/
theorem post_bet_operation_validate_spec_witness :
    scenario.test_op.validate scenario.cfg = .ok ()
    ∧ post_bet_operation.validate scenario.cfg { scenario.test_op with better := "" }
        = .error .invalid_account_name
    ∧ post_bet_operation.validate scenario.cfg
        { scenario.test_op with odds := { numerator := 1, denominator := 10 } } ≠ .ok ()
    ∧ post_bet_operation.validate scenario.cfg
        { scenario.test_op with stake := { amount := 0, symbol := scenario.SCR } } ≠ .ok ()
    ∧ post_bet_operation.validate scenario.cfg
        { scenario.test_op with stake := { amount := 1000000000, symbol := scenario.SP } }
        ≠ .ok () := by
  obtain ⟨_, h1, h2, h3, h4, h5⟩ := post_bet_operation_validate_spec scenario.cfg
    scenario.test_op (by decide) (by decide)
  refine ⟨?_, h1 (by decide), h2, h3 (by decide), h4 (by decide)⟩
  exact h5 (by decide) (by decide) (by decide) (by decide)
    (by simp only [scenario.cfg]; norm_num) (by simp only [scenario.cfg]; norm_num)

/-- C25: the default-constructed operation of the test
`cancel_pending_bets_operation_validate_check`, with an empty list of uuids, which holds no
duplicate, and the valid better "better", is rejected by the first assertion of
`cancel_pending_bets_operation::validate`, where the test expects no throw. -/
theorem cancel_pending_bets_validate_empty_list :
    scenario.cfg.is_valid_account_name "better" = true
    ∧ ([] : List uuid_type).Nodup
    ∧ cancel_pending_bets_operation.validate scenario.cfg { bet_uuids := [], better := "better" }
        = .error .list_of_bets_is_empty :=
  ⟨by decide, List.nodup_nil, by decide⟩

/-- What `cancel_pending_bets_operation::validate` does: it returns normally exactly when
the list of uuids is not empty, holds no duplicate, and the better is a valid account
name; it fails on the empty list, and it fails when the better is not valid, as the empty
name is. -/
theorem cancel_pending_bets_validate_spec (cfg : config W)
    (op : cancel_pending_bets_operation) :
    (op.validate cfg = .ok () ↔
      op.bet_uuids ≠ [] ∧ op.bet_uuids.Nodup ∧ cfg.is_valid_account_name op.better = true)
    ∧ (op.bet_uuids = [] → op.validate cfg = .error .list_of_bets_is_empty)
    ∧ (cfg.is_valid_account_name op.better = false → op.validate cfg ≠ .ok ())
    ∧ (cfg.is_valid_account_name "" = false →
        cancel_pending_bets_operation.validate cfg { op with better := "" } ≠ .ok ()) := by
  have hiff : ∀ o : cancel_pending_bets_operation, o.validate cfg = .ok () ↔
      o.bet_uuids ≠ [] ∧ o.bet_uuids.Nodup ∧ cfg.is_valid_account_name o.better = true := by
    intro o
    simp only [cancel_pending_bets_operation.validate, validate_account_name,
      FC_ASSERT_bind_ok, FC_ASSERT_ok, decide_eq_true_eq, is_unique_iff_nodup,
      List.length_pos]
  refine ⟨hiff op, ?_, ?_, ?_⟩
  · intro hnil
    simp [cancel_pending_bets_operation.validate, hnil, protocol.FC_ASSERT, bind, Except.bind]
  · intro hbad h
    rw [((hiff op).mp h).2.2] at hbad
    cases hbad
  · intro hbad h
    have := ((hiff _).mp h).2.2
    rw [hbad] at this
    cases this

/-- Two distinct uuids and the better "better" pass `validate`; the empty name does
not. -/
theorem cancel_pending_bets_validate_spec_witness :
    cancel_pending_bets_operation.validate scenario.cfg
        { bet_uuids := [5, 7], better := "better" } = .ok ()
    ∧ cancel_pending_bets_operation.validate scenario.cfg
        { bet_uuids := [5, 7], better := "" } ≠ .ok () := by
  obtain ⟨h1, _, _, h4⟩ := cancel_pending_bets_validate_spec scenario.cfg
    { bet_uuids := [5, 7], better := "better" }
  exact ⟨h1.mpr ⟨by decide, by decide, by decide⟩, h4 (by decide)⟩

/-- C26: `is_unique` returns true exactly when no value occurs more than once in the list,
that is when the list has no repetition; its value does not depend on the order of the
elements; and `cancel_pending_bets_operation::validate` fails with the duplicates
assertion for every operation whose list of uuids has a repetition. -/
theorem is_unique_spec {α : Type} [LinearOrder α] (input : List α) :
    (is_unique input = true ↔ input.Nodup)
    ∧ (is_unique input = true ↔ ∀ x, input.count x ≤ 1)
    ∧ (∀ l2, input.Perm l2 → is_unique l2 = is_unique input)
    ∧ (∀ (cfg : config W) (op : cancel_pending_bets_operation), ¬ op.bet_uuids.Nodup →
        op.validate cfg = .error .duplicates_in_bets_list) := by
  refine ⟨is_unique_iff_nodup input, ?_, ?_, ?_⟩
  · rw [is_unique_iff_nodup, List.nodup_iff_count_le_one]
  · intro l2 hperm
    have h1 := is_unique_iff_nodup input
    have h2 := is_unique_iff_nodup l2
    rw [← hperm.nodup_iff] at h2
    cases hu : is_unique input with
    | true =>
      exact h2.mpr (h1.mp hu)
    | false =>
      cases hu2 : is_unique l2 with
      | false => rfl
      | true =>
        rw [h1.mpr (h2.mp hu2)] at hu
        cases hu
  · intro cfg op hdup
    have hne : op.bet_uuids ≠ [] := by
      intro hnil
      rw [hnil] at hdup
      exact hdup List.nodup_nil
    have hlen : decide (op.bet_uuids.length > 0) = true :=
      decide_eq_true (List.length_pos.mpr hne)
    have hfalse : is_unique op.bet_uuids = false := by
      cases hu : is_unique op.bet_uuids with
      | false => rfl
      | true => exact absurd ((is_unique_iff_nodup _).mp hu) hdup
    simp [cancel_pending_bets_operation.validate, hlen, hfalse, protocol.FC_ASSERT, bind,
      Except.bind]

/-- Witness for C26: the list 3, 1, 3 is not unique, in any order, and an operation
carrying it is rejected. -/
theorem is_unique_spec_witness :
    is_unique ([3, 1, 3] : List uuid_type) = false
    ∧ is_unique ([3, 3, 1] : List uuid_type) = is_unique ([3, 1, 3] : List uuid_type)
    ∧ cancel_pending_bets_operation.validate scenario.cfg
        { bet_uuids := [3, 1, 3], better := "better" } = .error .duplicates_in_bets_list := by
  obtain ⟨_, _, h3, h4⟩ := is_unique_spec (W := Nat) ([3, 1, 3] : List uuid_type)
  exact ⟨by decide, h3 [3, 3, 1] (by decide), h4 scenario.cfg _ (by decide)⟩

end claims_validate

/-! ## The keys of the pending store -/

section claims_keys

variable {W M : Type}

open betting_service

/-- C21, the counterexample: in scenario S1 Alice holds the pending bet B1; in the same
block she posts a second bet on the same game, wincase, odds and kind under a new uuid.
`create_pending_bet` returns, B1 is unchanged and the pending store holds two bets with
the same (game, better, wincase, bet_odds, kind, created) tuple. -/
theorem create_pending_bet_duplicates_key :
    keys_unique scenario.S1_posted.pending_bets.objects
    ∧ (create_pending_bet scenario.create_market "alice" (scenario.scr 100)
        { numerator := 3, denominator := 1 } scenario.home_yes 0 2 .live
        scenario.S1_posted).succeeded = true
    ∧ (create_pending_bet scenario.create_market "alice" (scenario.scr 100)
        { numerator := 3, denominator := 1 } scenario.home_yes 0 2 .live
        scenario.S1_posted).state.pending_bets.objects
        = [scenario.B1,
           { id := 1, game := 0, market := 0
             data := { uuid := 2, created := 10, better := "alice"
                       wincase := scenario.home_yes, stake := scenario.scr 100
                       bet_odds := { numerator := 3, denominator := 1 }, kind := .live } }]
    ∧ ¬ keys_unique (create_pending_bet scenario.create_market "alice" (scenario.scr 100)
        { numerator := 3, denominator := 1 } scenario.home_yes 0 2 .live
        scenario.S1_posted).state.pending_bets.objects := by
  refine ⟨?_, by decide, by decide, ?_⟩
  · unfold keys_unique
    decide
  · unfold keys_unique
    decide

/-- C21, amended: if the pending store holds at most one bet per
(game, better, wincase, bet_odds, kind, created) tuple, it still does after every returning
public operation other than `create_pending_bet`, and after `restore_pending_bet`; when a
pending bet with the tuple of the restored leg exists, `restore_pending_bet` adds no record
and the first such record gets the stake of the leg.  `create_pending_bet` always appends
the new bet as a record of its own, and the tuples stay distinct exactly when no pending
bet had the tuple of the new bet. -/
theorem pending_keys_unique [LinearOrder W] [LinearOrder M] (create_market : W → M)
    (s : database W M) (hinv : keys_unique s.pending_bets.objects) :
    (∀ (c : service_call W M) s1,
        (∀ better stake o wincase game bet_uuid kind,
          c ≠ .create_pending_bet better stake o wincase game bet_uuid kind) →
        c.run create_market s = .ok () s1 → keys_unique s1.pending_bets.objects)
    ∧ (∀ (b : bet_data W) g s1, restore_pending_bet create_market b g s = .ok () s1 →
        keys_unique s1.pending_bets.objects
        ∧ ∃ game, s.games.find? (fun x => decide (x.uuid = g)) = some game
            ∧ ((∃ p ∈ s.pending_bets.objects, same_key game.id b p) →
                s1.pending_bets.objects.length = s.pending_bets.objects.length
                ∧ ∃ found ∈ s.pending_bets.objects, same_key game.id b found
                    ∧ add_stake b.stake.amount found ∈ s1.pending_bets.objects))
    ∧ (∀ better stake o wincase game bet_uuid kind bet s1,
        create_pending_bet create_market better stake o wincase game bet_uuid kind s
          = .ok bet s1 →
        s1.pending_bets.objects = s.pending_bets.objects ++ [bet]
        ∧ (keys_unique s1.pending_bets.objects
            ↔ ∀ p ∈ s.pending_bets.objects, ¬ same_key p.game p.data bet)) := by
  have hres : ∀ (t t1 : database W M) (b : bet_data W) g (u : Unit),
      keys_unique t.pending_bets.objects →
      restore_pending_bet create_market b g t = .ok u t1 →
      keys_unique t1.pending_bets.objects := by
    intro t t1 b g u ht hc
    obtain ⟨game, e1, _, _, _, _⟩ := restore_pending_bet_stores create_market t t1 b g u hc
    rw [e1]
    exact restore_index_keys_unique create_market game.id b t.pending_bets ht
  refine ⟨?_, ?_, ?_⟩
  · intro c s1 hc h
    exact run_preserves_core create_market (fun t => keys_unique t.pending_bets.objects) c s
      (fun better stake o wincase game bet_uuid kind bet t1 hceq _ _ =>
        absurd hceq (hc better stake o wincase game bet_uuid kind))
      (fun t bet g u t1 ht hf => by
        obtain ⟨e1, _, _, _, _, _⟩ := cancel_pending_bet_stores t t1 bet g u hf
        rw [e1]
        exact keys_unique_filter _ _ ht)
      (fun t b g u t1 ht hf => by
        obtain ⟨e1, _, _, _, _⟩ := return_bet_stores t t1 b g u hf
        rw [e1]
        exact ht)
      (fun t b g u t1 ht _ hf => hres t t1 b g u ht hf)
      (fun t ids ht => ht)
      (fun t games ht => ht)
      s1 hinv h
  · intro b g s1 h
    refine ⟨hres s s1 b g () hinv h, ?_⟩
    obtain ⟨game, hgame, e⟩ := restore_pending_bet_inv create_market s s1 b g () h
    refine ⟨game, hgame, ?_⟩
    intro hex
    rw [e]
    exact restore_index_existing_key create_market game.id b s.pending_bets hex
  · intro better stake o wincase game bet_uuid kind bet s1 h
    obtain ⟨_, e1, _, _, _, _, _⟩ := create_pending_bet_stores create_market s s1 better
      stake o wincase game bet_uuid kind bet h
    refine ⟨e1, ?_⟩
    rw [e1, keys_unique_append]
    exact ⟨fun hk => hk.2, fun hk => ⟨hinv, hk⟩⟩

/-- Witness for C21: a state with one late pair matched and the rest of Alice's bet
pending; `cancel_bets(G, 15)` restores her leg into the pending rest, and the two pending
bets afterwards have distinct tuples. -/
theorem pending_keys_unique_witness :
    keys_unique scenario.S_late.pending_bets.objects
    ∧ ((service_call.cancel_bets_created_after 0 15 : service_call Nat Nat).run
        scenario.create_market scenario.S_late).succeeded = true
    ∧ keys_unique ((service_call.cancel_bets_created_after 0 15 : service_call Nat Nat).run
        scenario.create_market scenario.S_late).state.pending_bets.objects
    ∧ ((service_call.cancel_bets_created_after 0 15 : service_call Nat Nat).run
        scenario.create_market scenario.S_late).state.pending_bets.objects.map
          (fun p => p.data.stake) = [scenario.scr 300, scenario.scr 200] := by
  have hinv : keys_unique scenario.S_late.pending_bets.objects := by
    unfold keys_unique; decide
  have hrun : (service_call.cancel_bets_created_after 0 15 : service_call Nat Nat).run
      scenario.create_market scenario.S_late
      = .ok () ((service_call.cancel_bets_created_after 0 15 : service_call Nat Nat).run
          scenario.create_market scenario.S_late).state := by decide
  exact ⟨hinv, by decide,
    (pending_keys_unique scenario.create_market scenario.S_late hinv).1 _ _
      (by intro _ _ _ _ _ _ _ hc; cases hc) hrun,
    by decide⟩

end claims_keys

/-! ## The auto-resolver -/

section claims_auto_resolver

variable {W M : Type}

open betting_service

/-- C22: in a well-formed state, for a list of distinct games of the game store (the
result of `get_games_to_auto_resolve`), `on_apply` returns.  Afterwards none of the games
is in the game store and neither bet store holds a bet of any of them, while the other
games and bets are as before; every balance has grown by the stakes that the stores held
for the account on these games; and the event trail has gained, game by game in list
order, the `BetCancelled` events of the pending bets of the game, then those of the legs of
its matched bets, then one `GameStatusChanged{game.uuid, started, expired}`. -/
theorem on_apply_effects [LinearOrder M] (s : database W M) (games : List game_object)
    (sym : asset_symbol_type) (hwf : s.well_formed sym)
    (hids : (games.map (fun g => g.id)).Nodup)
    (hfind : ∀ g ∈ games, s.games.find? (fun x => decide (x.id = g.id)) = some g) :
    ∃ s1, process_bets_auto_resolving.on_apply games s = .ok () s1
      ∧ (∀ g ∈ games, g ∉ s1.games ∧ pending_of_game g.id s1 = []
          ∧ matched_of_game g.id s1 = [])
      ∧ s1.games = s.games.filter (fun g => decide (g.id ∉ games.map (fun g => g.id)))
      ∧ s1.pending_bets.objects
          = s.pending_bets.objects.filter (fun o => decide (o.game ∉ games.map (fun g => g.id)))
      ∧ s1.matched_bets.objects
          = s.matched_bets.objects.filter (fun o => decide (o.game ∉ games.map (fun g => g.id)))
      ∧ (∀ a, s1.balance a = (s.balance a).map (fun b => b.plus
          ((games.map (fun g => stake_on_game a g.id s)).sum)))
      ∧ s1.virt_ops = s.virt_ops ++ games.flatMap (fun game =>
          (pending_bet_dba.get_range_by_game_id_market game.id s).map
              (fun p => virtual_operation.bet_cancelled_operation game.uuid p.data.better
                p.data.uuid p.data.stake .pending)
            ++ (legs_of (matched_bet_dba.get_range_by_game_id_market game.id s)).map
              (fun b => virtual_operation.bet_cancelled_operation game.uuid b.better b.uuid
                b.stake .matched)
            ++ [.game_status_changed game.uuid .started .expired]) := by
  obtain ⟨s1, h, _, e1, e2, e3, e4, e5⟩ := on_apply_fields games s hwf hids hfind
  refine ⟨s1, h, ?_, e1, e2, e3, e4, e5⟩
  intro g hg
  have hgid : g.id ∈ games.map (fun g => g.id) := List.mem_map_of_mem (fun g => g.id) hg
  refine ⟨?_, ?_, ?_⟩
  · intro hmem
    rw [e1] at hmem
    have := (List.mem_filter.mp hmem).2
    simp [hgid] at this
  · unfold pending_of_game
    rw [e2, List.filter_filter, List.filter_eq_nil_iff]
    intro o _
    by_cases ho : o.game = g.id
    · simp [ho, hgid]
    · simp [ho]
  · unfold matched_of_game
    rw [e3, List.filter_filter, List.filter_eq_nil_iff]
    intro o _
    by_cases ho : o.game = g.id
    · simp [ho, hgid]
    · simp [ho]

/-- Witness for C22: scenario S5 with two expired games, `G` holding a pending bet of Alice
and a matched pair of Alice and Bob, `G2` holding nothing.  The stakes go back, both games
go, and the events are those of `G` followed by its status change, then the status change
of `G2`. -/
theorem on_apply_effects_witness :
    scenario.S5_expired.well_formed scenario.SCR
    ∧ ∃ s1, process_bets_auto_resolving.on_apply [{ id := 0, uuid := scenario.G_uuid },
          scenario.G2] scenario.S5_expired = .ok () s1
        ∧ s1.games = []
        ∧ s1.pending_bets.objects = [] ∧ s1.matched_bets.objects = []
        ∧ s1.balance "alice" = some (scenario.scr 1000)
        ∧ s1.balance "bob" = some (scenario.scr 1000)
        ∧ s1.virt_ops
            = [.bet_cancelled_operation scenario.G_uuid "alice" 1 (scenario.scr 100) .pending,
               .bet_cancelled_operation scenario.G_uuid "alice" 1 (scenario.scr 200) .matched,
               .bet_cancelled_operation scenario.G_uuid "bob" 2 (scenario.scr 200) .matched,
               .game_status_changed scenario.G_uuid .started .expired,
               .game_status_changed 78 .started .expired] := by
  have hwf : scenario.S5_expired.well_formed scenario.SCR :=
    { balances := by decide
      pending_volume := by decide
      matched_volume := by decide
      pending_bets := by decide
      matched_bets := by decide
      pending_ids := by decide
      pending_ids_lt := by decide
      matched_ids := by decide
      game_uuids := by decide }
  refine ⟨hwf, ?_⟩
  obtain ⟨s1, h, _, e1, e2, e3, e4, e5⟩ := on_apply_effects scenario.S5_expired
    [{ id := 0, uuid := scenario.G_uuid }, scenario.G2] scenario.SCR hwf (by decide)
    (by decide)
  exact ⟨s1, h, by rw [e1]; decide, by rw [e2]; decide, by rw [e3]; decide,
    by rw [e4]; decide, by rw [e4]; decide, by rw [e5]; decide⟩

end claims_auto_resolver

/-! ## Claims about the asset operators -/

section claims_asset

variable {W M : Type}

open betting_service

/-- C33: for two assets with the same symbol each comparison operator returns the result
of the comparison of the amounts, and exactly one of `a < b`, `a == b`, `a > b` is true. -/
theorem asset_compare_same_symbol (a b : asset) (h : a.symbol = b.symbol) :
    a.lt b = .ok (decide (a.amount < b.amount))
    ∧ a.eq b = decide (a.amount = b.amount)
    ∧ a.ne b = decide (a.amount ≠ b.amount)
    ∧ a.le b = .ok (decide (a.amount ≤ b.amount))
    ∧ a.gt b = .ok (decide (a.amount > b.amount))
    ∧ a.ge b = .ok (decide (a.amount ≥ b.amount))
    ∧ ((a.lt b = .ok true ∧ a.eq b = false ∧ a.gt b = .ok false)
      ∨ (a.lt b = .ok false ∧ a.eq b = true ∧ a.gt b = .ok false)
      ∨ (a.lt b = .ok false ∧ a.eq b = false ∧ a.gt b = .ok true)) := by
  have hlt : a.lt b = .ok (decide (a.amount < b.amount)) := by
    simp [asset.lt, h]
  have heq : a.eq b = decide (a.amount = b.amount) := by
    simp [asset.eq, h]
  have hle : a.le b = .ok (decide (a.amount ≤ b.amount)) := by
    unfold asset.le
    rw [heq, hlt]
    by_cases he : a.amount = b.amount
    · simp [he]
    · have : (a.amount ≤ b.amount) ↔ (a.amount < b.amount) :=
        ⟨fun hl => lt_of_le_of_ne hl he, le_of_lt⟩
      simp [he, this]
  have hgt : a.gt b = .ok (decide (a.amount > b.amount)) := by
    unfold asset.gt
    rw [hle]
    by_cases hc : a.amount ≤ b.amount
    · have : ¬ a.amount > b.amount := not_lt.mpr hc
      simp [Except.map, hc, this]
    · have : a.amount > b.amount := not_le.mp hc
      simp [Except.map, hc, this]
  have hge : a.ge b = .ok (decide (a.amount ≥ b.amount)) := by
    unfold asset.ge
    rw [hlt]
    by_cases hc : a.amount < b.amount
    · have : ¬ a.amount ≥ b.amount := not_le.mpr hc
      simp [Except.map, hc, this]
    · have : a.amount ≥ b.amount := not_lt.mp hc
      simp [Except.map, hc, this]
  refine ⟨hlt, heq, ?_, hle, hgt, hge, ?_⟩
  · unfold asset.ne
    rw [heq]
    simp
  · rw [hlt, heq, hgt]
    rcases lt_trichotomy a.amount b.amount with h1 | h1 | h1
    · left
      have h2 : ¬ a.amount = b.amount := ne_of_lt h1
      have h3 : ¬ b.amount < a.amount := not_lt.mpr (le_of_lt h1)
      simp [h1, h2, h3]
    · right; left
      simp [h1]
    · right; right
      have h2 : ¬ a.amount = b.amount := ne_of_gt h1
      have h3 : ¬ a.amount < b.amount := not_lt.mpr (le_of_lt h1)
      simp [h1, h2, h3]

/-- Witness for C33: 3 SCR and 5 SCR. -/
theorem asset_compare_same_symbol_witness :
    (scenario.scr 3).lt (scenario.scr 5) = .ok true
    ∧ (scenario.scr 3).eq (scenario.scr 5) = false
    ∧ (scenario.scr 3).gt (scenario.scr 5) = .ok false
    ∧ (scenario.scr 3).le (scenario.scr 5) = .ok true
    ∧ (scenario.scr 3).ge (scenario.scr 5) = .ok false := by
  obtain ⟨h1, h2, _, h4, h5, h6, _⟩ :=
    asset_compare_same_symbol (scenario.scr 3) (scenario.scr 5) rfl
  exact ⟨h1, h2, h5, h4, h6⟩

/-- C34: for two assets with different symbols `a == b` is false and `a != b` is true, and
each of `a < b`, `a <= b`, `a > b`, `a >= b` fails on the assertion of equal symbols.  So
`create_pending_bet` with a stake whose symbol differs from the symbol of the balance of
the better throws that assertion failure, in the state in which it was called. -/
theorem asset_compare_different_symbol (a b : asset) (h : a.symbol ≠ b.symbol) :
    a.eq b = false ∧ a.ne b = true
    ∧ a.lt b = .error .symbol_mismatch
    ∧ a.le b = .error .symbol_mismatch
    ∧ a.gt b = .error .symbol_mismatch
    ∧ a.ge b = .error .symbol_mismatch
    ∧ (∀ (create_market : W → M) (s : database W M) (o : odds) (wincase : W)
        (game : game_id_type) (bet_uuid : uuid_type) (kind : pending_bet_kind)
        (better : account_name_type),
        s.balance better = some a →
        create_pending_bet create_market better b o wincase game bet_uuid kind s
          = .thrown .symbol_mismatch s) := by
  have heq : a.eq b = false := by simp [asset.eq, h]
  have hlt : a.lt b = .error .symbol_mismatch := by simp [asset.lt, h]
  have hle : a.le b = .error .symbol_mismatch := by
    unfold asset.le
    rw [heq, hlt]
    rfl
  have hge : a.ge b = .error .symbol_mismatch := by
    unfold asset.ge
    rw [hlt]
    rfl
  refine ⟨heq, by unfold asset.ne; rw [heq]; rfl, hlt, hle, ?_, hge, ?_⟩
  · unfold asset.gt
    rw [hle]
    rfl
  · intro create_market s o wincase game bet_uuid kind better hbal
    obtain ⟨acc, hfind, hb, _⟩ := find_of_balance_of s.accounts better a hbal
    subst hb
    simp [create_pending_bet, Op.bind_apply, account_service.get_account, hfind, hge, Op.lift]

/-- Witness for C34: Alice holds 1000 SCR in scenario S1 and posts a stake of 500 SP. -/
theorem asset_compare_different_symbol_witness :
    (scenario.scr 1000).ge { amount := 500, symbol := scenario.SP } = .error .symbol_mismatch
    ∧ create_pending_bet scenario.create_market "alice" { amount := 500, symbol := scenario.SP }
        { numerator := 3, denominator := 1 } scenario.home_yes 0 1 .live scenario.S1_initial
      = .thrown .symbol_mismatch scenario.S1_initial := by
  obtain ⟨_, _, _, _, _, h6, h7⟩ := asset_compare_different_symbol (W := Nat) (M := Nat)
    (scenario.scr 1000) { amount := 500, symbol := scenario.SP } (by decide)
  exact ⟨h6, h7 scenario.create_market scenario.S1_initial _ _ _ _ _ "alice" (by decide)⟩

/-- C35: `a + b`, `a - b`, `a += b` and `a -= b` fail on the assertion of equal symbols
when the symbols differ; with equal symbols they return the asset with the symbol of `a`
and the sum, respectively the difference, of the amounts.  For equal symbols
`(a + b) - b` is `a` and `a - b` is `a + (-b)`, and `-(-a)` is `a`.  Amounts are exact
integers here: the overflow checks of `fc::safe` are not part of the sources. -/
theorem asset_add_sub (a b : asset) :
    (a.symbol ≠ b.symbol →
      a.add b = .error .symbol_mismatch ∧ a.sub b = .error .symbol_mismatch
      ∧ a.add_assign b = .error .symbol_mismatch ∧ a.sub_assign b = .error .symbol_mismatch)
    ∧ (a.symbol = b.symbol →
      a.add b = .ok { amount := a.amount + b.amount, symbol := a.symbol }
      ∧ a.sub b = .ok { amount := a.amount - b.amount, symbol := a.symbol }
      ∧ a.add_assign b = .ok { amount := a.amount + b.amount, symbol := a.symbol }
      ∧ a.sub_assign b = .ok { amount := a.amount - b.amount, symbol := a.symbol }
      ∧ (a.add b >>= fun c => c.sub b) = .ok a
      ∧ a.sub b = a.add b.neg)
    ∧ a.neg.neg = a ∧ a.neg.symbol = a.symbol ∧ a.neg.amount = -a.amount := by
  refine ⟨?_, ?_, ?_, rfl, rfl⟩
  · intro h
    simp [asset.add, asset.sub, asset.add_assign, asset.sub_assign, h]
  · intro h
    refine ⟨?_, ?_, ?_, ?_, ?_, ?_⟩
    · simp [asset.add, asset.add_assign, h]
    · simp [asset.sub, asset.sub_assign, h]
    · simp [asset.add_assign, h]
    · simp [asset.sub_assign, h]
    · cases a
      simp only at h
      simp [asset.add, asset.sub, asset.add_assign, asset.sub_assign, h, bind, Except.bind]
    · simp [asset.add, asset.sub, asset.add_assign, asset.sub_assign, asset.neg, h,
        sub_eq_add_neg]
  · cases a
    simp [asset.neg]

/-- Witness for C35: 500 SCR plus and minus 200 SCR, and 500 SCR plus 200 SP. -/
theorem asset_add_sub_witness :
    (scenario.scr 500).add (scenario.scr 200) = .ok (scenario.scr 700)
    ∧ (scenario.scr 500).sub (scenario.scr 200) = .ok (scenario.scr 300)
    ∧ (scenario.scr 500).add { amount := 200, symbol := scenario.SP }
        = .error .symbol_mismatch := by
  obtain ⟨h1, h2, _⟩ := asset_add_sub (scenario.scr 500) (scenario.scr 200)
  obtain ⟨h3, _, _⟩ := asset_add_sub (scenario.scr 500) { amount := 200, symbol := scenario.SP }
  obtain ⟨e1, e2, _⟩ := h2 rfl
  exact ⟨e1, e2, (h3 (by decide)).1⟩

end claims_asset

/-! ## Claims about the game operations and the one-shot guard -/

section claims_game_ops

variable {G W M : Type}

open protocol

/-- C36: `create_game_operation::validate` fails for every operation whose list of markets
holds a market twice, and `post_game_results_operation::validate` fails for every operation
whose list of wincases holds a wincase twice; when the checks before it pass, the failure
is that of the assertion on the sizes.  The flat set has the size of the list exactly when
the list has no repetition. -/
theorem game_operations_reject_duplicates [LinearOrder W] [LinearOrder M] (cfg : config W)
    (gv : game_validators G W M) :
    (∀ op : create_game_operation G M, ¬ op.markets.Nodup →
      op.validate cfg gv ≠ .ok ()
      ∧ (cfg.is_valid_account_name op.moderator = true →
          gv.is_valid_json_metadata op.json_metadata = true →
          op.validate cfg gv = .error .duplicates_in_market_list))
    ∧ (∀ op : post_game_results_operation W, ¬ op.wincases.Nodup →
      op.validate cfg gv ≠ .ok ()
      ∧ (cfg.is_valid_account_name op.moderator = true →
          op.validate cfg gv = .error .duplicates_in_wincases_list))
    ∧ (∀ l : List M, (flat_set_of l).length = l.length ↔ l.Nodup)
    ∧ (∀ l : List W, (flat_set_of l).length = l.length ↔ l.Nodup) := by
  refine ⟨?_, ?_, flat_set_of_length_iff, flat_set_of_length_iff⟩
  · intro op hdup
    have hlen : decide ((flat_set_of op.markets).length = op.markets.length) = false :=
      decide_eq_false (fun h => hdup ((flat_set_of_length_iff _).mp h))
    constructor
    · intro h
      simp only [create_game_operation.validate, validate_account_name, FC_ASSERT_bind_ok,
        FC_ASSERT_ok, hlen] at h
      simp at h
    · intro hname hjson
      simp [create_game_operation.validate, validate_account_name, protocol.FC_ASSERT, hname,
        hjson, hlen, bind, Except.bind]
  · intro op hdup
    have hlen : decide ((flat_set_of op.wincases).length = op.wincases.length) = false :=
      decide_eq_false (fun h => hdup ((flat_set_of_length_iff _).mp h))
    constructor
    · intro h
      simp only [post_game_results_operation.validate, validate_account_name,
        FC_ASSERT_bind_ok, FC_ASSERT_ok, hlen] at h
      simp at h
    · intro hname
      simp [post_game_results_operation.validate, validate_account_name, protocol.FC_ASSERT,
        hname, hlen, bind, Except.bind]

/-- Witness for C36: the markets 1, 0, 1 and the wincases 2, 2, under helpers that accept
everything and the moderator "moderator". -/
theorem game_operations_reject_duplicates_witness :
    create_game_operation.validate scenario.cfg scenario.gv
        { moderator := "moderator", json_metadata := "", game := 0, markets := [1, 0, 1] }
      = .error .duplicates_in_market_list
    ∧ post_game_results_operation.validate scenario.cfg scenario.gv
        { moderator := "moderator", wincases := [2, 2] }
      = .error .duplicates_in_wincases_list := by
  obtain ⟨h1, h2, _, _⟩ := game_operations_reject_duplicates scenario.cfg scenario.gv
  exact ⟨(h1 { moderator := "moderator", json_metadata := "", game := 0, markets := [1, 0, 1] }
      (by decide)).2 (by decide) (by decide),
    (h2 { moderator := "moderator", wincases := [2, 2] } (by decide)).2 (by decide)⟩

end claims_game_ops

section claims_guard

/-- C37: on a fresh guard `is_allowed` returns true; `is_allowed` returns without changing
the guard; after any sequence of calls of the two methods on a fresh guard `is_allowed`
returns true exactly when `apply` is not among the calls; and on any guard, once `apply`
is among the calls, `is_allowed` returns false. -/
theorem single_time_apply_guard_latch {C : Type} (ctx : C) (calls : List guard_call)
    (g : genesis.single_time_apply_guard) :
    genesis.single_time_apply_guard.is_allowed ctx { _applied := false }
        = .ok true { _applied := false }
    ∧ (∃ r, genesis.single_time_apply_guard.is_allowed ctx g = .ok r g)
    ∧ guard_call.is_allowed.step ctx g = g
    ∧ genesis.single_time_apply_guard.is_allowed ctx
          (guard_after ctx calls { _applied := false })
        = .ok (decide (guard_call.apply ∉ calls)) (guard_after ctx calls { _applied := false })
    ∧ (guard_call.apply ∈ calls →
        genesis.single_time_apply_guard.is_allowed ctx (guard_after ctx calls g)
          = .ok false (guard_after ctx calls g)) := by
  refine ⟨rfl, ⟨_, rfl⟩, rfl, ?_, ?_⟩
  · unfold genesis.single_time_apply_guard.is_allowed
    rw [guard_after_applied]
    simp
  · intro h
    unfold genesis.single_time_apply_guard.is_allowed
    rw [guard_after_applied]
    simp [h]

/-- Witness for C37: a fresh guard is asked twice, applied twice, and asked again. -/
theorem single_time_apply_guard_latch_witness :
    genesis.single_time_apply_guard.is_allowed ()
        (guard_after () [.is_allowed, .is_allowed] { _applied := false })
      = .ok true { _applied := false }
    ∧ genesis.single_time_apply_guard.is_allowed ()
        (guard_after () [.is_allowed, .apply, .apply, .is_allowed] { _applied := false })
      = .ok false { _applied := true } := by
  obtain ⟨_, _, _, _, h⟩ := single_time_apply_guard_latch ()
    [.is_allowed, .apply, .apply, .is_allowed] { _applied := false }
  exact ⟨by decide, (h (by decide)).trans (by decide)⟩

end claims_guard

/-! ## Claims about the ledger of events and the coalescing restore -/

section claims_ledger

variable {W M : Type}

open betting_service

/-- C31: a returning call of a public operation other than `create_pending_bet`, among
them `cancel_pending_bet`, `cancel_matched_bet` and the three `cancel_bets` variants, only
appends events, and every account ends with its balance from before plus the stakes of the
`BetCancelled` events, pending and matched, appended for that better; a returning
`restore_pending_bet` appends its `BetRestored` event alone, which counts for nothing, and
leaves every balance as it was. -/
theorem events_account_for_credits [LinearOrder W] [LinearOrder M] (create_market : W → M)
    (c : service_call W M) (s s1 : database W M)
    (hc : ∀ better stake o wincase game bet_uuid kind,
      c ≠ .create_pending_bet better stake o wincase game bet_uuid kind)
    (h : c.run create_market s = .ok () s1) :
    (∃ added, s1.virt_ops = s.virt_ops ++ added
      ∧ ∀ a, s1.balance a = (s.balance a).map (fun b => b.plus (cancelled_stake_for a added)))
    ∧ (∀ (bet : bet_data W) (g : uuid_type) (t t1 : database W M),
        restore_pending_bet create_market bet g t = .ok () t1 →
        t1.virt_ops = t.virt_ops ++ [.bet_restored_operation g bet.better bet.uuid bet.stake]
        ∧ (∀ a, cancelled_stake_for a
            [.bet_restored_operation g bet.better bet.uuid bet.stake] = 0)
        ∧ ∀ a, t1.balance a = t.balance a) := by
  constructor
  · refine run_preserves_core create_market
      (fun t => ∃ added, t.virt_ops = s.virt_ops ++ added
        ∧ ∀ a, t.balance a = (s.balance a).map (fun b => b.plus (cancelled_stake_for a added)))
      c s ?_ ?_ ?_ ?_ ?_ ?_ s1 ⟨[], by simp, fun a => ?_⟩ h
    · intro better stake o wincase game bet_uuid kind bet t1 e
      exact absurd e (hc better stake o wincase game bet_uuid kind)
    · intro t bet g u t1 ht hcancel
      obtain ⟨acc, _, _, _, e⟩ := cancel_pending_bet_inv t t1 bet g u hcancel
      refine ledger_step s t t1 (cancelled_op g .pending bet.data) (by rw [e]; rfl) ?_ ht
      intro a
      rw [e]
      exact credit_balance_event t g .pending bet.data a
    · intro t b g u t1 ht hreturn
      obtain ⟨acc, _, _, _, e⟩ := return_bet_inv t t1 b g u hreturn
      refine ledger_step s t t1 (cancelled_op g .matched b) (by rw [e]; rfl) ?_ ht
      intro a
      rw [e]
      exact credit_balance_event t g .matched b a
    · intro t b g u t1 ht _ hrestore
      obtain ⟨game, _, e⟩ := restore_pending_bet_inv create_market t t1 b g u hrestore
      refine ledger_step s t t1 (restored_op g b) (by rw [e]; rfl) ?_ ht
      intro a
      rw [cancelled_stake_for_restored, map_plus_zero, e]
      rfl
    · intro t ids ht
      exact ht
    · intro t games ht
      exact ht
    · simp [cancelled_stake_for, map_plus_zero]
  · intro bet g t t1 hrestore
    obtain ⟨game, _, e⟩ := restore_pending_bet_inv create_market t t1 bet g () hrestore
    refine ⟨by rw [e]; rfl, fun a => cancelled_stake_for_restored (W := W) a g bet, fun a => ?_⟩
    rw [e]
    rfl

/-- Witness for C31: `cancel_bets(game)` on the state with the late pair and the rest of
Alice's bet appends three `BetCancelled` events, 100 and 200 for Alice and 200 for Bob,
and Alice ends with 700 + 300, Bob with 800 + 200. -/
theorem events_account_for_credits_witness :
    ((service_call.cancel_bets 0).run scenario.create_market scenario.S_late).state.balance
        "alice" = some (scenario.scr 1000)
    ∧ ((service_call.cancel_bets 0).run scenario.create_market scenario.S_late).state.balance
        "bob" = some (scenario.scr 1000)
    ∧ ∃ added, ((service_call.cancel_bets 0).run scenario.create_market
          scenario.S_late).state.virt_ops = scenario.S_late.virt_ops ++ added
      ∧ cancelled_stake_for "alice" added = 300
      ∧ cancelled_stake_for "bob" added = 200
      ∧ ∀ a, ((service_call.cancel_bets 0).run scenario.create_market
            scenario.S_late).state.balance a
          = (scenario.S_late.balance a).map (fun b => b.plus (cancelled_stake_for a added)) := by
  obtain ⟨added, hv, hb⟩ := (events_account_for_credits scenario.create_market
    (service_call.cancel_bets 0) scenario.S_late
    ((service_call.cancel_bets 0).run scenario.create_market scenario.S_late).state
    (by intro better stake o wincase game bet_uuid kind e; cases e)
    (by decide)).1
  have e : ((service_call.cancel_bets 0).run scenario.create_market
      scenario.S_late).state.virt_ops
      = [.bet_cancelled_operation scenario.G_uuid "alice" 1 (scenario.scr 100) .pending,
         .bet_cancelled_operation scenario.G_uuid "alice" 1 (scenario.scr 200) .matched,
         .bet_cancelled_operation scenario.G_uuid "bob" 2 (scenario.scr 200) .matched] := by
    decide
  have hnil : scenario.S_late.virt_ops = [] := rfl
  have hadded : added
      = [.bet_cancelled_operation scenario.G_uuid "alice" 1 (scenario.scr 100) .pending,
         .bet_cancelled_operation scenario.G_uuid "alice" 1 (scenario.scr 200) .matched,
         .bet_cancelled_operation scenario.G_uuid "bob" 2 (scenario.scr 200) .matched] := by
    rw [e, hnil, List.nil_append] at hv
    exact hv.symm
  refine ⟨by decide, by decide, added, hv, ?_, ?_, hb⟩
  · rw [hadded]
    decide
  · rw [hadded]
    decide

/-- C32, counterexample: the rest of Alice's bet is pending under the uuid 1 and the leg
with the uuid 1 is restored; the restore coalesces with that rest, and the uuid of the
restored leg belongs to a pending bet afterwards. -/
theorem restore_pending_bet_keeps_leg_uuid :
    restore_pending_bet scenario.create_market scenario.M_late.bet1_data scenario.G_uuid
        scenario.S_late
      = .ok () (restore_pending_bet scenario.create_market scenario.M_late.bet1_data
          scenario.G_uuid scenario.S_late).state
    ∧ (∃ o ∈ scenario.S_late.pending_bets.objects,
        restore_target 0 scenario.M_late.bet1_data o)
    ∧ (restore_pending_bet scenario.create_market scenario.M_late.bet1_data scenario.G_uuid
        scenario.S_late).state.pending_bets.objects
      = [{ scenario.P_rest with data := { scenario.P_rest.data with stake := scenario.scr 300 } }]
    ∧ ∃ p ∈ (restore_pending_bet scenario.create_market scenario.M_late.bet1_data
          scenario.G_uuid scenario.S_late).state.pending_bets.objects,
        p.data.uuid = scenario.M_late.bet1_data.uuid := by
  refine ⟨by decide, by decide, by decide, by decide⟩

/-- C32, amended: in the coalescing branch of `restore_pending_bet` the pending bets are
those from before, in their places, but for the first bet with the key of the leg; that
bet keeps its id, uuid, game, market, better, wincase, odds, kind and creation time and
its stake grows by the stake of the leg.  The number of pending bets is unchanged, the
uuids of the pending bets are those from before, so that the uuid of the leg belongs to a
pending bet afterwards exactly when it did before, and the `BetRestored` event carries
the uuid of the leg. -/
theorem restore_pending_bet_coalescing [LinearOrder W] (create_market : W → M)
    (s s1 : database W M) (bet : bet_data W) (game_uuid : uuid_type) (game : game_object)
    (hwf : index_wf s.pending_bets)
    (hgame : s.games.find? (fun g => decide (g.uuid = game_uuid)) = some game)
    (htarget : ∃ o ∈ s.pending_bets.objects, restore_target game.id bet o)
    (h : restore_pending_bet create_market bet game_uuid s = .ok () s1) :
    (∃ pre found survivor post,
        s.pending_bets.objects = pre ++ found :: post
        ∧ s1.pending_bets.objects = pre ++ survivor :: post
        ∧ restore_target game.id bet found
        ∧ (∀ o ∈ pre, ¬ restore_target game.id bet o)
        ∧ survivor.id = found.id ∧ survivor.data.uuid = found.data.uuid
        ∧ survivor.game = found.game ∧ survivor.market = found.market
        ∧ survivor.data.better = found.data.better
        ∧ survivor.data.wincase = found.data.wincase
        ∧ survivor.data.bet_odds = found.data.bet_odds
        ∧ survivor.data.kind = found.data.kind
        ∧ survivor.data.created = found.data.created
        ∧ survivor.data.stake = found.data.stake.plus bet.stake.amount)
    ∧ s1.pending_bets.objects.length = s.pending_bets.objects.length
    ∧ s1.pending_bets.next_id = s.pending_bets.next_id
    ∧ s1.pending_bets.objects.map (fun p => p.data.uuid)
        = s.pending_bets.objects.map (fun p => p.data.uuid)
    ∧ ((∃ p ∈ s1.pending_bets.objects, p.data.uuid = bet.uuid)
        ↔ ∃ p ∈ s.pending_bets.objects, p.data.uuid = bet.uuid)
    ∧ s1.virt_ops
        = s.virt_ops ++ [.bet_restored_operation game_uuid bet.better bet.uuid bet.stake] := by
  obtain ⟨game2, hgame2, e⟩ := restore_pending_bet_inv create_market s s1 bet game_uuid () h
  rw [hgame] at hgame2
  injection hgame2 with hg
  subst hg
  obtain ⟨pre, found, post, hsplit, hfound, hpre, hobjs, hnext⟩ :=
    (restore_index_cases create_market game.id bet s.pending_bets hwf).1 htarget
  have hobjs1 : s1.pending_bets.objects = pre ++ add_stake bet.stake.amount found :: post := by
    rw [e]
    exact hobjs
  have hnext1 : s1.pending_bets.next_id = s.pending_bets.next_id := by
    rw [e]
    exact hnext
  have huuids : s1.pending_bets.objects.map (fun p => p.data.uuid)
      = s.pending_bets.objects.map (fun p => p.data.uuid) := by
    rw [hobjs1, hsplit]
    simp [add_stake]
  refine ⟨⟨pre, found, add_stake bet.stake.amount found, post, hsplit, hobjs1, hfound, hpre,
    rfl, rfl, rfl, rfl, rfl, rfl, rfl, rfl, rfl, rfl⟩, ?_, hnext1, huuids, ?_, ?_⟩
  · rw [hobjs1, hsplit]
    simp
  · have hmem : ∀ l : List (pending_bet_object W M),
        (∃ p ∈ l, p.data.uuid = bet.uuid) ↔ bet.uuid ∈ l.map (fun p => p.data.uuid) := by
      intro l
      simp [List.mem_map]
    rw [hmem, hmem, huuids]
  · rw [e]
    rfl

/-- Witness for C32, amended: the leg of Alice is restored into the rest of her bet. -/
theorem restore_pending_bet_coalescing_witness :
    (restore_pending_bet scenario.create_market scenario.M_late.bet1_data scenario.G_uuid
        scenario.S_late).state.pending_bets.objects.length = 1
    ∧ (restore_pending_bet scenario.create_market scenario.M_late.bet1_data scenario.G_uuid
        scenario.S_late).state.virt_ops
      = [.bet_restored_operation scenario.G_uuid "alice" 1 (scenario.scr 200)] := by
  obtain ⟨_, hlen, _, _, _, hops⟩ := restore_pending_bet_coalescing scenario.create_market
    scenario.S_late
    (restore_pending_bet scenario.create_market scenario.M_late.bet1_data scenario.G_uuid
      scenario.S_late).state
    scenario.M_late.bet1_data scenario.G_uuid { id := 0, uuid := scenario.G_uuid }
    (by unfold index_wf; decide) (by decide) (by decide) (by decide)
  exact ⟨hlen, hops⟩

end claims_ledger

end scorum
